import Mathlib

/-!
GASNet segment mapping (gasnet_mmap.c): shallow embedding and verified properties.

The functions of `gasnet_mmap.c` are embedded as state-passing Lean functions.
Pointers and `uintptr_t` values are natural numbers below `2 ^ wordBits`;
unsigned subtraction and addition wrap explicitly.  `gasneti_fatalerror`
is the `Res.fatal` outcome.  Loops and the recursive bisection take a fuel
argument and return `none` when the fuel runs out.  Debug-only
`gasneti_assert` lines are not executed by the embedding.  The collectives
(`exchangefn`, `barrierfn`, the supernode broadcast and barrier) are
functions passed in; what a proof relies on of the other processes is a
hypothesis on these functions.
-/

namespace Gasnet

/-! ## Build constants, machine words, results -/

/-- Build-time constants that `gasnet_mmap.c` takes from headers which are not part of
the source tree at hand (`gasnet_internal.h`, `gasnet_basic.h`), and the
preprocessor switches that select between the code variants embedded here. -/
structure Config where
  /-- Width in bits of `uintptr_t`. -/
  wordBits : Nat
  /-- The value of `GASNET_PAGESIZE` (equal to `GASNETI_PAGESIZE`). -/
  GASNET_PAGESIZE : Nat
  /-- The value of `GASNETI_MMAP_GRANULARITY`. -/
  GASNETI_MMAP_GRANULARITY : Nat
  /-- Whether `GASNETI_BUG3480_WORKAROUND` is set. -/
  GASNETI_BUG3480_WORKAROUND : Bool
  /-- The one errno, besides `ENOMEM`, that the platform reports for exhausted memory
  (`EACCES` under `PLATFORM_OS_CYGWIN`, `EAGAIN` under `PLATFORM_OS_SOLARIS`), if any. -/
  quirkErrno : Option Nat
  /-- Whether `GASNET_PSHM` is set. -/
  GASNET_PSHM : Bool
  /-- Whether the PSHM objects are POSIX shared-memory objects (`GASNETI_PSHM_POSIX`,
  `shm_open`/`shm_unlink`) rather than regular files (`GASNETI_PSHM_FILE`,
  `open`/`unlink`).  The other PSHM backends are not embedded. -/
  GASNETI_PSHM_POSIX : Bool
  /-- Whether `GASNETI_PSHM_MAP_FIXED_IGNORED` is set. -/
  GASNETI_PSHM_MAP_FIXED_IGNORED : Bool
  /-- The value of `GASNETI_MMAP_LIMIT`. -/
  GASNETI_MMAP_LIMIT : Nat
  /-- Whether `GASNET_ALIGNED_SEGMENTS` is set. -/
  GASNET_ALIGNED_SEGMENTS : Bool
  /-- Whether `GASNETI_USE_HIGHSEGMENT` is set. -/
  GASNETI_USE_HIGHSEGMENT : Bool
  /-- The value of `GASNETI_CACHE_LINE_BYTES`, a power of two. -/
  GASNETI_CACHE_LINE_BYTES : Nat
  /-- Whether `GASNETI_FORCE_CLIENTSEG_TO_BASE` is set (the file's default is 0). -/
  GASNETI_FORCE_CLIENTSEG_TO_BASE : Bool
deriving Repr

/-- The pointer `NULL`. -/
def NULL : Nat := 0

/-- Number of values of a `uintptr_t`. -/
def wordMod (cfg : Config) : Nat := 2 ^ cfg.wordBits

/-- The pointer `MAP_FAILED`, that is `(void*)-1`. -/
def MAP_FAILED (cfg : Config) : Nat := wordMod cfg - 1

/-- Unsigned machine subtraction `a - b` on `uintptr_t`. -/
def usub (cfg : Config) (a b : Nat) : Nat := (a + wordMod cfg - b % wordMod cfg) % wordMod cfg

/-- Unsigned machine addition `a + b` on `uintptr_t`. -/
def uadd (cfg : Config) (a b : Nat) : Nat := (a + b) % wordMod cfg

/-- The macro `GASNETI_PAGE_ALIGNDOWN(p)`: clear the bits below the page size
(`p & ~(pagesize-1)` for the power-of-two page size), that is, round down to a
multiple of the page size. -/
def GASNETI_PAGE_ALIGNDOWN (cfg : Config) (p : Nat) : Nat :=
  p / cfg.GASNET_PAGESIZE * cfg.GASNET_PAGESIZE

/-- The macro `GASNETI_PAGE_ALIGNUP(p)`: `(p + pagesize - 1) & ~(pagesize-1)` in
machine arithmetic. -/
def GASNETI_PAGE_ALIGNUP (cfg : Config) (p : Nat) : Nat :=
  GASNETI_PAGE_ALIGNDOWN cfg (uadd cfg p (cfg.GASNET_PAGESIZE - 1))

/-- The macro `gasneti_mmap_aligndown(sz)` of the build without `GASNETI_USE_HUGETLBFS`. -/
def gasneti_mmap_aligndown (cfg : Config) (sz : Nat) : Nat := GASNETI_PAGE_ALIGNDOWN cfg sz

/-- The errno value `ENOMEM`. -/
def ENOMEM : Nat := 12

/-- The errno value `EACCES`. -/
def EACCES : Nat := 13

/-- The errno value `EINVAL`. -/
def EINVAL : Nat := 22

/-- The errno value `ENOENT`. -/
def ENOENT : Nat := 2

/-- The errno value `EEXIST`. -/
def EEXIST : Nat := 17

/-- The call sites of `gasneti_fatalerror` in the embedded functions. -/
inductive Fatal where
  | unexpected_mmap_error
  | mmap_result_unaligned
  | mmap_failed
  | mmap_fixed_failed
  | mmap_fixed_moved
  | munmap_failed
  | zero_byte_shared
  | no_adequate_segment
  | sbrk_failed
  | minheapoffset_too_large
  | aligned_segments_failed
  | minheapoffset_too_large_remote
deriving DecidableEq, Repr

/-- Outcome of a call: a normal return with the state after it, or the process aborted
by `gasneti_fatalerror` in the given state, or a fault (a dereference of an absent
table). -/
inductive Res (σ α : Type) where
  | ok (a : α) (s : σ)
  | fatal (e : Fatal) (s : σ)
  | fault (s : σ)
deriving Repr

/-- The structure `gasnet_seginfo_t`. -/
structure gasnet_seginfo_t where
  addr : Nat
  size : Nat
deriving DecidableEq, Repr

/-- The three mapping primitives that the probe reaches through the macros
`gasneti_do_mmap`, `gasneti_do_mmap_fixed` and `gasneti_do_munmap`; which functions stand
behind them is fixed by the build (`GASNET_PSHM`, `GASNETI_BUG3480_WORKAROUND`). -/
structure MapOps (σ : Type) where
  gasneti_do_mmap : σ → Nat → Res σ Nat
  gasneti_do_mmap_fixed : σ → Nat → Nat → Res σ Nat
  gasneti_do_munmap : σ → Nat → Nat → Res σ Unit

/-! ## The probe: search strategies -/

/-- Binary search for segment (`gasneti_mmap_binary_segsrch`): returns location, not
mmaped. -/
def gasneti_mmap_binary_segsrch {σ : Type} (cfg : Config) (ops : MapOps σ) :
    Nat → σ → Nat → Nat → Option (Res σ gasnet_seginfo_t)
  | 0, _, _, _ => none
  | fuel + 1, s, lowsz, highsz =>
    if usub cfg highsz lowsz ≤ cfg.GASNETI_MMAP_GRANULARITY then
      some (.ok ⟨NULL, 0⟩ s)
    else
      let size := gasneti_mmap_aligndown cfg (uadd cfg lowsz (usub cfg highsz lowsz / 2))
      match ops.gasneti_do_mmap s size with
      | .fatal e s1 => some (.fatal e s1)
      | .fault s1 => some (.fault s1)
      | .ok addr s1 =>
        if addr = MAP_FAILED cfg then
          gasneti_mmap_binary_segsrch cfg ops fuel s1 lowsz size
        else
          match ops.gasneti_do_munmap s1 addr size with
          | .fatal e s2 => some (.fatal e s2)
          | .fault s2 => some (.fault s2)
          | .ok _ s2 =>
            match gasneti_mmap_binary_segsrch cfg ops fuel s2 size highsz with
            | none => none
            | some (.fatal e s3) => some (.fatal e s3)
            | some (.fault s3) => some (.fault s3)
            | some (.ok si_temp s3) =>
              if si_temp.size ≠ 0 then some (.ok si_temp s3)
              else some (.ok ⟨addr, size⟩ s3)

/-- The `while` loop of `gasneti_mmap_lineardesc_segsrch`. -/
def gasneti_mmap_lineardesc_loop {σ : Type} (cfg : Config) (ops : MapOps σ) :
    Nat → σ → gasnet_seginfo_t → Option (Res σ gasnet_seginfo_t)
  | 0, _, _ => none
  | fuel + 1, s, si =>
    if si.addr = MAP_FAILED cfg ∧ si.size > cfg.GASNET_PAGESIZE then
      let size := usub cfg si.size cfg.GASNET_PAGESIZE
      match ops.gasneti_do_mmap s size with
      | .fatal e s1 => some (.fatal e s1)
      | .fault s1 => some (.fault s1)
      | .ok addr s1 => gasneti_mmap_lineardesc_loop cfg ops fuel s1 ⟨addr, size⟩
    else some (.ok si s)

/-- Descending linear search for segment (`gasneti_mmap_lineardesc_segsrch`): returns
location mmaped. -/
def gasneti_mmap_lineardesc_segsrch {σ : Type} (cfg : Config) (ops : MapOps σ)
    (fuel : Nat) (s : σ) (highsz : Nat) : Option (Res σ gasnet_seginfo_t) :=
  match gasneti_mmap_lineardesc_loop cfg ops fuel s ⟨MAP_FAILED cfg, highsz⟩ with
  | none => none
  | some (.fatal e s1) => some (.fatal e s1)
  | some (.fault s1) => some (.fault s1)
  | some (.ok si s1) =>
    if si.addr = MAP_FAILED cfg then some (.ok ⟨NULL, 0⟩ s1) else some (.ok si s1)

/-- The `while` loop of `gasneti_mmap_linearasc_segsrch`, on the pair `(si, last_si)`. -/
def gasneti_mmap_linearasc_loop {σ : Type} (cfg : Config) (ops : MapOps σ) (highsz : Nat) :
    Nat → σ → gasnet_seginfo_t → gasnet_seginfo_t →
      Option (Res σ (gasnet_seginfo_t × gasnet_seginfo_t))
  | 0, _, _, _ => none
  | fuel + 1, s, si, last_si =>
    if si.addr ≠ MAP_FAILED cfg ∧ si.size ≤ highsz then
      match ops.gasneti_do_munmap s si.addr si.size with
      | .fatal e s1 => some (.fatal e s1)
      | .fault s1 => some (.fault s1)
      | .ok _ s1 =>
        let size := uadd cfg si.size cfg.GASNET_PAGESIZE
        match ops.gasneti_do_mmap s1 size with
        | .fatal e s2 => some (.fatal e s2)
        | .fault s2 => some (.fault s2)
        | .ok addr s2 => gasneti_mmap_linearasc_loop cfg ops highsz fuel s2 ⟨addr, size⟩ si
    else some (.ok (si, last_si) s)

/-- Ascending linear search for segment (`gasneti_mmap_linearasc_segsrch`): returns
location, not mmaped. -/
def gasneti_mmap_linearasc_segsrch {σ : Type} (cfg : Config) (ops : MapOps σ)
    (fuel : Nat) (s : σ) (highsz : Nat) : Option (Res σ gasnet_seginfo_t) :=
  match ops.gasneti_do_mmap s cfg.GASNET_PAGESIZE with
  | .fatal e s1 => some (.fatal e s1)
  | .fault s1 => some (.fault s1)
  | .ok addr s1 =>
    match gasneti_mmap_linearasc_loop cfg ops highsz fuel s1 ⟨addr, cfg.GASNET_PAGESIZE⟩
        ⟨NULL, 0⟩ with
    | none => none
    | some (.fatal e s2) => some (.fatal e s2)
    | some (.fault s2) => some (.fault s2)
    | some (.ok (si, last_si) s2) =>
      if si.addr = MAP_FAILED cfg then some (.ok last_si s2)
      else
        match ops.gasneti_do_munmap s2 si.addr si.size with
        | .fatal e s3 => some (.fatal e s3)
        | .fault s3 => some (.fault s3)
        | .ok _ s3 => some (.ok si s3)

/-- The tail of `_gasneti_mmap_segment_search_inner` after the search: given the found
`si` and the flag `mmaped`, return the zero-size result for a `NULL` base, keep an aligned
live mapping, or trim to page alignment and map the trimmed range at a fixed address. -/
def gasneti_mmap_segment_search_trim {σ : Type} (cfg : Config) (ops : MapOps σ)
    (s : σ) (si : gasnet_seginfo_t) (mmaped : Bool) : Res σ gasnet_seginfo_t :=
  if si.addr = NULL then .ok ⟨si.addr, 0⟩ s
  else if mmaped = true ∧ si.addr % cfg.GASNET_PAGESIZE = 0 then .ok si s
  else
    let unmapped : Res σ Unit :=
      if mmaped = true then ops.gasneti_do_munmap s si.addr si.size else .ok () s
    match unmapped with
    | .fatal e s1 => .fatal e s1
    | .fault s1 => .fault s1
    | .ok _ s1 =>
      let begin0 := si.addr
      let end0 := uadd cfg si.addr si.size
      let begin1 := GASNETI_PAGE_ALIGNUP cfg begin0
      let end1 := GASNETI_PAGE_ALIGNDOWN cfg end0
      let si1 : gasnet_seginfo_t := ⟨begin1, usub cfg end1 begin1⟩
      match ops.gasneti_do_mmap_fixed s1 si1.addr si1.size with
      | .fatal e s2 => .fatal e s2
      | .fault s2 => .fault s2
      | .ok _ s2 => .ok si1 s2

/-- The function `_gasneti_mmap_segment_search_inner` with the binary strategy that the
source selects (`#else` branch): `maxsz` must already be page aligned and non-zero, and a
zero-length result is not an error. -/
def _gasneti_mmap_segment_search_inner {σ : Type} (cfg : Config) (ops : MapOps σ)
    (fuel : Nat) (s : σ) (maxsz : Nat) : Option (Res σ gasnet_seginfo_t) :=
  match ops.gasneti_do_mmap s maxsz with
  | .fatal e s1 => some (.fatal e s1)
  | .fault s1 => some (.fault s1)
  | .ok addr s1 =>
    if addr ≠ MAP_FAILED cfg then
      some (gasneti_mmap_segment_search_trim cfg ops s1 ⟨addr, maxsz⟩ true)
    else
      match gasneti_mmap_binary_segsrch cfg ops fuel s1 0 maxsz with
      | none => none
      | some (.fatal e s2) => some (.fatal e s2)
      | some (.fault s2) => some (.fault s2)
      | some (.ok si s2) => some (gasneti_mmap_segment_search_trim cfg ops s2 si false)

/-- The function `gasneti_mmap_segment_search`: allocates the largest possible
page-aligned mmap with `sz <= maxsz` and returns the base address and size. -/
def gasneti_mmap_segment_search {σ : Type} (cfg : Config) (ops : MapOps σ)
    (fuel : Nat) (s : σ) (maxsz : Nat) : Option (Res σ gasnet_seginfo_t) :=
  let maxsz1 := gasneti_mmap_aligndown cfg maxsz
  if maxsz1 = 0 then some (.ok ⟨NULL, 0⟩ s)
  else
    match _gasneti_mmap_segment_search_inner cfg ops fuel s maxsz1 with
    | none => none
    | some (.fatal e s1) => some (.fatal e s1)
    | some (.fault s1) => some (.fault s1)
    | some (.ok si s1) =>
      if si.addr = NULL then some (.fatal Fatal.no_adequate_segment s1)
      else some (.ok si s1)

/-! ## The operating system and the process state -/

/-- The two name spaces of named OS objects: the file system, and the POSIX
shared-memory objects. -/
inductive ObjKind where
  | file
  | shm
deriving DecidableEq, Repr

/-- The name of an OS object: its name space and its path. -/
abbrev ObjName : Type := ObjKind × List Char

/-- The part of the operating system whose decisions the code does not control: whether
a mapping request is granted and where, whether an unmapping, an `open`/`shm_open` that
the name space permits, or an `ftruncate` meets an error.  Every call may change the
(abstract) kernel state `σ`. -/
structure OS (σ : Type) where
  /-- The call `mmap(addr, length, ..)`, with the flags reduced to whether the mapping is
  fixed and whether it maps the object of a descriptor (`MAP_SHARED`); returns the pointer
  and the `errno` of a failure. -/
  mmap : σ → Nat → Nat → Bool → Option ObjName → Nat × Nat × σ
  /-- The call `munmap(addr, length)`: return value and `errno` of a failure. -/
  munmap : σ → Nat → Nat → Int × Nat × σ
  /-- An error (`errno`) that refuses an `open`/`shm_open` which the name space would
  permit, if any. -/
  open_error : σ → ObjName → Nat → Option Nat × σ
  /-- The call `ftruncate(fd, length)`: return value and `errno` of a failure. -/
  ftruncate : σ → ObjName → Nat → Int × Nat × σ
  /-- The call `gasneti_nsleep(ns)`. -/
  nsleep : σ → Nat → σ

/-- The process and its host as far as `gasnet_mmap.c` touches them: the kernel state,
`errno`, the names present in the OS name spaces, and the PSHM globals of the file.
`unlink_log` is a ghost field: the arguments of the calls of `gasneti_pshm_unlink` so
far, oldest first. -/
structure World (σ : Type) where
  os : σ
  errno : Nat
  fs : List ObjName
  gasneti_pshm_nodes : Nat
  gasneti_pshm_mynode : Nat
  gasneti_pshmname : Option (List (List Char))
  gasneti_pshm_tmpfile : Option (List Char)
  unlink_log : List Nat

/-- The flag `O_RDWR`. -/
def O_RDWR : Nat := 2

/-- The flag `O_CREAT`. -/
def O_CREAT : Nat := 64

/-- The flag `O_EXCL`. -/
def O_EXCL : Nat := 128

/-- The calls `open(filename, flags, mode)` and `shm_open(filename, flags, mode)` on the
name space: `O_CREAT|O_EXCL` on an existing name fails with `EEXIST`, a missing name
without `O_CREAT` fails with `ENOENT`, the kernel may refuse for a reason of its own, and
otherwise the object is opened, and created when it did not exist.  The descriptor is
represented by the name of the object it refers to, `none` standing for `-1`. -/
def sys_open {σ : Type} (os : OS σ) (w : World σ) (name : ObjName) (flags : Nat) :
    Option ObjName × World σ :=
  if name ∈ w.fs ∧ flags &&& O_CREAT ≠ 0 ∧ flags &&& O_EXCL ≠ 0 then
    (none, { w with errno := EEXIST })
  else if name ∉ w.fs ∧ flags &&& O_CREAT = 0 then
    (none, { w with errno := ENOENT })
  else
    match os.open_error w.os name flags with
    | (some e, k) => (none, { w with os := k, errno := e })
    | (none, k) =>
      (some name, { w with os := k, fs := if name ∈ w.fs then w.fs else w.fs ++ [name] })

/-- The calls `unlink(filename)` and `shm_unlink(filename)` on the name space: an
existing name is removed, a missing one fails with `ENOENT`. -/
def sys_unlink {σ : Type} (w : World σ) (name : ObjName) : Int × World σ :=
  if name ∈ w.fs then (0, { w with fs := w.fs.filter (fun n => n ≠ name) })
  else (-1, { w with errno := ENOENT })

/-- The call `mmap`, setting `errno` when it fails. -/
def sys_mmap {σ : Type} (cfg : Config) (os : OS σ) (w : World σ) (addr len : Nat)
    (isFixed : Bool) (fd : Option ObjName) : Nat × World σ :=
  match os.mmap w.os addr len isFixed fd with
  | (ptr, e, k) =>
    if ptr = MAP_FAILED cfg then (ptr, { w with os := k, errno := e })
    else (ptr, { w with os := k })

/-- The call `munmap`, setting `errno` when it fails. -/
def sys_munmap {σ : Type} (os : OS σ) (w : World σ) (addr len : Nat) : Int × World σ :=
  match os.munmap w.os addr len with
  | (r, e, k) => if r ≠ 0 then (r, { w with os := k, errno := e }) else (r, { w with os := k })

/-- The call `ftruncate`, setting `errno` when it fails. -/
def sys_ftruncate {σ : Type} (os : OS σ) (w : World σ) (fd : ObjName) (len : Nat) :
    Int × World σ :=
  match os.ftruncate w.os fd len with
  | (r, e, k) => if r ≠ 0 then (r, { w with os := k, errno := e }) else (r, { w with os := k })

/-! ## Anonymous mappings (`HAVE_MMAP`) -/

/-- The function `gasneti_mmap_internal` (build without `GASNETI_MMAP_FILE` and without
`GASNETI_USE_HUGETLBFS`). -/
def gasneti_mmap_internal {σ : Type} (cfg : Config) (os : OS σ) (w : World σ)
    (segbase segsize : Nat) : Res (World σ) Nat :=
  match sys_mmap cfg os w segbase segsize (segbase != NULL) none with
  | (ptr, w1) =>
    let mmap_errno := w1.errno
    if ptr = MAP_FAILED cfg ∧ mmap_errno ≠ ENOMEM ∧ cfg.quirkErrno ≠ some mmap_errno then
      .fatal Fatal.unexpected_mmap_error w1
    else if ptr ≠ GASNETI_PAGE_ALIGNDOWN cfg ptr ∧ ptr ≠ MAP_FAILED cfg then
      .fatal Fatal.mmap_result_unaligned w1
    else if segbase ≠ NULL ∧ ptr = MAP_FAILED cfg then
      if cfg.GASNETI_BUG3480_WORKAROUND = true ∧ mmap_errno = ENOMEM then
        .ok (MAP_FAILED cfg) { w1 with errno := ENOMEM }
      else .fatal Fatal.mmap_fixed_failed w1
    else if segbase ≠ NULL ∧ segbase ≠ ptr then
      .fatal Fatal.mmap_fixed_moved w1
    else .ok ptr w1

/-- The function `gasneti_mmap_fixed`. -/
def gasneti_mmap_fixed {σ : Type} (cfg : Config) (os : OS σ) (w : World σ)
    (segbase segsize : Nat) : Res (World σ) Nat :=
  gasneti_mmap_internal cfg os w segbase segsize

/-- The function `gasneti_mmap`. -/
def gasneti_mmap {σ : Type} (cfg : Config) (os : OS σ) (w : World σ)
    (segsize : Nat) : Res (World σ) Nat :=
  gasneti_mmap_internal cfg os w NULL segsize

/-- The function `gasneti_munmap` (build without `GASNETI_USE_HUGETLBFS`). -/
def gasneti_munmap {σ : Type} (os : OS σ) (w : World σ) (segbase segsize : Nat) :
    Res (World σ) Unit :=
  match sys_munmap os w segbase segsize with
  | (r, w1) => if r ≠ 0 then .fatal Fatal.munmap_failed w1 else .ok () w1

/-! ## PSHM over files and POSIX shared memory -/

/-- The name space of the PSHM objects of the build. -/
def pshmKind (cfg : Config) : ObjKind :=
  if cfg.GASNETI_PSHM_POSIX = true then ObjKind.shm else ObjKind.file

/-- The read `gasneti_pshmname[pshm_rank]`; `none` when the table is absent or shorter. -/
def gasneti_pshmname_at {σ : Type} (cfg : Config) (w : World σ) (pshm_rank : Nat) :
    Option ObjName :=
  match w.gasneti_pshmname with
  | none => none
  | some names =>
    match names.get? pshm_rank with
    | none => none
    | some filename => some (pshmKind cfg, filename)

/-- Helper `gasneti_pshm_unlink`: destroy the "attach point".  The result of `unlink` or
`shm_unlink` is ignored. -/
def gasneti_pshm_unlink {σ : Type} (cfg : Config) (w : World σ) (pshm_rank : Nat) :
    Res (World σ) Unit :=
  let w0 := { w with unlink_log := w.unlink_log ++ [pshm_rank] }
  match gasneti_pshmname_at cfg w0 pshm_rank with
  | none => .fault w0
  | some filename => .ok () (sys_unlink w0 filename).2

/-- The local `create` of `gasneti_pshm_mmap`. -/
def gasneti_pshm_mmap_create (gasneti_pshm_nodes gasneti_pshm_mynode pshm_rank : Nat) : Bool :=
  (pshm_rank == gasneti_pshm_mynode) ||
    ((pshm_rank == gasneti_pshm_nodes) && (gasneti_pshm_mynode == 0))

/-- The local `flags` of `gasneti_pshm_mmap`. -/
def gasneti_pshm_mmap_flags (create : Bool) : Nat :=
  O_RDWR ||| (if create = true then (O_CREAT ||| O_EXCL) else 0)

/-- The function `gasneti_pshm_mmap`: create the object/region/segment and return its
address (`GASNETI_PSHM_FILE` or `GASNETI_PSHM_POSIX`, not Darwin, no hugetlbfs).  The
`close(fd)` between the mapping and the return restores `errno` and is not shown. -/
def gasneti_pshm_mmap {σ : Type} (cfg : Config) (os : OS σ) (w : World σ)
    (pshm_rank segbase segsize : Nat) : Res (World σ) Nat :=
  let create := gasneti_pshm_mmap_create w.gasneti_pshm_nodes w.gasneti_pshm_mynode pshm_rank
  let flags := gasneti_pshm_mmap_flags create
  match gasneti_pshmname_at cfg w pshm_rank with
  | none => .fault w
  | some filename =>
    match sys_open os w filename flags with
    | (none, w1) => .ok (MAP_FAILED cfg) w1
    | (some fd, w1) =>
      let sized : Int × World σ :=
        if create = true then sys_ftruncate os w1 fd segsize else (0, w1)
      let mapped : Nat × World σ :=
        if sized.1 ≠ 0 then (MAP_FAILED cfg, sized.2)
        else sys_mmap cfg os sized.2 segbase segsize (segbase != NULL) (some fd)
      if create = true ∧ mapped.1 = MAP_FAILED cfg then
        let save_errno := mapped.2.errno
        match gasneti_pshm_unlink cfg mapped.2 pshm_rank with
        | .ok _ w3 => .ok mapped.1 { w3 with errno := save_errno }
        | .fatal e w3 => .fatal e w3
        | .fault w3 => .fault w3
      else .ok mapped.1 mapped.2

/-- Helper `gasneti_pshm_munmap`: remove local object's mapping from address space. -/
def gasneti_pshm_munmap {σ : Type} (cfg : Config) (os : OS σ) (w : World σ)
    (segbase segsize : Nat) : Res (World σ) Unit :=
  match gasneti_munmap os w segbase segsize with
  | .fatal e w1 => .fatal e w1
  | .fault w1 => .fault w1
  | .ok _ w1 => gasneti_pshm_unlink cfg w1 w1.gasneti_pshm_mynode

/-- The function `gasneti_unlink_segments`; the two barriers are calls into the other
processes and leave this process unchanged. -/
def gasneti_unlink_segments {σ : Type} (cfg : Config) (w : World σ) : Res (World σ) Unit :=
  gasneti_pshm_unlink cfg w w.gasneti_pshm_mynode

/-- The function `gasneti_unlink_vnet`. -/
def gasneti_unlink_vnet {σ : Type} (cfg : Config) (w : World σ) : Res (World σ) Unit :=
  gasneti_pshm_unlink cfg w w.gasneti_pshm_nodes

/-- The `for` loop of `gasneti_cleanup_shm`, over the indices still to visit. -/
def gasneti_cleanup_shm_loop {σ : Type} (cfg : Config) :
    List Nat → World σ → Res (World σ) Unit
  | [], w => .ok () w
  | i :: rest, w =>
    match gasneti_pshm_unlink cfg w i with
    | .fatal e w1 => .fatal e w1
    | .fault w1 => .fault w1
    | .ok _ w1 => gasneti_cleanup_shm_loop cfg rest w1

/-- The second half of `gasneti_cleanup_shm`: remove the tmpfile that ensures uniqueness
of our filenames. -/
def gasneti_cleanup_shm_tmpfile {σ : Type} (w : World σ) : World σ :=
  match w.gasneti_pshm_tmpfile with
  | none => w
  | some tmpfile =>
    { (sys_unlink w (ObjKind.file, tmpfile)).2 with gasneti_pshm_tmpfile := none }

/-- The function `gasneti_cleanup_shm`: try to unlink everything we can, ignoring
errors. -/
def gasneti_cleanup_shm {σ : Type} (cfg : Config) (w : World σ) : Res (World σ) Unit :=
  match w.gasneti_pshmname with
  | none => .ok () (gasneti_cleanup_shm_tmpfile w)
  | some _ =>
    match gasneti_cleanup_shm_loop cfg (List.range (w.gasneti_pshm_nodes + 1)) w with
    | .fatal e w1 => .fatal e w1
    | .fault w1 => .fault w1
    | .ok _ w1 => .ok () (gasneti_cleanup_shm_tmpfile { w1 with gasneti_pshmname := none })

/-- Run `gasneti_cleanup_shm` and then `gasneti_fatalerror`. -/
def cleanup_then_fatal {σ : Type} (cfg : Config) (w : World σ) (e : Fatal) :
    Res (World σ) Nat :=
  match gasneti_cleanup_shm cfg w with
  | .ok _ w1 => .fatal e w1
  | .fatal e1 w1 => .fatal e1 w1
  | .fault w1 => .fault w1

/-- The function `gasneti_mmap_shared_internal`. -/
def gasneti_mmap_shared_internal {σ : Type} (cfg : Config) (os : OS σ) (w : World σ)
    (pshmnode segbase segsize : Nat) (may_fail : Bool) : Res (World σ) Nat :=
  if segsize = 0 then
    if may_fail = false then cleanup_then_fatal cfg w Fatal.zero_byte_shared
    else .ok (MAP_FAILED cfg) w
  else
    match gasneti_pshm_mmap cfg os w pshmnode segbase segsize with
    | .fatal e w1 => .fatal e w1
    | .fault w1 => .fault w1
    | .ok ptr w1 =>
      let mmap_errno := w1.errno
      if ptr = MAP_FAILED cfg ∧ may_fail = false then
        if cfg.GASNETI_BUG3480_WORKAROUND = true ∧ segbase ≠ NULL ∧ mmap_errno = ENOMEM then
          .ok (MAP_FAILED cfg) { w1 with errno := ENOMEM }
        else if mmap_errno ≠ ENOMEM ∧ cfg.quirkErrno ≠ some mmap_errno then
          cleanup_then_fatal cfg w1 Fatal.unexpected_mmap_error
        else if segbase = NULL then cleanup_then_fatal cfg w1 Fatal.mmap_failed
        else cleanup_then_fatal cfg w1 Fatal.mmap_fixed_failed
      else if ptr ≠ GASNETI_PAGE_ALIGNDOWN cfg ptr ∧ ptr ≠ MAP_FAILED cfg then
        cleanup_then_fatal cfg w1 Fatal.mmap_result_unaligned
      else if cfg.GASNETI_PSHM_MAP_FIXED_IGNORED = false ∧
          segbase ≠ NULL ∧ segbase ≠ ptr ∧ ptr ≠ MAP_FAILED cfg then
        cleanup_then_fatal cfg w1 Fatal.mmap_fixed_moved
      else .ok ptr w1

/-- The function `gasneti_mmap_remote_shared`. -/
def gasneti_mmap_remote_shared {σ : Type} (cfg : Config) (os : OS σ) (w : World σ)
    (segbase segsize pshmnode : Nat) : Res (World σ) Nat :=
  gasneti_mmap_shared_internal cfg os w pshmnode segbase segsize false

/-- The function `gasneti_mmap_shared_fixed`. -/
def gasneti_mmap_shared_fixed {σ : Type} (cfg : Config) (os : OS σ) (w : World σ)
    (segbase segsize : Nat) : Res (World σ) Nat :=
  gasneti_mmap_shared_internal cfg os w w.gasneti_pshm_mynode segbase segsize false

/-- The function `gasneti_mmap_shared`. -/
def gasneti_mmap_shared {σ : Type} (cfg : Config) (os : OS σ) (w : World σ)
    (segsize : Nat) : Res (World σ) Nat :=
  gasneti_mmap_shared_internal cfg os w w.gasneti_pshm_mynode NULL segsize true

/-! ## Bounded retry, and the primitives behind the `gasneti_do_*` macros -/

/-- The function behind `gasneti_do_mmap_fixed` before the retry wrapper redefines the
macro. -/
def gasneti_do_mmap_fixed_once {σ : Type} (cfg : Config) (os : OS σ) (w : World σ)
    (segbase segsize : Nat) : Res (World σ) Nat :=
  if cfg.GASNET_PSHM = true then gasneti_mmap_shared_fixed cfg os w segbase segsize
  else gasneti_mmap_fixed cfg os w segbase segsize

/-- The `while` loop of `gasneti_mmap_fixed_with_retry`.  The first argument is
`max_retries - retries`, so that the test `retries++ < max_retries` reads "the first
argument is not zero". -/
def gasneti_mmap_fixed_retry_loop {σ : Type} (cfg : Config) (os : OS σ)
    (segbase segsize : Nat) : Nat → World σ → Nat → Nat → Res (World σ) Nat
  | 0, w, ptr, _ => .ok ptr w
  | k + 1, w, ptr, delay =>
    if ptr = MAP_FAILED cfg ∧ w.errno = ENOMEM then
      let w1 := { w with os := os.nsleep w.os delay }
      let delay1 := min 20000000 (delay * 2)
      match gasneti_do_mmap_fixed_once cfg os w1 segbase segsize with
      | .fatal e w2 => .fatal e w2
      | .fault w2 => .fault w2
      | .ok ptr1 w2 => gasneti_mmap_fixed_retry_loop cfg os segbase segsize k w2 ptr1 delay1
    else .ok ptr w

/-- The function `gasneti_mmap_fixed_with_retry`: bounded retry on FIXED mappings. -/
def gasneti_mmap_fixed_with_retry {σ : Type} (cfg : Config) (os : OS σ) (w : World σ)
    (segbase segsize : Nat) : Res (World σ) Nat :=
  match gasneti_do_mmap_fixed_once cfg os w segbase segsize with
  | .fatal e w1 => .fatal e w1
  | .fault w1 => .fault w1
  | .ok ptr0 w1 =>
    match gasneti_mmap_fixed_retry_loop cfg os segbase segsize 100 w1 ptr0 1000 with
    | .fatal e w2 => .fatal e w2
    | .fault w2 => .fault w2
    | .ok ptr w2 =>
      if ptr = MAP_FAILED cfg then
        if cfg.GASNET_PSHM = true then cleanup_then_fatal cfg w2 Fatal.mmap_fixed_failed
        else .fatal Fatal.mmap_fixed_failed w2
      else .ok ptr w2

/-- The macros `gasneti_do_mmap`, `gasneti_do_mmap_fixed` and `gasneti_do_munmap` as the
build defines them. -/
def gasneti_ops {σ : Type} (cfg : Config) (os : OS σ) : MapOps (World σ) where
  gasneti_do_mmap w segsize :=
    if cfg.GASNET_PSHM = true then gasneti_mmap_shared cfg os w segsize
    else gasneti_mmap cfg os w segsize
  gasneti_do_mmap_fixed w segbase segsize :=
    if cfg.GASNETI_BUG3480_WORKAROUND = true then
      gasneti_mmap_fixed_with_retry cfg os w segbase segsize
    else gasneti_do_mmap_fixed_once cfg os w segbase segsize
  gasneti_do_munmap w segbase segsize :=
    if cfg.GASNET_PSHM = true then gasneti_pshm_munmap cfg os w segbase segsize
    else gasneti_munmap os w segbase segsize

/-! ## Names of the PSHM objects (`gasneti_pshm_makeunique`) -/

/-- The array `tbl` of `gasneti_pshm_makeunique`, with its terminating NUL. -/
def tbl : List Char :=
  ['0', '1', '2', '3', '4', '5', '6', '7', '8', '9', 'A', 'B', 'C', 'D', 'E', 'F', 'G', 'H',
   'I', 'J', 'K', 'L', 'M', 'N', 'O', 'P', 'Q', 'R', 'S', 'T', 'U', 'V', 'W', 'X', 'Y', 'Z',
   Char.ofNat 0]

/-- The value of `GASNETI_PSHM_PREFIX_LEN1`: the length of "/GASNT". -/
def GASNETI_PSHM_PREFIX_LEN1 : Nat := 6

/-- The value of `GASNETI_PSHM_UNIQUE_LEN`, which the source fixes through
`strlen("/GASNTXXXXXX") == GASNETI_PSHM_PREFIX_LEN`. -/
def GASNETI_PSHM_UNIQUE_LEN : Nat := 6

/-- The array `prefix` of `gasneti_pshm_makeunique` after
`memcpy(prefix + GASNETI_PSHM_PREFIX_LEN1, unique, GASNETI_PSHM_UNIQUE_LEN)`; `unique`
holds `GASNETI_PSHM_UNIQUE_LEN` characters. -/
def gasneti_pshm_makeunique_pfx (unique : List Char) : List Char :=
  ['/', 'G', 'A', 'S', 'N', 'T'] ++ unique.take GASNETI_PSHM_UNIQUE_LEN

/-- A C string read from a buffer: the characters before the first NUL. -/
def cstr (buf : List Char) : List Char := buf.takeWhile (fun c => c ≠ Char.ofNat 0)

/-- The body of the naming loop of `gasneti_pshm_makeunique` for index `i`: the directory
`dir` (`tmpdir` for `GASNETI_PSHM_FILE`, empty for `GASNETI_PSHM_POSIX`), the prefix, and
three base-36 digits; `none` when the table is read past its end. -/
def gasneti_pshm_makeunique_filename (dir pfx : List Char) (i : Nat) : Option (List Char) :=
  let base := 36
  let digit0 := i
  let c2 := tbl.get? (digit0 % base)
  let digit1 := digit0 / base
  let c1 := tbl.get? (digit1 % base)
  let digit2 := digit1 / base
  let c0 := tbl.get? digit2
  match c0, c1, c2 with
  | some a, some b, some c => some (cstr (dir ++ pfx ++ [a, b, c, Char.ofNat 0]))
  | _, _, _ => none

/-- The table `names` that `gasneti_pshm_makeunique` stores in `gasneti_pshmname`: one
name for each index `0 .. gasneti_pshm_nodes`. -/
def gasneti_pshm_makeunique_names (cfg : Config) (tmpdir unique : List Char)
    (gasneti_pshm_nodes : Nat) : List (Option (List Char)) :=
  (List.range (gasneti_pshm_nodes + 1)).map
    (gasneti_pshm_makeunique_filename (if cfg.GASNETI_PSHM_POSIX = true then [] else tmpdir)
      (gasneti_pshm_makeunique_pfx unique))

/-! ## A simulated host: mapping succeeds iff the size is at most `K` -/

/-- The oracle: a mapping of `len` bytes succeeds iff `len ≤ K`, at `base` when the
address is left to the system and at the requested address when fixed; a refused mapping
fails with `ENOMEM`.  Unmapping, opening and sizing always succeed. -/
def oracleOS (cfg : Config) (K base : Nat) : OS Unit where
  mmap _ addr len isFixed _ :=
    if len ≤ K then (if isFixed = true then addr else base, 0, ())
    else (MAP_FAILED cfg, ENOMEM, ())
  munmap _ _ _ := (0, 0, ())
  open_error _ _ _ := (none, ())
  ftruncate _ _ _ := (0, 0, ())
  nsleep k _ := k

/-- A process with no PSHM tables, no named objects and `errno` zero. -/
def World.init {σ : Type} (k : σ) (nodes mynode : Nat) : World σ where
  os := k
  errno := 0
  fs := []
  gasneti_pshm_nodes := nodes
  gasneti_pshm_mynode := mynode
  gasneti_pshmname := none
  gasneti_pshm_tmpfile := none
  unlink_log := []

/-- The size of the region a search returned, if it returned. -/
def retSize {σ : Type} (r : Option (Res σ gasnet_seginfo_t)) : Option Nat :=
  match r with
  | some (.ok si _) => some si.size
  | _ => none

/-- The region a search returned, if it returned. -/
def retSeg {σ : Type} (r : Option (Res σ gasnet_seginfo_t)) : Option gasnet_seginfo_t :=
  match r with
  | some (.ok si _) => some si
  | _ => none

/-- A build without PSHM: 64-bit words, 4 KiB pages, 4 MiB search granularity, a mapping
limit of 1 TiB, segments not aligned across nodes and placed at the high end, cache lines
of 64 bytes, the client segment above the auxseg. -/
def cfgMmap : Config where
  wordBits := 64
  GASNET_PAGESIZE := 4096
  GASNETI_MMAP_GRANULARITY := 4194304
  GASNETI_BUG3480_WORKAROUND := false
  quirkErrno := none
  GASNET_PSHM := false
  GASNETI_PSHM_POSIX := false
  GASNETI_PSHM_MAP_FIXED_IGNORED := false
  GASNETI_MMAP_LIMIT := 1099511627776
  GASNET_ALIGNED_SEGMENTS := false
  GASNETI_USE_HIGHSEGMENT := true
  GASNETI_CACHE_LINE_BYTES := 64
  GASNETI_FORCE_CLIENTSEG_TO_BASE := false

/-- The state in which a call ended. -/
def Res.state {σ α : Type} : Res σ α → σ
  | .ok _ s => s
  | .fatal _ s => s
  | .fault s => s

/-- Whether a call ended in `gasneti_fatalerror`. -/
def Res.isFatal {σ α : Type} : Res σ α → Bool
  | .fatal _ _ => true
  | _ => false

/-- Whether a call ended in a fault. -/
def Res.isFault {σ α : Type} : Res σ α → Bool
  | .fault _ => true
  | _ => false

/-- The value a call returned, if it returned. -/
def Res.value {σ α : Type} : Res σ α → Option α
  | .ok a _ => some a
  | _ => none

/-- The state in which a search ended, if it ended. -/
def retState {σ α : Type} (r : Option (Res σ α)) : Option σ :=
  match r with
  | some x => some x.state
  | none => none

/-- The mapping primitives instrumented with a counter of the calls made to them. -/
def countingOps {σ : Type} (ops : MapOps σ) : MapOps (σ × Nat) where
  gasneti_do_mmap s segsize :=
    match ops.gasneti_do_mmap s.1 segsize with
    | .ok a s1 => .ok a (s1, s.2 + 1)
    | .fatal e s1 => .fatal e (s1, s.2 + 1)
    | .fault s1 => .fault (s1, s.2 + 1)
  gasneti_do_mmap_fixed s segbase segsize :=
    match ops.gasneti_do_mmap_fixed s.1 segbase segsize with
    | .ok a s1 => .ok a (s1, s.2 + 1)
    | .fatal e s1 => .fatal e (s1, s.2 + 1)
    | .fault s1 => .fault (s1, s.2 + 1)
  gasneti_do_munmap s segbase segsize :=
    match ops.gasneti_do_munmap s.1 segbase segsize with
    | .ok a s1 => .ok a (s1, s.2 + 1)
    | .fatal e s1 => .fatal e (s1, s.2 + 1)
    | .fault s1 => .fault (s1, s.2 + 1)

/-- A host that refuses every mapping with the error `e`; its state counts the calls of
`mmap`.  Unmapping, opening and sizing always succeed. -/
def denyOS (cfg : Config) (e : Nat) : OS Nat where
  mmap k _ _ _ _ := (MAP_FAILED cfg, e, k + 1)
  munmap k _ _ := (0, 0, k)
  open_error k _ _ := (none, k)
  ftruncate k _ _ := (0, 0, k)
  nsleep k _ := k

/-- A build with PSHM over POSIX shared memory: 64-bit words, 4 KiB pages, 4 MiB search
granularity, a mapping limit of 1 TiB, segments not aligned across nodes and placed at the
high end, cache lines of 64 bytes, the client segment above the auxseg. -/
def cfgPshm : Config where
  wordBits := 64
  GASNET_PAGESIZE := 4096
  GASNETI_MMAP_GRANULARITY := 4194304
  GASNETI_BUG3480_WORKAROUND := false
  quirkErrno := none
  GASNET_PSHM := true
  GASNETI_PSHM_POSIX := true
  GASNETI_PSHM_MAP_FIXED_IGNORED := false
  GASNETI_MMAP_LIMIT := 1099511627776
  GASNET_ALIGNED_SEGMENTS := false
  GASNETI_USE_HIGHSEGMENT := true
  GASNETI_CACHE_LINE_BYTES := 64
  GASNETI_FORCE_CLIENTSEG_TO_BASE := false

/-- A process of local rank 1 on a host with two processes, after
`gasneti_pshm_makeunique` has run with the unique tag "abcdef" received from rank 0: the
table holds the names of the two per-rank objects and of the vnet object, and the three
objects and the marker file of rank 0 exist.  The process holds no temp-file handle:
`gasneti_pshm_makeunique` sets `gasneti_pshm_tmpfile` only where it creates the marker
file (`unique == NULL`, local rank 0). -/
def worldRank1 : World Nat where
  os := 0
  errno := 0
  fs := [(ObjKind.file, "/tmp/GASNTabcdef".toList), (ObjKind.shm, "/GASNTabcdef000".toList),
    (ObjKind.shm, "/GASNTabcdef001".toList), (ObjKind.shm, "/GASNTabcdef002".toList)]
  gasneti_pshm_nodes := 2
  gasneti_pshm_mynode := 1
  gasneti_pshmname := some ["/GASNTabcdef000".toList, "/GASNTabcdef001".toList,
    "/GASNTabcdef002".toList]
  gasneti_pshm_tmpfile := none
  unlink_log := []

/-- A process of local rank 0, alone on its host, after `gasneti_pshm_makeunique` has run
with the unique tag "abcdef" and before any object is created. -/
def worldRank0 : World Nat where
  os := 0
  errno := 0
  fs := [(ObjKind.file, "/tmp/GASNTabcdef".toList)]
  gasneti_pshm_nodes := 1
  gasneti_pshm_mynode := 0
  gasneti_pshmname := some ["/GASNTabcdef000".toList, "/GASNTabcdef001".toList]
  gasneti_pshm_tmpfile := some "/tmp/GASNTabcdef".toList
  unlink_log := []

/-! ## Job layout, collectives and the statics of segment setup -/

/-- The largest `uintptr_t`, written `(uintptr_t)-1` in the source. -/
def UINTPTR_MAX (cfg : Config) : Nat := wordMod cfg - 1

/-- The largest `uint64_t`, written `(uint64_t)-1` in the source. -/
def UINT64_MAX : Nat := 2 ^ 64 - 1

/-- The layout of the job as this process sees it: globals that other files of the
runtime set up before the functions embedded here run.  Arrays are lists, read with
`getD`. -/
structure Topo where
  gasneti_nodes : Nat
  gasneti_mynode : Nat
  /-- The field `gasneti_myhost.grp_count`: the number of hosts. -/
  myhost_grp_count : Nat
  /-- The field `gasneti_myhost.node_count`: the number of processes on this host. -/
  myhost_node_count : Nat
  /-- The field `gasneti_myhost.node_rank`: the rank of this process within its host. -/
  myhost_node_rank : Nat
  /-- The array `gasneti_myhost.nodes`: the processes on this host. -/
  myhost_nodes : List Nat
  /-- The field `gasneti_mysupernode.grp_count`. -/
  mysupernode_grp_count : Nat
  gasneti_nodemap_local_count : Nat
  gasneti_nodemap_local_rank : Nat
  gasneti_nodemap_local : List Nat
  /-- The fields `gasneti_nodeinfo[i].host`. -/
  nodeinfo_host : List Nat
  gasneti_pshm_nodes : Nat
  gasneti_pshm_mynode : Nat
deriving Repr

/-- The PSHM functions and supernode collectives that segment setup calls, as
state-passing functions; for the processes of this development they are the functions
embedded above together with the collectives of `gasnet_pshm.c`, which are not part of the
source tree at hand. -/
structure PshmOps (σ : Type) where
  gasneti_pshm_unlink : σ → Nat → Res σ Unit
  gasneti_unlink_segments : σ → Res σ Unit
  gasneti_cleanup_shm : σ → Res σ Unit
  gasneti_mmap_remote_shared : σ → Nat → Nat → Nat → Res σ Nat
  /-- The call `gasneti_pshmnet_bootstrapBroadcast(gasneti_request_pshmnet, &v, len, &v,
  root)` on one machine word: the value sent and the root, giving the value received. -/
  gasneti_pshmnet_bootstrapBroadcast : σ → Nat → Nat → Nat × σ
  gasneti_pshmnet_bootstrapBarrier : σ → σ

/-- The structure `gasneti_segexch_t`; `u` is the union of `heapend` (during init) and
`segsize_request` (during attach). -/
structure gasneti_segexch_t where
  seginfo : gasnet_seginfo_t
  u : Nat
deriving DecidableEq, Repr

/-- The statics of segment setup: the local segment, the heap ends, the start of the
overlap region, the exchanged table, the two maximal segment sizes, and the offsets
`gasneti_nodeinfo[i].offset` indexed by node.  `attached` is a ghost field: the local rank
and the address of each remote segment mapped so far, oldest first. -/
structure SegState where
  gasneti_segment : gasnet_seginfo_t
  gasneti_myheapend : Nat
  gasneti_maxheapend : Nat
  gasneti_maxbase : Nat
  gasneti_segexch : Option (List gasneti_segexch_t)
  gasneti_MaxLocalSegmentSize : Nat
  gasneti_MaxGlobalSegmentSize : Nat
  gasneti_nodeinfo_offset : Nat → Nat
  attached : List (Nat × Nat)

/-- The statics before `gasneti_segmentInit`. -/
def SegState.init : SegState where
  gasneti_segment := ⟨0, 0⟩
  gasneti_myheapend := 0
  gasneti_maxheapend := 0
  gasneti_maxbase := 0
  gasneti_segexch := none
  gasneti_MaxLocalSegmentSize := 0
  gasneti_MaxGlobalSegmentSize := 0
  gasneti_nodeinfo_offset := fun _ => 0
  attached := []

/-- Carry the statics along with the outcome of a call that does not touch them. -/
def Res.withStatics {σ α : Type} (r : Res σ α) (g : SegState) : Res (σ × SegState) α :=
  match r with
  | .ok a s => .ok a (s, g)
  | .fatal e s => .fatal e (s, g)
  | .fault s => .fault (s, g)

/-! ## `gasneti_segmentInit` -/

/-- The locals `maxbase`, `maxsize`, `minsize`, `minend` and `maxheapend` of the
bounding-box computation of `gasneti_segmentInit`. -/
structure SegStats where
  maxbase : Nat
  maxsize : Nat
  minsize : Nat
  minend : Nat
  maxheapend : Nat
deriving DecidableEq, Repr

/-- The body of the loop "compute various stats across nodes" for one entry of
`gasneti_segexch`. -/
def gasneti_segmentInit_stats_step (cfg : Config) (st : SegStats) (e : gasneti_segexch_t) :
    SegStats where
  maxheapend := if e.u > st.maxheapend then e.u else st.maxheapend
  maxbase := if e.seginfo.addr > st.maxbase then e.seginfo.addr else st.maxbase
  maxsize := if e.seginfo.size > st.maxsize then e.seginfo.size else st.maxsize
  minsize := if e.seginfo.size < st.minsize then e.seginfo.size else st.minsize
  minend :=
    if uadd cfg e.seginfo.addr e.seginfo.size < st.minend then
      uadd cfg e.seginfo.addr e.seginfo.size
    else st.minend

/-- The loop "compute various stats across nodes" of `gasneti_segmentInit` over the
`gasneti_nodes` entries of the exchanged table. -/
def gasneti_segmentInit_stats (cfg : Config) (gasneti_nodes : Nat)
    (segexch : List gasneti_segexch_t) : SegStats :=
  (segexch.take gasneti_nodes).foldl (gasneti_segmentInit_stats_step cfg)
    ⟨0, 0, UINTPTR_MAX cfg, UINTPTR_MAX cfg, 0⟩

/-- The values that `gasneti_segmentInit` gives to `gasneti_MaxLocalSegmentSize` and
`gasneti_MaxGlobalSegmentSize` (in this order), with and without
`GASNET_ALIGNED_SEGMENTS`. -/
def gasneti_segmentInit_sizes (cfg : Config) (gasneti_segment : gasnet_seginfo_t)
    (st : SegStats) : Nat × Nat :=
  if cfg.GASNET_ALIGNED_SEGMENTS = true then
    if st.maxbase ≥ st.minend then (0, 0)
    else
      (usub cfg (uadd cfg gasneti_segment.addr gasneti_segment.size) st.maxbase,
       usub cfg st.minend st.maxbase)
  else (gasneti_segment.size, st.minsize)

/-- The function `gasneti_segmentInit` (build with `GASNETI_MMAP_OR_PSHM`, not Darwin).
`sbrk` is the call `sbrk(0)`, `exchangefn` the exchange of one `gasneti_segexch_t` per
node.  The warning about address-space randomisation reads a file and prints, and is not
shown. -/
def gasneti_segmentInit {σ : Type} (cfg : Config) (topo : Topo) (ops : MapOps σ)
    (pshm : PshmOps σ) (sbrk : σ → Nat × σ)
    (exchangefn : σ → gasneti_segexch_t → List gasneti_segexch_t × σ)
    (fuel : Nat) (s : σ) (g : SegState) (localSegmentLimit : Nat) :
    Option (Res (σ × SegState) Unit) :=
  let limit1 :=
    if localSegmentLimit ≠ UINTPTR_MAX cfg then gasneti_mmap_aligndown cfg localSegmentLimit
    else localSegmentLimit
  match gasneti_mmap_segment_search cfg ops fuel s
      (if limit1 = UINTPTR_MAX cfg then cfg.GASNETI_MMAP_LIMIT
       else min limit1 cfg.GASNETI_MMAP_LIMIT) with
  | none => none
  | some (.fatal e s1) => some (.fatal e (s1, g))
  | some (.fault s1) => some (.fault (s1, g))
  | some (.ok segment s1) =>
    let g1 := { g with gasneti_segment := segment }
    match sbrk s1 with
    | (brk, s2) =>
      if brk = UINTPTR_MAX cfg then some (.fatal Fatal.sbrk_failed (s2, g1))
      else
        let myheapend := GASNETI_PAGE_ALIGNUP cfg brk
        match exchangefn s2 ⟨segment, myheapend⟩ with
        | (segexch, s3) =>
          let st := gasneti_segmentInit_stats cfg topo.gasneti_nodes segexch
          let sizes := gasneti_segmentInit_sizes cfg segment st
          let g2 : SegState :=
            { g1 with
              gasneti_myheapend := myheapend
              gasneti_segexch := some segexch
              gasneti_maxheapend := st.maxheapend
              gasneti_maxbase := st.maxbase
              gasneti_MaxLocalSegmentSize := sizes.1
              gasneti_MaxGlobalSegmentSize := sizes.2 }
          if cfg.GASNET_PSHM = true then
            some ((pshm.gasneti_unlink_segments s3).withStatics g2)
          else some (.ok () (s3, g2))

/-! ## `gasneti_segmentAttach` -/

/-- The loop of `gasneti_segmentAttach` (aligned segments, `GASNETI_USE_HIGHSEGMENT`) that
finds `minsegstart`, the smallest of the starts `(addr + size) - segsize_request`. -/
def gasneti_segmentAttach_minsegstart (cfg : Config) (gasneti_nodes : Nat)
    (segexch : List gasneti_segexch_t) : Nat :=
  (segexch.take gasneti_nodes).foldl
    (fun minsegstart e =>
      let segstart := usub cfg (uadd cfg e.seginfo.addr e.seginfo.size) e.u
      if segstart < minsegstart then segstart else minsegstart)
    (UINTPTR_MAX cfg)

/-- The first part of `gasneti_segmentAttach`: the choice of `segbase` and `topofheap`
(returned in this order) for each setting of `GASNET_ALIGNED_SEGMENTS` and
`GASNETI_USE_HIGHSEGMENT`.  `exchangefn` exchanges one `gasneti_segexch_t` per node. -/
def gasneti_segmentAttach_place {σ : Type} (cfg : Config) (topo : Topo)
    (exchangefn : σ → gasneti_segexch_t → List gasneti_segexch_t × σ)
    (s : σ) (g : SegState) (segsize : Nat) : (Nat × Nat) × σ × SegState :=
  if cfg.GASNET_ALIGNED_SEGMENTS = true then
    if cfg.GASNETI_USE_HIGHSEGMENT = true then
      match exchangefn s ⟨g.gasneti_segment, segsize⟩ with
      | (segexch, s1) =>
        ((gasneti_segmentAttach_minsegstart cfg topo.gasneti_nodes segexch, g.gasneti_maxheapend),
          s1, { g with gasneti_segexch := some segexch })
    else ((g.gasneti_maxbase, g.gasneti_maxheapend), s, g)
  else
    if cfg.GASNETI_USE_HIGHSEGMENT = true then
      ((usub cfg (uadd cfg g.gasneti_segment.addr g.gasneti_segment.size) segsize,
        g.gasneti_myheapend), s, g)
    else ((g.gasneti_segment.addr, g.gasneti_myheapend), s, g)

/-- The block of `gasneti_segmentAttach` that moves a segment away from the heap:
`if (((segbase + segsize) > topofheap) && (topofheap + minheapoffset > segbase))`.  Gives
the new `segbase` and `segsize`, or the fatal error "minheapoffset too large to accomodate
a segment". -/
def gasneti_segmentAttach_heapcheck (cfg : Config) (gasneti_segment : gasnet_seginfo_t)
    (topofheap minheapoffset segbase segsize : Nat) : Except Fatal (Nat × Nat) :=
  if uadd cfg segbase segsize > topofheap ∧ uadd cfg topofheap minheapoffset > segbase then
    let endofseg := uadd cfg gasneti_segment.addr gasneti_segment.size
    let segbase1 := uadd cfg topofheap minheapoffset
    if segbase1 ≥ endofseg then .error Fatal.minheapoffset_too_large
    else
      let maxsegsz := usub cfg endofseg segbase1
      .ok (segbase1, if segsize > maxsegsz then maxsegsz else segsize)
  else .ok (segbase, segsize)

/-- The middle part of `gasneti_segmentAttach`: release of the tentative window and
mapping of the final segment; gives the final `segbase` and `segsize`.  `exchange_byte` is
the one-byte exchange of the bug 3480 workaround. -/
def gasneti_segmentAttach_map {σ : Type} (cfg : Config) (ops : MapOps σ)
    (exchange_byte : σ → σ) (s : σ) (g : SegState)
    (topofheap minheapoffset segbase segsize : Nat) : Res σ (Nat × Nat) :=
  if segsize = 0 then
    match ops.gasneti_do_munmap s g.gasneti_segment.addr g.gasneti_segment.size with
    | .ok _ s1 => .ok (NULL, 0) s1
    | .fatal e s1 => .fatal e s1
    | .fault s1 => .fault s1
  else
    match gasneti_segmentAttach_heapcheck cfg g.gasneti_segment topofheap minheapoffset
        segbase segsize with
    | .error e => .fatal e s
    | .ok (segbase1, segsize1) =>
      let trim : Bool :=
        if cfg.GASNET_PSHM = true then true
        else decide (g.gasneti_segment.addr ≠ segbase1 ∨ g.gasneti_segment.size ≠ segsize1)
      let afterUnmap : Res σ Unit :=
        if trim = true then ops.gasneti_do_munmap s g.gasneti_segment.addr g.gasneti_segment.size
        else .ok () s
      match afterUnmap with
      | .fatal e s1 => .fatal e s1
      | .fault s1 => .fault s1
      | .ok _ s1 =>
        let s2 := if cfg.GASNETI_BUG3480_WORKAROUND = true then exchange_byte s1 else s1
        if trim = true then
          match ops.gasneti_do_mmap_fixed s2 segbase1 segsize1 with
          | .ok p s3 =>
            .ok (if cfg.GASNETI_PSHM_MAP_FIXED_IGNORED = true then p else segbase1, segsize1) s3
          | .fatal e s3 => .fatal e s3
          | .fault s3 => .fault s3
        else .ok (segbase1, segsize1) s2

/-- The loop of `gasneti_segmentAttach` (PSHM) over the local ranks `i`: each peer's
segment is mapped with `gasneti_mmap_remote_shared(NULL, size, i)` and the difference to
the peer's published address is stored in `gasneti_nodeinfo[node].offset`. -/
def gasneti_segmentAttach_remote {σ : Type} (cfg : Config) (topo : Topo) (pshm : PshmOps σ)
    (minheapoffset : Nat) (seginfo : List gasnet_seginfo_t) :
    List Nat → σ → SegState → Res (σ × SegState) Unit
  | [], s, g => .ok () (s, g)
  | i :: rest, s, g =>
    if i ≠ topo.gasneti_pshm_mynode then
      let node := topo.gasneti_nodemap_local.getD i 0
      let size := (seginfo.getD node ⟨0, 0⟩).size
      match pshm.gasneti_mmap_remote_shared s NULL size i with
      | .fatal e s1 => .fatal e (s1, g)
      | .fault s1 => .fault (s1, g)
      | .ok segbase s1 =>
        if segbase ≥ g.gasneti_myheapend ∧
            segbase < uadd cfg g.gasneti_myheapend minheapoffset then
          .fatal Fatal.minheapoffset_too_large_remote (s1, g)
        else
          gasneti_segmentAttach_remote cfg topo pshm minheapoffset seginfo rest s1
            { g with
              gasneti_nodeinfo_offset :=
                Function.update g.gasneti_nodeinfo_offset node
                  (usub cfg segbase (seginfo.getD node ⟨0, 0⟩).addr)
              attached := g.attached ++ [(i, segbase)] }
    else gasneti_segmentAttach_remote cfg topo pshm minheapoffset seginfo rest s g

/-- The PSHM part at the end of `gasneti_segmentAttach`: the own offset is 0, the peers'
segments are attached, then barrier, `gasneti_cleanup_shm`, barrier.  The function
`gasneti_export_segment` is empty for the backends embedded here. -/
def gasneti_segmentAttach_pshm {σ : Type} (cfg : Config) (topo : Topo) (pshm : PshmOps σ)
    (minheapoffset : Nat) (seginfo : List gasnet_seginfo_t) (s : σ) (g : SegState) :
    Res (σ × SegState) Unit :=
  match gasneti_segmentAttach_remote cfg topo pshm minheapoffset seginfo
      (List.range topo.gasneti_pshm_nodes) s
      { g with
        gasneti_nodeinfo_offset :=
          Function.update g.gasneti_nodeinfo_offset topo.gasneti_mynode 0 } with
  | .fatal e sg => .fatal e sg
  | .fault sg => .fault sg
  | .ok _ (s1, g1) =>
    match pshm.gasneti_cleanup_shm (pshm.gasneti_pshmnet_bootstrapBarrier s1) with
    | .ok _ s2 => .ok () (pshm.gasneti_pshmnet_bootstrapBarrier s2, g1)
    | .fatal e s2 => .fatal e (s2, g1)
    | .fault s2 => .fault (s2, g1)

/-- The function `gasneti_segmentAttach` (build with `GASNETI_MMAP_OR_PSHM`); the result is
the table written to `seginfo`.  The C code passes one `exchangefn`; it is used on three
kinds of payload, given here as `exchange_segexch`, `exchange_byte` and
`exchange_seginfo`. -/
def gasneti_segmentAttach {σ : Type} (cfg : Config) (topo : Topo) (ops : MapOps σ)
    (pshm : PshmOps σ)
    (exchange_segexch : σ → gasneti_segexch_t → List gasneti_segexch_t × σ)
    (exchange_byte : σ → σ)
    (exchange_seginfo : σ → gasnet_seginfo_t → List gasnet_seginfo_t × σ)
    (s : σ) (g : SegState) (segsize minheapoffset : Nat) :
    Res (σ × SegState) (List gasnet_seginfo_t) :=
  let s0 := if cfg.GASNET_PSHM = true then pshm.gasneti_pshmnet_bootstrapBarrier s else s
  match gasneti_segmentAttach_place cfg topo exchange_segexch s0 g segsize with
  | ((segbase, topofheap), s1, g1) =>
    match gasneti_segmentAttach_map cfg ops exchange_byte s1 g1 topofheap minheapoffset
        segbase segsize with
    | .fatal e s2 => .fatal e (s2, g1)
    | .fault s2 => .fault (s2, g1)
    | .ok (segbase1, segsize1) s2 =>
      let g2 : SegState :=
        { g1 with gasneti_segexch := none, gasneti_segment := ⟨segbase1, segsize1⟩ }
      match exchange_seginfo s2 ⟨segbase1, segsize1⟩ with
      | (seginfo, s3) =>
        if cfg.GASNET_ALIGNED_SEGMENTS = true ∧ segsize1 > 0 ∧
            (seginfo.take topo.gasneti_nodes).any
              (fun e => decide (e.size ≠ 0 ∧ e.addr ≠ segbase1)) = true then
          .fatal Fatal.aligned_segments_failed (s3, g2)
        else if cfg.GASNET_PSHM = true then
          match gasneti_segmentAttach_pshm cfg topo pshm minheapoffset seginfo s3 g2 with
          | .ok _ sg => .ok seginfo sg
          | .fatal e sg => .fatal e sg
          | .fault sg => .fault sg
        else .ok seginfo (s3, g2)

/-! ## `gasneti_mmapLimit` -/

/-- The start of `gasneti_mmapLimit` (not Blue Gene/Q): "Apply system-dependent defaults"
and "Apply intial limits".  `nodemem` is the value of `gasneti_getPhysMemSz(0)`.  Gives
`maxsz` and the `sharedLimit` in force. -/
def gasneti_mmapLimit_clamp (cfg : Config) (nodemem localLimit sharedLimit : Nat) : Nat × Nat :=
  let sharedLimit1 :=
    if sharedLimit = UINT64_MAX then (if nodemem ≠ 0 then nodemem else sharedLimit)
    else sharedLimit
  let localLimit1 := if localLimit > sharedLimit1 then sharedLimit1 % wordMod cfg else localLimit
  (min cfg.GASNETI_MMAP_LIMIT localLimit1, sharedLimit1)

/-- The step "Ensure our probe will not collectively exceed the shareLimit, if any" of
`gasneti_mmapLimit`, followed by `maxsz = gasneti_mmap_aligndown(maxsz)`.  The inner test
is compiled only where `SIZEOF_VOID_P != 8`. -/
def gasneti_mmapLimit_share (cfg : Config) (local_count sharedLimit maxsz : Nat) : Nat :=
  gasneti_mmap_aligndown cfg
    (if sharedLimit ≠ UINT64_MAX ∧ local_count > 1 then
      if cfg.wordBits = 64 ∨ sharedLimit / local_count < UINTPTR_MAX cfg then
        min maxsz ((sharedLimit / local_count) % wordMod cfg)
      else maxsz
    else maxsz)

/-- The block "Find widest host" of `gasneti_mmapLimit`: the number of rounds.  The array
`tmp` of per-host counters is a function, all zero at the start; the source asserts
`host < num_hosts`. -/
def gasneti_mmapLimit_widest (topo : Topo) : Nat :=
  ((topo.nodeinfo_host.take topo.gasneti_nodes).foldl
    (fun (acc : (Nat → Nat) × Nat) host =>
      (Function.update acc.1 host (acc.1 host + 1), max acc.2 (acc.1 host + 1)))
    (fun _ => 0, 0)).2

/-- The loop `for (i = 0; i < rounds; ++i)` of `gasneti_mmapLimit` over the rounds still
to run: the process probes in the round equal to `gasneti_myhost.node_rank`, and every
round ends with `(*barrierfn)()`. -/
def gasneti_mmapLimit_rounds {σ : Type} (cfg : Config) (topo : Topo) (ops : MapOps σ)
    (barrierfn : σ → σ) (fuel maxsz : Nat) :
    List Nat → σ → gasnet_seginfo_t → Option (Res σ gasnet_seginfo_t)
  | [], s, se => some (.ok se s)
  | i :: rest, s, se =>
    if i = topo.myhost_node_rank then
      match _gasneti_mmap_segment_search_inner cfg ops fuel s maxsz with
      | none => none
      | some (.fatal e s1) => some (.fatal e s1)
      | some (.fault s1) => some (.fault s1)
      | some (.ok se1 s1) =>
        gasneti_mmapLimit_rounds cfg topo ops barrierfn fuel maxsz rest (barrierfn s1) se1
    else gasneti_mmapLimit_rounds cfg topo ops barrierfn fuel maxsz rest (barrierfn s) se

/-- The loop `for (i = 0; i < gasneti_nodemap_local_count; ++i)` of `gasneti_mmapLimit`
(PSHM, host equal to supernode) over the rounds still to run, on the locals `se`, `maxsz`
and `sz_exchg`: the process probes in the round equal to `gasneti_nodemap_local_rank`, and
every round ends with a broadcast of `maxsz` from the local rank `i`. -/
def gasneti_mmapLimit_pshm_rounds {σ : Type} (cfg : Config) (topo : Topo) (ops : MapOps σ)
    (pshm : PshmOps σ) (fuel : Nat) :
    List Nat → σ → gasnet_seginfo_t → Nat → List Nat →
      Option (Res σ (gasnet_seginfo_t × Nat × List Nat))
  | [], s, se, maxsz, sz_exchg => some (.ok (se, maxsz, sz_exchg) s)
  | i :: rest, s, se, maxsz, sz_exchg =>
    let probed : Option (Res σ gasnet_seginfo_t) :=
      if i = topo.gasneti_nodemap_local_rank then
        _gasneti_mmap_segment_search_inner cfg ops fuel s maxsz
      else some (.ok se s)
    match probed with
    | none => none
    | some (.fatal e s1) => some (.fatal e s1)
    | some (.fault s1) => some (.fault s1)
    | some (.ok se1 s1) =>
      let maxsz1 := if i = topo.gasneti_nodemap_local_rank then se1.size else maxsz
      match pshm.gasneti_pshmnet_bootstrapBroadcast s1 maxsz1 i with
      | (maxsz2, s2) =>
        gasneti_mmapLimit_pshm_rounds cfg topo ops pshm fuel rest s2 se1 maxsz2
          (sz_exchg.set (topo.gasneti_nodemap_local.getD i 0) maxsz2)

/-- The `uint64_t` sum of the loop "Compute the host-local mean" of `gasneti_mmapLimit`. -/
def gasneti_mmapLimit_sum (topo : Topo) (sz_exchg : List Nat) : Nat :=
  (List.range topo.myhost_node_count).foldl
    (fun sum i => (sum + sz_exchg.getD (topo.myhost_nodes.getD i 0) 0) % 2 ^ 64) 0

/-- The host-local mean of `gasneti_mmapLimit`:
`gasneti_mmap_aligndown(sum / local_count)`, for `local_count` not 0. -/
def gasneti_mmapLimit_mean (cfg : Config) (topo : Topo) (sz_exchg : List Nat) : Nat :=
  gasneti_mmap_aligndown cfg
    ((gasneti_mmapLimit_sum topo sz_exchg / topo.myhost_node_count) % wordMod cfg)

/-- The first `for` loop of a pass of the `do`/`while` loop of `gasneti_mmapLimit` (PSHM,
local rank 0): `acc` holds the entries `tmp_se[0..i)` already probed in this pass, the list
argument the entries `tmp_se[i..n)` still to go.  Gives `tmp_se`, `sum` and `done`; a probe
smaller than `GASNETI_MMAP_GRANULARITY` leaves the loop by `break`. -/
def gasneti_mmapLimit_shrink_probe {σ : Type} (cfg : Config) (topo : Topo) (ops : MapOps σ)
    (pshm : PshmOps σ) (fuel maxsz : Nat) :
    List gasnet_seginfo_t → List gasnet_seginfo_t → σ → Nat → Bool →
      Option (Res σ (List gasnet_seginfo_t × Nat × Bool))
  | acc, [], s, sum, done => some (.ok (acc, sum, done) s)
  | acc, _ :: rest, s, sum, done =>
    match _gasneti_mmap_segment_search_inner cfg ops fuel s maxsz with
    | none => none
    | some (.fatal e s1) => some (.fatal e s1)
    | some (.fault s1) => some (.fault s1)
    | some (.ok se s1) =>
      match pshm.gasneti_pshm_unlink s1 topo.gasneti_pshm_mynode with
      | .fatal e s2 => some (.fatal e s2)
      | .fault s2 => some (.fault s2)
      | .ok _ s2 =>
        if se.size ≠ maxsz then
          if se.size < cfg.GASNETI_MMAP_GRANULARITY then
            some (.ok (acc ++ se :: rest, (sum + se.size) % 2 ^ 64, false) s2)
          else
            gasneti_mmapLimit_shrink_probe cfg topo ops pshm fuel maxsz (acc ++ [se]) rest s2
              ((sum + se.size) % 2 ^ 64) false
        else
          gasneti_mmapLimit_shrink_probe cfg topo ops pshm fuel maxsz (acc ++ [se]) rest s2
            ((sum + se.size) % 2 ^ 64) done

/-- The second `for` loop of a pass: every entry of `tmp_se` with a non-zero size is
unmapped and its size set to 0. -/
def gasneti_mmapLimit_shrink_unmap {σ : Type} (ops : MapOps σ) :
    List gasnet_seginfo_t → List gasnet_seginfo_t → σ → Res σ (List gasnet_seginfo_t)
  | acc, [], s => .ok acc s
  | acc, e :: rest, s =>
    let unmapped : Res σ Unit :=
      if e.size ≠ 0 then ops.gasneti_do_munmap s e.addr e.size else .ok () s
    match unmapped with
    | .fatal err s1 => .fatal err s1
    | .fault s1 => .fault s1
    | .ok _ s1 => gasneti_mmapLimit_shrink_unmap ops (acc ++ [⟨e.addr, 0⟩]) rest s1

/-- The `do`/`while (!done)` loop of `gasneti_mmapLimit` (PSHM, local rank 0) on `tmp_se`
and `maxsz`, with `passes` bounding the number of passes and `fuel` the probes of one
search.  A division by `gasneti_pshm_nodes = 0` is a fault. -/
def gasneti_mmapLimit_shrink {σ : Type} (cfg : Config) (topo : Topo) (ops : MapOps σ)
    (pshm : PshmOps σ) (fuel : Nat) :
    Nat → σ → List gasnet_seginfo_t → Nat → Option (Res σ Nat)
  | 0, _, _, _ => none
  | passes + 1, s, tmp_se, maxsz =>
    match gasneti_mmapLimit_shrink_probe cfg topo ops pshm fuel maxsz [] tmp_se s 0 true with
    | none => none
    | some (.fatal e s1) => some (.fatal e s1)
    | some (.fault s1) => some (.fault s1)
    | some (.ok (tmp1, sum, done) s1) =>
      match gasneti_mmapLimit_shrink_unmap ops [] tmp1 s1 with
      | .fatal e s2 => some (.fatal e s2)
      | .fault s2 => some (.fault s2)
      | .ok tmp2 s2 =>
        if topo.gasneti_pshm_nodes = 0 then some (.fault s2)
        else
          let maxsz1 :=
            gasneti_mmap_aligndown cfg ((sum / topo.gasneti_pshm_nodes) % wordMod cfg)
          if done = true then some (.ok maxsz1 s2)
          else gasneti_mmapLimit_shrink cfg topo ops pshm fuel passes s2 tmp2 maxsz1

/-- The PSHM block of `gasneti_mmapLimit` after the host-local mean (not
`GASNETI_PSHM_GHEAP`): the own probe is unmapped, the segments unlinked, local rank 0 runs
the `do`/`while` loop, `maxsz` is broadcast from local rank 0 and the segments are unlinked
again.  Gives `maxsz`; `se.size` is 0 afterwards. -/
def gasneti_mmapLimit_pshm_block {σ : Type} (cfg : Config) (topo : Topo) (ops : MapOps σ)
    (pshm : PshmOps σ) (fuel : Nat) (s : σ) (se : gasnet_seginfo_t) (maxsz : Nat) :
    Option (Res σ Nat) :=
  let unmapped : Res σ Unit :=
    if se.size ≠ 0 then ops.gasneti_do_munmap s se.addr se.size else .ok () s
  match unmapped with
  | .fatal e s1 => some (.fatal e s1)
  | .fault s1 => some (.fault s1)
  | .ok _ s1 =>
    match pshm.gasneti_unlink_segments s1 with
    | .fatal e s2 => some (.fatal e s2)
    | .fault s2 => some (.fault s2)
    | .ok _ s2 =>
      let shrunk : Option (Res σ Nat) :=
        if topo.gasneti_pshm_mynode = 0 then
          gasneti_mmapLimit_shrink cfg topo ops pshm fuel fuel s2
            (List.replicate topo.gasneti_pshm_nodes ⟨0, 0⟩) maxsz
        else some (.ok maxsz s2)
      match shrunk with
      | none => none
      | some (.fatal e s3) => some (.fatal e s3)
      | some (.fault s3) => some (.fault s3)
      | some (.ok maxsz1 s3) =>
        match pshm.gasneti_pshmnet_bootstrapBroadcast s3 maxsz1 0 with
        | (maxsz2, s4) =>
          match pshm.gasneti_unlink_segments s4 with
          | .fatal e s5 => some (.fatal e s5)
          | .fault s5 => some (.fault s5)
          | .ok _ s5 => some (.ok maxsz2 s5)

/-- The probing phase of `gasneti_mmapLimit` when nodes are shared: the PSHM rounds when
host and supernode coincide, else the rounds with barriers, and nothing at all when the
candidate `maxsz` is 0.  Gives `se`, `maxsz` and `sz_exchg`. -/
def gasneti_mmapLimit_probe {σ : Type} (cfg : Config) (topo : Topo) (ops : MapOps σ)
    (pshm : PshmOps σ) (barrierfn : σ → σ) (fuel : Nat) (s : σ) (maxsz : Nat)
    (sz_exchg : List Nat) : Option (Res σ (gasnet_seginfo_t × Nat × List Nat)) :=
  if cfg.GASNET_PSHM = true ∧ maxsz ≠ 0 ∧
      topo.myhost_grp_count = topo.mysupernode_grp_count then
    gasneti_mmapLimit_pshm_rounds cfg topo ops pshm fuel
      (List.range topo.gasneti_nodemap_local_count) s ⟨0, 0⟩ maxsz sz_exchg
  else if maxsz ≠ 0 then
    match gasneti_mmapLimit_rounds cfg topo ops barrierfn fuel maxsz
        (List.range (gasneti_mmapLimit_widest topo)) s ⟨0, 0⟩ with
    | none => none
    | some (.fatal e s1) => some (.fatal e s1)
    | some (.fault s1) => some (.fault s1)
    | some (.ok se s1) => some (.ok (se, maxsz, sz_exchg) s1)
  else some (.ok (⟨0, 0⟩, maxsz, sz_exchg) s)

/-- The function `gasneti_mmapLimit` (build with `GASNETI_MMAP_OR_PSHM`, not Blue Gene/Q,
not `GASNETI_PSHM_GHEAP`).  `nodemem` is the value of `gasneti_getPhysMemSz(0)`,
`sz_exchg0` the contents of the fresh array `sz_exchg`; `exchangefn` sends one word and
fills the array, `barrierfn` is the barrier.  A division by `local_count = 0` is a
fault. -/
def gasneti_mmapLimit {σ : Type} (cfg : Config) (topo : Topo) (ops : MapOps σ)
    (pshm : PshmOps σ) (nodemem : Nat) (sz_exchg0 : List Nat)
    (exchangefn : σ → Nat → List Nat → List Nat × σ) (barrierfn : σ → σ)
    (fuel : Nat) (s : σ) (localLimit sharedLimit : Nat) : Option (Res σ Nat) :=
  if topo.myhost_grp_count ≠ topo.gasneti_nodes then
    match gasneti_mmapLimit_probe cfg topo ops pshm barrierfn fuel s
        (gasneti_mmapLimit_share cfg topo.myhost_node_count
          (gasneti_mmapLimit_clamp cfg nodemem localLimit sharedLimit).2
          (gasneti_mmapLimit_clamp cfg nodemem localLimit sharedLimit).1) sz_exchg0 with
    | none => none
    | some (.fatal e s1) => some (.fatal e s1)
    | some (.fault s1) => some (.fault s1)
    | some (.ok (se, _, sz_exchg) s1) =>
      match exchangefn s1 se.size sz_exchg with
      | (sz_exchg1, s2) =>
        if topo.myhost_node_count = 0 then some (.fault s2)
        else
          let after : Option (Res σ (gasnet_seginfo_t × Nat)) :=
            if cfg.GASNET_PSHM = true then
              match gasneti_mmapLimit_pshm_block cfg topo ops pshm fuel s2 se
                  (gasneti_mmapLimit_mean cfg topo sz_exchg1) with
              | none => none
              | some (.fatal e s3) => some (.fatal e s3)
              | some (.fault s3) => some (.fault s3)
              | some (.ok maxsz2 s3) => some (.ok (⟨se.addr, 0⟩, maxsz2) s3)
            else some (.ok (se, gasneti_mmapLimit_mean cfg topo sz_exchg1) s2)
          match after with
          | none => none
          | some (.fatal e s3) => some (.fatal e s3)
          | some (.fault s3) => some (.fault s3)
          | some (.ok (se1, maxsz2) s3) =>
            let unmapped : Res σ Unit :=
              if se1.size ≠ 0 then ops.gasneti_do_munmap s3 se1.addr se1.size else .ok () s3
            match unmapped with
            | .fatal e s4 => some (.fatal e s4)
            | .fault s4 => some (.fault s4)
            | .ok _ s4 => some (.ok maxsz2 (barrierfn s4))
  else some (.ok (gasneti_mmapLimit_clamp cfg nodemem localLimit sharedLimit).1 s)

/-- The PSHM functions of this file over `World`, for the FILE and POSIX backends; the two
supernode collectives are passed in. -/
def gasneti_pshm_ops {σ : Type} (cfg : Config) (os : OS σ)
    (bcast : World σ → Nat → Nat → Nat × World σ) (barrier : World σ → World σ) :
    PshmOps (World σ) where
  gasneti_pshm_unlink w r := gasneti_pshm_unlink cfg w r
  gasneti_unlink_segments w := gasneti_unlink_segments cfg w
  gasneti_cleanup_shm w := gasneti_cleanup_shm cfg w
  gasneti_mmap_remote_shared w segbase segsize pshmnode :=
    gasneti_mmap_remote_shared cfg os w segbase segsize pshmnode
  gasneti_pshmnet_bootstrapBroadcast := bcast
  gasneti_pshmnet_bootstrapBarrier := barrier

/-- The collectives of a supernode with one process: a broadcast hands back the value
sent, a barrier does nothing. -/
def soloPshm (cfg : Config) (os : OS Unit) : PshmOps (World Unit) :=
  gasneti_pshm_ops cfg os (fun w v _ => (v, w)) id

/-- A build like `cfgMmap` with `GASNET_ALIGNED_SEGMENTS`. -/
def cfgAligned : Config := { cfgMmap with GASNET_ALIGNED_SEGMENTS := true }

/-- A job of two processes on two hosts, seen from node 0. -/
def topoTwoHosts : Topo where
  gasneti_nodes := 2
  gasneti_mynode := 0
  myhost_grp_count := 2
  myhost_node_count := 1
  myhost_node_rank := 0
  myhost_nodes := [0]
  mysupernode_grp_count := 2
  gasneti_nodemap_local_count := 1
  gasneti_nodemap_local_rank := 0
  gasneti_nodemap_local := [0]
  nodeinfo_host := [0, 1]
  gasneti_pshm_nodes := 1
  gasneti_pshm_mynode := 0

/-- A job of two processes on one host (one supernode), seen from node 0. -/
def topoOneHost : Topo where
  gasneti_nodes := 2
  gasneti_mynode := 0
  myhost_grp_count := 1
  myhost_node_count := 2
  myhost_node_rank := 0
  myhost_nodes := [0, 1]
  mysupernode_grp_count := 1
  gasneti_nodemap_local_count := 2
  gasneti_nodemap_local_rank := 0
  gasneti_nodemap_local := [0, 1]
  nodeinfo_host := [0, 0]
  gasneti_pshm_nodes := 2
  gasneti_pshm_mynode := 0

/-- The process of local rank 0 on a host with two processes, at the start of
`gasneti_segmentAttach`: the name table is set up, the marker file exists and the peer
(local rank 1) has created its segment object. -/
def worldTwoRank0 : World Unit where
  os := ()
  errno := 0
  fs := [(ObjKind.file, "/tmp/GASNTabcdef".toList), (ObjKind.shm, "/GASNTabcdef001".toList)]
  gasneti_pshm_nodes := 2
  gasneti_pshm_mynode := 0
  gasneti_pshmname := some ["/GASNTabcdef000".toList, "/GASNTabcdef001".toList,
    "/GASNTabcdef002".toList]
  gasneti_pshm_tmpfile := some "/tmp/GASNTabcdef".toList
  unlink_log := []

/-- The value a call returned, if it ended and returned. -/
def retValue {σ α : Type} (r : Option (Res σ α)) : Option α := r.bind Res.value

/-! ## The serial schedule of the probing phase, written out -/

/-- Spec side: the rounds with barriers as a schedule.  With `rounds` rounds, a process
whose rank within its host is below `rounds` passes that many barriers, probes once, and
passes the remaining barriers, the first of them closing its own round; a process of
higher rank only passes the barriers. -/
def gasneti_mmapLimit_rounds_serial {σ : Type} (cfg : Config) (topo : Topo) (ops : MapOps σ)
    (barrierfn : σ → σ) (fuel maxsz rounds : Nat) (s : σ) (se : gasnet_seginfo_t) :
    Option (Res σ gasnet_seginfo_t) :=
  if topo.myhost_node_rank < rounds then
    match _gasneti_mmap_segment_search_inner cfg ops fuel
        (Nat.iterate barrierfn topo.myhost_node_rank s) maxsz with
    | none => none
    | some (.fatal e s1) => some (.fatal e s1)
    | some (.fault s1) => some (.fault s1)
    | some (.ok se1 s1) =>
      some (.ok se1 (Nat.iterate barrierfn (rounds - topo.myhost_node_rank) s1))
  else some (.ok se (Nat.iterate barrierfn rounds s))

/-- Spec side: rounds of the PSHM schedule in which the process does not probe: in round
`i` it takes part in the broadcast rooted at local rank `i`, adopts the value received and
notes it in `sz_exchg`. -/
def gasneti_mmapLimit_bcast_rounds {σ : Type} (topo : Topo) (pshm : PshmOps σ) :
    List Nat → σ → Nat → List Nat → (Nat × List Nat) × σ
  | [], s, maxsz, sz_exchg => ((maxsz, sz_exchg), s)
  | i :: rest, s, maxsz, sz_exchg =>
    gasneti_mmapLimit_bcast_rounds topo pshm rest
      (pshm.gasneti_pshmnet_bootstrapBroadcast s maxsz i).2
      (pshm.gasneti_pshmnet_bootstrapBroadcast s maxsz i).1
      (sz_exchg.set (topo.gasneti_nodemap_local.getD i 0)
        (pshm.gasneti_pshmnet_bootstrapBroadcast s maxsz i).1)

/-- Spec side: the PSHM rounds as a schedule.  With `rounds` rounds, a process whose local
rank is below `rounds` takes part in the broadcasts of the rounds before its own, probes
once with the candidate it then holds, and goes on with the broadcasts from its own round
on, sending the size it found; a process of higher local rank only takes part in the
broadcasts. -/
def gasneti_mmapLimit_pshm_rounds_serial {σ : Type} (cfg : Config) (topo : Topo)
    (ops : MapOps σ) (pshm : PshmOps σ) (fuel rounds : Nat) (s : σ) (se : gasnet_seginfo_t)
    (maxsz : Nat) (sz_exchg : List Nat) :
    Option (Res σ (gasnet_seginfo_t × Nat × List Nat)) :=
  if topo.gasneti_nodemap_local_rank < rounds then
    match _gasneti_mmap_segment_search_inner cfg ops fuel
        (gasneti_mmapLimit_bcast_rounds topo pshm
          (List.range' 0 topo.gasneti_nodemap_local_rank) s maxsz sz_exchg).2
        (gasneti_mmapLimit_bcast_rounds topo pshm
          (List.range' 0 topo.gasneti_nodemap_local_rank) s maxsz sz_exchg).1.1 with
    | none => none
    | some (.fatal e s1) => some (.fatal e s1)
    | some (.fault s1) => some (.fault s1)
    | some (.ok se1 s1) =>
      some (.ok
        (se1,
          (gasneti_mmapLimit_bcast_rounds topo pshm
            (List.range' topo.gasneti_nodemap_local_rank
              (rounds - topo.gasneti_nodemap_local_rank)) s1 se1.size
            (gasneti_mmapLimit_bcast_rounds topo pshm
              (List.range' 0 topo.gasneti_nodemap_local_rank) s maxsz sz_exchg).1.2).1)
        (gasneti_mmapLimit_bcast_rounds topo pshm
          (List.range' topo.gasneti_nodemap_local_rank
            (rounds - topo.gasneti_nodemap_local_rank)) s1 se1.size
          (gasneti_mmapLimit_bcast_rounds topo pshm
            (List.range' 0 topo.gasneti_nodemap_local_rank) s maxsz sz_exchg).1.2).2)
  else
    some (.ok
      (se, (gasneti_mmapLimit_bcast_rounds topo pshm (List.range' 0 rounds) s maxsz sz_exchg).1)
      (gasneti_mmapLimit_bcast_rounds topo pshm (List.range' 0 rounds) s maxsz sz_exchg).2)

/-- Spec side: the probing phase as a schedule: the PSHM rounds, one per process of the
caller's supernode, when host and supernode coincide; else the rounds with barriers, one
per process of the widest host; and no round at all for a candidate of 0. -/
def gasneti_mmapLimit_probe_serial {σ : Type} (cfg : Config) (topo : Topo) (ops : MapOps σ)
    (pshm : PshmOps σ) (barrierfn : σ → σ) (fuel : Nat) (s : σ) (maxsz : Nat)
    (sz_exchg : List Nat) : Option (Res σ (gasnet_seginfo_t × Nat × List Nat)) :=
  if maxsz = 0 then some (.ok (⟨0, 0⟩, maxsz, sz_exchg) s)
  else if cfg.GASNET_PSHM = true ∧ topo.myhost_grp_count = topo.mysupernode_grp_count then
    gasneti_mmapLimit_pshm_rounds_serial cfg topo ops pshm fuel
      topo.gasneti_nodemap_local_count s ⟨0, 0⟩ maxsz sz_exchg
  else
    match gasneti_mmapLimit_rounds_serial cfg topo ops barrierfn fuel maxsz
        (gasneti_mmapLimit_widest topo) s ⟨0, 0⟩ with
    | none => none
    | some (.fatal e s1) => some (.fatal e s1)
    | some (.fault s1) => some (.fault s1)
    | some (.ok se s1) => some (.ok (se, maxsz, sz_exchg) s1)

/-- What the bounds on a probe need of the build and of the mapping primitives: the page
size is positive, divides the number of machine words and is at most the search
granularity, and a non-fixed mapping returns a machine word that is `MAP_FAILED` or page
aligned. -/
def AlignedMaps {σ : Type} (cfg : Config) (ops : MapOps σ) : Prop :=
  0 < cfg.GASNET_PAGESIZE ∧ cfg.GASNET_PAGESIZE ∣ wordMod cfg ∧
  cfg.GASNET_PAGESIZE ≤ cfg.GASNETI_MMAP_GRANULARITY ∧
  ∀ s sz a s1, ops.gasneti_do_mmap s sz = Res.ok a s1 →
    a < wordMod cfg ∧ (a = MAP_FAILED cfg ∨ cfg.GASNET_PAGESIZE ∣ a)

/-- What the bounds rely on of the supernode broadcast when every co-located process runs
the same call: the value received is at most the value the caller would have sent
("declining expectations"), and page aligned if that one is. -/
def BcastDeclines {σ : Type} (cfg : Config) (pshm : PshmOps σ) : Prop :=
  ∀ s v root, (pshm.gasneti_pshmnet_bootstrapBroadcast s v root).1 ≤ v ∧
    (cfg.GASNET_PAGESIZE ∣ v →
      cfg.GASNET_PAGESIZE ∣ (pshm.gasneti_pshmnet_bootstrapBroadcast s v root).1)

/-- A job of three processes on two hosts, two on host 0 and one on host 1, seen from
node 2, which is alone on its host and supernode. -/
def topoLoneOfThree : Topo where
  gasneti_nodes := 3
  gasneti_mynode := 2
  myhost_grp_count := 2
  myhost_node_count := 1
  myhost_node_rank := 0
  myhost_nodes := [2]
  mysupernode_grp_count := 2
  gasneti_nodemap_local_count := 1
  gasneti_nodemap_local_rank := 0
  gasneti_nodemap_local := [2]
  nodeinfo_host := [0, 0, 1]
  gasneti_pshm_nodes := 1
  gasneti_pshm_mynode := 0

/-- A process alone on its supernode in a PSHM build, after `gasneti_pshm_makeunique`: the
name table is set up and the marker file exists. -/
def worldLone : World Unit where
  os := ()
  errno := 0
  fs := [(ObjKind.file, "/tmp/GASNTabcdef".toList)]
  gasneti_pshm_nodes := 1
  gasneti_pshm_mynode := 0
  gasneti_pshmname := some ["/GASNTabcdef000".toList, "/GASNTabcdef001".toList]
  gasneti_pshm_tmpfile := some "/tmp/GASNTabcdef".toList
  unlink_log := []

/-! ## A model of the live mappings -/

/-- The live mappings that a list of regions stands for: the regions of non-zero size, as
pairs of base and size. -/
def liveOf (l : List gasnet_seginfo_t) : Multiset (Nat × Nat) :=
  ((l.filter (fun e => decide (e.size ≠ 0))).map (fun e => (e.addr, e.size)) :
    List (Nat × Nat))

/-- An observation `live` of the states is a model of the process's live mappings for the
mapping primitives: a non-fixed mapping either fails and changes nothing, or is granted
for a non-zero size at an aligned base other than `NULL` and adds that region; a fixed
mapping adds the requested region; an unmapping removes the region. -/
def LiveModel {σ : Type} (cfg : Config) (ops : MapOps σ) (live : σ → Multiset (Nat × Nat)) :
    Prop :=
  (∀ s sz a s1, ops.gasneti_do_mmap s sz = Res.ok a s1 →
    (a = MAP_FAILED cfg ∧ live s1 = live s) ∨
    (a ≠ MAP_FAILED cfg ∧ a ≠ NULL ∧ cfg.GASNET_PAGESIZE ∣ a ∧ a < wordMod cfg ∧ sz ≠ 0 ∧
      live s1 = (a, sz) ::ₘ live s)) ∧
  (∀ s a sz p s1, ops.gasneti_do_mmap_fixed s a sz = Res.ok p s1 →
    live s1 = (a, sz) ::ₘ live s) ∧
  (∀ s a sz u s1, ops.gasneti_do_munmap s a sz = Res.ok u s1 →
    live s1 = (live s).erase (a, sz))

/-- The PSHM functions called by `gasneti_mmapLimit` leave the live mappings as they
are: unlinking a name unmaps nothing, and neither does a broadcast. -/
def QuietPshm {σ : Type} (pshm : PshmOps σ) (live : σ → Multiset (Nat × Nat)) : Prop :=
  (∀ s r u s1, pshm.gasneti_pshm_unlink s r = Res.ok u s1 → live s1 = live s) ∧
  (∀ s u s1, pshm.gasneti_unlink_segments s = Res.ok u s1 → live s1 = live s) ∧
  (∀ s v root, live (pshm.gasneti_pshmnet_bootstrapBroadcast s v root).2 = live s)

/-- A simulated process whose state is the multiset of its live mappings: a non-fixed
mapping of `0 < size ≤ K` bytes is granted while fewer than 16 mappings are live, at a
stride of 4 GiB from `base`, and is refused with `MAP_FAILED` otherwise; a fixed mapping is
granted where requested; an unmapping removes the region. -/
def liveOps (cfg : Config) (K base : Nat) : MapOps (Multiset (Nat × Nat)) where
  gasneti_do_mmap s sz :=
    if sz ≠ 0 ∧ sz ≤ K ∧ Multiset.card s < 16 then
      .ok (base + 4294967296 * Multiset.card s)
        ((base + 4294967296 * Multiset.card s, sz) ::ₘ s)
    else .ok (MAP_FAILED cfg) s
  gasneti_do_mmap_fixed s a sz := .ok a ((a, sz) ::ₘ s)
  gasneti_do_munmap s a sz := .ok () (s.erase (a, sz))

/-- The PSHM functions of the simulated process of `liveOps`, alone on its supernode: they
map and unmap nothing apart from the attach of a remote segment at `base`, and a broadcast
hands back the value sent. -/
def livePshm (base : Nat) : PshmOps (Multiset (Nat × Nat)) where
  gasneti_pshm_unlink s _ := .ok () s
  gasneti_unlink_segments s := .ok () s
  gasneti_cleanup_shm s := .ok () s
  gasneti_mmap_remote_shared s _ segsize _ := .ok base ((base, segsize) ::ₘ s)
  gasneti_pshmnet_bootstrapBroadcast s v _ := (v, s)
  gasneti_pshmnet_bootstrapBarrier s := s

/-! ## A log of the granted probe sizes -/

/-- An observation `seen` of the states is a log of the sizes at which a non-fixed mapping
was granted: a granted mapping puts its size in front of the log, a refused one leaves
the log as it is, and so does an unmapping. -/
def SeenModel {σ : Type} (cfg : Config) (ops : MapOps σ) (seen : σ → List Nat) : Prop :=
  (∀ s sz a s1, ops.gasneti_do_mmap s sz = Res.ok a s1 →
    seen s1 = if a = MAP_FAILED cfg then seen s else sz :: seen s) ∧
  (∀ s a sz u s1, ops.gasneti_do_munmap s a sz = Res.ok u s1 → seen s1 = seen s)

/-- A simulated process whose state is the log of the sizes it was granted: a mapping of
`size` bytes succeeds iff `size ≤ K`, at `base` when the address is left to the system and
at the requested address when fixed. -/
def seenOps (cfg : Config) (K base : Nat) : MapOps (List Nat) where
  gasneti_do_mmap s sz := if sz ≤ K then .ok base (sz :: s) else .ok (MAP_FAILED cfg) s
  gasneti_do_mmap_fixed s a sz := if sz ≤ K then .ok a s else .ok (MAP_FAILED cfg) s
  gasneti_do_munmap s _ _ := .ok () s

/-! ## The retry of a fixed mapping as a schedule of attempts -/

/-- Spec side: the pause before the `k`-th retry in nanoseconds, `min(20 ms, 1 us * 2^(k-1))`. -/
def retry_delay (k : Nat) : Nat := min 20000000 (1000 * 2 ^ (k - 1))

/-- The end of `gasneti_mmap_fixed_with_retry` on a pointer that is `MAP_FAILED`:
`gasneti_cleanup_shm` in a PSHM build, then the fatal error "mmap fixed failed". -/
def gasneti_mmap_fixed_giveup {σ : Type} (cfg : Config) (w : World σ) : Res (World σ) Nat :=
  if cfg.GASNET_PSHM = true then cleanup_then_fatal cfg w Fatal.mmap_fixed_failed
  else .fatal Fatal.mmap_fixed_failed w

/-- Spec side: `gasneti_mmap_fixed_with_retry` as a schedule of attempts, entered after an
attempt has given `ptr` in the state `w`, with `left` retries left and `k` retries made.  A
mapped address is returned at once; a failure with an `errno` other than `ENOMEM`, or with
no retry left, is fatal; otherwise the process sleeps `retry_delay (k + 1)` and makes retry
number `k + 1`. -/
def gasneti_mmap_fixed_with_retry_spec {σ : Type} (cfg : Config) (os : OS σ)
    (segbase segsize : Nat) : Nat → Nat → World σ → Nat → Res (World σ) Nat
  | 0, _, w, ptr =>
    if ptr ≠ MAP_FAILED cfg then .ok ptr w else gasneti_mmap_fixed_giveup cfg w
  | left + 1, k, w, ptr =>
    if ptr ≠ MAP_FAILED cfg then .ok ptr w
    else if w.errno ≠ ENOMEM then gasneti_mmap_fixed_giveup cfg w
    else
      match gasneti_do_mmap_fixed_once cfg os
          { w with os := os.nsleep w.os (retry_delay (k + 1)) } segbase segsize with
      | .fatal e w2 => .fatal e w2
      | .fault w2 => .fault w2
      | .ok ptr1 w2 =>
        gasneti_mmap_fixed_with_retry_spec cfg os segbase segsize left (k + 1) w2 ptr1

/-- A host that refuses every mapping with `ENOMEM`; its state is the log of the calls
made to it, newest first: `0` for a call of `mmap` and the number of nanoseconds for a
call of `gasneti_nsleep`. -/
def refusingOS (cfg : Config) : OS (List Nat) where
  mmap k _ _ _ _ := (MAP_FAILED cfg, ENOMEM, 0 :: k)
  munmap k _ _ := (0, 0, k)
  open_error k _ _ := (none, k)
  ftruncate k _ _ := (0, 0, k)
  nsleep k ns := ns :: k

/-- A build with the workaround for bug 3480 and without PSHM. -/
def cfgRetry : Config := { cfgMmap with GASNETI_BUG3480_WORKAROUND := true }

/-! ## Aux-seg support -/

/-- Modelled from the spec: the macro `GASNETI_ALIGNUP(p, P)` of `gasnet_basic.h`, which is
not in the source tree.  The spec has each size "rounded up to cache-line size" and the
total "rounded up to a page boundary"; for a power of two `P` this is
`(p + P - 1) & ~(P - 1)` in machine arithmetic, the form in which the file defines
`GASNETI_PAGE_ALIGNUP`. -/
def GASNETI_ALIGNUP (cfg : Config) (p a : Nat) : Nat := uadd cfg p (a - 1) / a * a

/-- The structure `gasneti_auxseg_request_t`. -/
structure gasneti_auxseg_request_t where
  minsz : Nat
  optimalsz : Nat
deriving DecidableEq, Repr

/-- The type `gasneti_auxsegregfn_t` of a requester callback.  Called with `NULL` (`none`)
it answers the size query; called with the table of the windows of all nodes it takes its
window.  `ρ` is the state of the subsystems behind the callbacks. -/
abbrev gasneti_auxsegregfn_t (ρ : Type) : Type :=
  Option (List gasnet_seginfo_t) → ρ → gasneti_auxseg_request_t × ρ

/-- The statics of the aux-seg support and the tables `gasneti_seginfo_client`,
`gasneti_seginfo_ub` and `gasneti_seginfo_client_ub` that `gasneti_auxseg_attach` fills.
Two ghost fields: `queried` lists the indices of the requesters asked for their sizes so
far, and `granted` the tables handed to the requesters so far, both oldest first. -/
structure AuxState where
  gasneti_auxseg_total_alignedsz : gasneti_auxseg_request_t
  gasneti_auxseg_alignedsz : Option (List gasneti_auxseg_request_t)
  gasneti_auxseg_sz : Nat
  gasneti_auxseg_client_request_sz : Nat
  gasneti_seginfo_client : Option (List gasnet_seginfo_t)
  gasneti_seginfo_ub : Option (List Nat)
  gasneti_seginfo_client_ub : Option (List Nat)
  queried : List Nat
  granted : List (List gasnet_seginfo_t)
deriving DecidableEq, Repr

/-- The statics before the first call of `gasneti_auxseg_preinit`. -/
def AuxState.init : AuxState where
  gasneti_auxseg_total_alignedsz := ⟨0, 0⟩
  gasneti_auxseg_alignedsz := none
  gasneti_auxseg_sz := 0
  gasneti_auxseg_client_request_sz := 0
  gasneti_seginfo_client := none
  gasneti_seginfo_ub := none
  gasneti_seginfo_client_ub := none
  queried := []
  granted := []

/-- The loop "collect requests" of `gasneti_auxseg_preinit`, from index `i` on: each
requester is asked with `NULL`, its answer is stored in `gasneti_auxseg_alignedsz[i]` and
its sizes, rounded up to the cache line, are added to the totals. -/
def gasneti_auxseg_preinit_loop {ρ : Type} (cfg : Config) :
    List (gasneti_auxsegregfn_t ρ) → Nat → ρ → AuxState → ρ × AuxState
  | [], _, r, g => (r, g)
  | f :: rest, i, r, g =>
    gasneti_auxseg_preinit_loop cfg rest (i + 1) (f none r).2
      { g with
        gasneti_auxseg_alignedsz := g.gasneti_auxseg_alignedsz.map (fun a => a.set i (f none r).1)
        gasneti_auxseg_total_alignedsz :=
          ⟨uadd cfg g.gasneti_auxseg_total_alignedsz.minsz
              (GASNETI_ALIGNUP cfg (f none r).1.minsz cfg.GASNETI_CACHE_LINE_BYTES),
            uadd cfg g.gasneti_auxseg_total_alignedsz.optimalsz
              (GASNETI_ALIGNUP cfg (f none r).1.optimalsz cfg.GASNETI_CACHE_LINE_BYTES)⟩
        queried := g.queried ++ [i] }

/-- The function `gasneti_auxseg_preinit`: collect and return the optimal auxseg size sum,
padded to the page size.  `gasneti_auxsegfns` is the table of the requesters without its
closing `NULL`. -/
def gasneti_auxseg_preinit {ρ : Type} (cfg : Config)
    (gasneti_auxsegfns : List (gasneti_auxsegregfn_t ρ)) (r : ρ) (g : AuxState) :
    Nat × ρ × AuxState :=
  if g.gasneti_auxseg_sz ≠ 0 then (g.gasneti_auxseg_sz, r, g)
  else
    let numfns := gasneti_auxsegfns.length
    let g1 : AuxState :=
      if numfns > 0 then
        { g with gasneti_auxseg_alignedsz := some (List.replicate numfns ⟨0, 0⟩) }
      else g
    match gasneti_auxseg_preinit_loop cfg gasneti_auxsegfns 0 r g1 with
    | (r1, g2) =>
      let total : gasneti_auxseg_request_t :=
        ⟨GASNETI_PAGE_ALIGNUP cfg g2.gasneti_auxseg_total_alignedsz.minsz,
          GASNETI_PAGE_ALIGNUP cfg g2.gasneti_auxseg_total_alignedsz.optimalsz⟩
      (total.optimalsz, r1,
        { g2 with gasneti_auxseg_total_alignedsz := total, gasneti_auxseg_sz := total.optimalsz })

/-- The loop "break up fullseg into client seg and auxseg" of `gasneti_auxseg_attach`
(build with a segment, without `GASNETI_AUXSEG_PRESERVE_POW2_FULLSEGSZ`) for one node:
the entries of `gasneti_seginfo_client` and of `si`, in this order. -/
def gasneti_auxseg_attach_split (cfg : Config) (gasneti_auxseg_sz : Nat)
    (full : gasnet_seginfo_t) : gasnet_seginfo_t × gasnet_seginfo_t :=
  if cfg.GASNETI_FORCE_CLIENTSEG_TO_BASE = true then
    (⟨full.addr, usub cfg full.size gasneti_auxseg_sz⟩,
     ⟨uadd cfg full.addr (usub cfg full.size gasneti_auxseg_sz), gasneti_auxseg_sz⟩)
  else
    (⟨uadd cfg full.addr gasneti_auxseg_sz, usub cfg full.size gasneti_auxseg_sz⟩,
     ⟨full.addr, gasneti_auxseg_sz⟩)

/-- The loop of `gasneti_auxseg_attach` that fills the upper-bound tables, for one node:
a client segment of size 0 gets the base 0; gives the entries of `gasneti_seginfo_client`,
`gasneti_seginfo_client_ub` and `gasneti_seginfo_ub`, in this order. -/
def gasneti_auxseg_attach_ub (cfg : Config) (client full : gasnet_seginfo_t) :
    gasnet_seginfo_t × Nat × Nat :=
  (if client.size = 0 then ⟨0, client.size⟩ else client,
   if client.size = 0 then 0 else uadd cfg client.addr client.size,
   if full.size = 0 then 0 else uadd cfg full.addr full.size)

/-- The loop of `gasneti_auxseg_attach` over the requesters, from index `i` on: requester
`i` is called with the table `si`, and if another requester follows, every entry of `si` is
advanced by the optimal size of requester `i`, rounded up to the cache line, and gets the
optimal size of requester `i + 1`. -/
def gasneti_auxseg_attach_fns {ρ : Type} (cfg : Config) (numfns : Nat)
    (alignedsz : List gasneti_auxseg_request_t) :
    List (gasneti_auxsegregfn_t ρ) → Nat → List gasnet_seginfo_t → ρ → AuxState → ρ × AuxState
  | [], _, _, r, g => (r, g)
  | f :: rest, i, si, r, g =>
    let r1 := (f (some si) r).2
    let g1 := { g with granted := g.granted ++ [si] }
    if i + 1 < numfns then
      gasneti_auxseg_attach_fns cfg numfns alignedsz rest (i + 1)
        (si.map (fun e =>
          ⟨GASNETI_ALIGNUP cfg (uadd cfg e.addr (alignedsz.getD i ⟨0, 0⟩).optimalsz)
              cfg.GASNETI_CACHE_LINE_BYTES,
            (alignedsz.getD (i + 1) ⟨0, 0⟩).optimalsz⟩))
        r1 g1
    else gasneti_auxseg_attach_fns cfg numfns alignedsz rest (i + 1) si r1 g1

/-- The function `gasneti_auxseg_attach` (build with a segment, without
`GASNETI_AUXSEG_PRESERVE_POW2_FULLSEGSZ`): provide the auxseg to the requesters and fill
the secondary segment tables.  `gasneti_seginfo` is the table of the full segments of the
`gasneti_nodes` nodes.  Reading `gasneti_auxseg_alignedsz` while it is `NULL` is a fault. -/
def gasneti_auxseg_attach {ρ : Type} (cfg : Config) (gasneti_nodes : Nat)
    (gasneti_auxsegfns : List (gasneti_auxsegregfn_t ρ))
    (gasneti_seginfo : List gasnet_seginfo_t) (r : ρ) (g : AuxState) :
    Res (ρ × AuxState) Unit :=
  let full := gasneti_seginfo.take gasneti_nodes
  let split := full.map (gasneti_auxseg_attach_split cfg g.gasneti_auxseg_sz)
  let ub := List.zipWith (gasneti_auxseg_attach_ub cfg) (split.map Prod.fst) full
  let g1 : AuxState :=
    { g with
      gasneti_seginfo_client := some (ub.map (fun x => x.1))
      gasneti_seginfo_client_ub := some (ub.map (fun x => x.2.1))
      gasneti_seginfo_ub := some (ub.map (fun x => x.2.2)) }
  if gasneti_auxsegfns.length > 0 then
    match g.gasneti_auxseg_alignedsz with
    | none => .fault (r, g1)
    | some alignedsz =>
      match gasneti_auxseg_attach_fns cfg gasneti_auxsegfns.length alignedsz gasneti_auxsegfns 0
          ((split.map Prod.snd).map (fun e => ⟨e.addr, (alignedsz.getD 0 ⟨0, 0⟩).optimalsz⟩))
          r g1 with
      | (r1, g2) => .ok () (r1, g2)
  else .ok () (r, g1)

/-- A requester that answers every call with the same sizes and keeps a count of its
calls in the state. -/
def countingRequester (q : gasneti_auxseg_request_t) : gasneti_auxsegregfn_t Nat :=
  fun _ n => (q, n + 1)

/-- The answers that the requesters give to the size query when they are asked in
registration order, starting in the state `r`. -/
def auxseg_answers {ρ : Type} : List (gasneti_auxsegregfn_t ρ) → ρ → List gasneti_auxseg_request_t
  | [], _ => []
  | f :: rest, r => (f none r).1 :: auxseg_answers rest (f none r).2

/-- The state of the subsystems after the requesters have answered the size query in
registration order. -/
def auxseg_asked {ρ : Type} : List (gasneti_auxsegregfn_t ρ) → ρ → ρ
  | [], r => r
  | f :: rest, r => auxseg_asked rest (f none r).2

/-- Spec side: the offset of window `i` from the base of the auxseg, the sum over `k < i`
of the optimal size of requester `k` rounded up to the cache line. -/
def auxseg_offset (cfg : Config) (reqs : List gasneti_auxseg_request_t) (i : Nat) : Nat :=
  ((reqs.take i).map (fun q =>
    GASNETI_ALIGNUP cfg q.optimalsz cfg.GASNETI_CACHE_LINE_BYTES)).sum

/-! ## The exchange of the auxseg table (`GASNET_SEGMENT_EVERYTHING`) -/

/-- The statics of one node in a build with `GASNET_SEGMENT_EVERYTHING`, named as in the
source without the leading underscore: the bytes of the record `_gasneti_my_auxseg`, the
memory that `_gasneti_auxseg_everything` points to, as a function from the byte offset, and
the counters `_gasneti_auxseg_rcvd`. -/
structure AuxExch (α : Type) where
  gasneti_my_auxseg : List α
  gasneti_auxseg_everything : Nat → α
  gasneti_auxseg_rcvd : Nat → Nat

/-- The call `memcpy(dest + off, buf, n)` on a memory given as a function from the byte
offset, `buf` being the list of the `n` bytes copied. -/
def memcpy {α : Type} (dest : Nat → α) (off : Nat) (buf : List α) : Nat → α :=
  fun i => if off ≤ i then (buf[i - off]?).getD (dest i) else dest i

/-- The bytes `src[off .. off + n)`. -/
def bytesAt {α : Type} (src : Nat → α) (off n : Nat) : List α :=
  (List.range n).map (fun i => src (off + i))

/-- The handler `gasnetc_auxseg_reqh` run on the node `nd` for a message with the payload
`buf` and the argument `arg0`, a non-negative `int`.  `M` is `gasnet_AMMaxMedium()` and
`len` is `sizeof(gasnet_seginfo_t)`.  The three `gasneti_assert` lines are for debugging
builds and are left out. -/
def gasnetc_auxseg_reqh {α : Type} (M len : Nat) (nd : AuxExch α) (buf : List α) (arg0 : Nat) :
    AuxExch α :=
  let step := arg0 &&& 0x1f
  let seq := arg0 >>> 5
  let distance := 1 <<< step
  { nd with
    gasneti_auxseg_everything :=
      memcpy nd.gasneti_auxseg_everything (distance * len + seq * M) buf
    gasneti_auxseg_rcvd :=
      Function.update nd.gasneti_auxseg_rcvd step (nd.gasneti_auxseg_rcvd step + 1) }

/-- A request `gasnet_AMRequestMedium1(peer, _hidx_gasnetc_auxseg_reqh, buf, n, arg0)` on
its way. -/
structure AuxMsg (α : Type) where
  peer : Nat
  buf : List α
  arg0 : Nat

/-- The choice of `peer` in a round of `gasneti_auxseg_exchange`. -/
def gasneti_auxseg_exchange_peer (gasneti_nodes gasneti_mynode distance : Nat) : Nat :=
  if distance ≤ gasneti_mynode then gasneti_mynode - distance
  else gasneti_mynode + (gasneti_nodes - distance)

/-- The `do`/`while (nbytes)` loop of `gasneti_auxseg_exchange` that sends the payload in
requests of at most `M = gasnet_AMMaxMedium()` bytes, read from the table `dest`: gives the
requests in the order sent and the final `seq`.  The argument `step | (seq << 5)` is kept
to 32 bits; the handler reads it as an `int`, which is the same number below `2 ^ 31`. -/
def gasneti_auxseg_exchange_send {α : Type} (M : Nat) (dest : Nat → α) (peer step : Nat) :
    Nat → Nat → Nat → Nat → Option (List (AuxMsg α) × Nat)
  | 0, _, _, _ => none
  | fuel + 1, nbytes, offset, seq =>
    let to_xfer := min nbytes M
    let msg : AuxMsg α := ⟨peer, bytesAt dest offset to_xfer, (step ||| (seq <<< 5)) % 2 ^ 32⟩
    if nbytes - to_xfer ≠ 0 then
      match gasneti_auxseg_exchange_send M dest peer step fuel (nbytes - to_xfer)
          (offset + to_xfer) (seq + 1) with
      | none => none
      | some (ms, seq1) => some (msg :: ms, seq1)
    else some ([msg], seq + 1)

/-- The final part of `gasneti_auxseg_exchange`, "copy to final destination while
performing the rotation".  `temp` is the memory that `gasneti_malloc` returns. -/
def gasneti_auxseg_exchange_rotate {α : Type} (gasneti_nodes len gasneti_mynode : Nat)
    (temp : Nat → α) (nd : AuxExch α) : AuxExch α :=
  let a := len * (gasneti_nodes - gasneti_mynode)
  let b := len * gasneti_mynode
  { nd with
    gasneti_auxseg_everything :=
      memcpy (memcpy temp 0 (bytesAt nd.gasneti_auxseg_everything a b)) b
        (bytesAt nd.gasneti_auxseg_everything 0 a) }

/-- The first statement of `gasneti_auxseg_exchange`, "copy in local contribution". -/
def gasneti_auxseg_exchange_copyin {α : Type} (nd : AuxExch α) : AuxExch α :=
  { nd with
    gasneti_auxseg_everything := memcpy nd.gasneti_auxseg_everything 0 nd.gasneti_my_auxseg }

/-- Lock-step schedule: the sending part of one round on the nodes listed, every node
reading its own table as it is at the start of the round; gives all requests, in the order
of the nodes, and the final `seq` of every node. -/
def lockstep_sends {α : Type} (N M len fuel step distance : Nat) (st : Nat → AuxExch α) :
    List Nat → Option (List (AuxMsg α) × List (Nat × Nat))
  | [] => some ([], [])
  | r :: rest =>
    match gasneti_auxseg_exchange_send M (st r).gasneti_auxseg_everything
        (gasneti_auxseg_exchange_peer N r distance) step fuel
        (len * min distance (N - distance)) 0 0 with
    | none => none
    | some (ms, seq) =>
      match lockstep_sends N M len fuel step distance st rest with
      | none => none
      | some (ms1, seqs) => some (ms ++ ms1, (r, seq) :: seqs)

/-- Lock-step schedule: the requests are delivered in order, each running the handler on
its peer. -/
def lockstep_deliver {α : Type} (M len : Nat) (st : Nat → AuxExch α) (ms : List (AuxMsg α)) :
    Nat → AuxExch α :=
  ms.foldl
    (fun st1 m =>
      Function.update st1 m.peer (gasnetc_auxseg_reqh M len (st1 m.peer) m.buf m.arg0))
    st

/-- Lock-step schedule: one round of the loop of `gasneti_auxseg_exchange` on all `N`
nodes: every node sends, the requests are delivered, and every node passes
`GASNET_BLOCKUNTIL(rcvd[step] >= seq)`; a node that would wait for ever gives `none`. -/
def lockstep_round {α : Type} (N M len fuel step distance : Nat) (st : Nat → AuxExch α) :
    Option (Nat → AuxExch α) :=
  match lockstep_sends N M len fuel step distance st (List.range N) with
  | none => none
  | some (ms, seqs) =>
    if seqs.all (fun x =>
        decide ((lockstep_deliver M len st ms x.1).gasneti_auxseg_rcvd step ≥ x.2)) = true then
      some (lockstep_deliver M len st ms)
    else none

/-- Lock-step schedule: the loop `for (step = 0, distance = 1; distance < gasneti_nodes;
++step, distance *= 2)` on all nodes, `distance` being an `unsigned int`; gives the number
of rounds made and the states of the nodes. -/
def lockstep_rounds {α : Type} (N M len fuel : Nat) :
    Nat → Nat → Nat → (Nat → AuxExch α) → Option (Nat × (Nat → AuxExch α))
  | 0, _, _, _ => none
  | k + 1, step, distance, st =>
    if distance < N then
      match lockstep_round N M len fuel step distance st with
      | none => none
      | some st1 => lockstep_rounds N M len fuel k (step + 1) (distance * 2 % 2 ^ 32) st1
    else some (step, st)

/-- The function `gasneti_auxseg_exchange` run on all `N` nodes with the rounds in
lock-step: every node copies in its own record, the rounds are made, and every node
rotates its table; gives the number of rounds and the states of the nodes. -/
def gasneti_auxseg_exchange {α : Type} (N M len fuel rounds : Nat) (temp : Nat → α)
    (st : Nat → AuxExch α) : Option (Nat × (Nat → AuxExch α)) :=
  (lockstep_rounds N M len fuel rounds 0 1 (fun r => gasneti_auxseg_exchange_copyin (st r))).map
    (fun x => (x.1, fun r => gasneti_auxseg_exchange_rotate N len r temp (x.2 r)))

/-- The table of a node as the list of its first `n` bytes. -/
def tableBytes {α : Type} (nd : AuxExch α) (n : Nat) : List α :=
  bytesAt nd.gasneti_auxseg_everything 0 n

/-- Five nodes before the exchange: node `r` holds the record of the three bytes
`10 r`, `10 r + 1`, `10 r + 2`, a table of zeros and counters at zero. -/
def fiveNodes : Nat → AuxExch Nat :=
  fun r => ⟨[10 * r, 10 * r + 1, 10 * r + 2], fun _ => 0, fun _ => 0⟩

/-- Node `p` of `st` holds, in the first `min (2 ^ s) N` places of its table, the records that
the nodes `p`, `p + 1`, ... (around the ring) had in `st0`. -/
def HoldsRecords {α : Type} (N len : Nat) (st0 st : Nat → AuxExch α) (s : Nat) : Prop :=
  ∀ p, p < N → ∀ k, k < min (2 ^ s) N → ∀ j, j < len →
    (st0 ((p + k) % N)).gasneti_my_auxseg[j]? =
      some ((st p).gasneti_auxseg_everything (k * len + j))

/-- What the searches need of a host on which a mapping succeeds iff its size is at most
`K`: non-fixed mappings of at most `K` bytes land at `base`, larger ones fail, unmapping
succeeds, and a fixed mapping of at most `K` bytes at `base` succeeds. -/
def IsOracle {σ : Type} (cfg : Config) (ops : MapOps σ) (K base : Nat) : Prop :=
  (∀ s sz, ∃ s1, ops.gasneti_do_mmap s sz
      = Res.ok (if sz ≤ K then base else MAP_FAILED cfg) s1) ∧
  (∀ s a sz, ∃ s1, ops.gasneti_do_munmap s a sz = Res.ok () s1) ∧
  (∀ s sz, sz ≤ K → ∃ s1, ops.gasneti_do_mmap_fixed s base sz = Res.ok base s1)

/-! ## Arithmetic of machine words and alignment -/

theorem usub_eq (cfg : Config) {a b : Nat} (hba : b ≤ a) (ha : a < wordMod cfg) :
    usub cfg a b = a - b := by
  unfold usub
  have hb : b % wordMod cfg = b := Nat.mod_eq_of_lt (by omega)
  rw [hb]
  have h1 : a + wordMod cfg - b = (a - b) + wordMod cfg := by omega
  rw [h1, Nat.add_mod_right]
  exact Nat.mod_eq_of_lt (by omega)

theorem uadd_eq (cfg : Config) {a b : Nat} (h : a + b < wordMod cfg) :
    uadd cfg a b = a + b := by
  unfold uadd
  exact Nat.mod_eq_of_lt h

theorem aligndown_le (cfg : Config) (x : Nat) : GASNETI_PAGE_ALIGNDOWN cfg x ≤ x := by
  unfold GASNETI_PAGE_ALIGNDOWN
  exact Nat.div_mul_le_self x _

theorem aligndown_dvd (cfg : Config) (x : Nat) :
    cfg.GASNET_PAGESIZE ∣ GASNETI_PAGE_ALIGNDOWN cfg x := by
  unfold GASNETI_PAGE_ALIGNDOWN
  exact Dvd.intro_left _ rfl

theorem aligndown_of_dvd (cfg : Config) {x : Nat} (h : cfg.GASNET_PAGESIZE ∣ x) :
    GASNETI_PAGE_ALIGNDOWN cfg x = x := by
  unfold GASNETI_PAGE_ALIGNDOWN
  exact Nat.div_mul_cancel h

theorem le_aligndown (cfg : Config) {a x : Nat} (ha : cfg.GASNET_PAGESIZE ∣ a) (hax : a ≤ x) :
    a ≤ GASNETI_PAGE_ALIGNDOWN cfg x := by
  unfold GASNETI_PAGE_ALIGNDOWN
  obtain ⟨k, rfl⟩ := ha
  rcases Nat.eq_zero_or_pos cfg.GASNET_PAGESIZE with h0 | hpos
  · simp [h0]
  · have : k ≤ x / cfg.GASNET_PAGESIZE := by
      rw [Nat.le_div_iff_mul_le hpos]
      rw [Nat.mul_comm]
      exact hax
    calc cfg.GASNET_PAGESIZE * k = k * cfg.GASNET_PAGESIZE := Nat.mul_comm _ _
      _ ≤ x / cfg.GASNET_PAGESIZE * cfg.GASNET_PAGESIZE := Nat.mul_le_mul_right _ this

theorem lt_aligndown_add (cfg : Config) (hP : 0 < cfg.GASNET_PAGESIZE) (x : Nat) :
    x < GASNETI_PAGE_ALIGNDOWN cfg x + cfg.GASNET_PAGESIZE := by
  unfold GASNETI_PAGE_ALIGNDOWN
  have h1 := Nat.div_add_mod x cfg.GASNET_PAGESIZE
  have h2 := Nat.mod_lt x hP
  rw [Nat.mul_comm] at h1
  omega

theorem aligned_add_le {P a b : Nat} (ha : P ∣ a) (hb : P ∣ b) (hab : a < b) : a + P ≤ b := by
  obtain ⟨i, rfl⟩ := ha
  obtain ⟨j, rfl⟩ := hb
  have hij : i < j := by
    by_contra hc
    have : P * j ≤ P * i := Nat.mul_le_mul_left P (Nat.le_of_not_lt hc)
    omega
  calc P * i + P = P * (i + 1) := by ring
    _ ≤ P * j := Nat.mul_le_mul_left P hij

/-- The midpoint that the bisection probes lies strictly inside an aligned interval
wider than the granularity, a page away from both ends. -/
theorem bisect_mid (cfg : Config) (hP : 0 < cfg.GASNET_PAGESIZE)
    (hG : cfg.GASNET_PAGESIZE ≤ cfg.GASNETI_MMAP_GRANULARITY) {lo hi : Nat}
    (hlo : cfg.GASNET_PAGESIZE ∣ lo) (hhi : cfg.GASNET_PAGESIZE ∣ hi)
    (hle : lo ≤ hi) (hW : hi < wordMod cfg)
    (hg : ¬ hi - lo ≤ cfg.GASNETI_MMAP_GRANULARITY) :
    usub cfg hi lo = hi - lo ∧
    gasneti_mmap_aligndown cfg (uadd cfg lo (usub cfg hi lo / 2))
      = GASNETI_PAGE_ALIGNDOWN cfg (lo + (hi - lo) / 2) ∧
    lo + cfg.GASNET_PAGESIZE ≤ GASNETI_PAGE_ALIGNDOWN cfg (lo + (hi - lo) / 2) ∧
    GASNETI_PAGE_ALIGNDOWN cfg (lo + (hi - lo) / 2) + cfg.GASNET_PAGESIZE ≤ hi := by
  have hsub : usub cfg hi lo = hi - lo := usub_eq cfg hle hW
  have hadd : uadd cfg lo ((hi - lo) / 2) = lo + (hi - lo) / 2 := uadd_eq cfg (by omega)
  have hlt : lo < hi := by omega
  have h2 : lo + cfg.GASNET_PAGESIZE ≤ hi := aligned_add_le hlo hhi hlt
  have hlt2 : lo + cfg.GASNET_PAGESIZE < hi := by omega
  have h3 : lo + cfg.GASNET_PAGESIZE + cfg.GASNET_PAGESIZE ≤ hi :=
    aligned_add_le (Dvd.dvd.add hlo (dvd_refl _)) hhi hlt2
  have hmle := aligndown_le cfg (lo + (hi - lo) / 2)
  have hmdvd := aligndown_dvd cfg (lo + (hi - lo) / 2)
  refine ⟨hsub, ?_, ?_, ?_⟩
  · unfold gasneti_mmap_aligndown
    rw [hsub, hadd]
  · exact le_aligndown cfg (Dvd.dvd.add hlo (dvd_refl _)) (by omega)
  · exact aligned_add_le hmdvd hhi (by omega)

/-! ## The bisection against the oracle -/

/-- Against the oracle, the bisection of an aligned interval `[lo, hi)` with
`lo ≤ K < hi` returns, given fuel for one probe per page: either the zero-size result,
and then `K` is within the granularity of `lo`; or a region at `base` whose size is an
accepted multiple of the page size above `lo` and within the granularity of `K`. -/
theorem binary_segsrch_oracle {σ : Type} (cfg : Config) (ops : MapOps σ) (K base : Nat)
    (hP : 0 < cfg.GASNET_PAGESIZE)
    (hG : cfg.GASNET_PAGESIZE ≤ cfg.GASNETI_MMAP_GRANULARITY)
    (hbase : base ≠ MAP_FAILED cfg) (hor : IsOracle cfg ops K base) :
    ∀ (fuel : Nat) (s : σ) (lo hi : Nat),
      cfg.GASNET_PAGESIZE ∣ lo → cfg.GASNET_PAGESIZE ∣ hi → lo ≤ hi → hi < wordMod cfg →
      hi - lo < fuel * cfg.GASNET_PAGESIZE → lo ≤ K → K < hi →
      ∃ si s1, gasneti_mmap_binary_segsrch cfg ops fuel s lo hi = some (Res.ok si s1) ∧
        ((si = ⟨NULL, 0⟩ ∧ K < lo + cfg.GASNETI_MMAP_GRANULARITY) ∨
         (si.addr = base ∧ lo < si.size ∧ si.size ≤ K ∧ cfg.GASNET_PAGESIZE ∣ si.size ∧
            K < si.size + cfg.GASNETI_MMAP_GRANULARITY)) := by
  intro fuel
  induction fuel with
  | zero => intro s lo hi _ _ _ _ hf; simp at hf
  | succ n ih =>
    intro s lo hi hlo hhi hle hW hf hloK hKhi
    rw [gasneti_mmap_binary_segsrch]
    by_cases hg : hi - lo ≤ cfg.GASNETI_MMAP_GRANULARITY
    · rw [usub_eq cfg hle hW, if_pos hg]
      exact ⟨_, _, rfl, Or.inl ⟨rfl, by omega⟩⟩
    · obtain ⟨hsub, hmid, hm1, hm2⟩ := bisect_mid cfg hP hG hlo hhi hle hW hg
      have hmdvd := aligndown_dvd cfg (lo + (hi - lo) / 2)
      rw [hsub] at hmid
      rw [hsub, if_neg hg]
      simp only [hmid]
      generalize GASNETI_PAGE_ALIGNDOWN cfg (lo + (hi - lo) / 2) = mid at *
      obtain ⟨s1, h1⟩ := hor.1 s mid
      rw [h1]
      have hf2 : (n + 1) * cfg.GASNET_PAGESIZE = n * cfg.GASNET_PAGESIZE + cfg.GASNET_PAGESIZE := by
        ring
      by_cases hmK : mid ≤ K
      · simp only [if_pos hmK, if_neg hbase]
        obtain ⟨s2, h2⟩ := hor.2.1 s1 base mid
        rw [h2]
        obtain ⟨si, s3, h3, hsi⟩ := ih s2 mid hi hmdvd hhi (by omega) hW (by omega) hmK hKhi
        simp only [h3]
        rcases hsi with ⟨hz, hK⟩ | ⟨ha, hl, hk, hd, hK⟩
        · subst hz
          refine ⟨⟨base, mid⟩, s3, by simp, Or.inr ⟨rfl, ?_, hmK, hmdvd, hK⟩⟩
          show lo < mid
          omega
        · have hne : si.size ≠ 0 := by omega
          refine ⟨si, s3, ?_, Or.inr ⟨ha, by omega, hk, hd, hK⟩⟩
          simp [hne]
      · simp only [if_neg hmK, if_true]
        obtain ⟨si, s3, h3, hsi⟩ := ih s1 lo mid hlo hmdvd (by omega) (by omega) (by omega)
          hloK (by omega)
        exact ⟨si, s3, h3, hsi⟩

/-! ## The bisection against an arbitrary host -/

/-- Whatever the host does, the bisection of an aligned interval `[lo, hi)` ends, given
fuel for one probe per page, and a region it returns is the zero-size result or a
page-multiple size strictly inside the interval together with the address at which a
mapping of that size succeeded. -/
theorem binary_segsrch_any {σ : Type} (cfg : Config) (ops : MapOps σ)
    (hP : 0 < cfg.GASNET_PAGESIZE)
    (hG : cfg.GASNET_PAGESIZE ≤ cfg.GASNETI_MMAP_GRANULARITY) :
    ∀ (fuel : Nat) (s : σ) (lo hi : Nat),
      cfg.GASNET_PAGESIZE ∣ lo → cfg.GASNET_PAGESIZE ∣ hi → lo ≤ hi → hi < wordMod cfg →
      hi - lo < fuel * cfg.GASNET_PAGESIZE →
      ∃ r, gasneti_mmap_binary_segsrch cfg ops fuel s lo hi = some r ∧
        ∀ si s1, r = Res.ok si s1 →
          (si = ⟨NULL, 0⟩ ∨
           (si.addr ≠ MAP_FAILED cfg ∧ lo < si.size ∧ si.size < hi ∧
              cfg.GASNET_PAGESIZE ∣ si.size ∧
              ∃ s2 s3, ops.gasneti_do_mmap s2 si.size = Res.ok si.addr s3)) := by
  intro fuel
  induction fuel with
  | zero => intro s lo hi _ _ _ _ hf; simp at hf
  | succ n ih =>
    intro s lo hi hlo hhi hle hW hf
    rw [gasneti_mmap_binary_segsrch]
    by_cases hg : hi - lo ≤ cfg.GASNETI_MMAP_GRANULARITY
    · rw [usub_eq cfg hle hW, if_pos hg]
      refine ⟨_, rfl, ?_⟩
      intro si s1 h
      injection h with h1 h2
      exact Or.inl h1.symm
    · obtain ⟨hsub, hmid, hm1, hm2⟩ := bisect_mid cfg hP hG hlo hhi hle hW hg
      have hmdvd := aligndown_dvd cfg (lo + (hi - lo) / 2)
      rw [hsub] at hmid
      rw [hsub, if_neg hg]
      simp only [hmid]
      generalize GASNETI_PAGE_ALIGNDOWN cfg (lo + (hi - lo) / 2) = mid at *
      have hf2 : (n + 1) * cfg.GASNET_PAGESIZE = n * cfg.GASNET_PAGESIZE + cfg.GASNET_PAGESIZE := by
        ring
      cases h1 : ops.gasneti_do_mmap s mid with
      | fatal e s1 => exact ⟨_, rfl, by intro si s2 h; cases h⟩
      | fault s1 => exact ⟨_, rfl, by intro si s2 h; cases h⟩
      | ok addr s1 =>
        by_cases ha : addr = MAP_FAILED cfg
        · simp only [if_pos ha]
          obtain ⟨r, hr, hprop⟩ := ih s1 lo mid hlo hmdvd (by omega) (by omega) (by omega)
          refine ⟨r, hr, ?_⟩
          intro si s2 h
          rcases hprop si s2 h with h0 | ⟨h3, h4, h5, h6, h7⟩
          · exact Or.inl h0
          · exact Or.inr ⟨h3, h4, by omega, h6, h7⟩
        · simp only [if_neg ha]
          cases h2 : ops.gasneti_do_munmap s1 addr mid with
          | fatal e s2 => exact ⟨_, rfl, by intro si s3 h; cases h⟩
          | fault s2 => exact ⟨_, rfl, by intro si s3 h; cases h⟩
          | ok u s2 =>
            obtain ⟨r, hr, hprop⟩ := ih s2 mid hi hmdvd hhi (by omega) hW (by omega)
            simp only [hr]
            cases r with
            | fatal e s3 => exact ⟨_, rfl, by intro si s4 h; cases h⟩
            | fault s3 => exact ⟨_, rfl, by intro si s4 h; cases h⟩
            | ok si_temp s3 =>
              by_cases hz : si_temp.size = 0
              · refine ⟨Res.ok ⟨addr, mid⟩ s3, by simp [hz], ?_⟩
                intro si s4 h
                injection h with h3 h4
                subst h3
                exact Or.inr ⟨ha, by show lo < mid; omega, by show mid < hi; omega, hmdvd,
                  s, s1, h1⟩
              · refine ⟨Res.ok si_temp s3, by simp [hz], ?_⟩
                intro si s4 h
                injection h with h3 h4
                subst h3
                rcases hprop si_temp s3 rfl with h0 | ⟨h5, h6, h7, h8, h9⟩
                · rw [h0] at hz
                  exact absurd rfl hz
                · exact Or.inr ⟨h5, by omega, h7, h8, h9⟩

/-- Rounding an aligned address up to a page boundary leaves it in place. -/
theorem alignup_of_dvd (cfg : Config) (hP : 0 < cfg.GASNET_PAGESIZE) {a : Nat}
    (ha : cfg.GASNET_PAGESIZE ∣ a) (hW : a + cfg.GASNET_PAGESIZE ≤ wordMod cfg) :
    GASNETI_PAGE_ALIGNUP cfg a = a := by
  unfold GASNETI_PAGE_ALIGNUP
  rw [uadd_eq cfg (by omega)]
  unfold GASNETI_PAGE_ALIGNDOWN
  obtain ⟨k, rfl⟩ := ha
  rw [Nat.mul_add_div hP, Nat.div_eq_of_lt (by omega)]
  simp [Nat.mul_comm]

/-- The trimming step leaves an aligned region as it is: begin and end are already page
boundaries, also when the end wraps around the address space. -/
theorem trim_aligned (cfg : Config) (hP : 0 < cfg.GASNET_PAGESIZE)
    (hPW : cfg.GASNET_PAGESIZE ∣ wordMod cfg) {a sz : Nat}
    (ha : cfg.GASNET_PAGESIZE ∣ a) (haW : a < wordMod cfg)
    (hsz : cfg.GASNET_PAGESIZE ∣ sz) (hszW : sz < wordMod cfg) :
    GASNETI_PAGE_ALIGNUP cfg a = a ∧
    usub cfg (GASNETI_PAGE_ALIGNDOWN cfg (uadd cfg a sz)) (GASNETI_PAGE_ALIGNUP cfg a) = sz := by
  have hup : GASNETI_PAGE_ALIGNUP cfg a = a :=
    alignup_of_dvd cfg hP ha (aligned_add_le ha hPW haW)
  have hend : cfg.GASNET_PAGESIZE ∣ uadd cfg a sz := by
    unfold uadd
    exact (Nat.dvd_mod_iff hPW).mpr (Dvd.dvd.add ha hsz)
  refine ⟨hup, ?_⟩
  rw [hup, aligndown_of_dvd cfg hend]
  unfold usub uadd
  rw [Nat.mod_eq_of_lt haW]
  by_cases hov : a + sz < wordMod cfg
  · rw [Nat.mod_eq_of_lt hov]
    have : a + sz + wordMod cfg - a = sz + wordMod cfg := by omega
    rw [this, Nat.add_mod_right]
    exact Nat.mod_eq_of_lt hszW
  · have h1 : (a + sz) % wordMod cfg = a + sz - wordMod cfg := by
      rw [Nat.mod_eq_sub_mod (by omega)]
      exact Nat.mod_eq_of_lt (by omega)
    rw [h1]
    have : a + sz - wordMod cfg + wordMod cfg - a = sz := by omega
    rw [this]
    exact Nat.mod_eq_of_lt hszW

/-- The tail of the probe on a region whose base is `NULL` or whose base and size are
aligned machine words: a normal return gives the zero-size result for a `NULL` base and
the region itself otherwise. -/
theorem trim_result {σ : Type} (cfg : Config) (ops : MapOps σ) (hP : 0 < cfg.GASNET_PAGESIZE)
    (hPW : cfg.GASNET_PAGESIZE ∣ wordMod cfg) (s : σ) (si : gasnet_seginfo_t) (mmaped : Bool)
    (hsi : si.addr = NULL ∨ (si.addr < wordMod cfg ∧ cfg.GASNET_PAGESIZE ∣ si.addr ∧
      cfg.GASNET_PAGESIZE ∣ si.size ∧ si.size < wordMod cfg))
    (si1 : gasnet_seginfo_t) (s1 : σ)
    (h : gasneti_mmap_segment_search_trim cfg ops s si mmaped = Res.ok si1 s1) :
    (si.addr = NULL ∧ si1 = ⟨NULL, 0⟩) ∨ (si.addr ≠ NULL ∧ si1 = si) := by
  unfold gasneti_mmap_segment_search_trim at h
  by_cases h0 : si.addr = NULL
  · rw [if_pos h0] at h
    injection h with h1 h2
    exact Or.inl ⟨h0, by rw [← h1, h0]⟩
  · rw [if_neg h0] at h
    rcases hsi with hn | ⟨haW, ha, hsz, hszW⟩
    · exact absurd hn h0
    · by_cases hm : mmaped = true ∧ si.addr % cfg.GASNET_PAGESIZE = 0
      · rw [if_pos hm] at h
        injection h with h1 h2
        exact Or.inr ⟨h0, h1.symm⟩
      · rw [if_neg hm] at h
        obtain ⟨hup, hsub⟩ := trim_aligned cfg hP hPW ha haW hsz hszW
        rw [hup] at hsub
        simp only [hup, hsub] at h
        refine Or.inr ⟨h0, ?_⟩
        split at h
        · cases h
        · cases h
        · split at h
          · cases h
          · cases h
          · injection h with h1 h2
            exact h1.symm

/-- C2 (confirmed). For every page-aligned `maxsz > 0` and every behaviour of the mapping
primitives whose non-fixed mapping returns machine words that are page aligned or
`MAP_FAILED`, `_gasneti_mmap_segment_search_inner(maxsz)` ends (given fuel for one probe
per page) and a region it returns has a size at most `maxsz`, size and base multiples of
the page size, and a `NULL` base when the size is zero; the same holds of
`gasneti_mmap_segment_search(m)` for every `m` that aligns down to `maxsz`.  The page
size is positive, divides the number of machine words and is at most the search
granularity. -/
theorem C2_probe_result_bounded_aligned {σ : Type} (cfg : Config) (ops : MapOps σ)
    (fuel : Nat) (s : σ) (maxsz : Nat)
    (hP : 0 < cfg.GASNET_PAGESIZE) (hPW : cfg.GASNET_PAGESIZE ∣ wordMod cfg)
    (hG : cfg.GASNET_PAGESIZE ≤ cfg.GASNETI_MMAP_GRANULARITY)
    (hal : ∀ s sz a s1, ops.gasneti_do_mmap s sz = Res.ok a s1 →
      a < wordMod cfg ∧ (a = MAP_FAILED cfg ∨ cfg.GASNET_PAGESIZE ∣ a))
    (hmax : cfg.GASNET_PAGESIZE ∣ maxsz) (hpos : 0 < maxsz) (hW : maxsz < wordMod cfg)
    (hfuel : maxsz < fuel * cfg.GASNET_PAGESIZE) :
    (∃ r, _gasneti_mmap_segment_search_inner cfg ops fuel s maxsz = some r ∧
      ∀ si s1, r = Res.ok si s1 →
        si.size ≤ maxsz ∧ cfg.GASNET_PAGESIZE ∣ si.size ∧ cfg.GASNET_PAGESIZE ∣ si.addr ∧
        (si.size = 0 → si.addr = NULL)) ∧
    (∀ m, gasneti_mmap_aligndown cfg m = maxsz →
      ∃ r, gasneti_mmap_segment_search cfg ops fuel s m = some r ∧
        ∀ si s1, r = Res.ok si s1 →
          si.size ≤ m ∧ cfg.GASNET_PAGESIZE ∣ si.size ∧ cfg.GASNET_PAGESIZE ∣ si.addr ∧
          (si.size = 0 → si.addr = NULL)) := by
  have inner : ∃ r, _gasneti_mmap_segment_search_inner cfg ops fuel s maxsz = some r ∧
      ∀ si s1, r = Res.ok si s1 →
        si.size ≤ maxsz ∧ cfg.GASNET_PAGESIZE ∣ si.size ∧ cfg.GASNET_PAGESIZE ∣ si.addr ∧
        (si.size = 0 → si.addr = NULL) := by
    unfold _gasneti_mmap_segment_search_inner
    cases h1 : ops.gasneti_do_mmap s maxsz with
    | fatal e s1 => exact ⟨_, rfl, by intro si s2 h; cases h⟩
    | fault s1 => exact ⟨_, rfl, by intro si s2 h; cases h⟩
    | ok addr s1 =>
      obtain ⟨haW, hal1⟩ := hal s maxsz addr s1 h1
      by_cases ha : addr = MAP_FAILED cfg
      · simp only [ha, ne_eq, not_true_eq_false, if_false]
        obtain ⟨r, hr, hprop⟩ := binary_segsrch_any cfg ops hP hG fuel s1 0 maxsz
          (dvd_zero _) hmax (Nat.zero_le _) hW (by omega)
        rw [hr]
        cases r with
        | fatal e s2 => exact ⟨_, rfl, by intro si s3 h; cases h⟩
        | fault s2 => exact ⟨_, rfl, by intro si s3 h; cases h⟩
        | ok si s2 =>
          refine ⟨_, rfl, ?_⟩
          intro si1 s3 h
          have hsi := hprop si s2 rfl
          have hcond : si.addr = NULL ∨ (si.addr < wordMod cfg ∧ cfg.GASNET_PAGESIZE ∣ si.addr ∧
              cfg.GASNET_PAGESIZE ∣ si.size ∧ si.size < wordMod cfg) := by
            rcases hsi with h0 | ⟨h3, h4, h5, h6, s4, s5, h7⟩
            · exact Or.inl (by rw [h0])
            · obtain ⟨h8, h9⟩ := hal s4 si.size si.addr s5 h7
              rcases h9 with h9 | h9
              · exact absurd h9 h3
              · exact Or.inr ⟨h8, h9, h6, by omega⟩
          rcases trim_result cfg ops hP hPW s2 si false hcond si1 s3 h with ⟨_, h2⟩ | ⟨hn, h2⟩
          · subst h2
            exact ⟨Nat.zero_le _, dvd_zero _, dvd_zero _, fun _ => rfl⟩
          · subst h2
            rcases hsi with h0 | ⟨h3, h4, h5, h6, s4, s5, h7⟩
            · rw [h0] at hn
              exact absurd rfl hn
            · obtain ⟨h8, h9⟩ := hal s4 si1.size si1.addr s5 h7
              rcases h9 with h9 | h9
              · exact absurd h9 h3
              · exact ⟨by omega, h6, h9, by omega⟩
      · simp only [ne_eq, ha, not_false_eq_true, if_true]
        refine ⟨_, rfl, ?_⟩
        intro si1 s3 h
        have hdv : cfg.GASNET_PAGESIZE ∣ addr := by
          rcases hal1 with h9 | h9
          · exact absurd h9 ha
          · exact h9
        rcases trim_result cfg ops hP hPW s1 ⟨addr, maxsz⟩ true
          (Or.inr ⟨haW, hdv, hmax, hW⟩) si1 s3 h with ⟨_, h2⟩ | ⟨hn, h2⟩
        · subst h2
          exact ⟨Nat.zero_le _, dvd_zero _, dvd_zero _, fun _ => rfl⟩
        · subst h2
          exact ⟨Nat.le_refl _, hmax, hdv, by intro h0; simp at h0; omega⟩
  refine ⟨inner, ?_⟩
  intro m hm
  obtain ⟨r, hr, hprop⟩ := inner
  have hmle : maxsz ≤ m := by
    rw [← hm]
    exact aligndown_le cfg m
  unfold gasneti_mmap_segment_search
  simp only [hm, hr]
  rw [if_neg (by omega)]
  cases r with
  | fatal e s2 => exact ⟨_, rfl, by intro si s3 h; cases h⟩
  | fault s2 => exact ⟨_, rfl, by intro si s3 h; cases h⟩
  | ok si s2 =>
    obtain ⟨h1, h2, h3, h4⟩ := hprop si s2 rfl
    by_cases hn : si.addr = NULL
    · simp only [if_pos hn]
      exact ⟨_, rfl, by intro si s3 h; cases h⟩
    · simp only [if_neg hn]
      refine ⟨_, rfl, ?_⟩
      intro si1 s3 h
      injection h with h5 h6
      subst h5
      exact ⟨by omega, h2, h3, h4⟩

/-! ## The simulated host behind the primitives of a build without PSHM -/

/-- In a build without PSHM the primitives over the simulated host behave as the oracle:
`gasneti_mmap` hands the refusals (`ENOMEM`) back as `MAP_FAILED` and the grants as
`base`. -/
theorem gasneti_ops_isOracle (cfg : Config) (K base : Nat)
    (hpshm : cfg.GASNET_PSHM = false) (hbase : base ≠ MAP_FAILED cfg) (hb0 : base ≠ NULL)
    (hdv : cfg.GASNET_PAGESIZE ∣ base) :
    IsOracle cfg (gasneti_ops cfg (oracleOS cfg K base)) K base := by
  have hal : base = GASNETI_PAGE_ALIGNDOWN cfg base := (aligndown_of_dvd cfg hdv).symm
  refine ⟨?_, ?_, ?_⟩
  · intro w sz
    by_cases h : sz ≤ K
    · refine ⟨{ w with os := () }, ?_⟩
      simp [gasneti_ops, hpshm, gasneti_mmap, gasneti_mmap_internal, sys_mmap, oracleOS, h,
        hbase, ← hal, NULL]
    · refine ⟨{ w with os := (), errno := ENOMEM }, ?_⟩
      simp [gasneti_ops, hpshm, gasneti_mmap, gasneti_mmap_internal, sys_mmap, oracleOS, h,
        NULL]
  · intro w a sz
    refine ⟨{ w with os := () }, ?_⟩
    simp [gasneti_ops, hpshm, gasneti_munmap, sys_munmap, oracleOS]
  · intro w sz h
    refine ⟨{ w with os := () }, ?_⟩
    have hb0' : ¬ base = 0 := hb0
    have hone : gasneti_do_mmap_fixed_once cfg (oracleOS cfg K base) w base sz
        = Res.ok base { w with os := () } := by
      simp [gasneti_do_mmap_fixed_once, hpshm, gasneti_mmap_fixed, gasneti_mmap_internal,
        sys_mmap, oracleOS, h, hbase, ← hal, NULL, hb0']
    by_cases hwa : cfg.GASNETI_BUG3480_WORKAROUND = true
    · simp only [gasneti_ops, hwa, if_true, gasneti_mmap_fixed_with_retry, hone]
      rw [gasneti_mmap_fixed_retry_loop]
      simp [hbase]
    · simp only [gasneti_ops, hwa, if_false, hone]
      simp

/-- Against the oracle, the tail of the probe maps an unmapped aligned region found at
`base` at that very place. -/
theorem trim_oracle {σ : Type} (cfg : Config) (ops : MapOps σ) (K base : Nat)
    (hP : 0 < cfg.GASNET_PAGESIZE) (hb0 : base ≠ NULL)
    (hdv : cfg.GASNET_PAGESIZE ∣ base) (hor : IsOracle cfg ops K base)
    (s : σ) (sz : Nat) (hsz : cfg.GASNET_PAGESIZE ∣ sz) (hszK : sz ≤ K)
    (hfit : base + sz < wordMod cfg) (hfitP : base + cfg.GASNET_PAGESIZE ≤ wordMod cfg) :
    ∃ s1, gasneti_mmap_segment_search_trim cfg ops s ⟨base, sz⟩ false
      = Res.ok ⟨base, sz⟩ s1 := by
  unfold gasneti_mmap_segment_search_trim
  have hup := alignup_of_dvd cfg hP hdv hfitP
  have hend : GASNETI_PAGE_ALIGNDOWN cfg (uadd cfg base sz) = base + sz := by
    rw [uadd_eq cfg hfit]
    exact aligndown_of_dvd cfg (Dvd.dvd.add hdv hsz)
  have hsub : usub cfg (base + sz) base = sz := by
    rw [usub_eq cfg (by omega) hfit]
    omega
  obtain ⟨s1, h1⟩ := hor.2.2 s sz hszK
  refine ⟨s1, ?_⟩
  simp only [if_neg hb0, hup, hend, hsub]
  simp [h1]

/-- C1 (amended). Against mapping primitives that behave as the oracle "a mapping
succeeds iff its size is at most `K`", for every page-aligned `maxsz > 0`, the probe
`_gasneti_mmap_segment_search_inner(maxsz)` returns (given fuel for one probe per page)
a region whose size `s` is a multiple of the page size with
`s ≤ min(maxsz, aligndown(K))`; `s = maxsz` when `maxsz ≤ K`, and otherwise `s` is within
`GASNETI_MMAP_GRANULARITY` of `K`, so a zero-size result means that `K` is below the
granularity.  When the granularity equals the page size, `s` is exactly
`min(maxsz, aligndown(K))`.  A zero-size result has a `NULL` base, any other lies at the
address the host chose. -/
theorem C1_probe_within_granularity {σ : Type} (cfg : Config) (ops : MapOps σ)
    (K base fuel maxsz : Nat) (w : σ)
    (hor : IsOracle cfg ops K base) (hP : 0 < cfg.GASNET_PAGESIZE)
    (hG : cfg.GASNET_PAGESIZE ≤ cfg.GASNETI_MMAP_GRANULARITY)
    (hmax : cfg.GASNET_PAGESIZE ∣ maxsz) (hpos : 0 < maxsz)
    (hdv : cfg.GASNET_PAGESIZE ∣ base) (hb0 : base ≠ NULL)
    (hfit : base + maxsz < wordMod cfg) (hfuel : maxsz < fuel * cfg.GASNET_PAGESIZE) :
    ∃ si w1, _gasneti_mmap_segment_search_inner cfg ops
        fuel w maxsz = some (Res.ok si w1) ∧
      cfg.GASNET_PAGESIZE ∣ si.size ∧
      si.size ≤ min maxsz (GASNETI_PAGE_ALIGNDOWN cfg K) ∧
      (maxsz ≤ K → si.size = maxsz) ∧
      (K < maxsz → K < si.size + cfg.GASNETI_MMAP_GRANULARITY) ∧
      (si.size = 0 → K < cfg.GASNETI_MMAP_GRANULARITY) ∧
      (cfg.GASNETI_MMAP_GRANULARITY = cfg.GASNET_PAGESIZE →
        si.size = min maxsz (GASNETI_PAGE_ALIGNDOWN cfg K)) ∧
      (si.size = 0 → si.addr = NULL) ∧ (si.size ≠ 0 → si.addr = base) := by
  have hbase : base ≠ MAP_FAILED cfg := by
    unfold MAP_FAILED
    omega
  have hPle : cfg.GASNET_PAGESIZE ≤ maxsz := Nat.le_of_dvd hpos hmax
  unfold _gasneti_mmap_segment_search_inner
  obtain ⟨w1, h1⟩ := hor.1 w maxsz
  rw [h1]
  by_cases hK : maxsz ≤ K
  · have hle := le_aligndown cfg hmax hK
    refine ⟨⟨base, maxsz⟩, w1, ?_, hmax, ?_, fun _ => rfl, fun h => by omega,
      fun h => ?_, fun _ => ?_, fun h => ?_, fun _ => rfl⟩
    · simp only [if_pos hK, ne_eq, hbase, not_false_eq_true, if_true]
      unfold gasneti_mmap_segment_search_trim
      have hmod : base % cfg.GASNET_PAGESIZE = 0 := Nat.mod_eq_zero_of_dvd hdv
      simp [hb0, hmod]
    · exact le_min (Nat.le_refl _) hle
    · simp at h
      omega
    · show maxsz = min maxsz (GASNETI_PAGE_ALIGNDOWN cfg K)
      rw [min_eq_left hle]
    · simp at h
      omega
  · have hK2 : K < maxsz := Nat.lt_of_not_le hK
    simp only [if_neg hK, ne_eq, not_true_eq_false, if_false]
    obtain ⟨si, w2, h2, hsi⟩ := binary_segsrch_oracle cfg ops
      K base hP hG hbase hor fuel w1 0 maxsz (dvd_zero _) hmax (Nat.zero_le _) (by omega)
      (by omega) (Nat.zero_le _) hK2
    rw [h2]
    have hKle := aligndown_le cfg K
    have hKdv := aligndown_dvd cfg K
    rcases hsi with ⟨hz, hKG⟩ | ⟨ha, hl, hk, hd, hKG⟩
    · subst hz
      refine ⟨⟨NULL, 0⟩, w2, ?_, dvd_zero _, Nat.zero_le _, fun h => by omega,
        fun _ => by simpa using hKG, fun _ => by simpa using hKG, fun hGP => ?_,
        fun _ => rfl, fun h => absurd rfl h⟩
      · unfold gasneti_mmap_segment_search_trim
        simp
      · show 0 = min maxsz (GASNETI_PAGE_ALIGNDOWN cfg K)
        have h0 : GASNETI_PAGE_ALIGNDOWN cfg K = 0 := by
          by_contra hne
          have := aligned_add_le (dvd_zero cfg.GASNET_PAGESIZE) hKdv (Nat.pos_of_ne_zero hne)
          omega
        rw [h0]
        simp
    · obtain ⟨w3, h3⟩ := trim_oracle cfg ops K base hP hb0
        hdv hor w2 si.size hd hk (by omega) (by omega)
      have hsle := le_aligndown cfg hd hk
      have hsi_eq : si = ⟨base, si.size⟩ := by
        cases si
        simp at ha
        simp [ha]
      refine ⟨si, w3, ?_, hd, le_min (by omega) hsle, fun h => by omega, fun _ => hKG,
        fun h => by omega, fun hGP => ?_, fun h => by omega, fun _ => ha⟩
      · rw [hsi_eq]
        simp only [h3]
      · have h5 : GASNETI_PAGE_ALIGNDOWN cfg K ≤ si.size := by
          by_contra hne
          have := aligned_add_le hd hKdv (Nat.lt_of_not_le hne)
          omega
        have h6 : si.size = GASNETI_PAGE_ALIGNDOWN cfg K := by omega
        rw [← h6]
        exact (min_eq_right (by omega)).symm

/-- C1 (counterexample). With 4 KiB pages and a search granularity of 4 MiB, against the
oracle with `K` = 2 MiB the probe of `maxsz` = 4 MiB returns the zero-size result,
although `min(maxsz, aligndown(K))` is 2 MiB and the oracle grants a mapping of one
page. -/
theorem C1_counterexample :
    retSeg (_gasneti_mmap_segment_search_inner cfgMmap
        (gasneti_ops cfgMmap (oracleOS cfgMmap 2097152 65536)) 1025 (World.init () 1 0) 4194304)
      = some ⟨NULL, 0⟩ ∧
    min 4194304 (GASNETI_PAGE_ALIGNDOWN cfgMmap 2097152) = 2097152 ∧
    ((oracleOS cfgMmap 2097152 65536).mmap () NULL 4096 false none).1 = 65536 := by
  decide

/-- C1 (witness). The amended claim for the primitives of a build without PSHM over the
simulated host, at 4 KiB pages, 4 MiB granularity, `maxsz` = 16 MiB and `K` = 15000000. -/
theorem C1_probe_within_granularity_witness :
    ∃ si w1, _gasneti_mmap_segment_search_inner cfgMmap
        (gasneti_ops cfgMmap (oracleOS cfgMmap 15000000 65536)) 4097 (World.init () 1 0)
        16777216 = some (Res.ok si w1) ∧
      cfgMmap.GASNET_PAGESIZE ∣ si.size ∧
      si.size ≤ min 16777216 (GASNETI_PAGE_ALIGNDOWN cfgMmap 15000000) ∧
      (16777216 ≤ 15000000 → si.size = 16777216) ∧
      (15000000 < 16777216 → 15000000 < si.size + cfgMmap.GASNETI_MMAP_GRANULARITY) ∧
      (si.size = 0 → 15000000 < cfgMmap.GASNETI_MMAP_GRANULARITY) ∧
      (cfgMmap.GASNETI_MMAP_GRANULARITY = cfgMmap.GASNET_PAGESIZE →
        si.size = min 16777216 (GASNETI_PAGE_ALIGNDOWN cfgMmap 15000000)) ∧
      (si.size = 0 → si.addr = NULL) ∧ (si.size ≠ 0 → si.addr = 65536) :=
  C1_probe_within_granularity cfgMmap (gasneti_ops cfgMmap (oracleOS cfgMmap 15000000 65536))
    15000000 65536 4097 16777216 (World.init () 1 0)
    (gasneti_ops_isOracle cfgMmap 15000000 65536 rfl (by decide) (by decide) (by decide))
    (by decide) (by decide) (by decide) (by decide) (by decide) (by decide) (by decide)
    (by decide)

/-- C2 (witness). The claim for the primitives of a build without PSHM over the
simulated host with `K` = 15000000, at `maxsz` = 16 MiB. -/
theorem C2_probe_result_bounded_aligned_witness :
    (∃ r, _gasneti_mmap_segment_search_inner cfgMmap
        (gasneti_ops cfgMmap (oracleOS cfgMmap 15000000 65536)) 4097 (World.init () 1 0)
        16777216 = some r ∧
      ∀ si s1, r = Res.ok si s1 →
        si.size ≤ 16777216 ∧ cfgMmap.GASNET_PAGESIZE ∣ si.size ∧
        cfgMmap.GASNET_PAGESIZE ∣ si.addr ∧ (si.size = 0 → si.addr = NULL)) ∧
    (∀ m, gasneti_mmap_aligndown cfgMmap m = 16777216 →
      ∃ r, gasneti_mmap_segment_search cfgMmap
          (gasneti_ops cfgMmap (oracleOS cfgMmap 15000000 65536)) 4097 (World.init () 1 0) m
          = some r ∧
        ∀ si s1, r = Res.ok si s1 →
          si.size ≤ m ∧ cfgMmap.GASNET_PAGESIZE ∣ si.size ∧
          cfgMmap.GASNET_PAGESIZE ∣ si.addr ∧ (si.size = 0 → si.addr = NULL)) :=
  C2_probe_result_bounded_aligned cfgMmap (gasneti_ops cfgMmap (oracleOS cfgMmap 15000000 65536))
    4097 (World.init () 1 0) 16777216 (by decide) (by decide) (by decide)
    (by
      intro s sz a s1 h
      obtain ⟨s2, h2⟩ := (gasneti_ops_isOracle cfgMmap 15000000 65536 rfl (by decide)
        (by decide) (by decide)).1 s sz
      rw [h2] at h
      injection h with h3 h4
      subst h3
      by_cases hsz : sz ≤ 15000000
      · rw [if_pos hsz]
        exact ⟨by decide, Or.inr (by decide)⟩
      · rw [if_neg hsz]
        exact ⟨by decide, Or.inl rfl⟩)
    (by decide) (by decide) (by decide) (by decide)

/-! ## The linear searches against the oracle -/

/-- An aligned size within one page below `K` is `K` aligned down. -/
theorem aligndown_eq_of_bracket (cfg : Config) {a K : Nat} (ha : cfg.GASNET_PAGESIZE ∣ a)
    (h1 : a ≤ K) (h2 : K < a + cfg.GASNET_PAGESIZE) : GASNETI_PAGE_ALIGNDOWN cfg K = a := by
  have hle := le_aligndown cfg ha h1
  have hK := aligndown_le cfg K
  have hdv := aligndown_dvd cfg K
  by_contra hne
  have hlt : a < GASNETI_PAGE_ALIGNDOWN cfg K := by omega
  have := aligned_add_le ha hdv hlt
  omega

/-- Against the oracle, the descending loop started on a refused aligned size above `K`
ends either still refused, and then `K` is below one page, or at `base` with size
`aligndown(K)`. -/
theorem lineardesc_loop_oracle {σ : Type} (cfg : Config) (ops : MapOps σ) (K base : Nat)
    (hP : 0 < cfg.GASNET_PAGESIZE) (hbase : base ≠ MAP_FAILED cfg)
    (hor : IsOracle cfg ops K base) :
    ∀ (fuel : Nat) (s : σ) (size : Nat),
      cfg.GASNET_PAGESIZE ∣ size → K < size → size < wordMod cfg →
      size < fuel * cfg.GASNET_PAGESIZE →
      ∃ si s1, gasneti_mmap_lineardesc_loop cfg ops fuel s ⟨MAP_FAILED cfg, size⟩
          = some (Res.ok si s1) ∧
        ((si.addr = MAP_FAILED cfg ∧ GASNETI_PAGE_ALIGNDOWN cfg K = 0) ∨
         (si.addr = base ∧ si.size = GASNETI_PAGE_ALIGNDOWN cfg K)) := by
  intro fuel
  induction fuel with
  | zero => intro s size _ _ _ hf; simp at hf
  | succ n ih =>
    intro s size hdv hK hW hf
    have hf2 : (n + 1) * cfg.GASNET_PAGESIZE = n * cfg.GASNET_PAGESIZE + cfg.GASNET_PAGESIZE := by
      ring
    rw [gasneti_mmap_lineardesc_loop]
    dsimp only
    by_cases hgt : size > cfg.GASNET_PAGESIZE
    · have hcond : (MAP_FAILED cfg = MAP_FAILED cfg ∧ size > cfg.GASNET_PAGESIZE) := ⟨rfl, hgt⟩
      rw [if_pos hcond]
      rw [usub_eq cfg (by omega) hW]
      obtain ⟨k, hk⟩ := hdv
      have hk2 : 2 ≤ k := by
        by_contra hc
        have hk1 : k ≤ 1 := by omega
        have := Nat.mul_le_mul_left cfg.GASNET_PAGESIZE hk1
        omega
      have hdv2 : cfg.GASNET_PAGESIZE ∣ size - cfg.GASNET_PAGESIZE :=
        ⟨k - 1, by rw [Nat.mul_sub, ← hk]; simp⟩
      obtain ⟨s1, h1⟩ := hor.1 s (size - cfg.GASNET_PAGESIZE)
      rw [h1]
      by_cases hsz : size - cfg.GASNET_PAGESIZE ≤ K
      · simp only [if_pos hsz]
        have hn : n ≠ 0 := by
          intro h0
          subst h0
          omega
        obtain ⟨m, rfl⟩ := Nat.exists_eq_succ_of_ne_zero hn
        rw [gasneti_mmap_lineardesc_loop]
        dsimp only
        have hnc : ¬ (base = MAP_FAILED cfg ∧ size - cfg.GASNET_PAGESIZE > cfg.GASNET_PAGESIZE) :=
          fun h => hbase h.1
        rw [if_neg hnc]
        refine ⟨_, _, rfl, Or.inr ⟨rfl, ?_⟩⟩
        exact (aligndown_eq_of_bracket cfg hdv2 hsz (by omega)).symm
      · simp only [if_neg hsz]
        exact ih s1 (size - cfg.GASNET_PAGESIZE) hdv2 (by omega) (by omega) (by omega)
    · have hcond : ¬ (MAP_FAILED cfg = MAP_FAILED cfg ∧ size > cfg.GASNET_PAGESIZE) :=
        fun h => hgt h.2
      rw [if_neg hcond]
      refine ⟨_, _, rfl, Or.inl ⟨rfl, ?_⟩⟩
      exact aligndown_eq_of_bracket cfg (dvd_zero _) (Nat.zero_le _) (by omega)

/-- Against the oracle, the ascending loop started on a granted aligned size at most `K`
ends on a refused size with `last_si` at `base` with size `aligndown(K)`. -/
theorem linearasc_loop_oracle {σ : Type} (cfg : Config) (ops : MapOps σ) (K base highsz : Nat)
    (hP : 0 < cfg.GASNET_PAGESIZE) (hbase : base ≠ MAP_FAILED cfg)
    (hhigh : cfg.GASNET_PAGESIZE ∣ highsz) (hKh : K < highsz) (hhW : highsz < wordMod cfg)
    (hor : IsOracle cfg ops K base) :
    ∀ (fuel : Nat) (s : σ) (size : Nat) (last_si : gasnet_seginfo_t),
      cfg.GASNET_PAGESIZE ∣ size → size ≤ K →
      K + cfg.GASNET_PAGESIZE < size + fuel * cfg.GASNET_PAGESIZE →
      ∃ si s1, gasneti_mmap_linearasc_loop cfg ops highsz fuel s ⟨base, size⟩ last_si
          = some (Res.ok (si, ⟨base, GASNETI_PAGE_ALIGNDOWN cfg K⟩) s1) ∧
        si.addr = MAP_FAILED cfg := by
  intro fuel
  induction fuel with
  | zero => intro s size last_si _ _ hf; simp at hf; omega
  | succ n ih =>
    intro s size last_si hdv hK hf
    have hf2 : (n + 1) * cfg.GASNET_PAGESIZE = n * cfg.GASNET_PAGESIZE + cfg.GASNET_PAGESIZE := by
      ring
    have hstep : size + cfg.GASNET_PAGESIZE ≤ highsz := aligned_add_le hdv hhigh (by omega)
    rw [gasneti_mmap_linearasc_loop]
    dsimp only
    have hcond : (base ≠ MAP_FAILED cfg ∧ size ≤ highsz) := ⟨hbase, by omega⟩
    rw [if_pos hcond]
    obtain ⟨s1, h1⟩ := hor.2.1 s base size
    rw [h1]
    simp only [uadd_eq cfg (show size + cfg.GASNET_PAGESIZE < wordMod cfg by omega)]
    obtain ⟨s2, h2⟩ := hor.1 s1 (size + cfg.GASNET_PAGESIZE)
    rw [h2]
    by_cases hsz : size + cfg.GASNET_PAGESIZE ≤ K
    · simp only [if_pos hsz]
      exact ih s2 (size + cfg.GASNET_PAGESIZE) ⟨base, size⟩ (Dvd.dvd.add hdv (dvd_refl _)) hsz
        (by omega)
    · simp only [if_neg hsz]
      have hn : n ≠ 0 := by
        intro h0
        subst h0
        omega
      obtain ⟨m, rfl⟩ := Nat.exists_eq_succ_of_ne_zero hn
      rw [gasneti_mmap_linearasc_loop]
      dsimp only
      have hnc : ¬ (MAP_FAILED cfg ≠ MAP_FAILED cfg ∧ size + cfg.GASNET_PAGESIZE ≤ highsz) :=
        fun h => h.1 rfl
      rw [if_neg hnc]
      rw [aligndown_eq_of_bracket cfg hdv hK (by omega)]
      exact ⟨_, _, rfl, rfl⟩

/-- C3 (amended). Against mapping primitives that behave as the oracle "a mapping
succeeds iff its size is at most `K`", for every page-aligned `highsz > 0` and every
`K < highsz`:
`gasneti_mmap_lineardesc_segsrch(highsz)` and `gasneti_mmap_linearasc_segsrch(highsz)`
both return the size `aligndown(K)`, and `gasneti_mmap_binary_segsrch(0, highsz)` returns
a page-multiple size `s ≤ aligndown(K)` within `GASNETI_MMAP_GRANULARITY` of `K`, which is
`aligndown(K)` as well when the granularity equals the page size. -/
theorem C3_strategies_against_oracle {σ : Type} (cfg : Config) (ops : MapOps σ)
    (K base fuel highsz : Nat)
    (w : σ) (hor : IsOracle cfg ops K base) (hP : 0 < cfg.GASNET_PAGESIZE)
    (hG : cfg.GASNET_PAGESIZE ≤ cfg.GASNETI_MMAP_GRANULARITY)
    (hhigh : cfg.GASNET_PAGESIZE ∣ highsz) (hpos : 0 < highsz) (hK : K < highsz)
    (hfit : base + highsz < wordMod cfg) (hfuel : highsz < fuel * cfg.GASNET_PAGESIZE) :
    retSize (gasneti_mmap_lineardesc_segsrch cfg ops
        fuel w highsz) = some (GASNETI_PAGE_ALIGNDOWN cfg K) ∧
    retSize (gasneti_mmap_linearasc_segsrch cfg ops
        fuel w highsz) = some (GASNETI_PAGE_ALIGNDOWN cfg K) ∧
    ∃ s, retSize (gasneti_mmap_binary_segsrch cfg ops
        fuel w 0 highsz) = some s ∧
      cfg.GASNET_PAGESIZE ∣ s ∧ s ≤ GASNETI_PAGE_ALIGNDOWN cfg K ∧
      K < s + cfg.GASNETI_MMAP_GRANULARITY ∧
      (cfg.GASNETI_MMAP_GRANULARITY = cfg.GASNET_PAGESIZE →
        s = GASNETI_PAGE_ALIGNDOWN cfg K) := by
  have hbase : base ≠ MAP_FAILED cfg := by
    unfold MAP_FAILED
    omega
  have hPle : cfg.GASNET_PAGESIZE ≤ highsz := Nat.le_of_dvd hpos hhigh
  have hKle := aligndown_le cfg K
  have hKdv := aligndown_dvd cfg K
  refine ⟨?_, ?_, ?_⟩
  · unfold gasneti_mmap_lineardesc_segsrch
    obtain ⟨si, w1, h1, hsi⟩ := lineardesc_loop_oracle cfg _ K base hP hbase hor fuel w highsz
      hhigh hK (by omega) hfuel
    rw [h1]
    rcases hsi with ⟨ha, h0⟩ | ⟨ha, hs⟩
    · simp only [if_pos ha, retSize, h0]
    · have hne : si.addr ≠ MAP_FAILED cfg := by rw [ha]; exact hbase
      simp only [if_neg hne, retSize, hs]
  · unfold gasneti_mmap_linearasc_segsrch
    obtain ⟨w1, h1⟩ := hor.1 w cfg.GASNET_PAGESIZE
    rw [h1]
    dsimp only
    by_cases hPK : cfg.GASNET_PAGESIZE ≤ K
    · rw [if_pos hPK]
      obtain ⟨si, w2, h2, hsi⟩ := linearasc_loop_oracle cfg _ K base highsz hP hbase hhigh hK
        (by omega) hor fuel w1 cfg.GASNET_PAGESIZE ⟨NULL, 0⟩ (dvd_refl _) hPK (by omega)
      rw [h2]
      simp only [if_pos hsi, retSize]
    · rw [if_neg hPK]
      have hn : fuel ≠ 0 := by
        intro h0
        subst h0
        omega
      obtain ⟨m, rfl⟩ := Nat.exists_eq_succ_of_ne_zero hn
      rw [gasneti_mmap_linearasc_loop]
      dsimp only
      have hnc : ¬ (MAP_FAILED cfg ≠ MAP_FAILED cfg ∧ cfg.GASNET_PAGESIZE ≤ highsz) :=
        fun h => h.1 rfl
      rw [if_neg hnc]
      simp only [if_true, retSize]
      rw [aligndown_eq_of_bracket cfg (dvd_zero _) (Nat.zero_le _) (by omega)]
  · obtain ⟨si, w2, h2, hsi⟩ := binary_segsrch_oracle cfg _ K base hP hG hbase hor fuel w 0
      highsz (dvd_zero _) hhigh (Nat.zero_le _) (by omega) (by omega) (Nat.zero_le _) hK
    refine ⟨si.size, by rw [h2]; rfl, ?_⟩
    rcases hsi with ⟨hz, hKG⟩ | ⟨ha, hl, hk, hd, hKG⟩
    · subst hz
      refine ⟨dvd_zero _, Nat.zero_le _, by simpa using hKG, fun hGP => ?_⟩
      show 0 = GASNETI_PAGE_ALIGNDOWN cfg K
      exact (aligndown_eq_of_bracket cfg (dvd_zero _) (Nat.zero_le _) (by omega)).symm
    · exact ⟨hd, le_aligndown cfg hd hk, hKG,
        fun hGP => (aligndown_eq_of_bracket cfg hd hk (by omega)).symm⟩

/-- C3 (counterexample). With 4 KiB pages and a search granularity of 4 MiB, against the
oracle with `K` of one page and `highsz` of two pages, the two linear searches return one
page and the bisection returns size zero. -/
theorem C3_counterexample :
    retSize (gasneti_mmap_lineardesc_segsrch cfgMmap
        (gasneti_ops cfgMmap (oracleOS cfgMmap 4096 65536)) 3 (World.init () 1 0) 8192)
      = some 4096 ∧
    retSize (gasneti_mmap_linearasc_segsrch cfgMmap
        (gasneti_ops cfgMmap (oracleOS cfgMmap 4096 65536)) 3 (World.init () 1 0) 8192)
      = some 4096 ∧
    retSize (gasneti_mmap_binary_segsrch cfgMmap
        (gasneti_ops cfgMmap (oracleOS cfgMmap 4096 65536)) 3 (World.init () 1 0) 0 8192)
      = some 0 ∧
    GASNETI_PAGE_ALIGNDOWN cfgMmap 4096 = 4096 := by
  decide

/-- C3 (witness). The amended claim for the primitives of a build without PSHM over the
simulated host, at 4 KiB pages, 4 MiB granularity, `highsz` = 16 MiB and `K` = 15000000. -/
theorem C3_strategies_against_oracle_witness :
    retSize (gasneti_mmap_lineardesc_segsrch cfgMmap
        (gasneti_ops cfgMmap (oracleOS cfgMmap 15000000 65536)) 4097 (World.init () 1 0)
        16777216) = some (GASNETI_PAGE_ALIGNDOWN cfgMmap 15000000) ∧
    retSize (gasneti_mmap_linearasc_segsrch cfgMmap
        (gasneti_ops cfgMmap (oracleOS cfgMmap 15000000 65536)) 4097 (World.init () 1 0)
        16777216) = some (GASNETI_PAGE_ALIGNDOWN cfgMmap 15000000) ∧
    ∃ s, retSize (gasneti_mmap_binary_segsrch cfgMmap
        (gasneti_ops cfgMmap (oracleOS cfgMmap 15000000 65536)) 4097 (World.init () 1 0) 0
        16777216) = some s ∧
      cfgMmap.GASNET_PAGESIZE ∣ s ∧ s ≤ GASNETI_PAGE_ALIGNDOWN cfgMmap 15000000 ∧
      15000000 < s + cfgMmap.GASNETI_MMAP_GRANULARITY ∧
      (cfgMmap.GASNETI_MMAP_GRANULARITY = cfgMmap.GASNET_PAGESIZE →
        s = GASNETI_PAGE_ALIGNDOWN cfgMmap 15000000) :=
  C3_strategies_against_oracle cfgMmap (gasneti_ops cfgMmap (oracleOS cfgMmap 15000000 65536))
    15000000 65536 4097 16777216 (World.init () 1 0)
    (gasneti_ops_isOracle cfgMmap 15000000 65536 rfl (by decide) (by decide) (by decide))
    (by decide) (by decide) (by decide) (by decide) (by decide) (by decide) (by decide)

/-- C4 (confirmed). For `maxsz = 0`, and for every `maxsz` that aligns down to 0,
`gasneti_mmap_segment_search(maxsz)` returns `{addr = NULL, size = 0}` normally and in the
state in which it was called, whatever the mapping primitives would do (no fuel is used,
no primitive decides the result or touches the state); with the primitives instrumented
by a counter of their calls, the counter is the same after the call as before. -/
theorem C4_search_zero_without_map {σ : Type} (cfg : Config) (ops : MapOps σ)
    (fuel : Nat) (s : σ) (n maxsz : Nat) (h : gasneti_mmap_aligndown cfg maxsz = 0) :
    gasneti_mmap_segment_search cfg ops fuel s maxsz = some (Res.ok ⟨NULL, 0⟩ s) ∧
    gasneti_mmap_segment_search cfg ops fuel s 0 = some (Res.ok ⟨NULL, 0⟩ s) ∧
    gasneti_mmap_segment_search cfg (countingOps ops) fuel (s, n) maxsz
      = some (Res.ok ⟨NULL, 0⟩ (s, n)) ∧
    gasneti_mmap_segment_search cfg (countingOps ops) fuel (s, n) 0
      = some (Res.ok ⟨NULL, 0⟩ (s, n)) := by
  have h0 : gasneti_mmap_aligndown cfg 0 = 0 := by
    simp [gasneti_mmap_aligndown, GASNETI_PAGE_ALIGNDOWN]
  refine ⟨?_, ?_, ?_, ?_⟩
  · unfold gasneti_mmap_segment_search
    simp only [h, if_true]
  · unfold gasneti_mmap_segment_search
    simp only [h0, if_true]
  · unfold gasneti_mmap_segment_search
    simp only [h, if_true]
  · unfold gasneti_mmap_segment_search
    simp only [h0, if_true]

/-- C4 (witness). A request of 100 bytes with 4 KiB pages aligns down to 0. -/
theorem C4_search_zero_without_map_witness :
    gasneti_mmap_segment_search cfgMmap (gasneti_ops cfgMmap (denyOS cfgMmap EINVAL))
        0 worldRank0 100 = some (Res.ok ⟨NULL, 0⟩ worldRank0) ∧
    gasneti_mmap_segment_search cfgMmap (gasneti_ops cfgMmap (denyOS cfgMmap EINVAL))
        0 worldRank0 0 = some (Res.ok ⟨NULL, 0⟩ worldRank0) ∧
    gasneti_mmap_segment_search cfgMmap (countingOps (gasneti_ops cfgMmap (denyOS cfgMmap EINVAL)))
        0 (worldRank0, 0) 100 = some (Res.ok ⟨NULL, 0⟩ (worldRank0, 0)) ∧
    gasneti_mmap_segment_search cfgMmap (countingOps (gasneti_ops cfgMmap (denyOS cfgMmap EINVAL)))
        0 (worldRank0, 0) 0 = some (Res.ok ⟨NULL, 0⟩ (worldRank0, 0)) :=
  C4_search_zero_without_map cfgMmap (gasneti_ops cfgMmap (denyOS cfgMmap EINVAL))
    0 worldRank0 0 100 (by decide)

/-! ## Failures of a mapping attempt during probing -/

/-- C5 (amended). A non-fixed mapping attempt that the system refuses with error `e`:
`gasneti_mmap` (build without PSHM) hands it back as `MAP_FAILED` when `e` is `ENOMEM` or
the platform's alias for exhausted memory, and ends in `gasneti_fatalerror` for every
other `e`; `gasneti_mmap_shared` (PSHM build, `may_fail = 1`) hands every failure of
`gasneti_pshm_mmap` back as `MAP_FAILED`, whatever `errno` is.  In the bisection a
`MAP_FAILED` continues the search in the lower half and a fatal error ends it. -/
theorem C5_probe_failure_handling {σ : Type} (cfg : Config) (os : OS σ) (w : World σ)
    (segsize e : Nat) (k : σ)
    (hfail : os.mmap w.os NULL segsize false none = (MAP_FAILED cfg, e, k)) :
    ((e = ENOMEM ∨ cfg.quirkErrno = some e) →
      gasneti_mmap cfg os w segsize
        = Res.ok (MAP_FAILED cfg) { w with os := k, errno := e }) ∧
    (e ≠ ENOMEM → cfg.quirkErrno ≠ some e →
      gasneti_mmap cfg os w segsize
        = Res.fatal Fatal.unexpected_mmap_error { w with os := k, errno := e }) ∧
    (∀ w1, segsize ≠ 0 →
      gasneti_pshm_mmap cfg os w w.gasneti_pshm_mynode NULL segsize
        = Res.ok (MAP_FAILED cfg) w1 →
      gasneti_mmap_shared cfg os w segsize = Res.ok (MAP_FAILED cfg) w1) ∧
    (∀ (τ : Type) (ops : MapOps τ) (fuel : Nat) (s : τ) (lo hi : Nat),
      ¬ usub cfg hi lo ≤ cfg.GASNETI_MMAP_GRANULARITY →
      (∀ s1, ops.gasneti_do_mmap s
            (gasneti_mmap_aligndown cfg (uadd cfg lo (usub cfg hi lo / 2)))
          = Res.ok (MAP_FAILED cfg) s1 →
        gasneti_mmap_binary_segsrch cfg ops (fuel + 1) s lo hi
          = gasneti_mmap_binary_segsrch cfg ops fuel s1 lo
              (gasneti_mmap_aligndown cfg (uadd cfg lo (usub cfg hi lo / 2)))) ∧
      (∀ e1 s1, ops.gasneti_do_mmap s
            (gasneti_mmap_aligndown cfg (uadd cfg lo (usub cfg hi lo / 2)))
          = Res.fatal e1 s1 →
        gasneti_mmap_binary_segsrch cfg ops (fuel + 1) s lo hi = some (Res.fatal e1 s1))) := by
  refine ⟨?_, ?_, ?_, ?_⟩
  · intro he
    unfold gasneti_mmap gasneti_mmap_internal sys_mmap
    have hnull : (NULL != NULL) = false := by decide
    rw [hnull, hfail]
    simp only [if_true]
    have h1 : ¬ (True ∧ e ≠ ENOMEM ∧ cfg.quirkErrno ≠ some e) := by
      rintro ⟨_, h2, h3⟩
      rcases he with he | he
      · exact h2 he
      · exact h3 he
    rw [if_neg h1]
    simp
  · intro he hq
    unfold gasneti_mmap gasneti_mmap_internal sys_mmap
    have hnull : (NULL != NULL) = false := by decide
    rw [hnull, hfail]
    simp only [if_true]
    rw [if_pos ⟨trivial, he, hq⟩]
  · intro w1 hsz hp
    unfold gasneti_mmap_shared gasneti_mmap_shared_internal
    rw [if_neg hsz, hp]
    simp
  · intro τ ops fuel s lo hi hg
    constructor
    · intro s1 h1
      rw [gasneti_mmap_binary_segsrch, if_neg hg]
      simp only [h1, if_true]
    · intro e1 s1 h1
      rw [gasneti_mmap_binary_segsrch, if_neg hg]
      simp only [h1]

/-- C5 (counterexample). In a PSHM build, on a host that refuses every mapping with
`EACCES`, `gasneti_mmap_shared` returns `MAP_FAILED` with `errno = EACCES` instead of
ending in a fatal error, and the probe of 16 MiB goes on to make three mapping attempts
in all before it returns the zero-size result. -/
theorem C5_counterexample :
    (gasneti_mmap_shared cfgPshm (denyOS cfgPshm EACCES) worldRank0 4096).isFatal = false ∧
    (gasneti_mmap_shared cfgPshm (denyOS cfgPshm EACCES) worldRank0 4096).value
      = some (MAP_FAILED cfgPshm) ∧
    (gasneti_mmap_shared cfgPshm (denyOS cfgPshm EACCES) worldRank0 4096).state.errno
      = EACCES ∧
    retSeg (_gasneti_mmap_segment_search_inner cfgPshm
        (gasneti_ops cfgPshm (denyOS cfgPshm EACCES)) 4097 worldRank0 16777216)
      = some ⟨NULL, 0⟩ ∧
    (retState (_gasneti_mmap_segment_search_inner cfgPshm
        (gasneti_ops cfgPshm (denyOS cfgPshm EACCES)) 4097 worldRank0 16777216)).map
      (fun w => w.os) = some 3 := by
  decide

/-- C5 (witness). The amended claim on the host that refuses every mapping with
`ENOMEM`, in the build without PSHM. -/
theorem C5_probe_failure_handling_witness :
    gasneti_mmap cfgMmap (denyOS cfgMmap ENOMEM) worldRank0 4096
      = Res.ok (MAP_FAILED cfgMmap) { worldRank0 with os := 1, errno := ENOMEM } :=
  (C5_probe_failure_handling cfgMmap (denyOS cfgMmap ENOMEM) worldRank0 4096 ENOMEM 1 rfl).1
    (Or.inl rfl)

/-! ## Names of the PSHM objects -/

/-- Each of the 36 digits of `tbl` is a character other than NUL that stands at one place
of the table only. -/
theorem tbl_digit : ∀ d, d < 36 →
    ∃ c, tbl.get? d = some c ∧ c ≠ Char.ofNat 0 ∧ tbl.indexOf c = d := by
  intro d hd
  interval_cases d <;> exact ⟨_, rfl, by decide, by decide⟩

/-- A buffer without NUL before its terminator reads as the characters before it. -/
theorem cstr_append_nul (l rest : List Char) (h : ∀ c ∈ l, c ≠ Char.ofNat 0) :
    cstr (l ++ Char.ofNat 0 :: rest) = l := by
  unfold cstr
  induction l with
  | nil => simp
  | cons a t ih =>
    have ha : a ≠ Char.ofNat 0 := h a (List.mem_cons_self a t)
    have ht : ∀ c ∈ t, c ≠ Char.ofNat 0 := fun c hc => h c (List.mem_cons_of_mem a hc)
    have hih := ih ht
    simp only [List.cons_append, List.takeWhile_cons]
    simp only [ha, ne_eq, not_false_eq_true, decide_True, if_true, List.cons.injEq, true_and]
    exact hih

/-- The name generated for an index below 36^3: directory, prefix and the three base-36
digits of the index, most significant first. -/
theorem makeunique_filename_eq (dir pfx : List Char) (i : Nat) (hi : i < 46656)
    (hdir : ∀ c ∈ dir, c ≠ Char.ofNat 0) (hpfx : ∀ c ∈ pfx, c ≠ Char.ofNat 0) :
    ∃ a : List Char, gasneti_pshm_makeunique_filename dir pfx i = some (dir ++ pfx ++ a) ∧
      a.length = 3 ∧ a.map (fun c => tbl.indexOf c) = [i / 36 / 36, i / 36 % 36, i % 36] := by
  obtain ⟨c2, h2, hn2, hx2⟩ := tbl_digit (i % 36) (Nat.mod_lt _ (by decide))
  obtain ⟨c1, h1, hn1, hx1⟩ := tbl_digit (i / 36 % 36) (Nat.mod_lt _ (by decide))
  obtain ⟨c0, h0, hn0, hx0⟩ := tbl_digit (i / 36 / 36) (by omega)
  refine ⟨[c0, c1, c2], ?_, rfl, by simp [hx0, hx1, hx2]⟩
  unfold gasneti_pshm_makeunique_filename
  simp only [h0, h1, h2]
  have hall : ∀ c ∈ dir ++ pfx ++ [c0, c1, c2], c ≠ Char.ofNat 0 := by
    intro c hc
    simp only [List.mem_append, List.mem_cons, List.mem_singleton, List.not_mem_nil,
      or_false] at hc
    rcases hc with (hc | hc) | hc | hc | hc
    · exact hdir c hc
    · exact hpfx c hc
    · rw [hc]; exact hn0
    · rw [hc]; exact hn1
    · rw [hc]; exact hn2
  have := cstr_append_nul (dir ++ pfx ++ [c0, c1, c2]) [] hall
  simpa using this

/-- C6 (confirmed). For all indices `i < j < 46656` of the table that
`gasneti_pshm_makeunique` builds, the names generated for `i` and `j` are different, and
both consist of the one common prefix (the directory, "/GASNT" and the unique tag)
followed by a suffix of 3 characters which are the base-36 digits of the index.  The
directory and the tag are C strings (no NUL inside). -/
theorem C6_pshm_names_distinct (cfg : Config) (tmpdir unique : List Char) (nodes i j : Nat)
    (hdir : ∀ c ∈ tmpdir, c ≠ Char.ofNat 0) (huniq : ∀ c ∈ unique, c ≠ Char.ofNat 0)
    (hij : i < j) (hjn : j ≤ nodes) (hj : j < 46656) :
    ∃ a b : List Char,
      (gasneti_pshm_makeunique_names cfg tmpdir unique nodes).get? i
        = some (some ((if cfg.GASNETI_PSHM_POSIX = true then [] else tmpdir)
            ++ gasneti_pshm_makeunique_pfx unique ++ a)) ∧
      (gasneti_pshm_makeunique_names cfg tmpdir unique nodes).get? j
        = some (some ((if cfg.GASNETI_PSHM_POSIX = true then [] else tmpdir)
            ++ gasneti_pshm_makeunique_pfx unique ++ b)) ∧
      a.length = 3 ∧ b.length = 3 ∧
      a.map (fun c => tbl.indexOf c) = [i / 36 / 36, i / 36 % 36, i % 36] ∧
      b.map (fun c => tbl.indexOf c) = [j / 36 / 36, j / 36 % 36, j % 36] ∧
      a ≠ b ∧
      (if cfg.GASNETI_PSHM_POSIX = true then [] else tmpdir)
          ++ gasneti_pshm_makeunique_pfx unique ++ a
        ≠ (if cfg.GASNETI_PSHM_POSIX = true then [] else tmpdir)
          ++ gasneti_pshm_makeunique_pfx unique ++ b := by
  have hd : ∀ c ∈ (if cfg.GASNETI_PSHM_POSIX = true then [] else tmpdir), c ≠ Char.ofNat 0 := by
    intro c hc
    by_cases hp : cfg.GASNETI_PSHM_POSIX = true
    · rw [if_pos hp] at hc
      cases hc
    · rw [if_neg hp] at hc
      exact hdir c hc
  have hp : ∀ c ∈ gasneti_pshm_makeunique_pfx unique, c ≠ Char.ofNat 0 := by
    intro c hc
    unfold gasneti_pshm_makeunique_pfx at hc
    rw [List.mem_append] at hc
    rcases hc with hc | hc
    · revert c
      decide
    · exact huniq c (List.mem_of_mem_take hc)
  obtain ⟨a, ha, hla, hda⟩ := makeunique_filename_eq _ _ i (by omega) hd hp
  obtain ⟨b, hb, hlb, hdb⟩ := makeunique_filename_eq _ _ j hj hd hp
  have hab : a ≠ b := by
    intro h
    rw [h, hdb] at hda
    simp only [List.cons.injEq, and_true] at hda
    omega
  refine ⟨a, b, ?_, ?_, hla, hlb, hda, hdb, hab, ?_⟩
  · unfold gasneti_pshm_makeunique_names
    rw [List.get?_eq_getElem?, List.getElem?_map, List.getElem?_range (by omega)]
    simp only [Option.map_some', ha]
  · unfold gasneti_pshm_makeunique_names
    rw [List.get?_eq_getElem?, List.getElem?_map, List.getElem?_range (by omega)]
    simp only [Option.map_some', hb]
  · intro h
    exact hab (List.append_cancel_left h)

/-- C6 (witness). The names of indices 35 and 36 under "/tmp" with the tag "abcdef". -/
theorem C6_pshm_names_distinct_witness :
    ∃ a b : List Char,
      (gasneti_pshm_makeunique_names cfgMmap "/tmp".toList "abcdef".toList 40).get? 35
        = some (some ((if cfgMmap.GASNETI_PSHM_POSIX = true then [] else "/tmp".toList)
            ++ gasneti_pshm_makeunique_pfx "abcdef".toList ++ a)) ∧
      (gasneti_pshm_makeunique_names cfgMmap "/tmp".toList "abcdef".toList 40).get? 36
        = some (some ((if cfgMmap.GASNETI_PSHM_POSIX = true then [] else "/tmp".toList)
            ++ gasneti_pshm_makeunique_pfx "abcdef".toList ++ b)) ∧
      a.length = 3 ∧ b.length = 3 ∧
      a.map (fun c => tbl.indexOf c) = [35 / 36 / 36, 35 / 36 % 36, 35 % 36] ∧
      b.map (fun c => tbl.indexOf c) = [36 / 36 / 36, 36 / 36 % 36, 36 % 36] ∧
      a ≠ b ∧
      (if cfgMmap.GASNETI_PSHM_POSIX = true then [] else "/tmp".toList)
          ++ gasneti_pshm_makeunique_pfx "abcdef".toList ++ a
        ≠ (if cfgMmap.GASNETI_PSHM_POSIX = true then [] else "/tmp".toList)
          ++ gasneti_pshm_makeunique_pfx "abcdef".toList ++ b :=
  C6_pshm_names_distinct cfgMmap "/tmp".toList "abcdef".toList 40 35 36 (by decide) (by decide)
    (by decide) (by decide) (by decide)

/-! ## Creator and attacher -/

/-- C7 (confirmed). For every object index `r` in `0 .. gasneti_pshm_nodes` exactly one
local rank `m` below `gasneti_pshm_nodes` has `create` set in `gasneti_pshm_mmap`: `m = r`
for a per-rank object and `m = 0` for the vnet object `r = gasneti_pshm_nodes`; a rank
without `create` opens with `O_RDWR` alone, a rank with `create` opens with
`O_CREAT | O_EXCL`. -/
theorem C7_exactly_one_creator (nodes r : Nat) (hn : 0 < nodes) (hr : r ≤ nodes) :
    (∃! m, m < nodes ∧ gasneti_pshm_mmap_create nodes m r = true) ∧
    (∀ m, m < nodes →
      (gasneti_pshm_mmap_create nodes m r = true ↔ m = if r = nodes then 0 else r)) ∧
    (∀ m, gasneti_pshm_mmap_create nodes m r = false →
      gasneti_pshm_mmap_flags (gasneti_pshm_mmap_create nodes m r) = O_RDWR ∧
      gasneti_pshm_mmap_flags (gasneti_pshm_mmap_create nodes m r) &&& O_CREAT = 0 ∧
      gasneti_pshm_mmap_flags (gasneti_pshm_mmap_create nodes m r) &&& O_EXCL = 0) ∧
    (∀ m, gasneti_pshm_mmap_create nodes m r = true →
      gasneti_pshm_mmap_flags (gasneti_pshm_mmap_create nodes m r) &&& O_CREAT ≠ 0 ∧
      gasneti_pshm_mmap_flags (gasneti_pshm_mmap_create nodes m r) &&& O_EXCL ≠ 0) := by
  have key : ∀ m, m < nodes →
      (gasneti_pshm_mmap_create nodes m r = true ↔ m = if r = nodes then 0 else r) := by
    intro m hm
    unfold gasneti_pshm_mmap_create
    simp only [Bool.or_eq_true, Bool.and_eq_true, beq_iff_eq]
    by_cases hrn : r = nodes
    · rw [if_pos hrn]
      constructor
      · rintro (h | ⟨_, h⟩)
        · omega
        · exact h
      · intro h
        exact Or.inr ⟨hrn, h⟩
    · rw [if_neg hrn]
      constructor
      · rintro (h | ⟨h, _⟩)
        · exact h.symm
        · exact absurd h hrn
      · intro h
        exact Or.inl h.symm
  refine ⟨?_, key, ?_, ?_⟩
  · refine ⟨if r = nodes then 0 else r, ⟨?_, ?_⟩, ?_⟩
    · by_cases hrn : r = nodes
      · rw [if_pos hrn]; exact hn
      · rw [if_neg hrn]; omega
    · have hlt : (if r = nodes then 0 else r) < nodes := by
        by_cases hrn : r = nodes
        · rw [if_pos hrn]; exact hn
        · rw [if_neg hrn]; omega
      exact (key _ hlt).mpr rfl
    · rintro m ⟨hm, hc⟩
      exact (key m hm).mp hc
  · intro m hc
    rw [hc]
    decide
  · intro m hc
    rw [hc]
    decide

/-- C7 (witness). Three processes on the host, the vnet object (index 3). -/
theorem C7_exactly_one_creator_witness :
    (∃! m, m < 3 ∧ gasneti_pshm_mmap_create 3 m 3 = true) ∧
    (∀ m, m < 3 →
      (gasneti_pshm_mmap_create 3 m 3 = true ↔ m = if 3 = 3 then 0 else 3)) ∧
    (∀ m, gasneti_pshm_mmap_create 3 m 3 = false →
      gasneti_pshm_mmap_flags (gasneti_pshm_mmap_create 3 m 3) = O_RDWR ∧
      gasneti_pshm_mmap_flags (gasneti_pshm_mmap_create 3 m 3) &&& O_CREAT = 0 ∧
      gasneti_pshm_mmap_flags (gasneti_pshm_mmap_create 3 m 3) &&& O_EXCL = 0) ∧
    (∀ m, gasneti_pshm_mmap_create 3 m 3 = true →
      gasneti_pshm_mmap_flags (gasneti_pshm_mmap_create 3 m 3) &&& O_CREAT ≠ 0 ∧
      gasneti_pshm_mmap_flags (gasneti_pshm_mmap_create 3 m 3) &&& O_EXCL ≠ 0) :=
  C7_exactly_one_creator 3 3 (by decide) (by decide)

/-! ## Frame properties of the system calls -/

/-- The call `mmap` leaves the name space and the PSHM globals alone. -/
theorem sys_mmap_frame {σ : Type} (cfg : Config) (os : OS σ) (w : World σ) (a l : Nat)
    (f : Bool) (fd : Option ObjName) :
    (sys_mmap cfg os w a l f fd).2.fs = w.fs ∧
    (sys_mmap cfg os w a l f fd).2.gasneti_pshmname = w.gasneti_pshmname ∧
    (sys_mmap cfg os w a l f fd).2.gasneti_pshm_tmpfile = w.gasneti_pshm_tmpfile ∧
    (sys_mmap cfg os w a l f fd).2.gasneti_pshm_nodes = w.gasneti_pshm_nodes ∧
    (sys_mmap cfg os w a l f fd).2.gasneti_pshm_mynode = w.gasneti_pshm_mynode ∧
    (sys_mmap cfg os w a l f fd).2.unlink_log = w.unlink_log := by
  unfold sys_mmap
  split
  split <;> simp

/-- The call `munmap` leaves the name space and the PSHM globals alone. -/
theorem sys_munmap_frame {σ : Type} (os : OS σ) (w : World σ) (a l : Nat) :
    (sys_munmap os w a l).2.fs = w.fs ∧
    (sys_munmap os w a l).2.gasneti_pshmname = w.gasneti_pshmname ∧
    (sys_munmap os w a l).2.gasneti_pshm_tmpfile = w.gasneti_pshm_tmpfile ∧
    (sys_munmap os w a l).2.gasneti_pshm_nodes = w.gasneti_pshm_nodes ∧
    (sys_munmap os w a l).2.gasneti_pshm_mynode = w.gasneti_pshm_mynode ∧
    (sys_munmap os w a l).2.unlink_log = w.unlink_log := by
  unfold sys_munmap
  split
  split <;> simp

/-- The call `ftruncate` leaves the name space and the PSHM globals alone. -/
theorem sys_ftruncate_frame {σ : Type} (os : OS σ) (w : World σ) (fd : ObjName) (l : Nat) :
    (sys_ftruncate os w fd l).2.fs = w.fs ∧
    (sys_ftruncate os w fd l).2.gasneti_pshmname = w.gasneti_pshmname ∧
    (sys_ftruncate os w fd l).2.gasneti_pshm_tmpfile = w.gasneti_pshm_tmpfile ∧
    (sys_ftruncate os w fd l).2.gasneti_pshm_nodes = w.gasneti_pshm_nodes ∧
    (sys_ftruncate os w fd l).2.gasneti_pshm_mynode = w.gasneti_pshm_mynode ∧
    (sys_ftruncate os w fd l).2.unlink_log = w.unlink_log := by
  unfold sys_ftruncate
  split
  split <;> simp

/-- The call `unlink` changes the name space only: the name is absent afterwards and
every other name stays. -/
theorem sys_unlink_frame {σ : Type} (w : World σ) (name : ObjName) :
    (sys_unlink w name).2.fs = w.fs.filter (fun n => n ≠ name) ∧
    (sys_unlink w name).2.gasneti_pshmname = w.gasneti_pshmname ∧
    (sys_unlink w name).2.gasneti_pshm_tmpfile = w.gasneti_pshm_tmpfile ∧
    (sys_unlink w name).2.gasneti_pshm_nodes = w.gasneti_pshm_nodes ∧
    (sys_unlink w name).2.gasneti_pshm_mynode = w.gasneti_pshm_mynode ∧
    (sys_unlink w name).2.unlink_log = w.unlink_log := by
  unfold sys_unlink
  by_cases h : name ∈ w.fs
  · rw [if_pos h]
    simp
  · rw [if_neg h]
    refine ⟨?_, rfl, rfl, rfl, rfl, rfl⟩
    symm
    rw [List.filter_eq_self]
    intro n hn
    have : n ≠ name := fun hc => h (hc ▸ hn)
    simpa using this

/-- The effect of `gasneti_pshm_unlink(pshm_rank)`: the index is logged, the PSHM globals
stay, and when the table holds the index the call returns with that name removed. -/
theorem pshm_unlink_frame {σ : Type} (cfg : Config) (w : World σ) (r : Nat) :
    (gasneti_pshm_unlink cfg w r).state.unlink_log = w.unlink_log ++ [r] ∧
    (gasneti_pshm_unlink cfg w r).state.gasneti_pshmname = w.gasneti_pshmname ∧
    (gasneti_pshm_unlink cfg w r).state.gasneti_pshm_tmpfile = w.gasneti_pshm_tmpfile ∧
    (gasneti_pshm_unlink cfg w r).state.gasneti_pshm_nodes = w.gasneti_pshm_nodes ∧
    (gasneti_pshm_unlink cfg w r).state.gasneti_pshm_mynode = w.gasneti_pshm_mynode ∧
    (∀ name, gasneti_pshmname_at cfg w r = some name →
      ∃ w1, gasneti_pshm_unlink cfg w r = Res.ok () w1 ∧
        w1.fs = w.fs.filter (fun n => n ≠ name)) ∧
    (gasneti_pshmname_at cfg w r = none → (gasneti_pshm_unlink cfg w r).isFault = true) := by
  have hat : gasneti_pshmname_at cfg { w with unlink_log := w.unlink_log ++ [r] } r
      = gasneti_pshmname_at cfg w r := rfl
  unfold gasneti_pshm_unlink
  simp only [hat]
  cases h : gasneti_pshmname_at cfg w r with
  | none => simp [Res.state, Res.isFault]
  | some name =>
    obtain ⟨h1, h2, h3, h4, h5, h6⟩ :=
      sys_unlink_frame { w with unlink_log := w.unlink_log ++ [r] } name
    simp only [Res.state]
    refine ⟨h6, h2, h3, h4, h5, ?_, ?_⟩
    · intro name1 hn
      injection hn with hn
      subst hn
      exact ⟨_, rfl, h1⟩
    · intro hc
      cases hc

/-! ## Which indices are unlinked -/

/-- A table that holds index `i` yields a name for it. -/
theorem pshmname_at_of_lt {σ : Type} (cfg : Config) (w : World σ) (names : List (List Char))
    (i : Nat) (hn : w.gasneti_pshmname = some names) (hi : i < names.length) :
    ∃ name, gasneti_pshmname_at cfg w i = some name := by
  unfold gasneti_pshmname_at
  rw [hn]
  simp only [List.get?_eq_getElem?, List.getElem?_eq_getElem hi]
  exact ⟨_, rfl⟩

/-- The loop of `gasneti_cleanup_shm` over indices that the table holds returns, has
passed exactly these indices to `gasneti_pshm_unlink`, and leaves the PSHM globals as
they were. -/
theorem cleanup_loop_spec {σ : Type} (cfg : Config) (names : List (List Char)) :
    ∀ (l : List Nat) (w : World σ), w.gasneti_pshmname = some names →
      (∀ i ∈ l, i < names.length) →
      ∃ w1, gasneti_cleanup_shm_loop cfg l w = Res.ok () w1 ∧
        w1.unlink_log = w.unlink_log ++ l ∧
        w1.gasneti_pshmname = some names ∧
        w1.gasneti_pshm_tmpfile = w.gasneti_pshm_tmpfile ∧
        w1.gasneti_pshm_nodes = w.gasneti_pshm_nodes ∧
        w1.gasneti_pshm_mynode = w.gasneti_pshm_mynode := by
  intro l
  induction l with
  | nil =>
    intro w hn _
    exact ⟨w, rfl, by simp, hn, rfl, rfl, rfl⟩
  | cons i rest ih =>
    intro w hn hl
    obtain ⟨name, hname⟩ := pshmname_at_of_lt cfg w names i hn (hl i (List.mem_cons_self i rest))
    obtain ⟨h1, h2, h3, h4, h5, h6, _⟩ := pshm_unlink_frame cfg w i
    obtain ⟨w1, hw1, _⟩ := h6 name hname
    rw [hw1] at h1 h2 h3 h4 h5
    simp only [Res.state] at h1 h2 h3 h4 h5
    obtain ⟨w2, hw2, g1, g2, g3, g4, g5⟩ := ih w1 (by rw [h2, hn])
      (fun k hk => hl k (List.mem_cons_of_mem i hk))
    refine ⟨w2, ?_, ?_, g2, by rw [g3, h3], by rw [g4, h4], by rw [g5, h5]⟩
    · rw [gasneti_cleanup_shm_loop, hw1]
      exact hw2
    · rw [g1, h1]
      simp

/-- C8 (amended). The indices that the unlinking operations pass to
`gasneti_pshm_unlink`, read off the log of its calls: `gasneti_pshm_munmap` passes the
caller's own rank (and nothing when unmapping fails), `gasneti_unlink_segments` passes the
caller's own rank, `gasneti_unlink_vnet` passes `gasneti_pshm_nodes` whatever the rank of
the caller, and `gasneti_cleanup_shm` passes every index `0 .. gasneti_pshm_nodes` when the
name table is set up, and none otherwise. -/
theorem C8_unlinked_indices {σ : Type} (cfg : Config) (os : OS σ) (w : World σ)
    (segbase segsize : Nat) :
    ((gasneti_pshm_munmap cfg os w segbase segsize).state.unlink_log = w.unlink_log ∨
     (gasneti_pshm_munmap cfg os w segbase segsize).state.unlink_log
        = w.unlink_log ++ [w.gasneti_pshm_mynode]) ∧
    (gasneti_unlink_segments cfg w).state.unlink_log
      = w.unlink_log ++ [w.gasneti_pshm_mynode] ∧
    (gasneti_unlink_vnet cfg w).state.unlink_log = w.unlink_log ++ [w.gasneti_pshm_nodes] ∧
    (∀ names, w.gasneti_pshmname = some names → w.gasneti_pshm_nodes < names.length →
      (gasneti_cleanup_shm cfg w).state.unlink_log
        = w.unlink_log ++ List.range (w.gasneti_pshm_nodes + 1)) ∧
    (w.gasneti_pshmname = none →
      (gasneti_cleanup_shm cfg w).state.unlink_log = w.unlink_log) := by
  refine ⟨?_, (pshm_unlink_frame cfg w _).1, (pshm_unlink_frame cfg w _).1, ?_, ?_⟩
  · unfold gasneti_pshm_munmap gasneti_munmap
    obtain ⟨_, _, _, _, h5, h6⟩ := sys_munmap_frame os w segbase segsize
    by_cases hr : (sys_munmap os w segbase segsize).1 ≠ 0
    · left
      simp only [if_pos hr, Res.state]
      exact h6
    · right
      simp only [if_neg hr]
      rw [(pshm_unlink_frame cfg _ _).1, h5, h6]
  · intro names hn hlen
    obtain ⟨w1, hw1, g1, _⟩ := cleanup_loop_spec cfg names
      (List.range (w.gasneti_pshm_nodes + 1)) w hn
      (fun i hi => by rw [List.mem_range] at hi; omega)
    unfold gasneti_cleanup_shm
    rw [hn]
    simp only [hw1, Res.state]
    rw [← g1]
    unfold gasneti_cleanup_shm_tmpfile
    split
    · rfl
    · obtain ⟨_, _, _, _, _, h6⟩ := sys_unlink_frame
        { w1 with gasneti_pshmname := none } (ObjKind.file, ‹List Char›)
      exact h6
  · intro hn
    unfold gasneti_cleanup_shm
    rw [hn]
    simp only [Res.state]
    unfold gasneti_cleanup_shm_tmpfile
    split
    · rfl
    · obtain ⟨_, _, _, _, _, h6⟩ := sys_unlink_frame w (ObjKind.file, ‹List Char›)
      exact h6

/-- C8 (counterexample). On a host with two processes, `gasneti_cleanup_shm` run by local
rank 1 passes the indices 0, 1 and 2 to `gasneti_pshm_unlink`: index 0 is neither its own
rank nor the vnet index of a rank 0, and the object of rank 0 is gone from the name space
afterwards. -/
theorem C8_counterexample :
    (gasneti_cleanup_shm cfgPshm worldRank1).state.unlink_log = [0, 1, 2] ∧
    ¬ (∀ r ∈ (gasneti_cleanup_shm cfgPshm worldRank1).state.unlink_log,
        r = worldRank1.gasneti_pshm_mynode ∨
        (r = worldRank1.gasneti_pshm_nodes ∧ worldRank1.gasneti_pshm_mynode = 0)) ∧
    (ObjKind.shm, "/GASNTabcdef000".toList) ∈ worldRank1.fs ∧
    (ObjKind.shm, "/GASNTabcdef000".toList) ∉ (gasneti_cleanup_shm cfgPshm worldRank1).state.fs := by
  decide

/-! ## Failure of a creation -/

/-- An `open` with `O_CREAT | O_EXCL`: either it fails and the name space is as before,
or the name was absent and is now present; the PSHM globals stay. -/
theorem sys_open_create {σ : Type} (os : OS σ) (w : World σ) (name : ObjName) :
    (((sys_open os w name (gasneti_pshm_mmap_flags true)).1 = none ∧
        (sys_open os w name (gasneti_pshm_mmap_flags true)).2.fs = w.fs) ∨
      ((sys_open os w name (gasneti_pshm_mmap_flags true)).1 = some name ∧ name ∉ w.fs ∧
        (sys_open os w name (gasneti_pshm_mmap_flags true)).2.fs = w.fs ++ [name])) ∧
    (sys_open os w name (gasneti_pshm_mmap_flags true)).2.gasneti_pshmname
      = w.gasneti_pshmname ∧
    (sys_open os w name (gasneti_pshm_mmap_flags true)).2.unlink_log = w.unlink_log := by
  have hc : gasneti_pshm_mmap_flags true &&& O_CREAT ≠ 0 := by decide
  have he : gasneti_pshm_mmap_flags true &&& O_EXCL ≠ 0 := by decide
  unfold sys_open
  by_cases hmem : name ∈ w.fs
  · rw [if_pos ⟨hmem, hc, he⟩]
    exact ⟨Or.inl ⟨rfl, rfl⟩, rfl, rfl⟩
  · have h1 : ¬ (name ∈ w.fs ∧ gasneti_pshm_mmap_flags true &&& O_CREAT ≠ 0 ∧
        gasneti_pshm_mmap_flags true &&& O_EXCL ≠ 0) := fun h => hmem h.1
    have h2 : ¬ (name ∉ w.fs ∧ gasneti_pshm_mmap_flags true &&& O_CREAT = 0) := fun h => hc h.2
    rw [if_neg h1, if_neg h2]
    split
    · exact ⟨Or.inl ⟨rfl, rfl⟩, rfl, rfl⟩
    · refine ⟨Or.inr ⟨rfl, hmem, ?_⟩, rfl, rfl⟩
      simp only [if_neg hmem]

/-- The name read from the table depends on the table only. -/
theorem pshmname_at_congr {σ : Type} (cfg : Config) (w w1 : World σ) (r : Nat)
    (h : w1.gasneti_pshmname = w.gasneti_pshmname) :
    gasneti_pshmname_at cfg w1 r = gasneti_pshmname_at cfg w r := by
  unfold gasneti_pshmname_at
  rw [h]

/-- C9 (confirmed). Whenever `gasneti_pshm_mmap` is called in the creator role and
returns `MAP_FAILED`, the set of named OS objects after the call equals the set before
it; and when the call had already created the named object (its `open` with
`O_CREAT | O_EXCL` succeeded, so sizing or mapping the new object failed), the name was
absent before, present after the `open`, and has been passed to `gasneti_pshm_unlink` and
is absent again when the function returns. -/
theorem C9_creator_failure_unlinks {σ : Type} (cfg : Config) (os : OS σ) (w w1 : World σ)
    (pshm_rank segbase segsize : Nat)
    (hcreate : gasneti_pshm_mmap_create w.gasneti_pshm_nodes w.gasneti_pshm_mynode pshm_rank
      = true)
    (hret : gasneti_pshm_mmap cfg os w pshm_rank segbase segsize
      = Res.ok (MAP_FAILED cfg) w1) :
    w1.fs = w.fs ∧
    (∀ name, gasneti_pshmname_at cfg w pshm_rank = some name →
      (sys_open os w name (gasneti_pshm_mmap_flags true)).1 ≠ none →
      name ∉ w.fs ∧ name ∈ (sys_open os w name (gasneti_pshm_mmap_flags true)).2.fs ∧
      name ∉ w1.fs ∧ w1.unlink_log = w.unlink_log ++ [pshm_rank]) := by
  unfold gasneti_pshm_mmap at hret
  simp only [hcreate, if_true, true_and] at hret
  cases hat : gasneti_pshmname_at cfg w pshm_rank with
  | none =>
    rw [hat] at hret
    cases hret
  | some name =>
    rw [hat] at hret
    simp only at hret
    obtain ⟨hopen, hnames, hlog⟩ := sys_open_create os w name
    rcases hopen with ⟨hnone, hfs⟩ | ⟨hsome, hnot, hfs⟩
    · have hw : w1 = (sys_open os w name (gasneti_pshm_mmap_flags true)).2 := by
        revert hret
        generalize sys_open os w name (gasneti_pshm_mmap_flags true) = p at hnone
        obtain ⟨r, w0⟩ := p
        simp only at hnone
        subst hnone
        intro hret
        simp only at hret
        injection hret with _ h2
        exact h2.symm
      refine ⟨by rw [hw, hfs], ?_⟩
      intro name1 hn1 hne
      injection hn1 with hn1
      subst hn1
      exact absurd hnone hne
    · revert hret hfs hnames hlog
      generalize hp : sys_open os w name (gasneti_pshm_mmap_flags true) = p at hsome
      obtain ⟨r, w0⟩ := p
      simp only at hsome
      subst hsome
      intro hret hnames hlog hfs
      simp only at hret hfs hnames hlog
      obtain ⟨t1, t2, _, _, _, t6⟩ := sys_ftruncate_frame os w0 name segsize
      have hmapped : ∀ m : Nat × World σ,
          m = (if (sys_ftruncate os w0 name segsize).1 ≠ 0
                then (MAP_FAILED cfg, (sys_ftruncate os w0 name segsize).2)
                else sys_mmap cfg os (sys_ftruncate os w0 name segsize).2 segbase segsize
                  (segbase != NULL) (some name)) →
          m.2.fs = w0.fs ∧ m.2.gasneti_pshmname = w0.gasneti_pshmname ∧
            m.2.unlink_log = w0.unlink_log := by
        intro m hm
        by_cases hz : (sys_ftruncate os w0 name segsize).1 ≠ 0
        · rw [if_pos hz] at hm
          rw [hm]
          exact ⟨t1, t2, t6⟩
        · rw [if_neg hz] at hm
          obtain ⟨m1, m2, _, _, _, m6⟩ := sys_mmap_frame cfg os
            (sys_ftruncate os w0 name segsize).2 segbase segsize (segbase != NULL) (some name)
          rw [hm]
          exact ⟨by rw [m1, t1], by rw [m2, t2], by rw [m6, t6]⟩
      revert hret
      generalize hmdef : (if (sys_ftruncate os w0 name segsize).1 ≠ 0
                then (MAP_FAILED cfg, (sys_ftruncate os w0 name segsize).2)
                else sys_mmap cfg os (sys_ftruncate os w0 name segsize).2 segbase segsize
                  (segbase != NULL) (some name)) = m
      obtain ⟨g1, g2, g3⟩ := hmapped m hmdef.symm
      intro hret
      by_cases hm : m.1 = MAP_FAILED cfg
      · rw [if_pos hm] at hret
        have hat2 : gasneti_pshmname_at cfg m.2 pshm_rank = some name := by
          rw [pshmname_at_congr cfg w m.2 pshm_rank (by rw [g2, hnames]), hat]
        obtain ⟨u1, _, _, _, _, u6, _⟩ := pshm_unlink_frame cfg m.2 pshm_rank
        obtain ⟨w3, hw3, hfs3⟩ := u6 name hat2
        rw [hw3] at hret u1
        simp only [Res.state] at u1
        simp only at hret
        injection hret with _ h2
        have hfilter : w3.fs = w.fs := by
          rw [hfs3, g1, hfs, List.filter_append]
          have hself : List.filter (fun n => decide (n ≠ name)) w.fs = w.fs := by
            rw [List.filter_eq_self]
            intro n hn
            have : n ≠ name := fun hc => hnot (hc ▸ hn)
            simpa using this
          rw [hself]
          simp
        have hfs1 : w1.fs = w.fs := by
          rw [← h2]
          exact hfilter
        refine ⟨hfs1, ?_⟩
        intro name1 hn1 _
        injection hn1 with hn1
        subst hn1
        refine ⟨hnot, by rw [hp]; show name ∈ w0.fs; rw [hfs]; simp,
          by rw [hfs1]; exact hnot, ?_⟩
        rw [← h2]
        show w3.unlink_log = w.unlink_log ++ [pshm_rank]
        rw [u1, g3, hlog]
      · rw [if_neg hm] at hret
        injection hret with h1 _
        exact absurd h1 hm

/-- C9 (witness). Local rank 0 creates its own object on a host that refuses the mapping
with `ENOMEM`: the object is created, the mapping fails, and the name is unlinked. -/
theorem C9_creator_failure_unlinks_witness :
    (gasneti_pshm_mmap cfgPshm (denyOS cfgPshm ENOMEM) worldRank0 0 NULL 4096).state.fs
      = worldRank0.fs ∧
    (∀ name, gasneti_pshmname_at cfgPshm worldRank0 0 = some name →
      (sys_open (denyOS cfgPshm ENOMEM) worldRank0 name (gasneti_pshm_mmap_flags true)).1
        ≠ none →
      name ∉ worldRank0.fs ∧
      name ∈ (sys_open (denyOS cfgPshm ENOMEM) worldRank0 name
        (gasneti_pshm_mmap_flags true)).2.fs ∧
      name ∉ (gasneti_pshm_mmap cfgPshm (denyOS cfgPshm ENOMEM) worldRank0 0 NULL 4096).state.fs ∧
      (gasneti_pshm_mmap cfgPshm (denyOS cfgPshm ENOMEM) worldRank0 0 NULL 4096).state.unlink_log
        = worldRank0.unlink_log ++ [0]) :=
  C9_creator_failure_unlinks cfgPshm (denyOS cfgPshm ENOMEM) worldRank0
    (gasneti_pshm_mmap cfgPshm (denyOS cfgPshm ENOMEM) worldRank0 0 NULL 4096).state
    0 NULL 4096 rfl rfl

/-! ## Idempotence of unlinking and cleanup -/

/-- After `gasneti_cleanup_shm` has returned, the name table and the temp-file handle are
absent. -/
theorem cleanup_shm_resets {σ : Type} (cfg : Config) (w w1 : World σ)
    (h : gasneti_cleanup_shm cfg w = Res.ok () w1) :
    w1.gasneti_pshmname = none ∧ w1.gasneti_pshm_tmpfile = none := by
  have htmp : ∀ v : World σ, v.gasneti_pshmname = none →
      (gasneti_cleanup_shm_tmpfile v).gasneti_pshmname = none ∧
      (gasneti_cleanup_shm_tmpfile v).gasneti_pshm_tmpfile = none := by
    intro v hv
    unfold gasneti_cleanup_shm_tmpfile
    cases ht : v.gasneti_pshm_tmpfile with
    | none => exact ⟨hv, ht⟩
    | some t =>
      obtain ⟨_, h2, _⟩ := sys_unlink_frame v (ObjKind.file, t)
      exact ⟨by show (sys_unlink v (ObjKind.file, t)).2.gasneti_pshmname = none; rw [h2, hv],
        rfl⟩
  unfold gasneti_cleanup_shm at h
  cases hn : w.gasneti_pshmname with
  | none =>
    rw [hn] at h
    injection h with _ h2
    rw [← h2]
    exact htmp w hn
  | some names =>
    rw [hn] at h
    simp only at h
    cases hl : gasneti_cleanup_shm_loop cfg (List.range (w.gasneti_pshm_nodes + 1)) w with
    | fatal e w2 => rw [hl] at h; cases h
    | fault w2 => rw [hl] at h; cases h
    | ok u w2 =>
      rw [hl] at h
      injection h with _ h2
      rw [← h2]
      exact htmp _ rfl

/-- C10 (amended). `gasneti_cleanup_shm` is idempotent and safe on partially-initialized
state: on the state with no name table it returns without a fault, with a name table that
holds the indices `0 .. gasneti_pshm_nodes` it returns without a fault, and whenever a
first call has returned, a second call returns and leaves the whole state (name table,
temp-file handle and named OS objects included) exactly as the first call left it.
`gasneti_pshm_unlink(r)` is idempotent on the states on which its first call returns
(the name table holds index `r`): the second call returns and leaves the name table, the
temp-file handle and the set of named OS objects as the first call left them. -/
theorem C10_unlink_cleanup_idempotent {σ : Type} (cfg : Config) (w : World σ) :
    (∀ w1, gasneti_cleanup_shm cfg w = Res.ok () w1 →
      gasneti_cleanup_shm cfg w1 = Res.ok () w1) ∧
    (w.gasneti_pshmname = none → ∃ w1, gasneti_cleanup_shm cfg w = Res.ok () w1) ∧
    (∀ names, w.gasneti_pshmname = some names → w.gasneti_pshm_nodes < names.length →
      ∃ w1, gasneti_cleanup_shm cfg w = Res.ok () w1) ∧
    (∀ r w1, gasneti_pshm_unlink cfg w r = Res.ok () w1 →
      ∃ w2, gasneti_pshm_unlink cfg w1 r = Res.ok () w2 ∧ w2.fs = w1.fs ∧
        w2.gasneti_pshmname = w1.gasneti_pshmname ∧
        w2.gasneti_pshm_tmpfile = w1.gasneti_pshm_tmpfile) := by
  refine ⟨?_, ?_, ?_, ?_⟩
  · intro w1 h
    obtain ⟨h1, h2⟩ := cleanup_shm_resets cfg w w1 h
    unfold gasneti_cleanup_shm
    rw [h1]
    simp only
    unfold gasneti_cleanup_shm_tmpfile
    rw [h2]
  · intro hn
    unfold gasneti_cleanup_shm
    rw [hn]
    exact ⟨_, rfl⟩
  · intro names hn hlen
    obtain ⟨w1, hw1, _⟩ := cleanup_loop_spec cfg names
      (List.range (w.gasneti_pshm_nodes + 1)) w hn
      (fun i hi => by rw [List.mem_range] at hi; omega)
    unfold gasneti_cleanup_shm
    rw [hn]
    simp only [hw1]
    exact ⟨_, rfl⟩
  · intro r w1 h
    cases hat : gasneti_pshmname_at cfg w r with
    | none =>
      have hf := (pshm_unlink_frame cfg w r).2.2.2.2.2.2 hat
      rw [h] at hf
      cases hf
    | some name =>
      obtain ⟨_, f2, f3, _, _, f6, _⟩ := pshm_unlink_frame cfg w r
      obtain ⟨w1', hw1', hfs1⟩ := f6 name hat
      rw [h] at hw1' f2 f3
      injection hw1' with _ heq
      subst heq
      simp only [Res.state] at f2 f3
      have hat1 : gasneti_pshmname_at cfg w1 r = some name := by
        rw [pshmname_at_congr cfg w w1 r f2, hat]
      obtain ⟨_, g2, g3, _, _, g6, _⟩ := pshm_unlink_frame cfg w1 r
      obtain ⟨w2, hw2, hfs2⟩ := g6 name hat1
      rw [hw2] at g2 g3
      simp only [Res.state] at g2 g3
      refine ⟨w2, hw2, ?_, g2, g3⟩
      rw [hfs2, hfs1, List.filter_filter]
      simp

/-- C10 (counterexample). On the state in which no name table has been set up yet,
`gasneti_pshm_unlink(0)` reads the absent table and faults, already at its first call. -/
theorem C10_counterexample :
    (World.init 0 1 0 : World Nat).gasneti_pshmname = none ∧
    (World.init 0 1 0 : World Nat).gasneti_pshm_tmpfile = none ∧
    (gasneti_pshm_unlink cfgPshm (World.init 0 1 0 : World Nat) 0).isFault = true := by
  decide

/-! ## What `gasneti_cleanup_shm` leaves in the name space -/

/-- The loop of `gasneti_cleanup_shm` over indices that the table holds returns with
exactly the names of these indices removed from the name space. -/
theorem cleanup_loop_fs {σ : Type} (cfg : Config) (names : List (List Char)) :
    ∀ (l : List Nat) (w : World σ), w.gasneti_pshmname = some names →
      (∀ i ∈ l, i < names.length) →
      ∃ w1, gasneti_cleanup_shm_loop cfg l w = Res.ok () w1 ∧
        w1.gasneti_pshmname = some names ∧
        w1.gasneti_pshm_tmpfile = w.gasneti_pshm_tmpfile ∧
        (∀ n, n ∈ w1.fs ↔ (n ∈ w.fs ∧ ∀ i ∈ l, gasneti_pshmname_at cfg w i ≠ some n)) := by
  intro l
  induction l with
  | nil =>
    intro w hn _
    exact ⟨w, rfl, hn, rfl, fun n => by simp⟩
  | cons i rest ih =>
    intro w hn hl
    obtain ⟨name, hname⟩ := pshmname_at_of_lt cfg w names i hn (hl i (List.mem_cons_self i rest))
    obtain ⟨_, h2, h3, _, _, h6, _⟩ := pshm_unlink_frame cfg w i
    obtain ⟨w1, hw1, hfs1⟩ := h6 name hname
    rw [hw1] at h2 h3
    simp only [Res.state] at h2 h3
    obtain ⟨w2, hw2, g2, g3, g4⟩ := ih w1 (by rw [h2, hn])
      (fun k hk => hl k (List.mem_cons_of_mem i hk))
    refine ⟨w2, ?_, g2, by rw [g3, h3], ?_⟩
    · rw [gasneti_cleanup_shm_loop, hw1]
      exact hw2
    · intro n
      rw [g4 n, hfs1]
      have hcongr : ∀ k, gasneti_pshmname_at cfg w1 k = gasneti_pshmname_at cfg w k :=
        fun k => pshmname_at_congr cfg w w1 k h2
      simp only [List.mem_filter, List.mem_cons, hcongr, decide_eq_true_eq,
        forall_eq_or_imp, hname]
      constructor
      · rintro ⟨⟨h1, hne⟩, hrest⟩
        exact ⟨h1, fun hc => hne (Option.some.inj hc).symm, hrest⟩
      · rintro ⟨h1, hne, hrest⟩
        exact ⟨⟨h1, fun hc => hne (by rw [hc])⟩, hrest⟩

/-- C11 (confirmed). On a state whose name table is set up (it holds the indices
`0 .. gasneti_pshm_nodes`), `gasneti_cleanup_shm` returns, and afterwards none of the
`gasneti_pshm_nodes + 1` object names of the table is in the OS name space, the temp file
named by `gasneti_pshm_tmpfile` is not in it either, the name table and the temp-file
handle are absent, and no name has been added. -/
theorem C11_cleanup_removes_names {σ : Type} (cfg : Config) (w : World σ)
    (names : List (List Char)) (hn : w.gasneti_pshmname = some names)
    (hlen : w.gasneti_pshm_nodes < names.length) :
    ∃ w1, gasneti_cleanup_shm cfg w = Res.ok () w1 ∧
      (∀ i, i ≤ w.gasneti_pshm_nodes → ∀ name, gasneti_pshmname_at cfg w i = some name →
        name ∉ w1.fs) ∧
      (∀ t, w.gasneti_pshm_tmpfile = some t → (ObjKind.file, t) ∉ w1.fs) ∧
      w1.gasneti_pshmname = none ∧ w1.gasneti_pshm_tmpfile = none ∧
      (∀ n ∈ w1.fs, n ∈ w.fs) := by
  obtain ⟨w1, hw1, g2, g3, g4⟩ := cleanup_loop_fs cfg names
    (List.range (w.gasneti_pshm_nodes + 1)) w hn
    (fun i hi => by rw [List.mem_range] at hi; omega)
  have hres : gasneti_cleanup_shm cfg w
      = Res.ok () (gasneti_cleanup_shm_tmpfile { w1 with gasneti_pshmname := none }) := by
    unfold gasneti_cleanup_shm
    rw [hn]
    simp only [hw1]
  obtain ⟨r1, r2⟩ := cleanup_shm_resets cfg w _ hres
  have htmpf : ∀ (v : World σ) n, n ∈ (gasneti_cleanup_shm_tmpfile v).fs →
      n ∈ v.fs ∧ ∀ t, v.gasneti_pshm_tmpfile = some t → n ≠ (ObjKind.file, t) := by
    intro v n hmem
    unfold gasneti_cleanup_shm_tmpfile at hmem
    cases ht : v.gasneti_pshm_tmpfile with
    | none =>
      rw [ht] at hmem
      exact ⟨hmem, fun t h => by cases h⟩
    | some t0 =>
      rw [ht] at hmem
      obtain ⟨f1, _⟩ := sys_unlink_frame v (ObjKind.file, t0)
      have hmem2 : n ∈ (sys_unlink v (ObjKind.file, t0)).2.fs := hmem
      rw [f1] at hmem2
      simp only [List.mem_filter, decide_eq_true_eq] at hmem2
      refine ⟨hmem2.1, ?_⟩
      intro t h
      injection h with h
      rw [← h]
      exact hmem2.2
  have hsub : ∀ n, n ∈ (gasneti_cleanup_shm_tmpfile { w1 with gasneti_pshmname := none }).fs →
      n ∈ w1.fs ∧ ∀ t, w.gasneti_pshm_tmpfile = some t → n ≠ (ObjKind.file, t) := by
    intro n hmem
    obtain ⟨h1, h2⟩ := htmpf _ n hmem
    exact ⟨h1, fun t ht => h2 t (by show w1.gasneti_pshm_tmpfile = some t; rw [g3, ht])⟩
  refine ⟨_, hres, ?_, ?_, r1, r2, ?_⟩
  · intro i hi name hname hmem
    have h1 := ((g4 name).mp (hsub name hmem).1).2 i (by rw [List.mem_range]; omega)
    exact h1 hname
  · intro t ht hmem
    exact (hsub _ hmem).2 t ht rfl
  · intro n hmem
    exact ((g4 n).mp (hsub n hmem).1).1

/-- C11 (witness). Local rank 0 alone on its host, with its own object and the vnet object
created: after the cleanup none of them is left. -/
theorem C11_cleanup_removes_names_witness :
    ∃ w1, gasneti_cleanup_shm cfgPshm
        { worldRank0 with fs := worldRank0.fs ++ [(ObjKind.shm, "/GASNTabcdef000".toList),
            (ObjKind.shm, "/GASNTabcdef001".toList)] } = Res.ok () w1 ∧
      (∀ i, i ≤ worldRank0.gasneti_pshm_nodes → ∀ name,
        gasneti_pshmname_at cfgPshm
          { worldRank0 with fs := worldRank0.fs ++ [(ObjKind.shm, "/GASNTabcdef000".toList),
            (ObjKind.shm, "/GASNTabcdef001".toList)] } i = some name →
        name ∉ w1.fs) ∧
      (∀ t, worldRank0.gasneti_pshm_tmpfile = some t → (ObjKind.file, t) ∉ w1.fs) ∧
      w1.gasneti_pshmname = none ∧ w1.gasneti_pshm_tmpfile = none ∧
      (∀ n ∈ w1.fs, n ∈ worldRank0.fs ++ [(ObjKind.shm, "/GASNTabcdef000".toList),
            (ObjKind.shm, "/GASNTabcdef001".toList)]) :=
  C11_cleanup_removes_names cfgPshm
    { worldRank0 with fs := worldRank0.fs ++ [(ObjKind.shm, "/GASNTabcdef000".toList),
        (ObjKind.shm, "/GASNTabcdef001".toList)] }
    ["/GASNTabcdef000".toList, "/GASNTabcdef001".toList] rfl (by decide)

/-! ## Claims on `gasneti_segmentInit` and `gasneti_segmentAttach` -/

theorem segmentInit_stats_fold (cfg : Config) :
    ∀ (W : List gasneti_segexch_t) (st : SegStats),
      st.maxbase ≤ (W.foldl (gasneti_segmentInit_stats_step cfg) st).maxbase ∧
      (W.foldl (gasneti_segmentInit_stats_step cfg) st).minend ≤ st.minend ∧
      (∀ e ∈ W, e.seginfo.addr ≤ (W.foldl (gasneti_segmentInit_stats_step cfg) st).maxbase ∧
        (W.foldl (gasneti_segmentInit_stats_step cfg) st).minend
          ≤ uadd cfg e.seginfo.addr e.seginfo.size) ∧
      ((W.foldl (gasneti_segmentInit_stats_step cfg) st).maxbase = st.maxbase ∨
        ∃ e ∈ W, e.seginfo.addr = (W.foldl (gasneti_segmentInit_stats_step cfg) st).maxbase) ∧
      ((W.foldl (gasneti_segmentInit_stats_step cfg) st).minend = st.minend ∨
        ∃ e ∈ W, uadd cfg e.seginfo.addr e.seginfo.size
          = (W.foldl (gasneti_segmentInit_stats_step cfg) st).minend) := by
  intro W
  induction W with
  | nil => intro st; simp
  | cons e W ih =>
    intro st
    have h := ih (gasneti_segmentInit_stats_step cfg st e)
    simp only [List.foldl_cons]
    generalize List.foldl (gasneti_segmentInit_stats_step cfg)
      (gasneti_segmentInit_stats_step cfg st e) W = r at h ⊢
    obtain ⟨h1, h2, h3, h4, h5⟩ := h
    have hb : (gasneti_segmentInit_stats_step cfg st e).maxbase
        = if e.seginfo.addr > st.maxbase then e.seginfo.addr else st.maxbase := rfl
    have he : (gasneti_segmentInit_stats_step cfg st e).minend
        = if uadd cfg e.seginfo.addr e.seginfo.size < st.minend then
            uadd cfg e.seginfo.addr e.seginfo.size
          else st.minend := rfl
    rw [hb] at h1 h4
    rw [he] at h2 h5
    refine ⟨?_, ?_, ?_, ?_, ?_⟩
    · split_ifs at h1 <;> omega
    · split_ifs at h2 <;> omega
    · intro x hx
      rcases List.mem_cons.1 hx with hxe | hx
      · subst hxe
        constructor
        · split_ifs at h1 <;> omega
        · split_ifs at h2 <;> omega
      · exact h3 x hx
    · rcases h4 with h4 | ⟨x, hx, hxe⟩
      · split_ifs at h4 with hc
        · exact Or.inr ⟨e, List.mem_cons_self _ _, h4.symm⟩
        · exact Or.inl h4
      · exact Or.inr ⟨x, List.mem_cons_of_mem _ hx, hxe⟩
    · rcases h5 with h5 | ⟨x, hx, hxe⟩
      · split_ifs at h5 with hc
        · exact Or.inr ⟨e, List.mem_cons_self _ _, h5.symm⟩
        · exact Or.inl h5
      · exact Or.inr ⟨x, List.mem_cons_of_mem _ hx, hxe⟩

theorem withStatics_ok {σ α : Type} (r : Res σ α) (g : SegState) (a : α) (s1 : σ)
    (g1 : SegState) (h : r.withStatics g = Res.ok a (s1, g1)) : r = Res.ok a s1 ∧ g1 = g := by
  cases r with
  | ok b s =>
    simp only [Res.withStatics, Res.ok.injEq, Prod.mk.injEq] at h
    obtain ⟨h1, h2, h3⟩ := h
    subst h1; subst h2; subst h3
    exact ⟨rfl, rfl⟩
  | fatal e s => simp [Res.withStatics] at h
  | fault s => simp [Res.withStatics] at h

theorem segmentInit_statics {σ : Type} (cfg : Config) (topo : Topo) (ops : MapOps σ)
    (pshm : PshmOps σ) (sbrk : σ → Nat × σ)
    (exchangefn : σ → gasneti_segexch_t → List gasneti_segexch_t × σ)
    (fuel : Nat) (s s1 : σ) (g g1 : SegState) (localSegmentLimit : Nat)
    (h : gasneti_segmentInit cfg topo ops pshm sbrk exchangefn fuel s g localSegmentLimit
      = some (Res.ok () (s1, g1))) :
    ∃ segexch, g1.gasneti_segexch = some segexch ∧
      g1.gasneti_maxbase = (gasneti_segmentInit_stats cfg topo.gasneti_nodes segexch).maxbase ∧
      g1.gasneti_maxheapend
        = (gasneti_segmentInit_stats cfg topo.gasneti_nodes segexch).maxheapend ∧
      (g1.gasneti_MaxLocalSegmentSize, g1.gasneti_MaxGlobalSegmentSize)
        = gasneti_segmentInit_sizes cfg g1.gasneti_segment
            (gasneti_segmentInit_stats cfg topo.gasneti_nodes segexch) := by
  unfold gasneti_segmentInit at h
  dsimp only at h
  split at h
  · exact absurd h (by simp)
  · exact absurd h (by simp)
  · exact absurd h (by simp)
  · rename_i segment s2 hsearch
    split_ifs at h with hb hp
    · exact absurd h (by simp)
    · obtain ⟨-, hg⟩ := withStatics_ok _ _ _ _ _ (Option.some.inj h)
      subst hg
      exact ⟨_, rfl, rfl, rfl, rfl⟩
    · simp only [Option.some.injEq, Res.ok.injEq, Prod.mk.injEq, true_and] at h
      obtain ⟨-, hg⟩ := h
      subst hg
      exact ⟨_, rfl, rfl, rfl, rfl⟩

/-- C18 (confirmed). With aligned segments, after `gasneti_segmentInit` has returned, for
the tentative windows of the exchanged table: `gasneti_maxbase` is the largest window start
and `minend` the smallest window end; either `maxbase < minend`, and then `maxbase` lies
inside every window and `gasneti_MaxGlobalSegmentSize = minend - maxbase`, or
`minend ≤ maxbase`, and then no address lies in all windows and both
`gasneti_MaxLocalSegmentSize` and `gasneti_MaxGlobalSegmentSize` are 0. -/
theorem C18_aligned_overlap {σ : Type} (cfg : Config) (topo : Topo) (ops : MapOps σ)
    (pshm : PshmOps σ) (sbrk : σ → Nat × σ)
    (exchangefn : σ → gasneti_segexch_t → List gasneti_segexch_t × σ)
    (fuel : Nat) (s s1 : σ) (g g1 : SegState) (localSegmentLimit : Nat)
    (haligned : cfg.GASNET_ALIGNED_SEGMENTS = true)
    (h : gasneti_segmentInit cfg topo ops pshm sbrk exchangefn fuel s g localSegmentLimit
      = some (Res.ok () (s1, g1))) :
    ∃ segexch minend, g1.gasneti_segexch = some segexch ∧
      (segexch.take topo.gasneti_nodes ≠ [] →
        (∀ e ∈ segexch.take topo.gasneti_nodes, e.seginfo.addr ≤ g1.gasneti_maxbase) ∧
        (∃ e ∈ segexch.take topo.gasneti_nodes, e.seginfo.addr = g1.gasneti_maxbase) ∧
        (∀ e ∈ segexch.take topo.gasneti_nodes,
          minend ≤ uadd cfg e.seginfo.addr e.seginfo.size) ∧
        (∃ e ∈ segexch.take topo.gasneti_nodes,
          uadd cfg e.seginfo.addr e.seginfo.size = minend) ∧
        ((g1.gasneti_maxbase < minend ∧
            (∀ e ∈ segexch.take topo.gasneti_nodes,
              e.seginfo.addr ≤ g1.gasneti_maxbase ∧
              g1.gasneti_maxbase < uadd cfg e.seginfo.addr e.seginfo.size ∧
              g1.gasneti_maxbase < e.seginfo.addr + e.seginfo.size) ∧
            g1.gasneti_MaxGlobalSegmentSize = minend - g1.gasneti_maxbase) ∨
          (minend ≤ g1.gasneti_maxbase ∧
            g1.gasneti_MaxLocalSegmentSize = 0 ∧ g1.gasneti_MaxGlobalSegmentSize = 0 ∧
            ¬ ∃ x, ∀ e ∈ segexch.take topo.gasneti_nodes,
              e.seginfo.addr ≤ x ∧ x < uadd cfg e.seginfo.addr e.seginfo.size))) := by
  obtain ⟨segexch, hx, hmb, -, hsz⟩ :=
    segmentInit_statics cfg topo ops pshm sbrk exchangefn fuel s s1 g g1 localSegmentLimit h
  have hM : 0 < wordMod cfg := Nat.pow_pos (by decide)
  have hu : ∀ a b, uadd cfg a b ≤ UINTPTR_MAX cfg ∧ uadd cfg a b ≤ a + b := by
    intro a b
    have h1 : uadd cfg a b < wordMod cfg := Nat.mod_lt _ hM
    have h2 : uadd cfg a b ≤ a + b := Nat.mod_le _ _
    unfold UINTPTR_MAX
    omega
  obtain ⟨-, -, h3, h4, h5⟩ := segmentInit_stats_fold cfg (segexch.take topo.gasneti_nodes)
    ⟨0, 0, UINTPTR_MAX cfg, UINTPTR_MAX cfg, 0⟩
  have hst : gasneti_segmentInit_stats cfg topo.gasneti_nodes segexch
      = (segexch.take topo.gasneti_nodes).foldl (gasneti_segmentInit_stats_step cfg)
          ⟨0, 0, UINTPTR_MAX cfg, UINTPTR_MAX cfg, 0⟩ := rfl
  rw [← hst] at h3 h4 h5
  generalize gasneti_segmentInit_stats cfg topo.gasneti_nodes segexch = st at hmb hsz h3 h4 h5
  refine ⟨segexch, st.minend, hx, ?_⟩
  intro hne
  obtain ⟨e0, he0⟩ := List.exists_mem_of_ne_nil _ hne
  have hmax : ∃ e ∈ segexch.take topo.gasneti_nodes, e.seginfo.addr = st.maxbase := by
    rcases h4 with h4 | h4
    · have := (h3 e0 he0).1
      exact ⟨e0, he0, by simp only at h4; omega⟩
    · exact h4
  have hmin : ∃ e ∈ segexch.take topo.gasneti_nodes,
      uadd cfg e.seginfo.addr e.seginfo.size = st.minend := by
    rcases h5 with h5 | h5
    · have h6 := (h3 e0 he0).2
      have h7 := (hu e0.seginfo.addr e0.seginfo.size).1
      exact ⟨e0, he0, by simp only at h5; omega⟩
    · exact h5
  rw [hmb]
  refine ⟨fun e he => (h3 e he).1, hmax, fun e he => (h3 e he).2, hmin, ?_⟩
  unfold gasneti_segmentInit_sizes at hsz
  rw [if_pos haligned] at hsz
  by_cases hc : st.maxbase ≥ st.minend
  · rw [if_pos hc] at hsz
    simp only [Prod.mk.injEq] at hsz
    refine Or.inr ⟨hc, hsz.1, hsz.2, ?_⟩
    rintro ⟨x, hxw⟩
    obtain ⟨a, ha, haa⟩ := hmax
    obtain ⟨b, hb, hbb⟩ := hmin
    have h8 := (hxw a ha).1
    have h9 := (hxw b hb).2
    omega
  · rw [if_neg hc] at hsz
    simp only [Prod.mk.injEq] at hsz
    refine Or.inl ⟨by omega, ?_, ?_⟩
    · intro e he
      have h8 := h3 e he
      have h9 := (hu e.seginfo.addr e.seginfo.size).2
      exact ⟨h8.1, by omega, by omega⟩
    · rw [hsz.2]
      obtain ⟨b, -, hbb⟩ := hmin
      have h7 := (hu b.seginfo.addr b.seginfo.size).1
      exact usub_eq cfg (by omega) (by unfold UINTPTR_MAX at h7; omega)

/-- Witness for C18: node 0 of a two-node job finds the window [65536, 81920) and its
peer reports [69632, 77824); the overlap starts at 69632 and is 8192 bytes long. -/
theorem C18_aligned_overlap_witness :
    ∃ segexch minend,
      (some [⟨⟨65536, 16384⟩, 40960⟩, ⟨⟨69632, 8192⟩, 45056⟩] : Option (List gasneti_segexch_t))
        = some segexch ∧
      (segexch.take 2 ≠ [] →
        (∀ e ∈ segexch.take 2, e.seginfo.addr ≤ 69632) ∧
        (∃ e ∈ segexch.take 2, e.seginfo.addr = 69632) ∧
        (∀ e ∈ segexch.take 2, minend ≤ uadd cfgAligned e.seginfo.addr e.seginfo.size) ∧
        (∃ e ∈ segexch.take 2, uadd cfgAligned e.seginfo.addr e.seginfo.size = minend) ∧
        ((69632 < minend ∧
            (∀ e ∈ segexch.take 2,
              e.seginfo.addr ≤ 69632 ∧
              69632 < uadd cfgAligned e.seginfo.addr e.seginfo.size ∧
              69632 < e.seginfo.addr + e.seginfo.size) ∧
            8192 = minend - 69632) ∨
          (minend ≤ 69632 ∧
            12288 = 0 ∧ 8192 = 0 ∧
            ¬ ∃ x, ∀ e ∈ segexch.take 2,
              e.seginfo.addr ≤ x ∧ x < uadd cfgAligned e.seginfo.addr e.seginfo.size))) :=
  C18_aligned_overlap cfgAligned topoTwoHosts
    (gasneti_ops cfgAligned (oracleOS cfgAligned 15000000 65536))
    (soloPshm cfgAligned (oracleOS cfgAligned 15000000 65536))
    (fun s => (40000, s)) (fun s e => ([e, ⟨⟨69632, 8192⟩, 45056⟩], s))
    4097 (World.init () 1 0) (World.init () 1 0) SegState.init
    { SegState.init with
      gasneti_segment := ⟨65536, 16384⟩
      gasneti_myheapend := 40960
      gasneti_maxheapend := 45056
      gasneti_maxbase := 69632
      gasneti_segexch := some [⟨⟨65536, 16384⟩, 40960⟩, ⟨⟨69632, 8192⟩, 45056⟩]
      gasneti_MaxLocalSegmentSize := 12288
      gasneti_MaxGlobalSegmentSize := 8192 }
    16384 rfl rfl

theorem segmentAttach_map_fatal {σ : Type} (cfg : Config) (ops : MapOps σ)
    (exchange_byte : σ → σ) (s : σ) (g : SegState)
    (topofheap minheapoffset segbase segsize : Nat) (e : Fatal) (hnz : segsize ≠ 0)
    (h : gasneti_segmentAttach_heapcheck cfg g.gasneti_segment topofheap minheapoffset
      segbase segsize = .error e) :
    gasneti_segmentAttach_map cfg ops exchange_byte s g topofheap minheapoffset segbase segsize
      = Res.fatal e s := by
  unfold gasneti_segmentAttach_map
  rw [if_neg hnz, h]

theorem segmentAttach_map_ok {σ : Type} (cfg : Config) (ops : MapOps σ)
    (exchange_byte : σ → σ) (s s1 : σ) (g : SegState)
    (topofheap minheapoffset segbase segsize : Nat) (r r1 : Nat × Nat) (hnz : segsize ≠ 0)
    (hfi : cfg.GASNETI_PSHM_MAP_FIXED_IGNORED = false)
    (h : gasneti_segmentAttach_heapcheck cfg g.gasneti_segment topofheap minheapoffset
      segbase segsize = .ok r)
    (hm : gasneti_segmentAttach_map cfg ops exchange_byte s g topofheap minheapoffset
      segbase segsize = Res.ok r1 s1) : r1 = r := by
  unfold gasneti_segmentAttach_map at hm
  rw [if_neg hnz, h] at hm
  obtain ⟨b, n⟩ := r
  simp only [hfi, Bool.false_eq_true, if_false] at hm
  split at hm
  · exact absurd hm (by simp)
  · exact absurd hm (by simp)
  · split_ifs at hm <;>
      first
        | (simp only [Res.ok.injEq] at hm
           exact hm.1.symm)
        | (split at hm
           · simp only [Res.ok.injEq] at hm
             exact hm.1.symm
           · exact absurd hm (by simp)
           · exact absurd hm (by simp))

/-- C19 (corrected). In the mapping step of `gasneti_segmentAttach`, for a non-zero
request: if the segment ends above the heap top (`segbase + segsize > topofheap`) and
starts below `topofheap + minheapoffset`, then the step is fatal when
`topofheap + minheapoffset` is at or beyond the window end, and otherwise the final
segment starts at `topofheap + minheapoffset` with size
`min(segsize, window end - start)` and ends inside the window; in every other case the
placement is left as it was. -/
theorem C19_heap_adjust {σ : Type} (cfg : Config) (ops : MapOps σ)
    (exchange_byte : σ → σ) (s : σ) (g : SegState)
    (topofheap minheapoffset segbase segsize : Nat) (hnz : segsize ≠ 0)
    (hfi : cfg.GASNETI_PSHM_MAP_FIXED_IGNORED = false)
    (hw1 : segbase + segsize < wordMod cfg)
    (hw2 : topofheap + minheapoffset < wordMod cfg)
    (hw3 : g.gasneti_segment.addr + g.gasneti_segment.size < wordMod cfg) :
    (topofheap < segbase + segsize ∧ segbase < topofheap + minheapoffset →
      (g.gasneti_segment.addr + g.gasneti_segment.size ≤ topofheap + minheapoffset →
        gasneti_segmentAttach_map cfg ops exchange_byte s g topofheap minheapoffset
          segbase segsize = Res.fatal Fatal.minheapoffset_too_large s) ∧
      (topofheap + minheapoffset < g.gasneti_segment.addr + g.gasneti_segment.size →
        gasneti_segmentAttach_heapcheck cfg g.gasneti_segment topofheap minheapoffset
            segbase segsize
          = .ok (topofheap + minheapoffset,
              min segsize (g.gasneti_segment.addr + g.gasneti_segment.size
                - (topofheap + minheapoffset))) ∧
        (topofheap + minheapoffset) +
            min segsize (g.gasneti_segment.addr + g.gasneti_segment.size
              - (topofheap + minheapoffset))
          ≤ g.gasneti_segment.addr + g.gasneti_segment.size ∧
        ∀ r s1, gasneti_segmentAttach_map cfg ops exchange_byte s g topofheap minheapoffset
            segbase segsize = Res.ok r s1 →
          r = (topofheap + minheapoffset,
              min segsize (g.gasneti_segment.addr + g.gasneti_segment.size
                - (topofheap + minheapoffset))))) ∧
    (¬ (topofheap < segbase + segsize ∧ segbase < topofheap + minheapoffset) →
      gasneti_segmentAttach_heapcheck cfg g.gasneti_segment topofheap minheapoffset
          segbase segsize = .ok (segbase, segsize) ∧
      ∀ r s1, gasneti_segmentAttach_map cfg ops exchange_byte s g topofheap minheapoffset
          segbase segsize = Res.ok r s1 → r = (segbase, segsize)) := by
  have e1 := uadd_eq cfg hw1
  have e2 := uadd_eq cfg hw2
  have e3 := uadd_eq cfg hw3
  refine ⟨fun hg => ⟨fun hend => ?_, fun hend => ?_⟩, fun hg => ?_⟩
  · apply segmentAttach_map_fatal cfg ops exchange_byte s g _ _ _ _ _ hnz
    unfold gasneti_segmentAttach_heapcheck
    rw [e1, e2, e3, if_pos hg]
    dsimp only
    rw [if_pos hend]
  · have hc : gasneti_segmentAttach_heapcheck cfg g.gasneti_segment topofheap minheapoffset
          segbase segsize
        = .ok (topofheap + minheapoffset,
            min segsize (g.gasneti_segment.addr + g.gasneti_segment.size
              - (topofheap + minheapoffset))) := by
      unfold gasneti_segmentAttach_heapcheck
      rw [e1, e2, e3, if_pos hg]
      dsimp only
      rw [if_neg (by omega), usub_eq cfg (by omega) hw3]
      congr 2
      split_ifs <;> omega
    refine ⟨hc, by omega, fun r s1 hm => ?_⟩
    exact segmentAttach_map_ok cfg ops exchange_byte s s1 g _ _ _ _ _ r hnz hfi hc hm
  · have hc : gasneti_segmentAttach_heapcheck cfg g.gasneti_segment topofheap minheapoffset
          segbase segsize = .ok (segbase, segsize) := by
      unfold gasneti_segmentAttach_heapcheck
      rw [e1, e2, if_neg hg]
    refine ⟨hc, fun r s1 hm => ?_⟩
    exact segmentAttach_map_ok cfg ops exchange_byte s s1 g _ _ _ _ _ r hnz hfi hc hm

/-- Counterexample to C19 as stated: with the window [500, 2000), heap top 1000 and
`minheapoffset` 200, a request of 300 placed at the window start 500 starts below 1200 but
is left at 500 with size 300, because it ends below the heap top; and with the window
[500, 900), where 1200 is beyond the window end, a request of 400 is not fatal.  The same
happens with page-aligned numbers in the mapping step. -/
theorem C19_counterexample :
    (500 < 1000 + 200 ∧
      gasneti_segmentAttach_heapcheck cfgMmap ⟨500, 1500⟩ 1000 200 500 300
        = .ok (500, 300)) ∧
    (500 < 1000 + 200 ∧ 500 + 400 ≤ 1000 + 200 ∧
      gasneti_segmentAttach_heapcheck cfgMmap ⟨500, 400⟩ 1000 200 500 400
        = .ok (500, 400)) ∧
    (8192 < 16384 + 4096 ∧
      (gasneti_segmentAttach_map cfgMmap (gasneti_ops cfgMmap (oracleOS cfgMmap 15000000 65536))
        id (World.init () 1 0) { SegState.init with gasneti_segment := ⟨8192, 24576⟩ }
        16384 4096 8192 4096).value = some (8192, 4096)) :=
  ⟨⟨by decide, rfl⟩, ⟨by decide, by decide, rfl⟩, ⟨by decide, rfl⟩⟩

/-- Witness for C19: window [500, 2000), heap top 1000, `minheapoffset` 200 and a request
of 1000 placed at the top of the window: the segment starts at 1200 with size 800. -/
theorem C19_heap_adjust_witness :
    (1000 < 1000 + 1000 ∧ 1000 < 1000 + 200 →
      (500 + 1500 ≤ 1000 + 200 →
        gasneti_segmentAttach_map cfgMmap (gasneti_ops cfgMmap (oracleOS cfgMmap 15000000 65536))
          id (World.init () 1 0) { SegState.init with gasneti_segment := ⟨500, 1500⟩ }
          1000 200 1000 1000 = Res.fatal Fatal.minheapoffset_too_large (World.init () 1 0)) ∧
      (1000 + 200 < 500 + 1500 →
        gasneti_segmentAttach_heapcheck cfgMmap ⟨500, 1500⟩ 1000 200 1000 1000
          = .ok (1000 + 200, min 1000 (500 + 1500 - (1000 + 200))) ∧
        (1000 + 200) + min 1000 (500 + 1500 - (1000 + 200)) ≤ 500 + 1500 ∧
        ∀ r s1, gasneti_segmentAttach_map cfgMmap
            (gasneti_ops cfgMmap (oracleOS cfgMmap 15000000 65536))
            id (World.init () 1 0) { SegState.init with gasneti_segment := ⟨500, 1500⟩ }
            1000 200 1000 1000 = Res.ok r s1 →
          r = (1000 + 200, min 1000 (500 + 1500 - (1000 + 200))))) ∧
    (¬ (1000 < 1000 + 1000 ∧ 1000 < 1000 + 200) →
      gasneti_segmentAttach_heapcheck cfgMmap ⟨500, 1500⟩ 1000 200 1000 1000
        = .ok (1000, 1000) ∧
      ∀ r s1, gasneti_segmentAttach_map cfgMmap
          (gasneti_ops cfgMmap (oracleOS cfgMmap 15000000 65536))
          id (World.init () 1 0) { SegState.init with gasneti_segment := ⟨500, 1500⟩ }
          1000 200 1000 1000 = Res.ok r s1 → r = (1000, 1000)) :=
  C19_heap_adjust cfgMmap (gasneti_ops cfgMmap (oracleOS cfgMmap 15000000 65536))
    id (World.init () 1 0) { SegState.init with gasneti_segment := ⟨500, 1500⟩ }
    1000 200 1000 1000 (by decide) rfl (by decide) (by decide) (by decide)

theorem uadd_usub (cfg : Config) (a p : Nat) :
    uadd cfg a (usub cfg p a) = p % wordMod cfg := by
  have hM : 0 < wordMod cfg := Nat.pow_pos (by decide)
  unfold uadd usub
  rw [Nat.add_mod_mod]
  have h1 := Nat.div_add_mod a (wordMod cfg)
  have h2 := Nat.mod_lt a hM
  have h3 : a + (p + wordMod cfg - a % wordMod cfg) = p + wordMod cfg * (a / wordMod cfg + 1) := by
    have e : wordMod cfg * (a / wordMod cfg + 1) = wordMod cfg * (a / wordMod cfg) + wordMod cfg := by
      ring
    rw [e]
    omega
  rw [h3, Nat.add_mul_mod_self_left]

theorem value_eq_some {σ α : Type} (r : Res σ α) (a : α) (h : r.value = some a) :
    r = Res.ok a r.state := by
  cases r with
  | ok b s =>
    simp only [Res.value, Option.some.injEq] at h
    subst h
    rfl
  | fatal e s => simp [Res.value] at h
  | fault s => simp [Res.value] at h

theorem segmentAttach_remote_spec {σ : Type} (cfg : Config) (topo : Topo) (pshm : PshmOps σ)
    (minheapoffset : Nat) (seginfo : List gasnet_seginfo_t) :
    ∀ (l : List Nat) (s : σ) (g : SegState) (s1 : σ) (g1 : SegState),
      l.Nodup →
      (∀ i ∈ l, ∀ j ∈ l, topo.gasneti_nodemap_local.getD i 0
        = topo.gasneti_nodemap_local.getD j 0 → i = j) →
      gasneti_segmentAttach_remote cfg topo pshm minheapoffset seginfo l s g
        = Res.ok () (s1, g1) →
      ∃ L : List (Nat × Nat), g1.attached = g.attached ++ L ∧
        L.map Prod.fst = l.filter (fun i => decide (i ≠ topo.gasneti_pshm_mynode)) ∧
        (∀ n, (∀ i ∈ l, i ≠ topo.gasneti_pshm_mynode →
            topo.gasneti_nodemap_local.getD i 0 ≠ n) →
          g1.gasneti_nodeinfo_offset n = g.gasneti_nodeinfo_offset n) ∧
        (∀ ip ∈ L,
          uadd cfg (seginfo.getD (topo.gasneti_nodemap_local.getD ip.1 0) ⟨0, 0⟩).addr
              (g1.gasneti_nodeinfo_offset (topo.gasneti_nodemap_local.getD ip.1 0))
            = ip.2 % wordMod cfg) := by
  intro l
  induction l with
  | nil =>
    intro s g s1 g1 _ _ h
    simp only [gasneti_segmentAttach_remote, Res.ok.injEq, Prod.mk.injEq, true_and] at h
    obtain ⟨-, hg⟩ := h
    subst hg
    exact ⟨[], by simp, by simp, fun _ _ => rfl, by simp⟩
  | cons i rest ih =>
    intro s g s1 g1 hnd hinj h
    have hnd1 : rest.Nodup := (List.nodup_cons.1 hnd).2
    have hi_not : i ∉ rest := (List.nodup_cons.1 hnd).1
    have hinj1 : ∀ a ∈ rest, ∀ b ∈ rest, topo.gasneti_nodemap_local.getD a 0
        = topo.gasneti_nodemap_local.getD b 0 → a = b :=
      fun a ha b hb => hinj a (List.mem_cons_of_mem _ ha) b (List.mem_cons_of_mem _ hb)
    rw [gasneti_segmentAttach_remote] at h
    by_cases hi : i ≠ topo.gasneti_pshm_mynode
    · rw [if_pos hi] at h
      dsimp only at h
      split at h
      · exact absurd h (by simp)
      · exact absurd h (by simp)
      · rename_i segbase s2 hrem
        by_cases hheap : segbase ≥ g.gasneti_myheapend ∧
            segbase < uadd cfg g.gasneti_myheapend minheapoffset
        · rw [if_pos hheap] at h
          exact absurd h (by simp)
        · rw [if_neg hheap] at h
          obtain ⟨L, hL1, hL2, hL3, hL4⟩ := ih _ _ _ _ hnd1 hinj1 h
          have hframe : g1.gasneti_nodeinfo_offset (topo.gasneti_nodemap_local.getD i 0)
              = usub cfg segbase
                  (seginfo.getD (topo.gasneti_nodemap_local.getD i 0) ⟨0, 0⟩).addr := by
            rw [hL3 _ (fun j hj _ hjn => hi_not
              ((hinj j (List.mem_cons_of_mem _ hj) i (List.mem_cons_self _ _) hjn) ▸ hj))]
            simp
          refine ⟨(i, segbase) :: L, ?_, ?_, ?_, ?_⟩
          · rw [hL1]
            simp
          · rw [List.filter_cons_of_pos (by simpa using hi)]
            simp [hL2]
          · intro n hn
            rw [hL3 n (fun j hj hjm => hn j (List.mem_cons_of_mem _ hj) hjm)]
            have hne : n ≠ topo.gasneti_nodemap_local.getD i 0 :=
              fun e => hn i (List.mem_cons_self _ _) hi e.symm
            exact Function.update_noteq hne _ _
          · intro ip hip
            rcases List.mem_cons.1 hip with hip | hip
            · subst hip
              dsimp only
              rw [hframe]
              exact uadd_usub cfg _ _
            · exact hL4 ip hip
    · rw [if_neg hi] at h
      obtain ⟨L, hL1, hL2, hL3, hL4⟩ := ih _ _ _ _ hnd1 hinj1 h
      refine ⟨L, hL1, ?_, ?_, hL4⟩
      · rw [List.filter_cons_of_neg (by simpa using hi)]
        exact hL2
      · intro n hn
        exact hL3 n (fun j hj hjm => hn j (List.mem_cons_of_mem _ hj) hjm)

theorem segmentAttach_place_attached {σ : Type} (cfg : Config) (topo : Topo)
    (exchangefn : σ → gasneti_segexch_t → List gasneti_segexch_t × σ)
    (s : σ) (g : SegState) (segsize : Nat) :
    (gasneti_segmentAttach_place cfg topo exchangefn s g segsize).2.2.attached = g.attached ∧
    (gasneti_segmentAttach_place cfg topo exchangefn s g segsize).2.2.gasneti_segment
      = g.gasneti_segment := by
  unfold gasneti_segmentAttach_place
  split_ifs <;> exact ⟨rfl, rfl⟩

theorem segmentAttach_pshm_spec {σ : Type} (cfg : Config) (topo : Topo) (pshm : PshmOps σ)
    (minheapoffset : Nat) (seginfo : List gasnet_seginfo_t) (s s1 : σ) (g g1 : SegState)
    (hinj : ∀ i, i < topo.gasneti_pshm_nodes → ∀ j, j < topo.gasneti_pshm_nodes →
      topo.gasneti_nodemap_local.getD i 0 = topo.gasneti_nodemap_local.getD j 0 → i = j)
    (hmy : topo.gasneti_nodemap_local.getD topo.gasneti_pshm_mynode 0 = topo.gasneti_mynode)
    (hlt : topo.gasneti_pshm_mynode < topo.gasneti_pshm_nodes)
    (h : gasneti_segmentAttach_pshm cfg topo pshm minheapoffset seginfo s g
      = Res.ok () (s1, g1)) :
    g1.gasneti_nodeinfo_offset topo.gasneti_mynode = 0 ∧
    ∃ L : List (Nat × Nat), g1.attached = g.attached ++ L ∧
      L.map Prod.fst = (List.range topo.gasneti_pshm_nodes).filter
        (fun i => decide (i ≠ topo.gasneti_pshm_mynode)) ∧
      (∀ ip ∈ L,
        uadd cfg (seginfo.getD (topo.gasneti_nodemap_local.getD ip.1 0) ⟨0, 0⟩).addr
            (g1.gasneti_nodeinfo_offset (topo.gasneti_nodemap_local.getD ip.1 0))
          = ip.2 % wordMod cfg) := by
  unfold gasneti_segmentAttach_pshm at h
  split at h
  · exact absurd h (by simp)
  · exact absurd h (by simp)
  · rename_i s2 g2 hrem
    have hg : g1 = g2 := by
      split at h
      · simp only [Res.ok.injEq, Prod.mk.injEq, true_and] at h
        exact h.2.symm
      · exact absurd h (by simp)
      · exact absurd h (by simp)
    subst hg
    obtain ⟨L, hL1, hL2, hL3, hL4⟩ := segmentAttach_remote_spec cfg topo pshm minheapoffset
      seginfo (List.range topo.gasneti_pshm_nodes) _ _ _ _ (List.nodup_range _)
      (fun i hi j hj => hinj i (List.mem_range.1 hi) j (List.mem_range.1 hj)) hrem
    refine ⟨?_, L, hL1, hL2, hL4⟩
    rw [hL3 _ (fun i hi him hin => him (hinj i (List.mem_range.1 hi) _ hlt (hin.trans hmy.symm)))]
    exact Function.update_same _ _ _

/-- C20 (confirmed). After `gasneti_segmentAttach` has returned in a PSHM build, the
offset recorded for the local process is 0, every other local rank was attached exactly
once (in rank order), and for each of them the peer's published segment address plus the
recorded offset, in machine-word arithmetic, is the address the attach returned (taken
modulo `2^w`, which changes nothing for an address). -/
theorem C20_peer_offsets {σ : Type} (cfg : Config) (topo : Topo) (ops : MapOps σ)
    (pshm : PshmOps σ)
    (exchange_segexch : σ → gasneti_segexch_t → List gasneti_segexch_t × σ)
    (exchange_byte : σ → σ)
    (exchange_seginfo : σ → gasnet_seginfo_t → List gasnet_seginfo_t × σ)
    (s : σ) (g : SegState) (segsize minheapoffset : Nat) (seginfo : List gasnet_seginfo_t)
    (hpshm : cfg.GASNET_PSHM = true)
    (hinj : ∀ i, i < topo.gasneti_pshm_nodes → ∀ j, j < topo.gasneti_pshm_nodes →
      topo.gasneti_nodemap_local.getD i 0 = topo.gasneti_nodemap_local.getD j 0 → i = j)
    (hmy : topo.gasneti_nodemap_local.getD topo.gasneti_pshm_mynode 0 = topo.gasneti_mynode)
    (hlt : topo.gasneti_pshm_mynode < topo.gasneti_pshm_nodes)
    (h : (gasneti_segmentAttach cfg topo ops pshm exchange_segexch exchange_byte
      exchange_seginfo s g segsize minheapoffset).value = some seginfo) :
    (gasneti_segmentAttach cfg topo ops pshm exchange_segexch exchange_byte
        exchange_seginfo s g segsize minheapoffset).state.2.gasneti_nodeinfo_offset
      topo.gasneti_mynode = 0 ∧
    ∃ L : List (Nat × Nat),
      (gasneti_segmentAttach cfg topo ops pshm exchange_segexch exchange_byte
        exchange_seginfo s g segsize minheapoffset).state.2.attached = g.attached ++ L ∧
      L.map Prod.fst = (List.range topo.gasneti_pshm_nodes).filter
        (fun i => decide (i ≠ topo.gasneti_pshm_mynode)) ∧
      (∀ ip ∈ L,
        uadd cfg (seginfo.getD (topo.gasneti_nodemap_local.getD ip.1 0) ⟨0, 0⟩).addr
            ((gasneti_segmentAttach cfg topo ops pshm exchange_segexch exchange_byte
                exchange_seginfo s g segsize minheapoffset).state.2.gasneti_nodeinfo_offset
              (topo.gasneti_nodemap_local.getD ip.1 0))
          = ip.2 % wordMod cfg) := by
  have hr := value_eq_some _ _ h
  generalize (gasneti_segmentAttach cfg topo ops pshm exchange_segexch exchange_byte
      exchange_seginfo s g segsize minheapoffset).state = st at hr ⊢
  obtain ⟨s1, g1⟩ := st
  unfold gasneti_segmentAttach at hr
  dsimp only at hr
  have hpl := segmentAttach_place_attached cfg topo exchange_segexch
    (if cfg.GASNET_PSHM = true then pshm.gasneti_pshmnet_bootstrapBarrier s else s) g segsize
  generalize gasneti_segmentAttach_place cfg topo exchange_segexch
    (if cfg.GASNET_PSHM = true then pshm.gasneti_pshmnet_bootstrapBarrier s else s) g segsize
    = pl at hr hpl
  obtain ⟨⟨segbase, topofheap⟩, s2, g2⟩ := pl
  dsimp only at hr hpl
  split at hr
  · exact absurd hr (by simp)
  · exact absurd hr (by simp)
  · rename_i segbase1 segsize1 s3 hmap
    generalize exchange_seginfo s3 ⟨segbase1, segsize1⟩ = ex at hr
    obtain ⟨seginfo1, s4⟩ := ex
    dsimp only at hr
    split_ifs at hr with hal
    split at hr
    · rename_i sg hp
      simp only [Res.ok.injEq] at hr
      obtain ⟨h1, h2⟩ := hr
      subst h1
      subst h2
      have := segmentAttach_pshm_spec cfg topo pshm minheapoffset seginfo1 s4 s1 _ g1
        hinj hmy hlt hp
      dsimp only at this
      rw [hpl.1] at this
      exact this
    · exact absurd hr (by simp)
    · exact absurd hr (by simp)

/-- Witness for C20: local rank 0 of two processes on one host attaches its own segment
at 139264 and the peer's segment, published at 274432, at 65536. -/
theorem C20_peer_offsets_witness :
    (gasneti_segmentAttach cfgPshm topoOneHost
        (gasneti_ops cfgPshm (oracleOS cfgPshm 15000000 65536))
        (soloPshm cfgPshm (oracleOS cfgPshm 15000000 65536))
        (fun s e => ([e, ⟨⟨274432, 16384⟩, 8192⟩], s)) id
        (fun s e => ([e, ⟨274432, 8192⟩], s))
        worldTwoRank0
        { SegState.init with gasneti_segment := ⟨131072, 16384⟩, gasneti_myheapend := 4096 }
        8192 0).state.2.gasneti_nodeinfo_offset 0 = 0 ∧
    ∃ L : List (Nat × Nat),
      (gasneti_segmentAttach cfgPshm topoOneHost
        (gasneti_ops cfgPshm (oracleOS cfgPshm 15000000 65536))
        (soloPshm cfgPshm (oracleOS cfgPshm 15000000 65536))
        (fun s e => ([e, ⟨⟨274432, 16384⟩, 8192⟩], s)) id
        (fun s e => ([e, ⟨274432, 8192⟩], s))
        worldTwoRank0
        { SegState.init with gasneti_segment := ⟨131072, 16384⟩, gasneti_myheapend := 4096 }
        8192 0).state.2.attached = [] ++ L ∧
      L.map Prod.fst = (List.range 2).filter (fun i => decide (i ≠ 0)) ∧
      (∀ ip ∈ L,
        uadd cfgPshm
            (([⟨139264, 8192⟩, ⟨274432, 8192⟩] : List gasnet_seginfo_t).getD
              (([0, 1] : List Nat).getD ip.1 0) ⟨0, 0⟩).addr
            ((gasneti_segmentAttach cfgPshm topoOneHost
                (gasneti_ops cfgPshm (oracleOS cfgPshm 15000000 65536))
                (soloPshm cfgPshm (oracleOS cfgPshm 15000000 65536))
                (fun s e => ([e, ⟨⟨274432, 16384⟩, 8192⟩], s)) id
                (fun s e => ([e, ⟨274432, 8192⟩], s))
                worldTwoRank0
                { SegState.init with
                  gasneti_segment := ⟨131072, 16384⟩, gasneti_myheapend := 4096 }
                8192 0).state.2.gasneti_nodeinfo_offset
              (([0, 1] : List Nat).getD ip.1 0))
          = ip.2 % wordMod cfgPshm) :=
  C20_peer_offsets cfgPshm topoOneHost
    (gasneti_ops cfgPshm (oracleOS cfgPshm 15000000 65536))
    (soloPshm cfgPshm (oracleOS cfgPshm 15000000 65536))
    (fun s e => ([e, ⟨⟨274432, 16384⟩, 8192⟩], s)) id
    (fun s e => ([e, ⟨274432, 8192⟩], s))
    worldTwoRank0
    { SegState.init with gasneti_segment := ⟨131072, 16384⟩, gasneti_myheapend := 4096 }
    8192 0 [⟨139264, 8192⟩, ⟨274432, 8192⟩] rfl (by decide) rfl (by decide) rfl

/-! ## Claims on `gasneti_mmapLimit` -/

theorem mmapLimit_clamp_eq (cfg : Config) (nodemem localLimit sharedLimit : Nat)
    (hl : localLimit < wordMod cfg) :
    (gasneti_mmapLimit_clamp cfg nodemem localLimit sharedLimit).1
      = min cfg.GASNETI_MMAP_LIMIT (min localLimit
          (if sharedLimit = UINT64_MAX ∧ nodemem ≠ 0 then nodemem else sharedLimit)) ∧
    (gasneti_mmapLimit_clamp cfg nodemem localLimit sharedLimit).2
      = (if sharedLimit = UINT64_MAX ∧ nodemem ≠ 0 then nodemem else sharedLimit) := by
  have hs : (if sharedLimit = UINT64_MAX then (if nodemem ≠ 0 then nodemem else sharedLimit)
      else sharedLimit)
      = (if sharedLimit = UINT64_MAX ∧ nodemem ≠ 0 then nodemem else sharedLimit) := by
    split_ifs <;> simp_all
  unfold gasneti_mmapLimit_clamp
  dsimp only
  rw [hs]
  generalize (if sharedLimit = UINT64_MAX ∧ nodemem ≠ 0 then nodemem else sharedLimit) = sl
  refine ⟨?_, rfl⟩
  by_cases h : localLimit > sl
  · have e : min localLimit sl = sl := Nat.min_eq_right (Nat.le_of_lt h)
    rw [if_pos h, Nat.mod_eq_of_lt (by omega), e]
  · have e : min localLimit sl = localLimit := Nat.min_eq_left (by omega)
    rw [if_neg h, e]

/-- C14 (corrected). When no two processes share a host, `gasneti_mmapLimit` returns in
the unchanged state the clamped ceiling `min(GASNETI_MMAP_LIMIT, localLimit, sharedLimit)`
itself (an unlimited `sharedLimit` being replaced by the physical memory size when that is
known), and the outcome is the same for every `exchangefn`, `barrierfn` and set of mapping
primitives: none of them is called, and no probe is run. -/
theorem C14_no_sharing_returns_clamp {σ : Type} (cfg : Config) (topo : Topo) (ops : MapOps σ)
    (pshm : PshmOps σ) (nodemem : Nat) (sz_exchg0 : List Nat)
    (exchangefn : σ → Nat → List Nat → List Nat × σ) (barrierfn : σ → σ)
    (fuel : Nat) (s : σ) (localLimit sharedLimit : Nat)
    (hns : topo.myhost_grp_count = topo.gasneti_nodes) (hl : localLimit < wordMod cfg) :
    gasneti_mmapLimit cfg topo ops pshm nodemem sz_exchg0 exchangefn barrierfn fuel s
        localLimit sharedLimit
      = some (Res.ok (min cfg.GASNETI_MMAP_LIMIT (min localLimit
          (if sharedLimit = UINT64_MAX ∧ nodemem ≠ 0 then nodemem else sharedLimit))) s) ∧
    ∀ (ops1 : MapOps σ) (pshm1 : PshmOps σ) (sz_exchg1 : List Nat)
      (exchangefn1 : σ → Nat → List Nat → List Nat × σ) (barrierfn1 : σ → σ) (fuel1 : Nat),
      gasneti_mmapLimit cfg topo ops1 pshm1 nodemem sz_exchg1 exchangefn1 barrierfn1 fuel1 s
          localLimit sharedLimit
        = gasneti_mmapLimit cfg topo ops pshm nodemem sz_exchg0 exchangefn barrierfn fuel s
          localLimit sharedLimit := by
  have hc := (mmapLimit_clamp_eq cfg nodemem localLimit sharedLimit hl).1
  have key : ∀ (ops1 : MapOps σ) (pshm1 : PshmOps σ) (sz_exchg1 : List Nat)
      (exchangefn1 : σ → Nat → List Nat → List Nat × σ) (barrierfn1 : σ → σ) (fuel1 : Nat),
      gasneti_mmapLimit cfg topo ops1 pshm1 nodemem sz_exchg1 exchangefn1 barrierfn1 fuel1 s
          localLimit sharedLimit
        = some (Res.ok (min cfg.GASNETI_MMAP_LIMIT (min localLimit
          (if sharedLimit = UINT64_MAX ∧ nodemem ≠ 0 then nodemem else sharedLimit))) s) := by
    intro ops1 pshm1 sz_exchg1 exchangefn1 barrierfn1 fuel1
    unfold gasneti_mmapLimit
    rw [if_neg (not_not.mpr hns), hc]
  exact ⟨key _ _ _ _ _ _, fun _ _ _ _ _ _ => (key _ _ _ _ _ _).trans (key _ _ _ _ _ _).symm⟩

/-- Counterexample to C14 as stated: in a job of two processes on two hosts, with a
ceiling of 16 MiB on a host that grants mappings up to 15000000 bytes,
`gasneti_mmapLimit` returns 16777216, while the local probe of that ceiling finds
12582912. -/
theorem C14_counterexample :
    retValue (gasneti_mmapLimit cfgMmap topoTwoHosts
        (gasneti_ops cfgMmap (oracleOS cfgMmap 15000000 65536))
        (soloPshm cfgMmap (oracleOS cfgMmap 15000000 65536)) 0 [0, 0]
        (fun s v a => (a.set 0 v, s)) id 4097 (World.init () 1 0) 16777216 UINT64_MAX)
      = some 16777216 ∧
    topoTwoHosts.myhost_grp_count = topoTwoHosts.gasneti_nodes ∧
    min cfgMmap.GASNETI_MMAP_LIMIT (min 16777216 UINT64_MAX) = 16777216 ∧
    retSize (_gasneti_mmap_segment_search_inner cfgMmap
        (gasneti_ops cfgMmap (oracleOS cfgMmap 15000000 65536)) 4097 (World.init () 1 0)
        16777216) = some 12582912 := by
  decide

/-- Witness for C14: two processes on two hosts, ceiling 16 MiB. -/
theorem C14_no_sharing_returns_clamp_witness :
    gasneti_mmapLimit cfgMmap topoTwoHosts
        (gasneti_ops cfgMmap (oracleOS cfgMmap 15000000 65536))
        (soloPshm cfgMmap (oracleOS cfgMmap 15000000 65536)) 0 [0, 0]
        (fun s v a => (a.set 0 v, s)) id 4097 (World.init () 1 0) 16777216 UINT64_MAX
      = some (Res.ok (min cfgMmap.GASNETI_MMAP_LIMIT (min 16777216
          (if UINT64_MAX = UINT64_MAX ∧ 0 ≠ 0 then 0 else UINT64_MAX))) (World.init () 1 0)) ∧
    ∀ (ops1 : MapOps (World Unit)) (pshm1 : PshmOps (World Unit)) (sz_exchg1 : List Nat)
      (exchangefn1 : World Unit → Nat → List Nat → List Nat × World Unit)
      (barrierfn1 : World Unit → World Unit) (fuel1 : Nat),
      gasneti_mmapLimit cfgMmap topoTwoHosts ops1 pshm1 0 sz_exchg1 exchangefn1 barrierfn1
          fuel1 (World.init () 1 0) 16777216 UINT64_MAX
        = gasneti_mmapLimit cfgMmap topoTwoHosts
          (gasneti_ops cfgMmap (oracleOS cfgMmap 15000000 65536))
          (soloPshm cfgMmap (oracleOS cfgMmap 15000000 65536)) 0 [0, 0]
          (fun s v a => (a.set 0 v, s)) id 4097 (World.init () 1 0) 16777216 UINT64_MAX :=
  C14_no_sharing_returns_clamp cfgMmap topoTwoHosts
    (gasneti_ops cfgMmap (oracleOS cfgMmap 15000000 65536))
    (soloPshm cfgMmap (oracleOS cfgMmap 15000000 65536)) 0 [0, 0]
    (fun s v a => (a.set 0 v, s)) id 4097 (World.init () 1 0) 16777216 UINT64_MAX
    rfl (by decide)

theorem search_inner_any {σ : Type} (cfg : Config) (ops : MapOps σ)
    (hops : AlignedMaps cfg ops) (fuel : Nat) (s : σ) (maxsz : Nat)
    (hmax : cfg.GASNET_PAGESIZE ∣ maxsz) (hW : maxsz < wordMod cfg)
    (hfuel : maxsz < fuel * cfg.GASNET_PAGESIZE) :
    ∃ r, _gasneti_mmap_segment_search_inner cfg ops fuel s maxsz = some r ∧
      ∀ si s1, r = Res.ok si s1 → si.size ≤ maxsz ∧ cfg.GASNET_PAGESIZE ∣ si.size := by
  obtain ⟨hP, hPW, hG, hal⟩ := hops
  unfold _gasneti_mmap_segment_search_inner
  cases h1 : ops.gasneti_do_mmap s maxsz with
  | fatal e s1 => exact ⟨_, rfl, by intro si s2 h; cases h⟩
  | fault s1 => exact ⟨_, rfl, by intro si s2 h; cases h⟩
  | ok addr s1 =>
    obtain ⟨haW, hal1⟩ := hal s maxsz addr s1 h1
    by_cases ha : addr = MAP_FAILED cfg
    · simp only [ha, ne_eq, not_true_eq_false, if_false]
      obtain ⟨r, hr, hprop⟩ := binary_segsrch_any cfg ops hP hG fuel s1 0 maxsz
        (dvd_zero _) hmax (Nat.zero_le _) hW (by omega)
      rw [hr]
      cases r with
      | fatal e s2 => exact ⟨_, rfl, by intro si s3 h; cases h⟩
      | fault s2 => exact ⟨_, rfl, by intro si s3 h; cases h⟩
      | ok si s2 =>
        refine ⟨_, rfl, ?_⟩
        intro si1 s3 h
        have hsi := hprop si s2 rfl
        have hcond : si.addr = NULL ∨ (si.addr < wordMod cfg ∧ cfg.GASNET_PAGESIZE ∣ si.addr ∧
            cfg.GASNET_PAGESIZE ∣ si.size ∧ si.size < wordMod cfg) := by
          rcases hsi with h0 | ⟨h3, h4, h5, h6, s4, s5, h7⟩
          · exact Or.inl (by rw [h0])
          · obtain ⟨h8, h9⟩ := hal s4 si.size si.addr s5 h7
            rcases h9 with h9 | h9
            · exact absurd h9 h3
            · exact Or.inr ⟨h8, h9, h6, by omega⟩
        rcases trim_result cfg ops hP hPW s2 si false hcond si1 s3 h with ⟨_, h2⟩ | ⟨hn, h2⟩
        · subst h2
          exact ⟨Nat.zero_le _, dvd_zero _⟩
        · subst h2
          rcases hsi with h0 | ⟨h3, h4, h5, h6, -⟩
          · rw [h0] at hn
            exact absurd rfl hn
          · exact ⟨by omega, h6⟩
    · simp only [ne_eq, ha, not_false_eq_true, if_true]
      refine ⟨_, rfl, ?_⟩
      intro si1 s3 h
      have hdv : cfg.GASNET_PAGESIZE ∣ addr := by
        rcases hal1 with h9 | h9
        · exact absurd h9 ha
        · exact h9
      rcases trim_result cfg ops hP hPW s1 ⟨addr, maxsz⟩ true
        (Or.inr ⟨haW, hdv, hmax, hW⟩) si1 s3 h with ⟨_, h2⟩ | ⟨hn, h2⟩
      · subst h2
        exact ⟨Nat.zero_le _, dvd_zero _⟩
      · subst h2
        exact ⟨Nat.le_refl _, hmax⟩

theorem mmapLimit_rounds_any {σ : Type} (cfg : Config) (topo : Topo) (ops : MapOps σ)
    (barrierfn : σ → σ) (hops : AlignedMaps cfg ops) (fuel maxsz : Nat)
    (hmax : cfg.GASNET_PAGESIZE ∣ maxsz) (hW : maxsz < wordMod cfg)
    (hfuel : maxsz < fuel * cfg.GASNET_PAGESIZE) :
    ∀ (l : List Nat) (s : σ) (se : gasnet_seginfo_t), se.size ≤ maxsz →
      ∃ r, gasneti_mmapLimit_rounds cfg topo ops barrierfn fuel maxsz l s se = some r ∧
        ∀ se1 s1, r = Res.ok se1 s1 → se1.size ≤ maxsz := by
  intro l
  induction l with
  | nil =>
    intro s se hse
    refine ⟨_, rfl, ?_⟩
    intro se1 s1 h
    injection h with h1 h2
    subst h1
    exact hse
  | cons i rest ih =>
    intro s se hse
    rw [gasneti_mmapLimit_rounds]
    by_cases hi : i = topo.myhost_node_rank
    · rw [if_pos hi]
      obtain ⟨r, hr, hprop⟩ := search_inner_any cfg ops hops fuel s maxsz hmax hW hfuel
      rw [hr]
      cases r with
      | fatal e s2 => exact ⟨_, rfl, by intro si s3 h; cases h⟩
      | fault s2 => exact ⟨_, rfl, by intro si s3 h; cases h⟩
      | ok se1 s2 => exact ih _ _ (hprop se1 s2 rfl).1
    · rw [if_neg hi]
      exact ih _ _ hse

theorem mmapLimit_pshm_rounds_any {σ : Type} (cfg : Config) (topo : Topo) (ops : MapOps σ)
    (pshm : PshmOps σ) (hops : AlignedMaps cfg ops) (hbc : BcastDeclines cfg pshm)
    (fuel B : Nat) (hW : B < wordMod cfg) (hfuel : B < fuel * cfg.GASNET_PAGESIZE) :
    ∀ (l : List Nat) (s : σ) (se : gasnet_seginfo_t) (maxsz : Nat) (sz_exchg : List Nat),
      cfg.GASNET_PAGESIZE ∣ maxsz → maxsz ≤ B → se.size ≤ B →
      ∃ r, gasneti_mmapLimit_pshm_rounds cfg topo ops pshm fuel l s se maxsz sz_exchg
          = some r ∧
        ∀ se1 m1 ex1 s1, r = Res.ok (se1, m1, ex1) s1 → se1.size ≤ B := by
  intro l
  induction l with
  | nil =>
    intro s se maxsz sz_exchg _ _ hse
    refine ⟨_, rfl, ?_⟩
    intro se1 m1 ex1 s1 h
    simp only [Res.ok.injEq, Prod.mk.injEq] at h
    rw [← h.1.1]
    exact hse
  | cons i rest ih =>
    intro s se maxsz sz_exchg hdv hle hse
    rw [gasneti_mmapLimit_pshm_rounds]
    dsimp only
    by_cases hi : i = topo.gasneti_nodemap_local_rank
    · simp only [if_pos hi]
      obtain ⟨r, hr, hprop⟩ := search_inner_any cfg ops hops fuel s maxsz hdv
        (by omega) (by omega)
      rw [hr]
      cases r with
      | fatal e s2 => exact ⟨_, rfl, by intro _ _ _ _ h; cases h⟩
      | fault s2 => exact ⟨_, rfl, by intro _ _ _ _ h; cases h⟩
      | ok se1 s2 =>
        obtain ⟨h1, h2⟩ := hprop se1 s2 rfl
        obtain ⟨h3, h4⟩ := hbc s2 se1.size i
        exact ih _ _ _ _ (h4 h2) (Nat.le_trans h3 (by omega)) (by omega)
    · simp only [if_neg hi]
      obtain ⟨h3, h4⟩ := hbc s maxsz i
      exact ih _ _ _ _ (h4 hdv) (Nat.le_trans h3 hle) hse

theorem foldl_sum_le (f : Nat → Nat) (B : Nat) :
    ∀ (l : List Nat) (a : Nat), (∀ i ∈ l, f i ≤ B) →
      l.foldl (fun sum i => (sum + f i) % 2 ^ 64) a ≤ a + l.length * B := by
  intro l
  induction l with
  | nil => intro a _; simp
  | cons i rest ih =>
    intro a h
    rw [List.foldl_cons]
    have h1 := ih ((a + f i) % 2 ^ 64) (fun j hj => h j (List.mem_cons_of_mem _ hj))
    have h2 : (a + f i) % 2 ^ 64 ≤ a + f i := Nat.mod_le _ _
    have h3 := h i (List.mem_cons_self _ _)
    have h4 : (rest.length + 1) * B = rest.length * B + B := Nat.succ_mul _ _
    rw [List.length_cons, h4]
    omega

theorem mmapLimit_mean_le (cfg : Config) (topo : Topo) (tbl : List Nat) (B : Nat)
    (h : ∀ i, i < topo.myhost_node_count →
      tbl.getD (topo.myhost_nodes.getD i 0) 0 ≤ B) :
    gasneti_mmapLimit_mean cfg topo tbl ≤ B := by
  have h1 : gasneti_mmapLimit_sum topo tbl ≤ 0 + (List.range topo.myhost_node_count).length * B :=
    foldl_sum_le (fun i => tbl.getD (topo.myhost_nodes.getD i 0) 0) B _ 0
      (fun i hi => h i (List.mem_range.1 hi))
  rw [List.length_range, Nat.zero_add] at h1
  have h2 : gasneti_mmapLimit_sum topo tbl / topo.myhost_node_count ≤ B :=
    Nat.div_le_of_le_mul h1
  have h3 := aligndown_le cfg
    ((gasneti_mmapLimit_sum topo tbl / topo.myhost_node_count) % wordMod cfg)
  have h4 : (gasneti_mmapLimit_sum topo tbl / topo.myhost_node_count) % wordMod cfg
      ≤ gasneti_mmapLimit_sum topo tbl / topo.myhost_node_count := Nat.mod_le _ _
  unfold gasneti_mmapLimit_mean gasneti_mmap_aligndown
  omega

theorem mmapLimit_shrink_probe_any {σ : Type} (cfg : Config) (topo : Topo) (ops : MapOps σ)
    (pshm : PshmOps σ) (hops : AlignedMaps cfg ops) (fuel maxsz : Nat)
    (hmax : cfg.GASNET_PAGESIZE ∣ maxsz) (hW : maxsz < wordMod cfg)
    (hfuel : maxsz < fuel * cfg.GASNET_PAGESIZE) :
    ∀ (rest acc : List gasnet_seginfo_t) (s : σ) (sum : Nat) (done : Bool),
      ∃ r, gasneti_mmapLimit_shrink_probe cfg topo ops pshm fuel maxsz acc rest s sum done
          = some r ∧
        ∀ tmp sum1 done1 s1, r = Res.ok (tmp, sum1, done1) s1 →
          tmp.length = acc.length + rest.length ∧
          sum1 ≤ sum + rest.length * maxsz ∧
          (done1 = false → done = true → sum1 < sum + rest.length * maxsz) := by
  intro rest
  induction rest with
  | nil =>
    intro acc s sum done
    refine ⟨_, rfl, ?_⟩
    intro tmp sum1 done1 s1 h
    simp only [Res.ok.injEq, Prod.mk.injEq] at h
    obtain ⟨⟨h1, h2, h3⟩, -⟩ := h
    subst h1; subst h2; subst h3
    refine ⟨by simp, by simp, ?_⟩
    intro hf ht
    rw [hf] at ht
    cases ht
  | cons old rest ih =>
    intro acc s sum done
    rw [gasneti_mmapLimit_shrink_probe]
    obtain ⟨r, hr, hprop⟩ := search_inner_any cfg ops hops fuel s maxsz hmax hW hfuel
    rw [hr]
    have hmul : (rest.length + 1) * maxsz = rest.length * maxsz + maxsz := Nat.succ_mul _ _
    cases r with
    | fatal e s2 => exact ⟨_, rfl, by intro _ _ _ _ h; cases h⟩
    | fault s2 => exact ⟨_, rfl, by intro _ _ _ _ h; cases h⟩
    | ok se s1 =>
      obtain ⟨hle, -⟩ := hprop se s1 rfl
      have hmod : (sum + se.size) % 2 ^ 64 ≤ sum + se.size := Nat.mod_le _ _
      dsimp only
      cases hu : pshm.gasneti_pshm_unlink s1 topo.gasneti_pshm_mynode with
      | fatal e s2 => exact ⟨_, rfl, by intro _ _ _ _ h; cases h⟩
      | fault s2 => exact ⟨_, rfl, by intro _ _ _ _ h; cases h⟩
      | ok u s2 =>
        dsimp only
        by_cases hne : se.size ≠ maxsz
        · rw [if_pos hne]
          by_cases hg : se.size < cfg.GASNETI_MMAP_GRANULARITY
          · rw [if_pos hg]
            refine ⟨_, rfl, ?_⟩
            intro tmp sum1 done1 s3 h
            simp only [Res.ok.injEq, Prod.mk.injEq] at h
            obtain ⟨⟨h1, h2, h3⟩, -⟩ := h
            subst h1; subst h2; subst h3
            rw [List.length_cons, hmul]
            refine ⟨by simp, by omega, fun _ _ => by omega⟩
          · rw [if_neg hg]
            obtain ⟨r1, hr1, hp1⟩ := ih (acc ++ [se]) s2 ((sum + se.size) % 2 ^ 64) false
            refine ⟨r1, hr1, ?_⟩
            intro tmp sum1 done1 s3 h
            obtain ⟨h1, h2, -⟩ := hp1 tmp sum1 done1 s3 h
            rw [List.length_cons, hmul]
            rw [List.length_append, List.length_singleton] at h1
            refine ⟨by omega, by omega, fun _ _ => by omega⟩
        · rw [if_neg hne]
          have heq : se.size = maxsz := not_not.mp hne
          obtain ⟨r1, hr1, hp1⟩ := ih (acc ++ [se]) s2 ((sum + se.size) % 2 ^ 64) done
          refine ⟨r1, hr1, ?_⟩
          intro tmp sum1 done1 s3 h
          obtain ⟨h1, h2, h3⟩ := hp1 tmp sum1 done1 s3 h
          rw [List.length_cons, hmul]
          rw [List.length_append, List.length_singleton] at h1
          refine ⟨by omega, by omega, fun hf ht => ?_⟩
          have := h3 hf ht
          omega

theorem mmapLimit_shrink_unmap_length {σ : Type} (ops : MapOps σ) :
    ∀ (rest acc : List gasnet_seginfo_t) (s s1 : σ) (tmp : List gasnet_seginfo_t),
      gasneti_mmapLimit_shrink_unmap ops acc rest s = Res.ok tmp s1 →
      tmp.length = acc.length + rest.length := by
  intro rest
  induction rest with
  | nil =>
    intro acc s s1 tmp h
    simp only [gasneti_mmapLimit_shrink_unmap, Res.ok.injEq] at h
    rw [← h.1]
    simp
  | cons e rest ih =>
    intro acc s s1 tmp h
    rw [gasneti_mmapLimit_shrink_unmap] at h
    split at h
    · cases h
    · cases h
    · have := ih _ _ _ _ h
      rw [List.length_append, List.length_singleton] at this
      rw [List.length_cons]
      omega

theorem mmapLimit_shrink_any {σ : Type} (cfg : Config) (topo : Topo) (ops : MapOps σ)
    (pshm : PshmOps σ) (hops : AlignedMaps cfg ops) (fuel : Nat) :
    ∀ (passes : Nat) (s : σ) (tmp_se : List gasnet_seginfo_t) (maxsz : Nat),
      cfg.GASNET_PAGESIZE ∣ maxsz → maxsz < wordMod cfg →
      maxsz < fuel * cfg.GASNET_PAGESIZE → maxsz < passes * cfg.GASNET_PAGESIZE →
      tmp_se.length = topo.gasneti_pshm_nodes →
      ∃ r, gasneti_mmapLimit_shrink cfg topo ops pshm fuel passes s tmp_se maxsz = some r ∧
        ∀ v s1, r = Res.ok v s1 → v ≤ maxsz ∧ cfg.GASNET_PAGESIZE ∣ v := by
  intro passes
  induction passes with
  | zero =>
    intro s tmp_se maxsz _ _ _ h
    simp at h
  | succ n ih =>
    intro s tmp_se maxsz hmax hW hfuel hpass hlen
    rw [gasneti_mmapLimit_shrink]
    obtain ⟨r, hr, hprop⟩ := mmapLimit_shrink_probe_any cfg topo ops pshm hops fuel maxsz
      hmax hW hfuel tmp_se [] s 0 true
    rw [hr]
    cases r with
    | fatal e s2 => exact ⟨_, rfl, by intro _ _ h; cases h⟩
    | fault s2 => exact ⟨_, rfl, by intro _ _ h; cases h⟩
    | ok res s1 =>
      obtain ⟨tmp1, sum, done⟩ := res
      obtain ⟨h1, h2, h3⟩ := hprop tmp1 sum done s1 rfl
      dsimp only
      cases hu : gasneti_mmapLimit_shrink_unmap ops [] tmp1 s1 with
      | fatal e s2 => exact ⟨_, rfl, by intro _ _ h; cases h⟩
      | fault s2 => exact ⟨_, rfl, by intro _ _ h; cases h⟩
      | ok tmp2 s2 =>
        dsimp only
        have hl2 := mmapLimit_shrink_unmap_length ops tmp1 [] s1 s2 tmp2 hu
        by_cases hn0 : topo.gasneti_pshm_nodes = 0
        · rw [if_pos hn0]
          exact ⟨_, rfl, by intro _ _ h; cases h⟩
        · rw [if_neg hn0]
          rw [hlen, Nat.zero_add] at h2 h3
          have hdiv : sum / topo.gasneti_pshm_nodes ≤ maxsz := Nat.div_le_of_le_mul h2
          have hmodle : (sum / topo.gasneti_pshm_nodes) % wordMod cfg
              ≤ sum / topo.gasneti_pshm_nodes := Nat.mod_le _ _
          have hal := aligndown_le cfg ((sum / topo.gasneti_pshm_nodes) % wordMod cfg)
          have hdv := aligndown_dvd cfg ((sum / topo.gasneti_pshm_nodes) % wordMod cfg)
          by_cases hd : done = true
          · rw [if_pos hd]
            refine ⟨_, rfl, ?_⟩
            intro v s3 h
            injection h with h4 h5
            subst h4
            unfold gasneti_mmap_aligndown
            exact ⟨by omega, hdv⟩
          · rw [if_neg hd]
            have hdf : done = false := by simpa using hd
            have hlt : sum / topo.gasneti_pshm_nodes < maxsz :=
              Nat.div_lt_of_lt_mul (h3 hdf rfl)
            have hstep := aligned_add_le hdv hmax
              (show GASNETI_PAGE_ALIGNDOWN cfg ((sum / topo.gasneti_pshm_nodes) % wordMod cfg)
                < maxsz by omega)
            have hmul : (n + 1) * cfg.GASNET_PAGESIZE = n * cfg.GASNET_PAGESIZE
                + cfg.GASNET_PAGESIZE := Nat.succ_mul _ _
            obtain ⟨r2, hr2, hp2⟩ := ih s2
              tmp2 (gasneti_mmap_aligndown cfg
                ((sum / topo.gasneti_pshm_nodes) % wordMod cfg))
              hdv (by unfold gasneti_mmap_aligndown; omega)
              (by unfold gasneti_mmap_aligndown; omega)
              (by unfold gasneti_mmap_aligndown; omega)
              (by rw [hl2, h1, hlen]; simp)
            refine ⟨r2, hr2, ?_⟩
            intro v s3 h
            obtain ⟨h6, h7⟩ := hp2 v s3 h
            unfold gasneti_mmap_aligndown at h6
            exact ⟨by omega, h7⟩

theorem mmapLimit_pshm_block_any {σ : Type} (cfg : Config) (topo : Topo) (ops : MapOps σ)
    (pshm : PshmOps σ) (hops : AlignedMaps cfg ops) (hbc : BcastDeclines cfg pshm)
    (fuel : Nat) (s : σ) (se : gasnet_seginfo_t) (maxsz : Nat)
    (hmax : cfg.GASNET_PAGESIZE ∣ maxsz) (hW : maxsz < wordMod cfg)
    (hfuel : maxsz < fuel * cfg.GASNET_PAGESIZE) :
    ∃ r, gasneti_mmapLimit_pshm_block cfg topo ops pshm fuel s se maxsz = some r ∧
      ∀ v s1, r = Res.ok v s1 → v ≤ maxsz := by
  unfold gasneti_mmapLimit_pshm_block
  dsimp only
  generalize (if se.size ≠ 0 then ops.gasneti_do_munmap s se.addr se.size else Res.ok () s) = um
  cases um with
  | fatal e s1 => exact ⟨_, rfl, by intro _ _ h; cases h⟩
  | fault s1 => exact ⟨_, rfl, by intro _ _ h; cases h⟩
  | ok u s1 =>
    dsimp only
    cases pshm.gasneti_unlink_segments s1 with
    | fatal e s2 => exact ⟨_, rfl, by intro _ _ h; cases h⟩
    | fault s2 => exact ⟨_, rfl, by intro _ _ h; cases h⟩
    | ok u2 s2 =>
      dsimp only
      have hsh : ∃ r, (if topo.gasneti_pshm_mynode = 0 then
            gasneti_mmapLimit_shrink cfg topo ops pshm fuel fuel s2
              (List.replicate topo.gasneti_pshm_nodes ⟨0, 0⟩) maxsz
          else some (Res.ok maxsz s2)) = some r ∧ ∀ v s3, r = Res.ok v s3 → v ≤ maxsz := by
        by_cases h0 : topo.gasneti_pshm_mynode = 0
        · rw [if_pos h0]
          obtain ⟨r, hr, hp⟩ := mmapLimit_shrink_any cfg topo ops pshm hops fuel fuel s2
            (List.replicate topo.gasneti_pshm_nodes ⟨0, 0⟩) maxsz hmax hW hfuel hfuel
            (List.length_replicate _ _)
          exact ⟨r, hr, fun v s3 h => (hp v s3 h).1⟩
        · rw [if_neg h0]
          refine ⟨_, rfl, ?_⟩
          intro v s3 h
          injection h with h1 h2
          omega
      obtain ⟨r, hr, hp⟩ := hsh
      rw [hr]
      cases r with
      | fatal e s3 => exact ⟨_, rfl, by intro _ _ h; cases h⟩
      | fault s3 => exact ⟨_, rfl, by intro _ _ h; cases h⟩
      | ok v1 s3 =>
        dsimp only
        have hv1 := hp v1 s3 rfl
        have hb := (hbc s3 v1 0).1
        cases pshm.gasneti_unlink_segments
            (pshm.gasneti_pshmnet_bootstrapBroadcast s3 v1 0).2 with
        | fatal e s5 => exact ⟨_, rfl, by intro _ _ h; cases h⟩
        | fault s5 => exact ⟨_, rfl, by intro _ _ h; cases h⟩
        | ok u5 s5 =>
          refine ⟨_, rfl, ?_⟩
          intro v s6 h
          injection h with h1 h2
          subst h1
          exact Nat.le_trans hb hv1

theorem mmapLimit_probe_any {σ : Type} (cfg : Config) (topo : Topo) (ops : MapOps σ)
    (pshm : PshmOps σ) (barrierfn : σ → σ) (hops : AlignedMaps cfg ops)
    (hbc : BcastDeclines cfg pshm) (fuel : Nat) (s : σ) (maxsz : Nat) (sz_exchg : List Nat)
    (hmax : cfg.GASNET_PAGESIZE ∣ maxsz) (hW : maxsz < wordMod cfg)
    (hfuel : maxsz < fuel * cfg.GASNET_PAGESIZE) :
    ∃ r, gasneti_mmapLimit_probe cfg topo ops pshm barrierfn fuel s maxsz sz_exchg = some r ∧
      ∀ se m ex s1, r = Res.ok (se, m, ex) s1 → se.size ≤ maxsz := by
  unfold gasneti_mmapLimit_probe
  split_ifs with h1 h2
  · exact mmapLimit_pshm_rounds_any cfg topo ops pshm hops hbc fuel maxsz hW hfuel _ s ⟨0, 0⟩
      maxsz sz_exchg hmax (Nat.le_refl _) (Nat.zero_le _)
  · obtain ⟨r, hr, hp⟩ := mmapLimit_rounds_any cfg topo ops barrierfn hops fuel maxsz hmax hW
      hfuel (List.range (gasneti_mmapLimit_widest topo)) s ⟨0, 0⟩ (Nat.zero_le _)
    rw [hr]
    cases r with
    | fatal e s3 => exact ⟨_, rfl, by intro _ _ _ _ h; cases h⟩
    | fault s3 => exact ⟨_, rfl, by intro _ _ _ _ h; cases h⟩
    | ok se1 s3 =>
      refine ⟨_, rfl, ?_⟩
      intro se m ex s1 h
      simp only [Res.ok.injEq, Prod.mk.injEq] at h
      rw [← h.1.1]
      exact hp se1 s3 rfl
  · refine ⟨_, rfl, ?_⟩
    intro se m ex s1 h
    simp only [Res.ok.injEq, Prod.mk.injEq] at h
    rw [← h.1.1]
    exact Nat.zero_le _

theorem mmapLimit_share_le (cfg : Config) (local_count sharedLimit maxsz : Nat) :
    gasneti_mmapLimit_share cfg local_count sharedLimit maxsz ≤ maxsz ∧
    cfg.GASNET_PAGESIZE ∣ gasneti_mmapLimit_share cfg local_count sharedLimit maxsz ∧
    (maxsz < wordMod cfg → sharedLimit ≠ UINT64_MAX → local_count > 1 →
      gasneti_mmapLimit_share cfg local_count sharedLimit maxsz
        ≤ sharedLimit / local_count) := by
  unfold gasneti_mmapLimit_share gasneti_mmap_aligndown
  refine ⟨?_, aligndown_dvd cfg _, ?_⟩
  · refine Nat.le_trans (aligndown_le cfg _) ?_
    split_ifs
    · exact Nat.min_le_left _ _
    · exact Nat.le_refl _
    · exact Nat.le_refl _
  · intro hW h1 h2
    refine Nat.le_trans (aligndown_le cfg _) ?_
    rw [if_pos ⟨h1, h2⟩]
    split_ifs with h3
    · exact Nat.le_trans (Nat.min_le_right _ _) (Nat.mod_le _ _)
    · unfold UINTPTR_MAX at h3
      omega

theorem mmapLimit_sharing_any {σ : Type} (cfg : Config) (topo : Topo) (ops : MapOps σ)
    (pshm : PshmOps σ) (nodemem : Nat) (sz_exchg0 : List Nat)
    (exchangefn : σ → Nat → List Nat → List Nat × σ) (barrierfn : σ → σ)
    (fuel : Nat) (s : σ) (localLimit sharedLimit : Nat)
    (hops : AlignedMaps cfg ops) (hbc : BcastDeclines cfg pshm)
    (hsh : topo.myhost_grp_count ≠ topo.gasneti_nodes)
    (hl : localLimit < wordMod cfg) (hfuel : wordMod cfg ≤ fuel * cfg.GASNET_PAGESIZE) :
    ∃ r, gasneti_mmapLimit cfg topo ops pshm nodemem sz_exchg0 exchangefn barrierfn fuel s
        localLimit sharedLimit = some r ∧
      ∀ v s1, r = Res.ok v s1 →
        ∃ s2 own a,
          own ≤ gasneti_mmapLimit_share cfg topo.myhost_node_count
            (gasneti_mmapLimit_clamp cfg nodemem localLimit sharedLimit).2
            (gasneti_mmapLimit_clamp cfg nodemem localLimit sharedLimit).1 ∧
          v ≤ gasneti_mmapLimit_mean cfg topo (exchangefn s2 own a).1 ∧
          (cfg.GASNET_PSHM = false →
            v = gasneti_mmapLimit_mean cfg topo (exchangefn s2 own a).1) := by
  have hc := (mmapLimit_clamp_eq cfg nodemem localLimit sharedLimit hl).1
  have hc1 : (gasneti_mmapLimit_clamp cfg nodemem localLimit sharedLimit).1 ≤ localLimit := by
    rw [hc]
    exact Nat.le_trans (Nat.min_le_right _ _) (Nat.min_le_left _ _)
  obtain ⟨hB1, hB2, -⟩ := mmapLimit_share_le cfg topo.myhost_node_count
    (gasneti_mmapLimit_clamp cfg nodemem localLimit sharedLimit).2
    (gasneti_mmapLimit_clamp cfg nodemem localLimit sharedLimit).1
  unfold gasneti_mmapLimit
  rw [if_pos hsh]
  generalize gasneti_mmapLimit_share cfg topo.myhost_node_count
    (gasneti_mmapLimit_clamp cfg nodemem localLimit sharedLimit).2
    (gasneti_mmapLimit_clamp cfg nodemem localLimit sharedLimit).1 = B at hB1 hB2 ⊢
  obtain ⟨r, hr, hp⟩ := mmapLimit_probe_any cfg topo ops pshm barrierfn hops hbc fuel s B
    sz_exchg0 hB2 (by omega) (by omega)
  rw [hr]
  cases r with
  | fatal e s3 => exact ⟨_, rfl, by intro _ _ h; cases h⟩
  | fault s3 => exact ⟨_, rfl, by intro _ _ h; cases h⟩
  | ok res s1 =>
    obtain ⟨se, m, ex⟩ := res
    have hse := hp se m ex s1 rfl
    dsimp only
    by_cases hn0 : topo.myhost_node_count = 0
    · rw [if_pos hn0]
      exact ⟨_, rfl, by intro _ _ h; cases h⟩
    · rw [if_neg hn0]
      have hmW : gasneti_mmapLimit_mean cfg topo (exchangefn s1 se.size ex).1 < wordMod cfg := by
        have hM : 0 < wordMod cfg := Nat.pow_pos (by decide)
        have h1 := aligndown_le cfg
          ((gasneti_mmapLimit_sum topo (exchangefn s1 se.size ex).1 / topo.myhost_node_count)
            % wordMod cfg)
        have h2 := Nat.mod_lt
          (gasneti_mmapLimit_sum topo (exchangefn s1 se.size ex).1 / topo.myhost_node_count) hM
        unfold gasneti_mmapLimit_mean gasneti_mmap_aligndown
        omega
      by_cases hps : cfg.GASNET_PSHM = true
      · simp only [if_pos hps]
        obtain ⟨r2, hr2, hp2⟩ := mmapLimit_pshm_block_any cfg topo ops pshm hops hbc fuel
          (exchangefn s1 se.size ex).2 se
          (gasneti_mmapLimit_mean cfg topo (exchangefn s1 se.size ex).1)
          (aligndown_dvd cfg _) hmW (by omega)
        rw [hr2]
        cases r2 with
        | fatal e s3 => exact ⟨_, rfl, by intro _ _ h; cases h⟩
        | fault s3 => exact ⟨_, rfl, by intro _ _ h; cases h⟩
        | ok v2 s3 =>
          dsimp only
          rw [if_neg (by simp)]
          refine ⟨_, rfl, ?_⟩
          intro v s4 h
          injection h with h1 h2
          subst h1
          exact ⟨s1, se.size, ex, hse, hp2 v2 s3 rfl, fun hf => by rw [hps] at hf; cases hf⟩
      · simp only [if_neg hps]
        generalize (if se.size ≠ 0 then
          ops.gasneti_do_munmap (exchangefn s1 se.size ex).2 se.addr se.size
          else Res.ok () (exchangefn s1 se.size ex).2) = um
        cases um with
        | fatal e s3 => exact ⟨_, rfl, by intro _ _ h; cases h⟩
        | fault s3 => exact ⟨_, rfl, by intro _ _ h; cases h⟩
        | ok u s3 =>
          refine ⟨_, rfl, ?_⟩
          intro v s4 h
          injection h with h1 h2
          subst h1
          exact ⟨s1, se.size, ex, hse, Nat.le_refl _, fun _ => rfl⟩

/-- C12 (confirmed). With mapping primitives that return aligned machine words, a
declining broadcast and an exchange that delivers, for the processes of the caller's host,
sizes within the common candidate whenever the caller's own size is (every co-located
process having called with the same limits), `gasneti_mmapLimit` ends and a size `v` it
returns satisfies `v ≤ GASNETI_MMAP_LIMIT`, `v ≤ localLimit`, `v ≤ sharedLimit` and, when
the host has `local_count > 1` processes and `sharedLimit` is finite,
`v ≤ sharedLimit / local_count`. -/
theorem C12_limit_bounds {σ : Type} (cfg : Config) (topo : Topo) (ops : MapOps σ)
    (pshm : PshmOps σ) (nodemem : Nat) (sz_exchg0 : List Nat)
    (exchangefn : σ → Nat → List Nat → List Nat × σ) (barrierfn : σ → σ)
    (fuel : Nat) (s : σ) (localLimit sharedLimit : Nat)
    (hops : AlignedMaps cfg ops) (hbc : BcastDeclines cfg pshm)
    (hex : ∀ s1 own a i,
      own ≤ gasneti_mmapLimit_share cfg topo.myhost_node_count
        (gasneti_mmapLimit_clamp cfg nodemem localLimit sharedLimit).2
        (gasneti_mmapLimit_clamp cfg nodemem localLimit sharedLimit).1 →
      i < topo.myhost_node_count →
      (exchangefn s1 own a).1.getD (topo.myhost_nodes.getD i 0) 0
        ≤ gasneti_mmapLimit_share cfg topo.myhost_node_count
          (gasneti_mmapLimit_clamp cfg nodemem localLimit sharedLimit).2
          (gasneti_mmapLimit_clamp cfg nodemem localLimit sharedLimit).1)
    (htopo : topo.myhost_node_count > 1 → topo.myhost_grp_count ≠ topo.gasneti_nodes)
    (hl : localLimit < wordMod cfg) (hnm : nodemem ≤ UINT64_MAX)
    (hfuel : wordMod cfg ≤ fuel * cfg.GASNET_PAGESIZE) :
    ∃ r, gasneti_mmapLimit cfg topo ops pshm nodemem sz_exchg0 exchangefn barrierfn fuel s
        localLimit sharedLimit = some r ∧
      ∀ v s1, r = Res.ok v s1 →
        v ≤ cfg.GASNETI_MMAP_LIMIT ∧ v ≤ localLimit ∧ v ≤ sharedLimit ∧
        (topo.myhost_node_count > 1 → sharedLimit ≠ UINT64_MAX →
          v ≤ sharedLimit / topo.myhost_node_count) := by
  obtain ⟨hc, hc2⟩ := mmapLimit_clamp_eq cfg nodemem localLimit sharedLimit hl
  have hsl : (if sharedLimit = UINT64_MAX ∧ nodemem ≠ 0 then nodemem else sharedLimit)
      ≤ sharedLimit := by
    split_ifs with h
    · rw [h.1]
      exact hnm
    · exact Nat.le_refl _
  have hm1 : (gasneti_mmapLimit_clamp cfg nodemem localLimit sharedLimit).1
      ≤ cfg.GASNETI_MMAP_LIMIT := by
    rw [hc]
    exact Nat.min_le_left _ _
  have hm2 : (gasneti_mmapLimit_clamp cfg nodemem localLimit sharedLimit).1 ≤ localLimit := by
    rw [hc]
    exact Nat.le_trans (Nat.min_le_right _ _) (Nat.min_le_left _ _)
  have hm3 : (gasneti_mmapLimit_clamp cfg nodemem localLimit sharedLimit).1 ≤ sharedLimit := by
    rw [hc]
    exact Nat.le_trans (Nat.le_trans (Nat.min_le_right _ _) (Nat.min_le_right _ _)) hsl
  by_cases hsh : topo.myhost_grp_count ≠ topo.gasneti_nodes
  · obtain ⟨r, hr, hp⟩ := mmapLimit_sharing_any cfg topo ops pshm nodemem sz_exchg0 exchangefn
      barrierfn fuel s localLimit sharedLimit hops hbc hsh hl hfuel
    refine ⟨r, hr, ?_⟩
    intro v s1 h
    obtain ⟨s2, own, a, hown, hv, -⟩ := hp v s1 h
    have hmean := mmapLimit_mean_le cfg topo (exchangefn s2 own a).1 _
      (fun i hi => hex s2 own a i hown hi)
    obtain ⟨hB1, -, hB3⟩ := mmapLimit_share_le cfg topo.myhost_node_count
      (gasneti_mmapLimit_clamp cfg nodemem localLimit sharedLimit).2
      (gasneti_mmapLimit_clamp cfg nodemem localLimit sharedLimit).1
    refine ⟨by omega, by omega, by omega, ?_⟩
    intro hlc hfin
    have h2 : (gasneti_mmapLimit_clamp cfg nodemem localLimit sharedLimit).2 = sharedLimit := by
      rw [hc2, if_neg (fun hh => hfin hh.1)]
    have hB := hB3 (by omega) (by rw [h2]; exact hfin) hlc
    rw [h2] at hB hmean
    exact Nat.le_trans hv (Nat.le_trans hmean hB)
  · refine ⟨Res.ok (gasneti_mmapLimit_clamp cfg nodemem localLimit sharedLimit).1 s, ?_, ?_⟩
    · unfold gasneti_mmapLimit
      rw [if_neg hsh]
    · intro v s1 h
      injection h with h1 h2
      subst h1
      exact ⟨hm1, hm2, hm3, fun hlc => absurd (htopo hlc) hsh⟩

/-- Witness for C12: two processes on one host, 1 GB per process and 1.5 GB per host, the
peer reporting the same size as the caller: the size returned is at most
1500000000 / 2, the 750 MB of the example. -/
theorem C12_limit_bounds_witness :
    ∃ r, gasneti_mmapLimit cfgMmap topoOneHost
        (gasneti_ops cfgMmap (oracleOS cfgMmap 15000000 65536))
        (soloPshm cfgMmap (oracleOS cfgMmap 15000000 65536)) 0 [0, 0]
        (fun s v _ => ([v, v], s)) id 4503599627370496 (World.init () 1 0)
        1000000000 1500000000 = some r ∧
      ∀ v s1, r = Res.ok v s1 →
        v ≤ cfgMmap.GASNETI_MMAP_LIMIT ∧ v ≤ 1000000000 ∧ v ≤ 1500000000 ∧
        (topoOneHost.myhost_node_count > 1 → 1500000000 ≠ UINT64_MAX →
          v ≤ 1500000000 / topoOneHost.myhost_node_count) :=
  C12_limit_bounds cfgMmap topoOneHost
    (gasneti_ops cfgMmap (oracleOS cfgMmap 15000000 65536))
    (soloPshm cfgMmap (oracleOS cfgMmap 15000000 65536)) 0 [0, 0]
    (fun s v _ => ([v, v], s)) id 4503599627370496 (World.init () 1 0)
    1000000000 1500000000
    ⟨by decide, by decide, by decide, by
      intro s sz a s1 h
      obtain ⟨s2, h2⟩ := (gasneti_ops_isOracle cfgMmap 15000000 65536 rfl (by decide)
        (by decide) (by decide)).1 s sz
      rw [h2] at h
      injection h with h3 h4
      subst h3
      by_cases hsz : sz ≤ 15000000
      · rw [if_pos hsz]
        exact ⟨by decide, Or.inr (by decide)⟩
      · rw [if_neg hsz]
        exact ⟨by decide, Or.inl rfl⟩⟩
    (fun _ _ _ => ⟨Nat.le_refl _, fun h => h⟩)
    (by
      intro s1 own a i hown hi
      have hi2 : i < 2 := hi
      interval_cases i <;> exact hown)
    (fun _ => by decide) (by decide) (by decide) (by decide)

/-- C13 (corrected). When processes share a host, `gasneti_mmapLimit` ends and a size it
returns is at most the page-aligned host-local mean of the sizes that the exchange
delivered for the co-located processes (and equal to it in a build without PSHM), hence at
most every bound on those sizes, such as their maximum; it is the mean, not the minimum,
that bounds the result. -/
theorem C13_mean_bound {σ : Type} (cfg : Config) (topo : Topo) (ops : MapOps σ)
    (pshm : PshmOps σ) (nodemem : Nat) (sz_exchg0 : List Nat)
    (exchangefn : σ → Nat → List Nat → List Nat × σ) (barrierfn : σ → σ)
    (fuel : Nat) (s : σ) (localLimit sharedLimit : Nat)
    (hops : AlignedMaps cfg ops) (hbc : BcastDeclines cfg pshm)
    (hsh : topo.myhost_grp_count ≠ topo.gasneti_nodes)
    (hl : localLimit < wordMod cfg) (hfuel : wordMod cfg ≤ fuel * cfg.GASNET_PAGESIZE) :
    ∃ r, gasneti_mmapLimit cfg topo ops pshm nodemem sz_exchg0 exchangefn barrierfn fuel s
        localLimit sharedLimit = some r ∧
      ∀ v s1, r = Res.ok v s1 →
        ∃ s2 own a,
          v ≤ gasneti_mmapLimit_mean cfg topo (exchangefn s2 own a).1 ∧
          (cfg.GASNET_PSHM = false →
            v = gasneti_mmapLimit_mean cfg topo (exchangefn s2 own a).1) ∧
          ∀ B, (∀ i, i < topo.myhost_node_count →
              (exchangefn s2 own a).1.getD (topo.myhost_nodes.getD i 0) 0 ≤ B) → v ≤ B := by
  obtain ⟨r, hr, hp⟩ := mmapLimit_sharing_any cfg topo ops pshm nodemem sz_exchg0 exchangefn
    barrierfn fuel s localLimit sharedLimit hops hbc hsh hl hfuel
  refine ⟨r, hr, ?_⟩
  intro v s1 h
  obtain ⟨s2, own, a, -, hv, heq⟩ := hp v s1 h
  exact ⟨s2, own, a, hv, heq, fun B hB =>
    Nat.le_trans hv (mmapLimit_mean_le cfg topo (exchangefn s2 own a).1 B hB)⟩

/-- Counterexample to C13 as stated: two processes on one host; the caller's probe finds
409600 bytes (100 pages) and the peer reports 204800 (50 pages); `gasneti_mmapLimit`
returns the mean 307200 (75 pages), which exceeds the size the peer found mappable. -/
theorem C13_counterexample :
    retValue (gasneti_mmapLimit cfgMmap topoOneHost
        (gasneti_ops cfgMmap (oracleOS cfgMmap 15000000 65536))
        (soloPshm cfgMmap (oracleOS cfgMmap 15000000 65536)) 0 [0, 0]
        (fun s v _ => ([v, 204800], s)) id 4097 (World.init () 1 0) 409600 UINT64_MAX)
      = some 307200 ∧
    retSize (_gasneti_mmap_segment_search_inner cfgMmap
        (gasneti_ops cfgMmap (oracleOS cfgMmap 15000000 65536)) 4097 (World.init () 1 0)
        409600) = some 409600 ∧
    topoOneHost.myhost_grp_count ≠ topoOneHost.gasneti_nodes ∧
    min 409600 204800 < 307200 := by
  decide

/-- Witness for C13: the run of the counterexample; the result is the mean of the two
exchanged sizes. -/
theorem C13_mean_bound_witness :
    ∃ r, gasneti_mmapLimit cfgMmap topoOneHost
        (gasneti_ops cfgMmap (oracleOS cfgMmap 15000000 65536))
        (soloPshm cfgMmap (oracleOS cfgMmap 15000000 65536)) 0 [0, 0]
        (fun s v _ => ([v, 204800], s)) id 4503599627370496 (World.init () 1 0)
        409600 UINT64_MAX = some r ∧
      ∀ v s1, r = Res.ok v s1 →
        ∃ (_s2 : World Unit) (own : Nat) (_a : List Nat),
          v ≤ gasneti_mmapLimit_mean cfgMmap topoOneHost [own, 204800] ∧
          (cfgMmap.GASNET_PSHM = false →
            v = gasneti_mmapLimit_mean cfgMmap topoOneHost [own, 204800]) ∧
          ∀ B, (∀ i, i < topoOneHost.myhost_node_count →
              ([own, 204800] : List Nat).getD (topoOneHost.myhost_nodes.getD i 0) 0 ≤ B) →
            v ≤ B :=
  C13_mean_bound cfgMmap topoOneHost
    (gasneti_ops cfgMmap (oracleOS cfgMmap 15000000 65536))
    (soloPshm cfgMmap (oracleOS cfgMmap 15000000 65536)) 0 [0, 0]
    (fun s v _ => ([v, 204800], s)) id 4503599627370496 (World.init () 1 0)
    409600 UINT64_MAX
    ⟨by decide, by decide, by decide, by
      intro s sz a s1 h
      obtain ⟨s2, h2⟩ := (gasneti_ops_isOracle cfgMmap 15000000 65536 rfl (by decide)
        (by decide) (by decide)).1 s sz
      rw [h2] at h
      injection h with h3 h4
      subst h3
      by_cases hsz : sz ≤ 15000000
      · rw [if_pos hsz]
        exact ⟨by decide, Or.inr (by decide)⟩
      · rw [if_neg hsz]
        exact ⟨by decide, Or.inl rfl⟩⟩
    (fun _ _ _ => ⟨Nat.le_refl _, fun h => h⟩)
    (by decide) (by decide) (by decide)

theorem mmapLimit_rounds_noprobe {σ : Type} (cfg : Config) (topo : Topo) (ops : MapOps σ)
    (barrierfn : σ → σ) (fuel maxsz : Nat) :
    ∀ (l : List Nat) (s : σ) (se : gasnet_seginfo_t), topo.myhost_node_rank ∉ l →
      gasneti_mmapLimit_rounds cfg topo ops barrierfn fuel maxsz l s se
        = some (Res.ok se (Nat.iterate barrierfn l.length s)) := by
  intro l
  induction l with
  | nil => intro s se _; rfl
  | cons i rest ih =>
    intro s se h
    have hi : i ≠ topo.myhost_node_rank := fun e => h (e ▸ List.mem_cons_self _ _)
    rw [gasneti_mmapLimit_rounds, if_neg hi,
      ih _ _ (fun hm => h (List.mem_cons_of_mem _ hm))]
    rfl

theorem mmapLimit_rounds_range {σ : Type} (cfg : Config) (topo : Topo) (ops : MapOps σ)
    (barrierfn : σ → σ) (fuel maxsz : Nat) :
    ∀ (n a : Nat) (s : σ) (se : gasnet_seginfo_t), a ≤ topo.myhost_node_rank →
      gasneti_mmapLimit_rounds cfg topo ops barrierfn fuel maxsz (List.range' a n) s se
        = if topo.myhost_node_rank < a + n then
            match _gasneti_mmap_segment_search_inner cfg ops fuel
                (Nat.iterate barrierfn (topo.myhost_node_rank - a) s) maxsz with
            | none => none
            | some (.fatal e s1) => some (.fatal e s1)
            | some (.fault s1) => some (.fault s1)
            | some (.ok se1 s1) =>
              some (.ok se1 (Nat.iterate barrierfn (a + n - topo.myhost_node_rank) s1))
          else some (.ok se (Nat.iterate barrierfn n s)) := by
  intro n
  induction n with
  | zero =>
    intro a s se ha
    rw [if_neg (by omega)]
    rfl
  | succ n ih =>
    intro a s se ha
    rw [List.range'_succ, gasneti_mmapLimit_rounds]
    by_cases hr : a = topo.myhost_node_rank
    · rw [if_pos hr, if_pos (by omega)]
      have e0 : topo.myhost_node_rank - a = 0 := by omega
      have e1 : a + (n + 1) - topo.myhost_node_rank = n + 1 := by omega
      rw [e0, e1]
      show _ = match _gasneti_mmap_segment_search_inner cfg ops fuel s maxsz with
        | none => none
        | some (.fatal e s1) => some (.fatal e s1)
        | some (.fault s1) => some (.fault s1)
        | some (.ok se1 s1) => some (.ok se1 (Nat.iterate barrierfn (n + 1) s1))
      generalize _gasneti_mmap_segment_search_inner cfg ops fuel s maxsz = r
      rcases r with _ | r
      · rfl
      · cases r with
        | fatal e s1 => rfl
        | fault s1 => rfl
        | ok se1 s1 =>
          dsimp only
          rw [mmapLimit_rounds_noprobe cfg topo ops barrierfn fuel maxsz _ _ _
            (by rw [List.mem_range']; rintro ⟨i, -, hi⟩; omega), List.length_range']
          rfl
    · rw [if_neg hr, ih (a + 1) (barrierfn s) se (by omega)]
      have e0 : topo.myhost_node_rank - a = (topo.myhost_node_rank - (a + 1)) + 1 := by omega
      have e1 : a + 1 + n = a + (n + 1) := by omega
      rw [e0, e1, Function.iterate_succ_apply]
      rfl

theorem mmapLimit_bcast_noprobe {σ : Type} (cfg : Config) (topo : Topo) (ops : MapOps σ)
    (pshm : PshmOps σ) (fuel : Nat) :
    ∀ (l : List Nat) (s : σ) (se : gasnet_seginfo_t) (maxsz : Nat) (sz_exchg : List Nat),
      topo.gasneti_nodemap_local_rank ∉ l →
      gasneti_mmapLimit_pshm_rounds cfg topo ops pshm fuel l s se maxsz sz_exchg
        = some (Res.ok
            (se, (gasneti_mmapLimit_bcast_rounds topo pshm l s maxsz sz_exchg).1)
            (gasneti_mmapLimit_bcast_rounds topo pshm l s maxsz sz_exchg).2) := by
  intro l
  induction l with
  | nil => intro s se maxsz sz_exchg _; rfl
  | cons i rest ih =>
    intro s se maxsz sz_exchg h
    have hi : i ≠ topo.gasneti_nodemap_local_rank := fun e => h (e ▸ List.mem_cons_self _ _)
    rw [gasneti_mmapLimit_pshm_rounds]
    simp only [if_neg hi]
    rw [ih _ _ _ _ (fun hm => h (List.mem_cons_of_mem _ hm))]
    rfl

theorem mmapLimit_pshm_rounds_range {σ : Type} (cfg : Config) (topo : Topo) (ops : MapOps σ)
    (pshm : PshmOps σ) (fuel : Nat) :
    ∀ (n a : Nat) (s : σ) (se : gasnet_seginfo_t) (maxsz : Nat) (sz_exchg : List Nat),
      a ≤ topo.gasneti_nodemap_local_rank →
      gasneti_mmapLimit_pshm_rounds cfg topo ops pshm fuel (List.range' a n) s se maxsz sz_exchg
        = if topo.gasneti_nodemap_local_rank < a + n then
            match _gasneti_mmap_segment_search_inner cfg ops fuel
                (gasneti_mmapLimit_bcast_rounds topo pshm
                  (List.range' a (topo.gasneti_nodemap_local_rank - a)) s maxsz sz_exchg).2
                (gasneti_mmapLimit_bcast_rounds topo pshm
                  (List.range' a (topo.gasneti_nodemap_local_rank - a)) s maxsz sz_exchg).1.1 with
            | none => none
            | some (.fatal e s1) => some (.fatal e s1)
            | some (.fault s1) => some (.fault s1)
            | some (.ok se1 s1) =>
              some (.ok
                (se1,
                  (gasneti_mmapLimit_bcast_rounds topo pshm
                    (List.range' topo.gasneti_nodemap_local_rank
                      (a + n - topo.gasneti_nodemap_local_rank)) s1 se1.size
                    (gasneti_mmapLimit_bcast_rounds topo pshm
                      (List.range' a (topo.gasneti_nodemap_local_rank - a)) s maxsz
                      sz_exchg).1.2).1)
                (gasneti_mmapLimit_bcast_rounds topo pshm
                  (List.range' topo.gasneti_nodemap_local_rank
                    (a + n - topo.gasneti_nodemap_local_rank)) s1 se1.size
                  (gasneti_mmapLimit_bcast_rounds topo pshm
                    (List.range' a (topo.gasneti_nodemap_local_rank - a)) s maxsz
                    sz_exchg).1.2).2)
          else
            some (.ok
              (se, (gasneti_mmapLimit_bcast_rounds topo pshm (List.range' a n) s maxsz
                sz_exchg).1)
              (gasneti_mmapLimit_bcast_rounds topo pshm (List.range' a n) s maxsz sz_exchg).2) := by
  intro n
  induction n with
  | zero =>
    intro a s se maxsz sz_exchg ha
    rw [if_neg (by omega)]
    rfl
  | succ n ih =>
    intro a s se maxsz sz_exchg ha
    by_cases hr : a = topo.gasneti_nodemap_local_rank
    · rw [if_pos (by omega)]
      have e0 : topo.gasneti_nodemap_local_rank - a = 0 := by omega
      have e1 : a + (n + 1) - topo.gasneti_nodemap_local_rank = n + 1 := by omega
      rw [e0, e1, List.range'_succ, gasneti_mmapLimit_pshm_rounds]
      simp only [if_pos hr]
      show _ = match _gasneti_mmap_segment_search_inner cfg ops fuel s maxsz with
        | none => none
        | some (.fatal e s1) => some (.fatal e s1)
        | some (.fault s1) => some (.fault s1)
        | some (.ok se1 s1) =>
          some (.ok
            (se1, (gasneti_mmapLimit_bcast_rounds topo pshm
              (List.range' topo.gasneti_nodemap_local_rank (n + 1)) s1 se1.size sz_exchg).1)
            (gasneti_mmapLimit_bcast_rounds topo pshm
              (List.range' topo.gasneti_nodemap_local_rank (n + 1)) s1 se1.size sz_exchg).2)
      generalize _gasneti_mmap_segment_search_inner cfg ops fuel s maxsz = r
      rcases r with _ | r
      · rfl
      · cases r with
        | fatal e s1 => rfl
        | fault s1 => rfl
        | ok se1 s1 =>
          dsimp only
          rw [mmapLimit_bcast_noprobe cfg topo ops pshm fuel _ _ _ _ _
            (by rw [List.mem_range']; rintro ⟨i, -, hi⟩; omega), List.range'_succ, hr]
          rfl
    · rw [List.range'_succ, gasneti_mmapLimit_pshm_rounds]
      simp only [if_neg hr]
      rw [ih (a + 1) _ se _ _ (by omega)]
      have e1 : a + 1 + n = a + (n + 1) := by omega
      have e0 : List.range' a (topo.gasneti_nodemap_local_rank - a)
          = a :: List.range' (a + 1) (topo.gasneti_nodemap_local_rank - (a + 1)) := by
        have : topo.gasneti_nodemap_local_rank - a
            = (topo.gasneti_nodemap_local_rank - (a + 1)) + 1 := by omega
        rw [this, List.range'_succ]
      rw [e1]
      by_cases hlt : topo.gasneti_nodemap_local_rank < a + (n + 1)
      · rw [if_pos hlt, if_pos hlt, e0]
        rfl
      · rw [if_neg hlt, if_neg hlt]
        rfl

theorem mmapLimit_widest_fold :
    ∀ (l : List Nat) (tmp : Nat → Nat) (r : Nat), (∀ h, tmp h ≤ r) →
      (∀ h, (l.foldl (fun (acc : (Nat → Nat) × Nat) host =>
          (Function.update acc.1 host (acc.1 host + 1), max acc.2 (acc.1 host + 1)))
          (tmp, r)).1 h = tmp h + l.count h) ∧
      (∀ h, (l.foldl (fun (acc : (Nat → Nat) × Nat) host =>
          (Function.update acc.1 host (acc.1 host + 1), max acc.2 (acc.1 host + 1)))
          (tmp, r)).1 h
        ≤ (l.foldl (fun (acc : (Nat → Nat) × Nat) host =>
          (Function.update acc.1 host (acc.1 host + 1), max acc.2 (acc.1 host + 1)))
          (tmp, r)).2) ∧
      ((l.foldl (fun (acc : (Nat → Nat) × Nat) host =>
          (Function.update acc.1 host (acc.1 host + 1), max acc.2 (acc.1 host + 1)))
          (tmp, r)).2 = r ∨
        ∃ h, (l.foldl (fun (acc : (Nat → Nat) × Nat) host =>
          (Function.update acc.1 host (acc.1 host + 1), max acc.2 (acc.1 host + 1)))
          (tmp, r)).1 h
          = (l.foldl (fun (acc : (Nat → Nat) × Nat) host =>
          (Function.update acc.1 host (acc.1 host + 1), max acc.2 (acc.1 host + 1)))
          (tmp, r)).2) := by
  intro l
  induction l with
  | nil =>
    intro tmp r h
    exact ⟨fun _ => by simp, h, Or.inl rfl⟩
  | cons i rest ih =>
    intro tmp r h
    rw [List.foldl_cons]
    have h1 : ∀ x, Function.update tmp i (tmp i + 1) x ≤ max r (tmp i + 1) := by
      intro x
      by_cases hx : x = i
      · subst hx
        rw [Function.update_same]
        exact Nat.le_max_right _ _
      · rw [Function.update_noteq hx]
        exact Nat.le_trans (h x) (Nat.le_max_left _ _)
    obtain ⟨h2, h3, h4⟩ := ih (Function.update tmp i (tmp i + 1)) (max r (tmp i + 1)) h1
    dsimp only at h2 h3 h4 ⊢
    generalize List.foldl (fun (acc : (Nat → Nat) × Nat) host =>
      (Function.update acc.1 host (acc.1 host + 1), max acc.2 (acc.1 host + 1)))
      (Function.update tmp i (tmp i + 1), max r (tmp i + 1)) rest = res at h2 h3 h4 ⊢
    refine ⟨?_, h3, ?_⟩
    · intro x
      rw [h2 x, List.count_cons]
      by_cases hx : x = i
      · subst hx
        rw [Function.update_same]
        simp
        omega
      · rw [Function.update_noteq hx]
        have : (i == x) = false := by
          simp only [beq_eq_false_iff_ne, ne_eq]
          exact fun e => hx e.symm
        rw [this]
        simp
    · rcases h4 with h4 | h4
      · by_cases hle : tmp i + 1 ≤ r
        · left
          rw [h4]
          exact Nat.max_eq_left hle
        · right
          refine ⟨i, ?_⟩
          have h5 := h2 i
          have h6 := h3 i
          rw [Function.update_same] at h5
          have h7 : max r (tmp i + 1) = tmp i + 1 := Nat.max_eq_right (by omega)
          omega
      · exact Or.inr h4

/-- C15 (corrected). The probing phase of `gasneti_mmapLimit` follows the serial
schedule `gasneti_mmapLimit_probe_serial`: for a candidate of 0 no round is run; in a PSHM
build with host equal to supernode there are `gasneti_nodemap_local_count` rounds, the
process probes once, in the round equal to `gasneti_nodemap_local_rank`, and every round
ends with a broadcast rooted at the round's local rank; otherwise the number of rounds is
the largest number of processes on any host, the process probes once, in the round equal
to `gasneti_myhost.node_rank`, and every round ends with a barrier. -/
theorem C15_serialized_probe {σ : Type} (cfg : Config) (topo : Topo) (ops : MapOps σ)
    (pshm : PshmOps σ) (barrierfn : σ → σ) (fuel : Nat) (s : σ) (maxsz : Nat)
    (sz_exchg : List Nat) :
    gasneti_mmapLimit_probe cfg topo ops pshm barrierfn fuel s maxsz sz_exchg
      = gasneti_mmapLimit_probe_serial cfg topo ops pshm barrierfn fuel s maxsz sz_exchg ∧
    (∀ h, (topo.nodeinfo_host.take topo.gasneti_nodes).count h
      ≤ gasneti_mmapLimit_widest topo) ∧
    (topo.nodeinfo_host.take topo.gasneti_nodes ≠ [] →
      ∃ h, (topo.nodeinfo_host.take topo.gasneti_nodes).count h
        = gasneti_mmapLimit_widest topo) := by
  obtain ⟨w1, w2, w3⟩ := mmapLimit_widest_fold (topo.nodeinfo_host.take topo.gasneti_nodes)
    (fun _ => 0) 0 (fun _ => Nat.le_refl _)
  refine ⟨?_, ?_, ?_⟩
  · unfold gasneti_mmapLimit_probe gasneti_mmapLimit_probe_serial
    by_cases h0 : maxsz = 0
    · rw [if_pos h0, if_neg (fun h => h.2.1 h0), if_neg (not_not.mpr h0)]
    · rw [if_neg h0]
      by_cases hp : cfg.GASNET_PSHM = true ∧
          topo.myhost_grp_count = topo.mysupernode_grp_count
      · rw [if_pos ⟨hp.1, h0, hp.2⟩, if_pos hp, List.range_eq_range',
          mmapLimit_pshm_rounds_range cfg topo ops pshm fuel _ 0 _ _ _ _ (Nat.zero_le _)]
        unfold gasneti_mmapLimit_pshm_rounds_serial
        simp only [Nat.zero_add, Nat.sub_zero]
      · rw [if_neg (fun h => hp ⟨h.1, h.2.2⟩), if_pos h0, if_neg hp, List.range_eq_range',
          mmapLimit_rounds_range cfg topo ops barrierfn fuel maxsz _ 0 _ _ (Nat.zero_le _)]
        unfold gasneti_mmapLimit_rounds_serial
        simp only [Nat.zero_add, Nat.sub_zero]
  · intro h
    have h1 := w1 h
    have h2 := w2 h
    rw [h1, Nat.zero_add] at h2
    exact h2
  · intro hne
    rcases w3 with h3 | ⟨h, h3⟩
    · obtain ⟨x, hx⟩ := List.exists_mem_of_ne_nil _ hne
      have h1 := w1 x
      have h2 := w2 x
      have hc : 0 < (topo.nodeinfo_host.take topo.gasneti_nodes).count x :=
        List.count_pos_iff.2 hx
      rw [h1, h3] at h2
      omega
    · refine ⟨h, ?_⟩
      rw [w1 h, Nat.zero_add] at h3
      exact h3

/-- Counterexample to C15 as stated.  In a PSHM build, a process alone on its host in a
job whose widest host holds two processes runs one round, not two: only its own entry of
`sz_exchg` is written.  And for a candidate size of 0 no round is run at all: the state is
unchanged although the barrier would change it, and no probe is made. -/
theorem C15_counterexample :
    retValue (gasneti_mmapLimit_probe cfgPshm topoLoneOfThree
        (gasneti_ops cfgPshm (oracleOS cfgPshm 15000000 65536))
        (soloPshm cfgPshm (oracleOS cfgPshm 15000000 65536)) id 4097 worldLone 409600
        [7, 7, 7])
      = some (⟨65536, 409600⟩, 409600, [7, 7, 409600]) ∧
    gasneti_mmapLimit_widest topoLoneOfThree = 2 ∧
    gasneti_mmapLimit_probe cfgMmap topoOneHost
        (gasneti_ops cfgMmap (oracleOS cfgMmap 15000000 65536))
        (soloPshm cfgMmap (oracleOS cfgMmap 15000000 65536))
        (fun w => { w with errno := 99 }) 4097 (World.init () 1 0) 0 [7, 7]
      = some (Res.ok (⟨0, 0⟩, 0, [7, 7]) (World.init () 1 0)) ∧
    gasneti_mmapLimit_widest topoOneHost = 2 :=
  ⟨by decide, by decide, rfl, by decide⟩

/-! ## Live mappings across the probes -/

theorem liveOf_nil : liveOf [] = 0 := rfl

theorem liveOf_append (l1 l2 : List gasnet_seginfo_t) :
    liveOf (l1 ++ l2) = liveOf l1 + liveOf l2 := by
  unfold liveOf
  rw [List.filter_append, List.map_append]
  rfl

theorem liveOf_cons (e : gasnet_seginfo_t) (l : List gasnet_seginfo_t) :
    liveOf (e :: l) = liveOf [e] + liveOf l :=
  liveOf_append [e] l

theorem liveOf_single_pos (e : gasnet_seginfo_t) (h : e.size ≠ 0) :
    liveOf [e] = (e.addr, e.size) ::ₘ 0 := by
  unfold liveOf
  rw [List.filter_cons_of_pos (by simpa using h)]
  rfl

theorem liveOf_single_zero (e : gasnet_seginfo_t) (h : e.size = 0) : liveOf [e] = 0 := by
  unfold liveOf
  rw [List.filter_cons_of_neg (by simpa using h)]
  rfl

theorem liveOf_zero : ∀ (l : List gasnet_seginfo_t), (∀ e ∈ l, e.size = 0) → liveOf l = 0 := by
  intro l
  induction l with
  | nil => intro _; rfl
  | cons e l ih =>
    intro h
    rw [liveOf_cons, liveOf_single_zero e (h e (List.mem_cons_self _ _)),
      ih (fun x hx => h x (List.mem_cons_of_mem _ hx))]
    rfl

theorem binary_segsrch_live {σ : Type} (cfg : Config) (ops : MapOps σ)
    (live : σ → Multiset (Nat × Nat)) (hlive : LiveModel cfg ops live) :
    ∀ (fuel : Nat) (s : σ) (lo hi : Nat) (si : gasnet_seginfo_t) (s1 : σ),
      gasneti_mmap_binary_segsrch cfg ops fuel s lo hi = some (Res.ok si s1) →
      live s1 = live s ∧
      (si = ⟨NULL, 0⟩ ∨
        (si.addr ≠ NULL ∧ cfg.GASNET_PAGESIZE ∣ si.addr ∧ si.addr < wordMod cfg ∧
          si.size ≠ 0 ∧ cfg.GASNET_PAGESIZE ∣ si.size ∧ si.size < wordMod cfg)) := by
  have hM : 0 < wordMod cfg := Nat.pow_pos (by decide)
  intro fuel
  induction fuel with
  | zero =>
    intro s lo hi si s1 h
    simp [gasneti_mmap_binary_segsrch] at h
  | succ n ih =>
    intro s lo hi si s1 h
    rw [gasneti_mmap_binary_segsrch] at h
    by_cases hg : usub cfg hi lo ≤ cfg.GASNETI_MMAP_GRANULARITY
    · rw [if_pos hg] at h
      simp only [Option.some.injEq, Res.ok.injEq] at h
      exact ⟨by rw [h.2], Or.inl h.1.symm⟩
    · rw [if_neg hg] at h
      dsimp only at h
      have hsz1 : cfg.GASNET_PAGESIZE ∣
          gasneti_mmap_aligndown cfg (uadd cfg lo (usub cfg hi lo / 2)) :=
        aligndown_dvd cfg _
      have hsz2 : gasneti_mmap_aligndown cfg (uadd cfg lo (usub cfg hi lo / 2))
          < wordMod cfg := by
        have h1 := aligndown_le cfg (uadd cfg lo (usub cfg hi lo / 2))
        have h2 : uadd cfg lo (usub cfg hi lo / 2) < wordMod cfg := Nat.mod_lt _ hM
        unfold gasneti_mmap_aligndown
        omega
      generalize gasneti_mmap_aligndown cfg (uadd cfg lo (usub cfg hi lo / 2)) = size
        at h hsz1 hsz2
      cases hm : ops.gasneti_do_mmap s size with
      | fatal e s2 => rw [hm] at h; simp at h
      | fault s2 => rw [hm] at h; simp at h
      | ok addr s2 =>
        rw [hm] at h
        dsimp only at h
        rcases hlive.1 _ _ _ _ hm with ⟨ha, hl⟩ | ⟨ha, hn, hd, hw, hnz, hl⟩
        · rw [if_pos ha] at h
          obtain ⟨h1, h2⟩ := ih _ _ _ _ _ h
          exact ⟨by rw [h1, hl], h2⟩
        · rw [if_neg ha] at h
          cases hu : ops.gasneti_do_munmap s2 addr size with
          | fatal e s3 => rw [hu] at h; simp at h
          | fault s3 => rw [hu] at h; simp at h
          | ok u s3 =>
            rw [hu] at h
            dsimp only at h
            have hl3 : live s3 = live s := by
              rw [hlive.2.2 _ _ _ _ _ hu, hl, Multiset.erase_cons_head]
            cases hrec : gasneti_mmap_binary_segsrch cfg ops n s3 size hi with
            | none => rw [hrec] at h; simp at h
            | some r =>
              rw [hrec] at h
              cases r with
              | fatal e s4 => simp at h
              | fault s4 => simp at h
              | ok si_temp s4 =>
                dsimp only at h
                obtain ⟨h1, h2⟩ := ih _ _ _ _ _ hrec
                by_cases hst : si_temp.size ≠ 0
                · rw [if_pos hst] at h
                  simp only [Option.some.injEq, Res.ok.injEq] at h
                  obtain ⟨h3, h4⟩ := h
                  subst h3; subst h4
                  refine ⟨by rw [h1, hl3], ?_⟩
                  rcases h2 with h2 | h2
                  · rw [h2] at hst
                    exact absurd rfl hst
                  · exact Or.inr h2
                · rw [if_neg hst] at h
                  simp only [Option.some.injEq, Res.ok.injEq] at h
                  obtain ⟨h3, h4⟩ := h
                  subst h3; subst h4
                  refine ⟨by rw [h1, hl3], Or.inr ⟨hn, hd, hw, hnz, ?_, hsz2⟩⟩
                  exact hsz1

theorem trim_live {σ : Type} (cfg : Config) (ops : MapOps σ)
    (live : σ → Multiset (Nat × Nat)) (hP : 0 < cfg.GASNET_PAGESIZE)
    (hPW : cfg.GASNET_PAGESIZE ∣ wordMod cfg) (hlive : LiveModel cfg ops live)
    (s : σ) (si : gasnet_seginfo_t) (mmaped : Bool) (se : gasnet_seginfo_t) (s1 : σ)
    (hsi : si.addr = NULL ∨ (si.addr ≠ NULL ∧ cfg.GASNET_PAGESIZE ∣ si.addr ∧
      si.addr < wordMod cfg ∧
      (mmaped = false → cfg.GASNET_PAGESIZE ∣ si.size ∧ si.size < wordMod cfg)))
    (h : gasneti_mmap_segment_search_trim cfg ops s si mmaped = Res.ok se s1) :
    (si.addr = NULL ∧ se.size = 0 ∧ s1 = s) ∨
    (si.addr ≠ NULL ∧ se = si ∧
      ((mmaped = true ∧ s1 = s) ∨
        (mmaped = false ∧ live s1 = (si.addr, si.size) ::ₘ live s))) := by
  unfold gasneti_mmap_segment_search_trim at h
  by_cases h0 : si.addr = NULL
  · rw [if_pos h0] at h
    simp only [Res.ok.injEq] at h
    exact Or.inl ⟨h0, by rw [← h.1], h.2.symm⟩
  · rw [if_neg h0] at h
    rcases hsi with hn | ⟨-, hd, hw, hsz⟩
    · exact absurd hn h0
    · have hmod : si.addr % cfg.GASNET_PAGESIZE = 0 := by
        obtain ⟨k, hk⟩ := hd
        rw [hk]
        exact Nat.mul_mod_right _ _
      cases mmaped with
      | true =>
        rw [if_pos ⟨rfl, hmod⟩] at h
        simp only [Res.ok.injEq] at h
        exact Or.inr ⟨h0, h.1.symm, Or.inl ⟨rfl, h.2.symm⟩⟩
      | false =>
        obtain ⟨hsd, hsw⟩ := hsz rfl
        rw [if_neg (by simp)] at h
        obtain ⟨hup, hsub⟩ := trim_aligned cfg hP hPW hd hw hsd hsw
        rw [hup] at hsub
        simp only [hup, hsub, Bool.false_eq_true, if_false] at h
        cases hf : ops.gasneti_do_mmap_fixed s si.addr si.size with
        | fatal e s2 => rw [hf] at h; cases h
        | fault s2 => rw [hf] at h; cases h
        | ok p s2 =>
          rw [hf] at h
          simp only [Res.ok.injEq] at h
          obtain ⟨h1, h2⟩ := h
          subst h2
          exact Or.inr ⟨h0, h1.symm, Or.inr ⟨rfl, hlive.2.1 _ _ _ _ _ hf⟩⟩

theorem search_inner_live {σ : Type} (cfg : Config) (ops : MapOps σ)
    (live : σ → Multiset (Nat × Nat)) (hP : 0 < cfg.GASNET_PAGESIZE)
    (hPW : cfg.GASNET_PAGESIZE ∣ wordMod cfg) (hlive : LiveModel cfg ops live)
    (fuel : Nat) (s : σ) (maxsz : Nat) (se : gasnet_seginfo_t) (s1 : σ)
    (h : _gasneti_mmap_segment_search_inner cfg ops fuel s maxsz = some (Res.ok se s1)) :
    live s1 = liveOf [se] + live s := by
  unfold _gasneti_mmap_segment_search_inner at h
  cases hm : ops.gasneti_do_mmap s maxsz with
  | fatal e s2 => rw [hm] at h; simp at h
  | fault s2 => rw [hm] at h; simp at h
  | ok addr s2 =>
    rw [hm] at h
    dsimp only at h
    rcases hlive.1 _ _ _ _ hm with ⟨ha, hl⟩ | ⟨ha, hn, hd, hw, hnz, hl⟩
    · rw [if_neg (not_not.mpr ha)] at h
      cases hb : gasneti_mmap_binary_segsrch cfg ops fuel s2 0 maxsz with
      | none => rw [hb] at h; simp at h
      | some r =>
        rw [hb] at h
        cases r with
        | fatal e s3 => simp at h
        | fault s3 => simp at h
        | ok si s3 =>
          dsimp only at h
          obtain ⟨hl3, hsi⟩ := binary_segsrch_live cfg ops live hlive _ _ _ _ _ _ hb
          have hcond : si.addr = NULL ∨ (si.addr ≠ NULL ∧ cfg.GASNET_PAGESIZE ∣ si.addr ∧
              si.addr < wordMod cfg ∧
              (false = false → cfg.GASNET_PAGESIZE ∣ si.size ∧ si.size < wordMod cfg)) := by
            rcases hsi with h0 | ⟨h1, h2, h3, -, h5, h6⟩
            · exact Or.inl (by rw [h0])
            · exact Or.inr ⟨h1, h2, h3, fun _ => ⟨h5, h6⟩⟩
          rcases trim_live cfg ops live hP hPW hlive s3 si false se s1 hcond
            (Option.some.inj h) with ⟨-, hz, hs⟩ | ⟨hnn, hse, hc⟩
          · rw [hs, hl3, hl, liveOf_single_zero se hz, zero_add]
          · rcases hc with ⟨hc, -⟩ | ⟨-, hc⟩
            · cases hc
            · rcases hsi with h0 | ⟨-, -, -, h4, -⟩
              · rw [h0] at hnn
                exact absurd rfl hnn
              · rw [hse, liveOf_single_pos si h4, hc, hl3, hl, Multiset.cons_add, zero_add]
    · rw [if_pos ha] at h
      rcases trim_live cfg ops live hP hPW hlive s2 ⟨addr, maxsz⟩ true se s1
        (Or.inr ⟨hn, hd, hw, fun hh => by cases hh⟩) (Option.some.inj h)
        with ⟨h0, -⟩ | ⟨-, hse, hc⟩
      · exact absurd h0 hn
      · rcases hc with ⟨-, hc⟩ | ⟨hc, -⟩
        · rw [hse, liveOf_single_pos _ (show (⟨addr, maxsz⟩ : gasnet_seginfo_t).size ≠ 0 from hnz),
            hc, hl, Multiset.cons_add, zero_add]
        · cases hc

theorem mmapLimit_shrink_probe_live {σ : Type} (cfg : Config) (topo : Topo) (ops : MapOps σ)
    (pshm : PshmOps σ) (live : σ → Multiset (Nat × Nat)) (hP : 0 < cfg.GASNET_PAGESIZE)
    (hPW : cfg.GASNET_PAGESIZE ∣ wordMod cfg) (hlive : LiveModel cfg ops live)
    (hq : QuietPshm pshm live) (fuel maxsz : Nat) :
    ∀ (rest acc : List gasnet_seginfo_t) (s : σ) (sum : Nat) (done : Bool)
      (tmp : List gasnet_seginfo_t) (sum1 : Nat) (done1 : Bool) (s1 : σ),
      (∀ e ∈ rest, e.size = 0) → sum < 2 ^ 64 →
      gasneti_mmapLimit_shrink_probe cfg topo ops pshm fuel maxsz acc rest s sum done
        = some (Res.ok (tmp, sum1, done1) s1) →
      ∃ new, tmp = acc ++ new ∧ new.length = rest.length ∧
        live s1 = liveOf new + live s ∧
        (done1 = true → done = true ∧ (∀ e ∈ new, e.size = maxsz) ∧
          sum1 = (sum + rest.length * maxsz) % 2 ^ 64) := by
  intro rest
  induction rest with
  | nil =>
    intro acc s sum done tmp sum1 done1 s1 _ hs h
    simp only [gasneti_mmapLimit_shrink_probe, Option.some.injEq, Res.ok.injEq,
      Prod.mk.injEq] at h
    obtain ⟨⟨h1, h2, h3⟩, h4⟩ := h
    subst h1; subst h2; subst h3; subst h4
    refine ⟨[], by simp, rfl, by rw [liveOf_nil, zero_add], ?_⟩
    intro hd
    refine ⟨hd, by simp, ?_⟩
    rw [List.length_nil, Nat.zero_mul, Nat.add_zero, Nat.mod_eq_of_lt hs]
  | cons old rest ih =>
    intro acc s sum done tmp sum1 done1 s1 hz hs h
    have hz1 : ∀ e ∈ rest, e.size = 0 := fun e he => hz e (List.mem_cons_of_mem _ he)
    have hlt : (sum + 0) % 2 ^ 64 < 2 ^ 64 := Nat.mod_lt _ (by decide)
    rw [gasneti_mmapLimit_shrink_probe] at h
    cases hi : _gasneti_mmap_segment_search_inner cfg ops fuel s maxsz with
    | none => rw [hi] at h; simp at h
    | some r =>
      rw [hi] at h
      cases r with
      | fatal e s2 => simp at h
      | fault s2 => simp at h
      | ok se s2 =>
        dsimp only at h
        have hl2 := search_inner_live cfg ops live hP hPW hlive fuel s maxsz se s2 hi
        cases hu : pshm.gasneti_pshm_unlink s2 topo.gasneti_pshm_mynode with
        | fatal e s3 => rw [hu] at h; simp at h
        | fault s3 => rw [hu] at h; simp at h
        | ok u s3 =>
          rw [hu] at h
          dsimp only at h
          have hl3 : live s3 = liveOf [se] + live s := by
            rw [hq.1 _ _ _ _ hu, hl2]
          have hsum : (sum + se.size) % 2 ^ 64 < 2 ^ 64 := Nat.mod_lt _ (by decide)
          by_cases hne : se.size ≠ maxsz
          · rw [if_pos hne] at h
            by_cases hg : se.size < cfg.GASNETI_MMAP_GRANULARITY
            · rw [if_pos hg] at h
              simp only [Option.some.injEq, Res.ok.injEq, Prod.mk.injEq] at h
              obtain ⟨⟨h1, h2, h3⟩, h4⟩ := h
              subst h1; subst h2; subst h3; subst h4
              refine ⟨se :: rest, rfl, by simp, ?_, fun hd => by cases hd⟩
              rw [liveOf_cons se rest, liveOf_zero rest hz1, add_zero, hl3]
            · rw [if_neg hg] at h
              obtain ⟨new, h1, h2, h3, h4⟩ := ih _ _ _ _ _ _ _ _ hz1 hsum h
              refine ⟨se :: new, by rw [h1]; simp, by simp [h2], ?_, ?_⟩
              · rw [h3, hl3, liveOf_cons se new]
                abel
              · intro hd
                have := (h4 hd).1
                cases this
          · rw [if_neg hne] at h
            have heq : se.size = maxsz := not_not.mp hne
            obtain ⟨new, h1, h2, h3, h4⟩ := ih _ _ _ _ _ _ _ _ hz1 hsum h
            refine ⟨se :: new, by rw [h1]; simp, by simp [h2], ?_, ?_⟩
            · rw [h3, hl3, liveOf_cons se new]
              abel
            · intro hd
              obtain ⟨h5, h6, h7⟩ := h4 hd
              refine ⟨h5, ?_, ?_⟩
              · intro e he
                rcases List.mem_cons.1 he with he | he
                · rw [he]
                  exact heq
                · exact h6 e he
              · rw [h7, Nat.mod_add_mod, heq, List.length_cons, Nat.succ_mul]
                congr 1
                omega

theorem mmapLimit_shrink_unmap_live {σ : Type} (cfg : Config) (ops : MapOps σ)
    (live : σ → Multiset (Nat × Nat)) (hlive : LiveModel cfg ops live) :
    ∀ (rest acc : List gasnet_seginfo_t) (s : σ) (tmp : List gasnet_seginfo_t) (s1 : σ)
      (X : Multiset (Nat × Nat)),
      live s = liveOf rest + X →
      gasneti_mmapLimit_shrink_unmap ops acc rest s = Res.ok tmp s1 →
      live s1 = X ∧ ∃ z, tmp = acc ++ z ∧ z.length = rest.length ∧ ∀ e ∈ z, e.size = 0 := by
  intro rest
  induction rest with
  | nil =>
    intro acc s tmp s1 X hl h
    simp only [gasneti_mmapLimit_shrink_unmap, Res.ok.injEq] at h
    obtain ⟨h1, h2⟩ := h
    subst h1; subst h2
    rw [liveOf_nil, zero_add] at hl
    exact ⟨hl, [], by simp, rfl, by simp⟩
  | cons e rest ih =>
    intro acc s tmp s1 X hl h
    rw [gasneti_mmapLimit_shrink_unmap] at h
    have fin : ∀ s2, live s2 = liveOf rest + X →
        gasneti_mmapLimit_shrink_unmap ops (acc ++ [⟨e.addr, 0⟩]) rest s2 = Res.ok tmp s1 →
        live s1 = X ∧ ∃ z, tmp = acc ++ z ∧ z.length = (e :: rest).length ∧
          ∀ x ∈ z, x.size = 0 := by
      intro s2 hl2 h2
      obtain ⟨h3, z, h4, h5, h6⟩ := ih _ _ _ _ X hl2 h2
      refine ⟨h3, ⟨e.addr, 0⟩ :: z, by rw [h4]; simp, by simp [h5], ?_⟩
      intro x hx
      rcases List.mem_cons.1 hx with hx | hx
      · rw [hx]
      · exact h6 x hx
    by_cases hz : e.size ≠ 0
    · rw [if_pos hz] at h
      cases hu : ops.gasneti_do_munmap s e.addr e.size with
      | fatal err s2 => rw [hu] at h; cases h
      | fault s2 => rw [hu] at h; cases h
      | ok u s2 =>
        rw [hu] at h
        dsimp only at h
        refine fin s2 ?_ h
        rw [hlive.2.2 _ _ _ _ _ hu, hl, liveOf_cons e rest, liveOf_single_pos e hz,
          Multiset.cons_add, zero_add, Multiset.cons_add, Multiset.erase_cons_head]
    · rw [if_neg hz] at h
      dsimp only at h
      refine fin s ?_ h
      rw [hl, liveOf_cons e rest, liveOf_single_zero e (not_not.mp hz), zero_add]

theorem mmapLimit_shrink_live {σ : Type} (cfg : Config) (topo : Topo) (ops : MapOps σ)
    (pshm : PshmOps σ) (live : σ → Multiset (Nat × Nat)) (hP : 0 < cfg.GASNET_PAGESIZE)
    (hPW : cfg.GASNET_PAGESIZE ∣ wordMod cfg) (hlive : LiveModel cfg ops live)
    (hq : QuietPshm pshm live) (fuel : Nat) :
    ∀ (passes : Nat) (s : σ) (tmp_se : List gasnet_seginfo_t) (maxsz v : Nat) (s1 : σ),
      (∀ e ∈ tmp_se, e.size = 0) →
      gasneti_mmapLimit_shrink cfg topo ops pshm fuel passes s tmp_se maxsz
        = some (Res.ok v s1) →
      live s1 = live s := by
  intro passes
  induction passes with
  | zero =>
    intro s tmp_se maxsz v s1 _ h
    simp [gasneti_mmapLimit_shrink] at h
  | succ n ih =>
    intro s tmp_se maxsz v s1 hz h
    rw [gasneti_mmapLimit_shrink] at h
    cases hp : gasneti_mmapLimit_shrink_probe cfg topo ops pshm fuel maxsz [] tmp_se s 0 true with
    | none => rw [hp] at h; simp at h
    | some r =>
      rw [hp] at h
      cases r with
      | fatal e s2 => simp at h
      | fault s2 => simp at h
      | ok res s2 =>
        obtain ⟨tmp1, sum, done⟩ := res
        dsimp only at h
        obtain ⟨new, h1, -, h3, -⟩ := mmapLimit_shrink_probe_live cfg topo ops pshm live hP hPW
          hlive hq fuel maxsz tmp_se [] s 0 true tmp1 sum done s2 hz (by decide) hp
        rw [List.nil_append] at h1
        subst h1
        cases hu : gasneti_mmapLimit_shrink_unmap ops [] tmp1 s2 with
        | fatal e s3 => rw [hu] at h; simp at h
        | fault s3 => rw [hu] at h; simp at h
        | ok tmp2 s3 =>
          rw [hu] at h
          dsimp only at h
          obtain ⟨h4, z, h5, -, h6⟩ := mmapLimit_shrink_unmap_live cfg ops live hlive tmp1 []
            s2 tmp2 s3 (live s) h3 hu
          rw [List.nil_append] at h5
          subst h5
          split_ifs at h with hn0 hd
          · cases h
          · simp only [Option.some.injEq, Res.ok.injEq] at h
            rw [← h.2, h4]
          · rw [ih _ _ _ _ _ h6 h, h4]

theorem liveModel_aligned {σ : Type} (cfg : Config) (ops : MapOps σ)
    (live : σ → Multiset (Nat × Nat)) (hP : 0 < cfg.GASNET_PAGESIZE)
    (hPW : cfg.GASNET_PAGESIZE ∣ wordMod cfg)
    (hG : cfg.GASNET_PAGESIZE ≤ cfg.GASNETI_MMAP_GRANULARITY)
    (hlive : LiveModel cfg ops live) : AlignedMaps cfg ops := by
  refine ⟨hP, hPW, hG, ?_⟩
  intro s sz a s1 h
  have hM : 0 < wordMod cfg := Nat.pow_pos (by decide)
  rcases hlive.1 _ _ _ _ h with ⟨ha, -⟩ | ⟨-, -, hd, hw, -⟩
  · refine ⟨?_, Or.inl ha⟩
    rw [ha]
    unfold MAP_FAILED
    omega
  · exact ⟨hw, Or.inr hd⟩

theorem mmapLimit_shrink_exit {σ : Type} (cfg : Config) (topo : Topo) (ops : MapOps σ)
    (pshm : PshmOps σ) (live : σ → Multiset (Nat × Nat)) (hP : 0 < cfg.GASNET_PAGESIZE)
    (hPW : cfg.GASNET_PAGESIZE ∣ wordMod cfg)
    (hG : cfg.GASNET_PAGESIZE ≤ cfg.GASNETI_MMAP_GRANULARITY)
    (hlive : LiveModel cfg ops live) (hq : QuietPshm pshm live) (fuel : Nat) :
    ∀ (passes : Nat) (s : σ) (tmp_se : List gasnet_seginfo_t) (maxsz v : Nat) (s1 : σ),
      (∀ e ∈ tmp_se, e.size = 0) → tmp_se.length = topo.gasneti_pshm_nodes →
      cfg.GASNET_PAGESIZE ∣ maxsz → maxsz < wordMod cfg →
      topo.gasneti_pshm_nodes * maxsz < 2 ^ 64 → maxsz < fuel * cfg.GASNET_PAGESIZE →
      gasneti_mmapLimit_shrink cfg topo ops pshm fuel passes s tmp_se maxsz
        = some (Res.ok v s1) →
      ∃ c s_a tmp0 tmp1 sum s_mid,
        gasneti_mmapLimit_shrink_probe cfg topo ops pshm fuel c [] tmp0 s_a 0 true
          = some (Res.ok (tmp1, sum, true) s_mid) ∧
        gasneti_mmapLimit_shrink cfg topo ops pshm fuel 1 s_a tmp0 c = some (Res.ok v s1) ∧
        live s_a = live s ∧ tmp1.length = topo.gasneti_pshm_nodes ∧
        (∀ e ∈ tmp1, e.size = c) ∧ live s_mid = liveOf tmp1 + live s ∧ v = c ∧
        live s1 = live s := by
  have hops := liveModel_aligned cfg ops live hP hPW hG hlive
  intro passes
  induction passes with
  | zero =>
    intro s tmp_se maxsz v s1 _ _ _ _ _ _ h
    simp [gasneti_mmapLimit_shrink] at h
  | succ n ih =>
    intro s tmp_se maxsz v s1 hz hlen hmax hW hov hfuel h
    rw [gasneti_mmapLimit_shrink] at h
    cases hp : gasneti_mmapLimit_shrink_probe cfg topo ops pshm fuel maxsz [] tmp_se s 0 true with
    | none => rw [hp] at h; simp at h
    | some r =>
      rw [hp] at h
      cases r with
      | fatal e s2 => simp at h
      | fault s2 => simp at h
      | ok res s2 =>
        obtain ⟨tmp1, sum, done⟩ := res
        dsimp only at h
        obtain ⟨new, h1, h2, h3, h4⟩ := mmapLimit_shrink_probe_live cfg topo ops pshm live hP
          hPW hlive hq fuel maxsz tmp_se [] s 0 true tmp1 sum done s2 hz (by decide) hp
        rw [List.nil_append] at h1
        subst h1
        obtain ⟨r, hr, hprop⟩ := mmapLimit_shrink_probe_any cfg topo ops pshm hops fuel maxsz
          hmax hW hfuel tmp_se [] s 0 true
        rw [hp] at hr
        obtain ⟨-, hsum, -⟩ := hprop tmp1 sum done s2 (Option.some.inj hr).symm
        rw [hlen, Nat.zero_add] at hsum
        cases hu : gasneti_mmapLimit_shrink_unmap ops [] tmp1 s2 with
        | fatal e s3 => rw [hu] at h; simp at h
        | fault s3 => rw [hu] at h; simp at h
        | ok tmp2 s3 =>
          rw [hu] at h
          dsimp only at h
          obtain ⟨h5, z, h6, h7, h8⟩ := mmapLimit_shrink_unmap_live cfg ops live hlive tmp1 []
            s2 tmp2 s3 (live s) h3 hu
          rw [List.nil_append] at h6
          subst h6
          by_cases hn0 : topo.gasneti_pshm_nodes = 0
          · rw [if_pos hn0] at h
            cases h
          · rw [if_neg hn0] at h
            by_cases hd : done = true
            · rw [if_pos hd] at h
              simp only [Option.some.injEq, Res.ok.injEq] at h
              obtain ⟨hv, hs1⟩ := h
              obtain ⟨-, h9, h10⟩ := h4 hd
              rw [hlen, Nat.zero_add, Nat.mod_eq_of_lt hov] at h10
              have hvc : v = maxsz := by
                rw [← hv, h10, Nat.mul_div_cancel_left _ (Nat.pos_of_ne_zero hn0),
                  Nat.mod_eq_of_lt hW]
                exact aligndown_of_dvd cfg hmax
              subst hd
              refine ⟨maxsz, s, tmp_se, tmp1, sum, s2, hp, ?_, rfl, by rw [h2, hlen], h9, h3,
                hvc, by rw [← hs1, h5]⟩
              rw [gasneti_mmapLimit_shrink, hp]
              dsimp only
              rw [hu]
              dsimp only
              rw [if_neg hn0, if_pos rfl, hv, hs1]
            · rw [if_neg hd] at h
              have hdiv : sum / topo.gasneti_pshm_nodes ≤ maxsz := Nat.div_le_of_le_mul hsum
              have hmodle : (sum / topo.gasneti_pshm_nodes) % wordMod cfg
                  ≤ sum / topo.gasneti_pshm_nodes := Nat.mod_le _ _
              have hal := aligndown_le cfg ((sum / topo.gasneti_pshm_nodes) % wordMod cfg)
              have hle : gasneti_mmap_aligndown cfg
                  ((sum / topo.gasneti_pshm_nodes) % wordMod cfg) ≤ maxsz := by
                unfold gasneti_mmap_aligndown
                omega
              obtain ⟨c, s_a, tmp0, tmp1a, suma, s_mid, k1, k2, k3, k4, k5, k6, k7, k8⟩ :=
                ih s3 tmp2 _ v s1 h8 (by rw [h7, h2, hlen]) (aligndown_dvd cfg _)
                  (Nat.lt_of_le_of_lt hle hW)
                  (Nat.lt_of_le_of_lt (Nat.mul_le_mul_left _ hle) hov)
                  (Nat.lt_of_le_of_lt hle hfuel) h
              exact ⟨c, s_a, tmp0, tmp1a, suma, s_mid, k1, k2, by rw [k3, h5], k4, k5,
                by rw [k6, h5], k7, by rw [k8, h5]⟩

theorem liveOps_model (cfg : Config) (K base : Nat) (hb : base ≠ 0)
    (hd : cfg.GASNET_PAGESIZE ∣ base) (hd2 : cfg.GASNET_PAGESIZE ∣ 4294967296)
    (hw : base + 4294967296 * 16 < wordMod cfg) :
    LiveModel cfg (liveOps cfg K base) (fun s => s) := by
  refine ⟨?_, ?_, ?_⟩
  · intro s sz a s1 h
    simp only [liveOps] at h
    split_ifs at h with hc
    · simp only [Res.ok.injEq] at h
      obtain ⟨h1, h2⟩ := h
      subst h1; subst h2
      refine Or.inr ⟨?_, ?_, Dvd.dvd.add hd (Dvd.dvd.mul_right hd2 _), ?_, hc.1, rfl⟩
      · unfold MAP_FAILED
        omega
      · unfold NULL
        omega
      · omega
    · simp only [Res.ok.injEq] at h
      exact Or.inl ⟨h.1.symm, by rw [h.2]⟩
  · intro s a sz p s1 h
    simp only [liveOps, Res.ok.injEq] at h
    exact h.2.symm
  · intro s a sz u s1 h
    simp only [liveOps, Res.ok.injEq] at h
    exact h.2.symm

theorem livePshm_quiet (base : Nat) : QuietPshm (livePshm base) (fun s => s) := by
  refine ⟨?_, ?_, ?_⟩
  · intro s r u s1 h
    simp only [livePshm, Res.ok.injEq] at h
    exact h.2.symm
  · intro s u s1 h
    simp only [livePshm, Res.ok.injEq] at h
    exact h.2.symm
  · intro s v root
    rfl

theorem liveOf_all_pos (l : List gasnet_seginfo_t) (h : ∀ e ∈ l, e.size ≠ 0) :
    liveOf l = ((l.map (fun e => (e.addr, e.size)) : List (Nat × Nat)) :
      Multiset (Nat × Nat)) := by
  unfold liveOf
  rw [List.filter_eq_self.2 (fun e he => by simpa using h e he)]

/-- C16 (confirmed). On a model of the live mappings, the `do`/`while` shrink loop run by
local rank 0 ends, and when it exits with `v` there is a last pass, started with the
candidate `c` in a state with the live mappings of the start: all of its
`gasneti_pshm_nodes` probes returned exactly `c`, after the last of them their regions are
live all at once on top of the mappings of the start, the loop run from that pass exits at
once with `v`, `v = c`, and the live mappings at exit are those of the start. -/
theorem C16_shrink_exit_all_fit {σ : Type} (cfg : Config) (topo : Topo) (ops : MapOps σ)
    (pshm : PshmOps σ) (live : σ → Multiset (Nat × Nat)) (fuel passes : Nat) (s : σ)
    (tmp_se : List gasnet_seginfo_t) (maxsz : Nat)
    (hP : 0 < cfg.GASNET_PAGESIZE) (hPW : cfg.GASNET_PAGESIZE ∣ wordMod cfg)
    (hG : cfg.GASNET_PAGESIZE ≤ cfg.GASNETI_MMAP_GRANULARITY)
    (hlive : LiveModel cfg ops live) (hq : QuietPshm pshm live)
    (hz : ∀ e ∈ tmp_se, e.size = 0) (hlen : tmp_se.length = topo.gasneti_pshm_nodes)
    (hmax : cfg.GASNET_PAGESIZE ∣ maxsz) (hW : maxsz < wordMod cfg)
    (hov : topo.gasneti_pshm_nodes * maxsz < 2 ^ 64)
    (hfuel : maxsz < fuel * cfg.GASNET_PAGESIZE)
    (hpass : maxsz < passes * cfg.GASNET_PAGESIZE) :
    ∃ r, gasneti_mmapLimit_shrink cfg topo ops pshm fuel passes s tmp_se maxsz = some r ∧
      ∀ v s1, r = Res.ok v s1 →
        ∃ c s_a tmp0 tmp1 sum s_mid,
          gasneti_mmapLimit_shrink_probe cfg topo ops pshm fuel c [] tmp0 s_a 0 true
            = some (Res.ok (tmp1, sum, true) s_mid) ∧
          gasneti_mmapLimit_shrink cfg topo ops pshm fuel 1 s_a tmp0 c = some (Res.ok v s1) ∧
          live s_a = live s ∧ tmp1.length = topo.gasneti_pshm_nodes ∧
          (∀ e ∈ tmp1, e.size = c) ∧
          (c ≠ 0 → live s_mid
            = ((tmp1.map (fun e => (e.addr, e.size)) : List (Nat × Nat)) :
                Multiset (Nat × Nat)) + live s) ∧
          v = c ∧ live s1 = live s := by
  obtain ⟨r, hr, -⟩ := mmapLimit_shrink_any cfg topo ops pshm
    (liveModel_aligned cfg ops live hP hPW hG hlive) fuel passes s tmp_se maxsz hmax hW hfuel
    hpass hlen
  refine ⟨r, hr, ?_⟩
  intro v s1 h
  rw [h] at hr
  obtain ⟨c, s_a, tmp0, tmp1, sum, s_mid, k1, k2, k3, k4, k5, k6, k7, k8⟩ :=
    mmapLimit_shrink_exit cfg topo ops pshm live hP hPW hG hlive hq fuel passes s tmp_se
      maxsz v s1 hz hlen hmax hW hov hfuel hr
  refine ⟨c, s_a, tmp0, tmp1, sum, s_mid, k1, k2, k3, k4, k5, ?_, k7, k8⟩
  intro hc
  rw [k6, liveOf_all_pos tmp1 (fun e he => by rw [k5 e he]; exact hc)]

/-- Witness for C16: local rank 0 of two processes on a simulated host that grants
mappings up to 15000000 bytes, starting the loop with a candidate of 409600 bytes and no
live mapping. -/
theorem C16_shrink_exit_all_fit_witness :
    ∃ r, gasneti_mmapLimit_shrink cfgPshm topoOneHost (liveOps cfgPshm 15000000 65536)
        (livePshm 65536) 101 101 0 [⟨0, 0⟩, ⟨0, 0⟩] 409600 = some r ∧
      ∀ v s1, r = Res.ok v s1 →
        ∃ c s_a tmp0 tmp1 sum s_mid,
          gasneti_mmapLimit_shrink_probe cfgPshm topoOneHost (liveOps cfgPshm 15000000 65536)
              (livePshm 65536) 101 c [] tmp0 s_a 0 true
            = some (Res.ok (tmp1, sum, true) s_mid) ∧
          gasneti_mmapLimit_shrink cfgPshm topoOneHost (liveOps cfgPshm 15000000 65536)
              (livePshm 65536) 101 1 s_a tmp0 c = some (Res.ok v s1) ∧
          s_a = 0 ∧ tmp1.length = topoOneHost.gasneti_pshm_nodes ∧
          (∀ e ∈ tmp1, e.size = c) ∧
          (c ≠ 0 → s_mid
            = ((tmp1.map (fun e => (e.addr, e.size)) : List (Nat × Nat)) :
                Multiset (Nat × Nat)) + 0) ∧
          v = c ∧ s1 = 0 :=
  C16_shrink_exit_all_fit cfgPshm topoOneHost (liveOps cfgPshm 15000000 65536)
    (livePshm 65536) (fun s => s) 101 101 0 [⟨0, 0⟩, ⟨0, 0⟩] 409600
    (by decide) (by decide) (by decide)
    (liveOps_model cfgPshm 15000000 65536 (by decide) (by decide) (by decide) (by decide))
    (livePshm_quiet 65536)
    (by decide) rfl (by decide) (by decide) (by decide) (by decide) (by decide)

theorem iterate_live {σ : Type} (live : σ → Multiset (Nat × Nat)) (barrierfn : σ → σ)
    (hbar : ∀ s, live (barrierfn s) = live s) :
    ∀ (k : Nat) (s : σ), live (Nat.iterate barrierfn k s) = live s := by
  intro k
  induction k with
  | zero => intro s; rfl
  | succ n ih =>
    intro s
    rw [Function.iterate_succ_apply, ih, hbar]

theorem mmapLimit_bcast_rounds_live {σ : Type} (topo : Topo) (pshm : PshmOps σ)
    (live : σ → Multiset (Nat × Nat)) (hq : QuietPshm pshm live) :
    ∀ (l : List Nat) (s : σ) (maxsz : Nat) (sz_exchg : List Nat),
      live (gasneti_mmapLimit_bcast_rounds topo pshm l s maxsz sz_exchg).2 = live s := by
  intro l
  induction l with
  | nil => intro s maxsz sz_exchg; rfl
  | cons i rest ih =>
    intro s maxsz sz_exchg
    rw [gasneti_mmapLimit_bcast_rounds, ih, hq.2.2]

theorem mmapLimit_probe_live {σ : Type} (cfg : Config) (topo : Topo) (ops : MapOps σ)
    (pshm : PshmOps σ) (barrierfn : σ → σ) (live : σ → Multiset (Nat × Nat))
    (hP : 0 < cfg.GASNET_PAGESIZE) (hPW : cfg.GASNET_PAGESIZE ∣ wordMod cfg)
    (hlive : LiveModel cfg ops live) (hq : QuietPshm pshm live)
    (hbar : ∀ s, live (barrierfn s) = live s)
    (fuel : Nat) (s : σ) (maxsz : Nat) (sz_exchg : List Nat)
    (se : gasnet_seginfo_t) (m : Nat) (ex : List Nat) (s1 : σ)
    (h : gasneti_mmapLimit_probe cfg topo ops pshm barrierfn fuel s maxsz sz_exchg
      = some (Res.ok (se, m, ex) s1)) :
    live s1 = liveOf [se] + live s := by
  have hzero : liveOf [(⟨0, 0⟩ : gasnet_seginfo_t)] = 0 := liveOf_single_zero _ rfl
  unfold gasneti_mmapLimit_probe at h
  split_ifs at h with h1 h2
  · rw [List.range_eq_range',
      mmapLimit_pshm_rounds_range cfg topo ops pshm fuel _ 0 _ _ _ _ (Nat.zero_le _)] at h
    simp only [Nat.zero_add, Nat.sub_zero] at h
    split_ifs at h with h3
    · cases hi : _gasneti_mmap_segment_search_inner cfg ops fuel
          (gasneti_mmapLimit_bcast_rounds topo pshm
            (List.range' 0 topo.gasneti_nodemap_local_rank) s maxsz sz_exchg).2
          (gasneti_mmapLimit_bcast_rounds topo pshm
            (List.range' 0 topo.gasneti_nodemap_local_rank) s maxsz sz_exchg).1.1 with
      | none => rw [hi] at h; simp at h
      | some r =>
        rw [hi] at h
        cases r with
        | fatal e s2 => simp at h
        | fault s2 => simp at h
        | ok se1 s2 =>
          simp only [Option.some.injEq, Res.ok.injEq, Prod.mk.injEq] at h
          obtain ⟨⟨h4, -⟩, h5⟩ := h
          rw [← h5, ← h4, mmapLimit_bcast_rounds_live topo pshm live hq,
            search_inner_live cfg ops live hP hPW hlive _ _ _ _ _ hi,
            mmapLimit_bcast_rounds_live topo pshm live hq]
    · simp only [Option.some.injEq, Res.ok.injEq, Prod.mk.injEq] at h
      obtain ⟨⟨h4, -⟩, h5⟩ := h
      rw [← h5, ← h4, mmapLimit_bcast_rounds_live topo pshm live hq, hzero, zero_add]
  · rw [List.range_eq_range',
      mmapLimit_rounds_range cfg topo ops barrierfn fuel maxsz _ 0 _ _ (Nat.zero_le _)] at h
    simp only [Nat.zero_add, Nat.sub_zero] at h
    split_ifs at h with h3
    · cases hi : _gasneti_mmap_segment_search_inner cfg ops fuel
          (Nat.iterate barrierfn topo.myhost_node_rank s) maxsz with
      | none => rw [hi] at h; simp at h
      | some r =>
        rw [hi] at h
        cases r with
        | fatal e s2 => simp at h
        | fault s2 => simp at h
        | ok se1 s2 =>
          simp only [Option.some.injEq, Res.ok.injEq, Prod.mk.injEq] at h
          obtain ⟨⟨h4, -⟩, h5⟩ := h
          rw [← h5, ← h4, iterate_live live barrierfn hbar,
            search_inner_live cfg ops live hP hPW hlive _ _ _ _ _ hi,
            iterate_live live barrierfn hbar]
    · simp only [Option.some.injEq, Res.ok.injEq, Prod.mk.injEq] at h
      obtain ⟨⟨h4, -⟩, h5⟩ := h
      rw [← h5, ← h4, iterate_live live barrierfn hbar, hzero, zero_add]
  · simp only [Option.some.injEq, Res.ok.injEq, Prod.mk.injEq] at h
    obtain ⟨⟨h4, -⟩, h5⟩ := h
    rw [← h5, ← h4, hzero, zero_add]

theorem unmap_if_live {σ : Type} (cfg : Config) (ops : MapOps σ)
    (live : σ → Multiset (Nat × Nat)) (hlive : LiveModel cfg ops live)
    (s : σ) (se : gasnet_seginfo_t) (u : Unit) (s1 : σ) (X : Multiset (Nat × Nat))
    (hl : live s = liveOf [se] + X)
    (h : (if se.size ≠ 0 then ops.gasneti_do_munmap s se.addr se.size else Res.ok () s)
      = Res.ok u s1) : live s1 = X := by
  by_cases hz : se.size ≠ 0
  · rw [if_pos hz] at h
    rw [hlive.2.2 _ _ _ _ _ h, hl, liveOf_single_pos se hz, Multiset.cons_add, zero_add,
      Multiset.erase_cons_head]
  · rw [if_neg hz] at h
    simp only [Res.ok.injEq, true_and] at h
    rw [← h, hl, liveOf_single_zero se (not_not.mp hz), zero_add]

theorem mmapLimit_pshm_block_live {σ : Type} (cfg : Config) (topo : Topo) (ops : MapOps σ)
    (pshm : PshmOps σ) (live : σ → Multiset (Nat × Nat)) (hP : 0 < cfg.GASNET_PAGESIZE)
    (hPW : cfg.GASNET_PAGESIZE ∣ wordMod cfg) (hlive : LiveModel cfg ops live)
    (hq : QuietPshm pshm live) (fuel : Nat) (s : σ) (se : gasnet_seginfo_t) (maxsz v : Nat)
    (s1 : σ) (X : Multiset (Nat × Nat)) (hl : live s = liveOf [se] + X)
    (h : gasneti_mmapLimit_pshm_block cfg topo ops pshm fuel s se maxsz
      = some (Res.ok v s1)) : live s1 = X := by
  unfold gasneti_mmapLimit_pshm_block at h
  dsimp only at h
  cases hu : (if se.size ≠ 0 then ops.gasneti_do_munmap s se.addr se.size
      else Res.ok () s) with
  | fatal e s2 => rw [hu] at h; simp at h
  | fault s2 => rw [hu] at h; simp at h
  | ok u s2 =>
    rw [hu] at h
    dsimp only at h
    have hl2 := unmap_if_live cfg ops live hlive s se u s2 X hl hu
    cases hs : pshm.gasneti_unlink_segments s2 with
    | fatal e s3 => rw [hs] at h; simp at h
    | fault s3 => rw [hs] at h; simp at h
    | ok u3 s3 =>
      rw [hs] at h
      dsimp only at h
      have hl3 : live s3 = X := by rw [hq.2.1 _ _ _ hs, hl2]
      cases hk : (if topo.gasneti_pshm_mynode = 0 then
            gasneti_mmapLimit_shrink cfg topo ops pshm fuel fuel s3
              (List.replicate topo.gasneti_pshm_nodes ⟨0, 0⟩) maxsz
          else some (Res.ok maxsz s3)) with
      | none => rw [hk] at h; simp at h
      | some r =>
        rw [hk] at h
        cases r with
        | fatal e s4 => simp at h
        | fault s4 => simp at h
        | ok v4 s4 =>
          dsimp only at h
          have hl4 : live s4 = X := by
            split_ifs at hk with h0
            · rw [mmapLimit_shrink_live cfg topo ops pshm live hP hPW hlive hq fuel fuel s3 _
                maxsz v4 s4 (fun e he => by rw [List.eq_of_mem_replicate he]) hk, hl3]
            · simp only [Option.some.injEq, Res.ok.injEq] at hk
              rw [← hk.2, hl3]
          cases hs5 : pshm.gasneti_unlink_segments
              (pshm.gasneti_pshmnet_bootstrapBroadcast s4 v4 0).2 with
          | fatal e s5 => rw [hs5] at h; simp at h
          | fault s5 => rw [hs5] at h; simp at h
          | ok u5 s5 =>
            rw [hs5] at h
            simp only [Option.some.injEq, Res.ok.injEq] at h
            rw [← h.2, hq.2.1 _ _ _ hs5, hq.2.2, hl4]

theorem mmapLimit_live {σ : Type} (cfg : Config) (topo : Topo) (ops : MapOps σ)
    (pshm : PshmOps σ) (live : σ → Multiset (Nat × Nat)) (nodemem : Nat)
    (sz_exchg0 : List Nat) (exchangefn : σ → Nat → List Nat → List Nat × σ)
    (barrierfn : σ → σ) (fuel : Nat) (s : σ) (localLimit sharedLimit : Nat)
    (hP : 0 < cfg.GASNET_PAGESIZE) (hPW : cfg.GASNET_PAGESIZE ∣ wordMod cfg)
    (hlive : LiveModel cfg ops live) (hq : QuietPshm pshm live)
    (hbar : ∀ s, live (barrierfn s) = live s)
    (hexl : ∀ s v a, live (exchangefn s v a).2 = live s)
    (hsh : topo.myhost_grp_count ≠ topo.gasneti_nodes) (v : Nat) (s1 : σ)
    (h : gasneti_mmapLimit cfg topo ops pshm nodemem sz_exchg0 exchangefn barrierfn fuel s
      localLimit sharedLimit = some (Res.ok v s1)) :
    ∃ s_pre, s1 = barrierfn s_pre ∧ live s_pre = live s := by
  unfold gasneti_mmapLimit at h
  rw [if_pos hsh] at h
  cases hp : gasneti_mmapLimit_probe cfg topo ops pshm barrierfn fuel s
      (gasneti_mmapLimit_share cfg topo.myhost_node_count
        (gasneti_mmapLimit_clamp cfg nodemem localLimit sharedLimit).2
        (gasneti_mmapLimit_clamp cfg nodemem localLimit sharedLimit).1) sz_exchg0 with
  | none => rw [hp] at h; simp at h
  | some r =>
    rw [hp] at h
    cases r with
    | fatal e s2 => simp at h
    | fault s2 => simp at h
    | ok res s2 =>
      obtain ⟨se, m, ex⟩ := res
      dsimp only at h
      have hl2 := mmapLimit_probe_live cfg topo ops pshm barrierfn live hP hPW hlive hq hbar
        fuel s _ sz_exchg0 se m ex s2 hp
      have hl3 : live (exchangefn s2 se.size ex).2 = liveOf [se] + live s := by
        rw [hexl, hl2]
      by_cases hn0 : topo.myhost_node_count = 0
      · rw [if_pos hn0] at h
        simp at h
      · rw [if_neg hn0] at h
        by_cases hps : cfg.GASNET_PSHM = true
        · simp only [if_pos hps] at h
          cases hb : gasneti_mmapLimit_pshm_block cfg topo ops pshm fuel
              (exchangefn s2 se.size ex).2 se
              (gasneti_mmapLimit_mean cfg topo (exchangefn s2 se.size ex).1) with
          | none => rw [hb] at h; simp at h
          | some r2 =>
            rw [hb] at h
            cases r2 with
            | fatal e s3 => simp at h
            | fault s3 => simp at h
            | ok v2 s3 =>
              dsimp only at h
              rw [if_neg (by simp)] at h
              simp only [Option.some.injEq, Res.ok.injEq] at h
              exact ⟨s3, h.2.symm, mmapLimit_pshm_block_live cfg topo ops pshm live hP hPW
                hlive hq fuel _ se _ v2 s3 (live s) hl3 hb⟩
        · simp only [if_neg hps] at h
          cases hu : (if se.size ≠ 0 then
              ops.gasneti_do_munmap (exchangefn s2 se.size ex).2 se.addr se.size
              else Res.ok () (exchangefn s2 se.size ex).2) with
          | fatal e s3 => rw [hu] at h; simp at h
          | fault s3 => rw [hu] at h; simp at h
          | ok u s3 =>
            rw [hu] at h
            simp only [Option.some.injEq, Res.ok.injEq] at h
            exact ⟨s3, h.2.symm, unmap_if_live cfg ops live hlive _ se u s3 (live s) hl3 hu⟩

/-- C17 (confirmed). On a model of the live mappings that the collectives leave alone,
`gasneti_mmapLimit` ends, and when it returns the live mappings are those before the call
on every path: without sharing the state is untouched; with sharing (with or without
PSHM, shrink loop included) the last action is the final barrier, applied to a state in
which the live mappings already are those before the call. -/
theorem C17_no_probe_mapping_left {σ : Type} (cfg : Config) (topo : Topo) (ops : MapOps σ)
    (pshm : PshmOps σ) (live : σ → Multiset (Nat × Nat)) (nodemem : Nat)
    (sz_exchg0 : List Nat) (exchangefn : σ → Nat → List Nat → List Nat × σ)
    (barrierfn : σ → σ) (fuel : Nat) (s : σ) (localLimit sharedLimit : Nat)
    (hP : 0 < cfg.GASNET_PAGESIZE) (hPW : cfg.GASNET_PAGESIZE ∣ wordMod cfg)
    (hG : cfg.GASNET_PAGESIZE ≤ cfg.GASNETI_MMAP_GRANULARITY)
    (hlive : LiveModel cfg ops live) (hq : QuietPshm pshm live)
    (hbc : BcastDeclines cfg pshm)
    (hbar : ∀ s, live (barrierfn s) = live s)
    (hexl : ∀ s v a, live (exchangefn s v a).2 = live s)
    (hl : localLimit < wordMod cfg) (hfuel : wordMod cfg ≤ fuel * cfg.GASNET_PAGESIZE) :
    ∃ r, gasneti_mmapLimit cfg topo ops pshm nodemem sz_exchg0 exchangefn barrierfn fuel s
        localLimit sharedLimit = some r ∧
      ∀ v s1, r = Res.ok v s1 →
        live s1 = live s ∧
        ((topo.myhost_grp_count = topo.gasneti_nodes ∧ s1 = s) ∨
          (topo.myhost_grp_count ≠ topo.gasneti_nodes ∧
            ∃ s_pre, s1 = barrierfn s_pre ∧ live s_pre = live s)) := by
  by_cases hsh : topo.myhost_grp_count ≠ topo.gasneti_nodes
  · obtain ⟨r, hr, -⟩ := mmapLimit_sharing_any cfg topo ops pshm nodemem sz_exchg0 exchangefn
      barrierfn fuel s localLimit sharedLimit (liveModel_aligned cfg ops live hP hPW hG hlive)
      hbc hsh hl hfuel
    refine ⟨r, hr, ?_⟩
    intro v s1 h
    rw [h] at hr
    obtain ⟨s_pre, h1, h2⟩ := mmapLimit_live cfg topo ops pshm live nodemem sz_exchg0
      exchangefn barrierfn fuel s localLimit sharedLimit hP hPW hlive hq hbar hexl hsh v s1 hr
    exact ⟨by rw [h1, hbar, h2], Or.inr ⟨hsh, s_pre, h1, h2⟩⟩
  · refine ⟨Res.ok (gasneti_mmapLimit_clamp cfg nodemem localLimit sharedLimit).1 s, ?_, ?_⟩
    · unfold gasneti_mmapLimit
      rw [if_neg hsh]
    · intro v s1 h
      simp only [Res.ok.injEq] at h
      rw [← h.2]
      exact ⟨rfl, Or.inl ⟨not_not.mp hsh, rfl⟩⟩

/-- Witness for C17: local rank 0 of two processes on one simulated host in a PSHM build,
with a ceiling of 409600 bytes and one mapping live before the call. -/
theorem C17_no_probe_mapping_left_witness :
    ∃ r, gasneti_mmapLimit cfgPshm topoOneHost (liveOps cfgPshm 15000000 65536)
        (livePshm 65536) 0 [0, 0] (fun s v _ => ([v, v], s)) id 4503599627370496
        ((4096, 8192) ::ₘ 0) 409600 UINT64_MAX = some r ∧
      ∀ v s1, r = Res.ok v s1 →
        s1 = (4096, 8192) ::ₘ 0 ∧
        ((topoOneHost.myhost_grp_count = topoOneHost.gasneti_nodes ∧
            s1 = (4096, 8192) ::ₘ 0) ∨
          (topoOneHost.myhost_grp_count ≠ topoOneHost.gasneti_nodes ∧
            ∃ s_pre, s1 = id s_pre ∧ s_pre = (4096, 8192) ::ₘ 0)) :=
  C17_no_probe_mapping_left cfgPshm topoOneHost (liveOps cfgPshm 15000000 65536)
    (livePshm 65536) (fun s => s) 0 [0, 0] (fun s v _ => ([v, v], s)) id 4503599627370496
    ((4096, 8192) ::ₘ 0) 409600 UINT64_MAX
    (by decide) (by decide) (by decide)
    (liveOps_model cfgPshm 15000000 65536 (by decide) (by decide) (by decide) (by decide))
    (livePshm_quiet 65536)
    (fun _ _ _ => ⟨Nat.le_refl _, fun h => h⟩)
    (fun _ => rfl) (fun _ _ _ => rfl) (by decide) (by decide)

/-! ## The bisection started at zero against the oracle -/

/-- The bisection returns a size other than zero only if it is in the part of the log of
granted sizes that this very run has written. -/
theorem binary_segsrch_seen {σ : Type} (cfg : Config) (ops : MapOps σ)
    (seen : σ → List Nat) (hseen : SeenModel cfg ops seen) :
    ∀ (fuel : Nat) (s : σ) (lo hi : Nat) (si : gasnet_seginfo_t) (s1 : σ),
      gasneti_mmap_binary_segsrch cfg ops fuel s lo hi = some (Res.ok si s1) →
      ∃ l, seen s1 = l ++ seen s ∧ (si.size ≠ 0 → si.size ∈ l) ∧
        ∀ x ∈ l, ∃ s2 a s3, ops.gasneti_do_mmap s2 x = Res.ok a s3 ∧ a ≠ MAP_FAILED cfg := by
  intro fuel
  induction fuel with
  | zero =>
    intro s lo hi si s1 h
    simp [gasneti_mmap_binary_segsrch] at h
  | succ n ih =>
    intro s lo hi si s1 h
    rw [gasneti_mmap_binary_segsrch] at h
    by_cases hg : usub cfg hi lo ≤ cfg.GASNETI_MMAP_GRANULARITY
    · rw [if_pos hg] at h
      simp only [Option.some.injEq, Res.ok.injEq] at h
      refine ⟨[], by rw [h.2]; rfl, ?_, by simp⟩
      intro hne
      rw [← h.1] at hne
      exact absurd rfl hne
    · rw [if_neg hg] at h
      dsimp only at h
      generalize gasneti_mmap_aligndown cfg (uadd cfg lo (usub cfg hi lo / 2)) = size at h
      cases hm : ops.gasneti_do_mmap s size with
      | fatal e s2 => rw [hm] at h; simp at h
      | fault s2 => rw [hm] at h; simp at h
      | ok addr s2 =>
        rw [hm] at h
        dsimp only at h
        have hl := hseen.1 _ _ _ _ hm
        by_cases ha : addr = MAP_FAILED cfg
        · rw [if_pos ha] at h hl
          obtain ⟨l, h1, h2, h5⟩ := ih _ _ _ _ _ h
          exact ⟨l, by rw [h1, hl], h2, h5⟩
        · rw [if_neg ha] at h hl
          cases hu : ops.gasneti_do_munmap s2 addr size with
          | fatal e s3 => rw [hu] at h; simp at h
          | fault s3 => rw [hu] at h; simp at h
          | ok u s3 =>
            rw [hu] at h
            dsimp only at h
            have hl3 : seen s3 = size :: seen s := by
              rw [hseen.2 _ _ _ _ _ hu, hl]
            cases hrec : gasneti_mmap_binary_segsrch cfg ops n s3 size hi with
            | none => rw [hrec] at h; simp at h
            | some r =>
              rw [hrec] at h
              cases r with
              | fatal e s4 => simp at h
              | fault s4 => simp at h
              | ok si_temp s4 =>
                dsimp only at h
                obtain ⟨l, h1, h2, h5⟩ := ih _ _ _ _ _ hrec
                have h6 : ∀ x ∈ l ++ [size], ∃ s2 a s3,
                    ops.gasneti_do_mmap s2 x = Res.ok a s3 ∧ a ≠ MAP_FAILED cfg := by
                  intro x hx
                  rcases List.mem_append.1 hx with hx | hx
                  · exact h5 x hx
                  · rw [List.mem_singleton.1 hx]
                    exact ⟨s, addr, s2, hm, ha⟩
                have hl4 : seen s4 = (l ++ [size]) ++ seen s := by
                  rw [h1, hl3]
                  simp
                by_cases hst : si_temp.size ≠ 0
                · rw [if_pos hst] at h
                  simp only [Option.some.injEq, Res.ok.injEq] at h
                  obtain ⟨h3, h4⟩ := h
                  subst h3; subst h4
                  exact ⟨l ++ [size], hl4, fun hne => List.mem_append_left _ (h2 hne), h6⟩
                · rw [if_neg hst] at h
                  simp only [Option.some.injEq, Res.ok.injEq] at h
                  obtain ⟨h3, h4⟩ := h
                  subst h3; subst h4
                  exact ⟨l ++ [size], hl4, fun _ => by simp, h6⟩

/-- The simulated process of `seenOps` is an oracle host. -/
theorem seenOps_isOracle (cfg : Config) (K base : Nat) :
    IsOracle cfg (seenOps cfg K base) K base := by
  refine ⟨?_, ?_, ?_⟩
  · intro s sz
    by_cases h : sz ≤ K
    · exact ⟨sz :: s, by simp [seenOps, h]⟩
    · exact ⟨s, by simp [seenOps, h]⟩
  · intro s a sz
    exact ⟨s, rfl⟩
  · intro s sz h
    exact ⟨s, by simp [seenOps, h]⟩

/-- The state of the simulated process of `seenOps` is a log of the granted sizes. -/
theorem seenOps_model (cfg : Config) (K base : Nat) (hb : base ≠ MAP_FAILED cfg) :
    SeenModel cfg (seenOps cfg K base) (fun s => s) := by
  refine ⟨?_, ?_⟩
  · intro s sz a s1 h
    by_cases hk : sz ≤ K
    · simp only [seenOps, if_pos hk, Res.ok.injEq] at h
      obtain ⟨h1, h2⟩ := h
      subst h1
      rw [if_neg hb, h2]
    · simp only [seenOps, if_neg hk, Res.ok.injEq] at h
      obtain ⟨h1, h2⟩ := h
      subst h1
      rw [if_pos rfl, h2]
  · intro s a sz u s1 h
    simp only [seenOps, Res.ok.injEq] at h
    exact h.2.symm

/-- C30. For a page-aligned `highsz`, a search granularity of at least two pages and an
oracle host on which a mapping succeeds iff its size is at most `K < highsz`,
`gasneti_mmap_binary_segsrch(0, highsz)` returns, given fuel for one probe per page, a
page-aligned size `s ≤ K` with `K - s < GASNETI_MMAP_GRANULARITY`, and a non-zero `s` is
among the sizes that this run saw granted, all of which are at most `K`; and at every
aligned interval wider than the granularity the probed size lies strictly inside, so that
both intervals the recursion may continue with are strictly narrower. -/
theorem C30_bisection_from_zero {σ : Type} (cfg : Config) (ops : MapOps σ)
    (seen : σ → List Nat) (K base highsz fuel : Nat) (s : σ)
    (hP : 0 < cfg.GASNET_PAGESIZE)
    (hG : 2 * cfg.GASNET_PAGESIZE ≤ cfg.GASNETI_MMAP_GRANULARITY)
    (hbase : base ≠ MAP_FAILED cfg) (hor : IsOracle cfg ops K base)
    (hseen : SeenModel cfg ops seen)
    (hhi : cfg.GASNET_PAGESIZE ∣ highsz) (hW : highsz < wordMod cfg) (hK : K < highsz)
    (hfuel : highsz < fuel * cfg.GASNET_PAGESIZE) :
    (∃ si s1 l, gasneti_mmap_binary_segsrch cfg ops fuel s 0 highsz = some (Res.ok si s1) ∧
      cfg.GASNET_PAGESIZE ∣ si.size ∧ si.size ≤ K ∧
      K - si.size < cfg.GASNETI_MMAP_GRANULARITY ∧
      seen s1 = l ++ seen s ∧ (si.size ≠ 0 → si.size ∈ l) ∧ (∀ x ∈ l, x ≤ K)) ∧
    (∀ lo hi, cfg.GASNET_PAGESIZE ∣ lo → cfg.GASNET_PAGESIZE ∣ hi → lo ≤ hi →
      hi < wordMod cfg → ¬ usub cfg hi lo ≤ cfg.GASNETI_MMAP_GRANULARITY →
      usub cfg (gasneti_mmap_aligndown cfg (uadd cfg lo (usub cfg hi lo / 2))) lo
        < usub cfg hi lo ∧
      usub cfg hi (gasneti_mmap_aligndown cfg (uadd cfg lo (usub cfg hi lo / 2)))
        < usub cfg hi lo) := by
  have hG1 : cfg.GASNET_PAGESIZE ≤ cfg.GASNETI_MMAP_GRANULARITY := by omega
  constructor
  · obtain ⟨si, s1, h1, hsi⟩ := binary_segsrch_oracle cfg ops K base hP hG1 hbase hor fuel s 0
      highsz (dvd_zero _) hhi (Nat.zero_le _) hW (by omega) (Nat.zero_le _) hK
    obtain ⟨l, hl1, hl2, hl3⟩ := binary_segsrch_seen cfg ops seen hseen fuel s 0 highsz si s1 h1
    have hl4 : ∀ x ∈ l, x ≤ K := by
      intro x hx
      obtain ⟨s2, a, s3, h2, h3⟩ := hl3 x hx
      obtain ⟨s4, h4⟩ := hor.1 s2 x
      rw [h4] at h2
      simp only [Res.ok.injEq] at h2
      by_contra hne
      rw [if_neg hne] at h2
      exact h3 h2.1.symm
    rcases hsi with ⟨hz, hKG⟩ | ⟨_, _, hk, hd, hKG⟩
    · subst hz
      exact ⟨_, s1, l, h1, dvd_zero _, Nat.zero_le _, by simpa using hKG, hl1, hl2, hl4⟩
    · exact ⟨si, s1, l, h1, hd, hk, by omega, hl1, hl2, hl4⟩
  · intro lo hi hlo hhi2 hle hW2 hg
    have hsub : usub cfg hi lo = hi - lo := usub_eq cfg hle hW2
    rw [hsub] at hg
    obtain ⟨_, hmid, hm1, hm2⟩ := bisect_mid cfg hP hG1 hlo hhi2 hle hW2 hg
    rw [hmid, hsub]
    generalize GASNETI_PAGE_ALIGNDOWN cfg (lo + (hi - lo) / 2) = mid at *
    rw [usub_eq cfg (by omega) (by omega), usub_eq cfg (by omega) hW2]
    omega

/-- C30 (witness). The claim on the simulated process that logs the granted sizes, at 4 KiB
pages, 4 MiB granularity, `highsz` = 16 MiB and `K` = 15000000. -/
theorem C30_bisection_from_zero_witness :
    (∃ si s1 l, gasneti_mmap_binary_segsrch cfgMmap (seenOps cfgMmap 15000000 65536) 4097 []
        0 16777216 = some (Res.ok si s1) ∧
      cfgMmap.GASNET_PAGESIZE ∣ si.size ∧ si.size ≤ 15000000 ∧
      15000000 - si.size < cfgMmap.GASNETI_MMAP_GRANULARITY ∧
      s1 = l ++ [] ∧ (si.size ≠ 0 → si.size ∈ l) ∧ (∀ x ∈ l, x ≤ 15000000)) ∧
    (∀ lo hi, cfgMmap.GASNET_PAGESIZE ∣ lo → cfgMmap.GASNET_PAGESIZE ∣ hi → lo ≤ hi →
      hi < wordMod cfgMmap → ¬ usub cfgMmap hi lo ≤ cfgMmap.GASNETI_MMAP_GRANULARITY →
      usub cfgMmap (gasneti_mmap_aligndown cfgMmap (uadd cfgMmap lo (usub cfgMmap hi lo / 2)))
          lo < usub cfgMmap hi lo ∧
      usub cfgMmap hi (gasneti_mmap_aligndown cfgMmap (uadd cfgMmap lo (usub cfgMmap hi lo / 2)))
        < usub cfgMmap hi lo) :=
  C30_bisection_from_zero cfgMmap (seenOps cfgMmap 15000000 65536) (fun s => s) 15000000 65536
    16777216 4097 [] (by decide) (by decide) (by decide) (seenOps_isOracle cfgMmap 15000000 65536)
    (seenOps_model cfgMmap 15000000 65536 (by decide)) (by decide) (by decide) (by decide)
    (by decide)

/-! ## The relations asserted at the end of `gasneti_segmentInit` -/

/-- A region that the probe returns has a page-aligned base that is a machine word. -/
theorem search_inner_base {σ : Type} (cfg : Config) (ops : MapOps σ)
    (hops : AlignedMaps cfg ops) (fuel : Nat) (s : σ) (maxsz : Nat)
    (hmax : cfg.GASNET_PAGESIZE ∣ maxsz) (hW : maxsz < wordMod cfg)
    (hfuel : maxsz < fuel * cfg.GASNET_PAGESIZE) (si1 : gasnet_seginfo_t) (s3 : σ)
    (h : _gasneti_mmap_segment_search_inner cfg ops fuel s maxsz = some (Res.ok si1 s3)) :
    cfg.GASNET_PAGESIZE ∣ si1.addr ∧ si1.addr < wordMod cfg := by
  obtain ⟨hP, hPW, hG, hal⟩ := hops
  have hM : 0 < wordMod cfg := Nat.pow_pos (by decide)
  unfold _gasneti_mmap_segment_search_inner at h
  cases h1 : ops.gasneti_do_mmap s maxsz with
  | fatal e s1 => rw [h1] at h; simp at h
  | fault s1 => rw [h1] at h; simp at h
  | ok addr s1 =>
    rw [h1] at h
    dsimp only at h
    obtain ⟨haW, hal1⟩ := hal s maxsz addr s1 h1
    by_cases ha : addr = MAP_FAILED cfg
    · rw [if_neg (not_not.2 ha)] at h
      obtain ⟨r, hr, hprop⟩ := binary_segsrch_any cfg ops hP hG fuel s1 0 maxsz
        (dvd_zero _) hmax (Nat.zero_le _) hW (by omega)
      rw [hr] at h
      cases r with
      | fatal e s2 => simp at h
      | fault s2 => simp at h
      | ok si s2 =>
        dsimp only at h
        have h2 := Option.some.inj h
        have hsi := hprop si s2 rfl
        have hcond : si.addr = NULL ∨ (si.addr < wordMod cfg ∧ cfg.GASNET_PAGESIZE ∣ si.addr ∧
            cfg.GASNET_PAGESIZE ∣ si.size ∧ si.size < wordMod cfg) := by
          rcases hsi with h0 | ⟨h3, h4, h5, h6, s4, s5, h7⟩
          · exact Or.inl (by rw [h0])
          · obtain ⟨h8, h9⟩ := hal s4 si.size si.addr s5 h7
            rcases h9 with h9 | h9
            · exact absurd h9 h3
            · exact Or.inr ⟨h8, h9, h6, by omega⟩
        rcases trim_result cfg ops hP hPW s2 si false hcond si1 s3 h2 with ⟨_, h3⟩ | ⟨hn, h3⟩
        · subst h3
          exact ⟨dvd_zero _, hM⟩
        · subst h3
          rcases hcond with h0 | ⟨h8, h9, -, -⟩
          · exact absurd h0 hn
          · exact ⟨h9, h8⟩
    · rw [if_pos ha] at h
      have h2 := Option.some.inj h
      have hdv : cfg.GASNET_PAGESIZE ∣ addr := by
        rcases hal1 with h9 | h9
        · exact absurd h9 ha
        · exact h9
      rcases trim_result cfg ops hP hPW s1 ⟨addr, maxsz⟩ true
        (Or.inr ⟨haW, hdv, hmax, hW⟩) si1 s3 h2 with ⟨_, h3⟩ | ⟨hn, h3⟩
      · subst h3
        exact ⟨dvd_zero _, hM⟩
      · subst h3
        exact ⟨hdv, haW⟩

/-- Whatever the host does, `gasneti_mmap_segment_search(maxsz)` ends, given fuel for one
probe per page, and a region it returns is no larger than `maxsz` aligned down, with base
and size page-aligned machine words. -/
theorem segment_search_any {σ : Type} (cfg : Config) (ops : MapOps σ)
    (hops : AlignedMaps cfg ops) (fuel : Nat) (s : σ) (maxsz : Nat)
    (hW : maxsz < wordMod cfg) (hfuel : maxsz < fuel * cfg.GASNET_PAGESIZE) :
    ∃ r, gasneti_mmap_segment_search cfg ops fuel s maxsz = some r ∧
      ∀ si s1, r = Res.ok si s1 →
        si.size ≤ gasneti_mmap_aligndown cfg maxsz ∧ cfg.GASNET_PAGESIZE ∣ si.size ∧
        cfg.GASNET_PAGESIZE ∣ si.addr ∧ si.addr < wordMod cfg := by
  have hM : 0 < wordMod cfg := Nat.pow_pos (by decide)
  have hle : gasneti_mmap_aligndown cfg maxsz ≤ maxsz := aligndown_le cfg maxsz
  have hdv : cfg.GASNET_PAGESIZE ∣ gasneti_mmap_aligndown cfg maxsz := aligndown_dvd cfg maxsz
  unfold gasneti_mmap_segment_search
  dsimp only
  by_cases h0 : gasneti_mmap_aligndown cfg maxsz = 0
  · rw [if_pos h0]
    refine ⟨_, rfl, ?_⟩
    intro si s1 h
    injection h with h1 h2
    subst h1
    exact ⟨Nat.zero_le _, dvd_zero _, dvd_zero _, hM⟩
  · rw [if_neg h0]
    obtain ⟨r, hr, hp⟩ := search_inner_any cfg ops hops fuel s
      (gasneti_mmap_aligndown cfg maxsz) hdv (by omega) (by omega)
    have hb := search_inner_base cfg ops hops fuel s
      (gasneti_mmap_aligndown cfg maxsz) hdv (by omega) (by omega)
    rw [hr] at hb ⊢
    cases r with
    | fatal e s1 => exact ⟨_, rfl, by intro si s2 h; cases h⟩
    | fault s1 => exact ⟨_, rfl, by intro si s2 h; cases h⟩
    | ok si s1 =>
      dsimp only
      by_cases hn : si.addr = NULL
      · rw [if_pos hn]
        exact ⟨_, rfl, by intro si s2 h; cases h⟩
      · rw [if_neg hn]
        refine ⟨_, rfl, ?_⟩
        intro si2 s2 h
        injection h with h1 h2
        subst h1
        obtain ⟨h3, h4⟩ := hp si s1 rfl
        obtain ⟨h5, h6⟩ := hb si s1 rfl
        exact ⟨h3, h4, h5, h6⟩

/-- The local `minsize` after the statistics loop is at most the size of every window
seen and is the initial value or the size of one of them. -/
theorem segmentInit_stats_minsize (cfg : Config) :
    ∀ (W : List gasneti_segexch_t) (st : SegStats),
      (∀ e ∈ W, (W.foldl (gasneti_segmentInit_stats_step cfg) st).minsize ≤ e.seginfo.size) ∧
      ((W.foldl (gasneti_segmentInit_stats_step cfg) st).minsize = st.minsize ∨
        ∃ e ∈ W, e.seginfo.size = (W.foldl (gasneti_segmentInit_stats_step cfg) st).minsize) ∧
      (W.foldl (gasneti_segmentInit_stats_step cfg) st).minsize ≤ st.minsize := by
  intro W
  induction W with
  | nil => intro st; simp
  | cons e W ih =>
    intro st
    have h := ih (gasneti_segmentInit_stats_step cfg st e)
    simp only [List.foldl_cons]
    generalize List.foldl (gasneti_segmentInit_stats_step cfg)
      (gasneti_segmentInit_stats_step cfg st e) W = r at h ⊢
    obtain ⟨h1, h2, h3⟩ := h
    have hb : (gasneti_segmentInit_stats_step cfg st e).minsize
        = if e.seginfo.size < st.minsize then e.seginfo.size else st.minsize := rfl
    rw [hb] at h2 h3
    refine ⟨?_, ?_, ?_⟩
    · intro x hx
      rcases List.mem_cons.1 hx with hxe | hx
      · subst hxe
        split_ifs at h3 <;> omega
      · exact h1 x hx
    · rcases h2 with h2 | ⟨x, hx, hxe⟩
      · split_ifs at h2 with hc
        · exact Or.inr ⟨e, List.mem_cons_self _ _, h2.symm⟩
        · exact Or.inl h2
      · exact Or.inr ⟨x, List.mem_cons_of_mem _ hx, hxe⟩
    · split_ifs at h3 <;> omega

/-- The two sizes that `gasneti_segmentInit` computes from a table of page-aligned
windows that holds the own window: both are multiples of the page size, the global one
is at most the local one, and the local one is at most the size of the own window. -/
theorem segmentInit_sizes_asserts (cfg : Config)
    (hPW : cfg.GASNET_PAGESIZE ∣ wordMod cfg) (seg : gasnet_seginfo_t)
    (W : List gasneti_segexch_t)
    (hsa : cfg.GASNET_PAGESIZE ∣ seg.addr) (hss : cfg.GASNET_PAGESIZE ∣ seg.size)
    (hsaW : seg.addr < wordMod cfg) (hssW : seg.size < wordMod cfg)
    (hW : ∀ x ∈ W, cfg.GASNET_PAGESIZE ∣ x.seginfo.addr ∧ cfg.GASNET_PAGESIZE ∣ x.seginfo.size)
    (hown : ∃ x ∈ W, x.seginfo = seg) :
    cfg.GASNET_PAGESIZE ∣ (gasneti_segmentInit_sizes cfg seg
      (W.foldl (gasneti_segmentInit_stats_step cfg) ⟨0, 0, UINTPTR_MAX cfg, UINTPTR_MAX cfg, 0⟩)).1 ∧
    cfg.GASNET_PAGESIZE ∣ (gasneti_segmentInit_sizes cfg seg
      (W.foldl (gasneti_segmentInit_stats_step cfg) ⟨0, 0, UINTPTR_MAX cfg, UINTPTR_MAX cfg, 0⟩)).2 ∧
    (gasneti_segmentInit_sizes cfg seg
      (W.foldl (gasneti_segmentInit_stats_step cfg) ⟨0, 0, UINTPTR_MAX cfg, UINTPTR_MAX cfg, 0⟩)).2
      ≤ (gasneti_segmentInit_sizes cfg seg
      (W.foldl (gasneti_segmentInit_stats_step cfg) ⟨0, 0, UINTPTR_MAX cfg, UINTPTR_MAX cfg, 0⟩)).1 ∧
    (gasneti_segmentInit_sizes cfg seg
      (W.foldl (gasneti_segmentInit_stats_step cfg) ⟨0, 0, UINTPTR_MAX cfg, UINTPTR_MAX cfg, 0⟩)).1
      ≤ seg.size := by
  have hM : 0 < wordMod cfg := Nat.pow_pos (by decide)
  obtain ⟨-, -, h3, h4, h5⟩ := segmentInit_stats_fold cfg W
    ⟨0, 0, UINTPTR_MAX cfg, UINTPTR_MAX cfg, 0⟩
  obtain ⟨m1, m2, -⟩ := segmentInit_stats_minsize cfg W
    ⟨0, 0, UINTPTR_MAX cfg, UINTPTR_MAX cfg, 0⟩
  generalize W.foldl (gasneti_segmentInit_stats_step cfg)
    ⟨0, 0, UINTPTR_MAX cfg, UINTPTR_MAX cfg, 0⟩ = st at h3 h4 h5 m1 m2 ⊢
  obtain ⟨own, hownW, hownE⟩ := hown
  have o3 := h3 own hownW
  have om := m1 own hownW
  rw [hownE] at o3 om
  have hUM : UINTPTR_MAX cfg = wordMod cfg - 1 := rfl
  unfold gasneti_segmentInit_sizes
  by_cases hal : cfg.GASNET_ALIGNED_SEGMENTS = true
  · rw [if_pos hal]
    by_cases hc : st.maxbase ≥ st.minend
    · rw [if_pos hc]
      exact ⟨dvd_zero _, dvd_zero _, Nat.le_refl _, Nat.zero_le _⟩
    · rw [if_neg hc]
      dsimp only
      have hnw : seg.addr + seg.size < wordMod cfg := by
        by_contra hge
        have h1 : uadd cfg seg.addr seg.size = seg.addr + seg.size - wordMod cfg := by
          unfold uadd
          rw [Nat.mod_eq_sub_mod (by omega)]
          exact Nat.mod_eq_of_lt (by omega)
        omega
      have hoe : uadd cfg seg.addr seg.size = seg.addr + seg.size := uadd_eq cfg hnw
      rw [hoe] at o3 ⊢
      have hmb : cfg.GASNET_PAGESIZE ∣ st.maxbase := by
        rcases h4 with h4 | ⟨e, he, hee⟩
        · simp only at h4
          rw [h4]
          exact dvd_zero _
        · rw [← hee]
          exact (hW e he).1
      have hme : cfg.GASNET_PAGESIZE ∣ st.minend := by
        rcases h5 with h5 | ⟨e, he, hee⟩
        · simp only at h5
          have : st.minend = seg.addr + seg.size := by omega
          rw [this]
          exact Dvd.dvd.add hsa hss
        · rw [← hee]
          unfold uadd
          exact (Nat.dvd_mod_iff hPW).mpr (Dvd.dvd.add (hW e he).1 (hW e he).2)
      rw [usub_eq cfg (by omega) hnw, usub_eq cfg (by omega) (by omega)]
      exact ⟨Nat.dvd_sub' (Dvd.dvd.add hsa hss) hmb, Nat.dvd_sub' hme hmb, by omega, by omega⟩
  · rw [if_neg hal]
    dsimp only
    refine ⟨hss, ?_, om, Nat.le_refl _⟩
    rcases m2 with m2 | ⟨e, he, hee⟩
    · simp only at m2
      have : st.minsize = seg.size := by omega
      rw [this]
      exact hss
    · rw [← hee]
      exact (hW e he).2

/-- An oracle host with an aligned base that is a machine word gives aligned mappings. -/
theorem isOracle_alignedMaps {σ : Type} (cfg : Config) (ops : MapOps σ) (K base : Nat)
    (hor : IsOracle cfg ops K base) (hP : 0 < cfg.GASNET_PAGESIZE)
    (hPW : cfg.GASNET_PAGESIZE ∣ wordMod cfg)
    (hG : cfg.GASNET_PAGESIZE ≤ cfg.GASNETI_MMAP_GRANULARITY)
    (hdv : cfg.GASNET_PAGESIZE ∣ base) (hbW : base < wordMod cfg) : AlignedMaps cfg ops := by
  refine ⟨hP, hPW, hG, ?_⟩
  intro s sz a s1 h
  obtain ⟨s2, h2⟩ := hor.1 s sz
  rw [h2] at h
  injection h with h3 h4
  subst h3
  by_cases hsz : sz ≤ K
  · rw [if_pos hsz]
    exact ⟨hbW, Or.inr hdv⟩
  · rw [if_neg hsz]
    refine ⟨?_, Or.inl rfl⟩
    have hM : 0 < wordMod cfg := Nat.pow_pos (by decide)
    unfold MAP_FAILED
    omega
/-- C28. Whatever the host does, `gasneti_segmentInit` ends, given fuel for one probe per
page of `GASNETI_MMAP_LIMIT`, and when it returns the relations it asserts hold, with and
without `GASNET_ALIGNED_SEGMENTS`: `gasneti_MaxLocalSegmentSize` and
`gasneti_MaxGlobalSegmentSize` are multiples of the page size,
`gasneti_MaxGlobalSegmentSize ≤ gasneti_MaxLocalSegmentSize`, and
`gasneti_MaxLocalSegmentSize` is at most `localSegmentLimit` aligned down (hence at most
the value the function compares it with).  The exchange is relied on to put the caller's
entry at index `gasneti_mynode` and to deliver page-aligned windows. -/
theorem C28_segmentInit_asserts {σ : Type} (cfg : Config) (topo : Topo) (ops : MapOps σ)
    (pshm : PshmOps σ) (sbrk : σ → Nat × σ)
    (exchangefn : σ → gasneti_segexch_t → List gasneti_segexch_t × σ)
    (fuel : Nat) (s : σ) (g : SegState) (localSegmentLimit : Nat)
    (hops : AlignedMaps cfg ops)
    (hnode : topo.gasneti_mynode < topo.gasneti_nodes)
    (hown : ∀ s2 e, (exchangefn s2 e).1[topo.gasneti_mynode]? = some e)
    (hwin : ∀ s2 e, cfg.GASNET_PAGESIZE ∣ e.seginfo.addr → cfg.GASNET_PAGESIZE ∣ e.seginfo.size →
      ∀ x ∈ (exchangefn s2 e).1.take topo.gasneti_nodes,
        cfg.GASNET_PAGESIZE ∣ x.seginfo.addr ∧ cfg.GASNET_PAGESIZE ∣ x.seginfo.size)
    (hlim : localSegmentLimit < wordMod cfg) (hML : cfg.GASNETI_MMAP_LIMIT < wordMod cfg)
    (hfuel : cfg.GASNETI_MMAP_LIMIT < fuel * cfg.GASNET_PAGESIZE) :
    ∃ r, gasneti_segmentInit cfg topo ops pshm sbrk exchangefn fuel s g localSegmentLimit
        = some r ∧
      ∀ s1 g1, r = Res.ok () (s1, g1) →
        cfg.GASNET_PAGESIZE ∣ g1.gasneti_MaxLocalSegmentSize ∧
        cfg.GASNET_PAGESIZE ∣ g1.gasneti_MaxGlobalSegmentSize ∧
        g1.gasneti_MaxGlobalSegmentSize ≤ g1.gasneti_MaxLocalSegmentSize ∧
        g1.gasneti_MaxLocalSegmentSize ≤ gasneti_mmap_aligndown cfg localSegmentLimit ∧
        g1.gasneti_MaxLocalSegmentSize ≤
          (if localSegmentLimit ≠ UINTPTR_MAX cfg then gasneti_mmap_aligndown cfg localSegmentLimit
           else localSegmentLimit) := by
  have hM : 0 < wordMod cfg := Nat.pow_pos (by decide)
  have hUM : UINTPTR_MAX cfg = wordMod cfg - 1 := rfl
  have hPW := hops.2.1
  have hLle : gasneti_mmap_aligndown cfg localSegmentLimit ≤ localSegmentLimit :=
    aligndown_le cfg _
  -- the size handed to the probe
  have hmaxsz : ∃ maxsz,
      (if (if localSegmentLimit ≠ UINTPTR_MAX cfg then gasneti_mmap_aligndown cfg localSegmentLimit
            else localSegmentLimit) = UINTPTR_MAX cfg then cfg.GASNETI_MMAP_LIMIT
        else min (if localSegmentLimit ≠ UINTPTR_MAX cfg then
            gasneti_mmap_aligndown cfg localSegmentLimit else localSegmentLimit)
          cfg.GASNETI_MMAP_LIMIT) = maxsz ∧
      maxsz ≤ cfg.GASNETI_MMAP_LIMIT ∧
      gasneti_mmap_aligndown cfg maxsz ≤ gasneti_mmap_aligndown cfg localSegmentLimit := by
    refine ⟨_, rfl, ?_, ?_⟩
    · split_ifs <;> first | exact Nat.le_refl _ | exact Nat.min_le_right _ _
    · by_cases hl : localSegmentLimit ≠ UINTPTR_MAX cfg
      · rw [if_pos hl]
        have hne : gasneti_mmap_aligndown cfg localSegmentLimit ≠ UINTPTR_MAX cfg := by omega
        rw [if_neg hne]
        exact Nat.le_trans (aligndown_le cfg _) (Nat.min_le_left _ _)
      · rw [if_neg hl, if_pos (not_not.1 hl)]
        exact le_aligndown cfg (aligndown_dvd cfg _)
          (Nat.le_trans (aligndown_le cfg _) (by omega))
  obtain ⟨maxsz, hmz, hmzL, hmzA⟩ := hmaxsz
  have hassert : ∀ v, v ≤ gasneti_mmap_aligndown cfg localSegmentLimit →
      v ≤ (if localSegmentLimit ≠ UINTPTR_MAX cfg then gasneti_mmap_aligndown cfg localSegmentLimit
           else localSegmentLimit) := by
    intro v hv
    split_ifs <;> omega
  unfold gasneti_segmentInit
  dsimp only
  rw [hmz]
  obtain ⟨r0, hr0, hp0⟩ := segment_search_any cfg ops hops fuel s maxsz (by omega) (by omega)
  rw [hr0]
  cases r0 with
  | fatal e s1 => exact ⟨_, rfl, by intro s2 g2 h; cases h⟩
  | fault s1 => exact ⟨_, rfl, by intro s2 g2 h; cases h⟩
  | ok segment s1 =>
    dsimp only
    obtain ⟨hsz, hss, hsa, hsaW⟩ := hp0 segment s1 rfl
    have hsz2 : segment.size ≤ maxsz := Nat.le_trans hsz (aligndown_le cfg _)
    by_cases hb : (sbrk s1).1 = UINTPTR_MAX cfg
    · rw [if_pos hb]
      exact ⟨_, rfl, by intro s2 g2 h; cases h⟩
    · rw [if_neg hb]
      have hmem : (⟨segment, GASNETI_PAGE_ALIGNUP cfg (sbrk s1).1⟩ : gasneti_segexch_t) ∈
          (exchangefn (sbrk s1).2 ⟨segment, GASNETI_PAGE_ALIGNUP cfg (sbrk s1).1⟩).1.take
            topo.gasneti_nodes := by
        have h1 := hown (sbrk s1).2 ⟨segment, GASNETI_PAGE_ALIGNUP cfg (sbrk s1).1⟩
        have h2 : ((exchangefn (sbrk s1).2 ⟨segment, GASNETI_PAGE_ALIGNUP cfg (sbrk s1).1⟩).1.take
            topo.gasneti_nodes)[topo.gasneti_mynode]?
            = some ⟨segment, GASNETI_PAGE_ALIGNUP cfg (sbrk s1).1⟩ := by
          rw [List.getElem?_take_of_lt hnode]
          exact h1
        exact List.getElem?_mem h2
      have hA := segmentInit_sizes_asserts cfg hPW segment _ hsa hss hsaW (by omega)
        (hwin (sbrk s1).2 ⟨segment, GASNETI_PAGE_ALIGNUP cfg (sbrk s1).1⟩ hsa hss)
        ⟨_, hmem, rfl⟩
      obtain ⟨a1, a2, a3, a4⟩ := hA
      have key : ∀ g1 : SegState,
          g1.gasneti_MaxLocalSegmentSize = (gasneti_segmentInit_sizes cfg segment
            (gasneti_segmentInit_stats cfg topo.gasneti_nodes
              (exchangefn (sbrk s1).2 ⟨segment, GASNETI_PAGE_ALIGNUP cfg (sbrk s1).1⟩).1)).1 →
          g1.gasneti_MaxGlobalSegmentSize = (gasneti_segmentInit_sizes cfg segment
            (gasneti_segmentInit_stats cfg topo.gasneti_nodes
              (exchangefn (sbrk s1).2 ⟨segment, GASNETI_PAGE_ALIGNUP cfg (sbrk s1).1⟩).1)).2 →
          cfg.GASNET_PAGESIZE ∣ g1.gasneti_MaxLocalSegmentSize ∧
          cfg.GASNET_PAGESIZE ∣ g1.gasneti_MaxGlobalSegmentSize ∧
          g1.gasneti_MaxGlobalSegmentSize ≤ g1.gasneti_MaxLocalSegmentSize ∧
          g1.gasneti_MaxLocalSegmentSize ≤ gasneti_mmap_aligndown cfg localSegmentLimit ∧
          g1.gasneti_MaxLocalSegmentSize ≤
            (if localSegmentLimit ≠ UINTPTR_MAX cfg then
              gasneti_mmap_aligndown cfg localSegmentLimit
             else localSegmentLimit) := by
        intro g1 e1 e2
        rw [e1, e2]
        unfold gasneti_segmentInit_stats
        have a5 := Nat.le_trans a4 (Nat.le_trans hsz hmzA)
        exact ⟨a1, a2, a3, a5, hassert _ a5⟩
      by_cases hp : cfg.GASNET_PSHM = true
      · rw [if_pos hp]
        refine ⟨_, rfl, ?_⟩
        intro s2 g2 h
        obtain ⟨-, hg⟩ := withStatics_ok _ _ _ _ _ h
        subst hg
        exact key _ rfl rfl
      · rw [if_neg hp]
        refine ⟨_, rfl, ?_⟩
        intro s2 g2 h
        simp only [Res.ok.injEq, Prod.mk.injEq, true_and] at h
        obtain ⟨-, hg⟩ := h
        subst hg
        exact key _ rfl rfl
/-- C28 (witness). Node 0 of a two-node job with aligned segments over the simulated host,
the peer reporting the window [69632, 77824), with `localSegmentLimit` = 16384. -/
theorem C28_segmentInit_asserts_witness :
    ∃ r, gasneti_segmentInit cfgAligned topoTwoHosts
        (gasneti_ops cfgAligned (oracleOS cfgAligned 15000000 65536))
        (soloPshm cfgAligned (oracleOS cfgAligned 15000000 65536))
        (fun s => (40000, s)) (fun s e => ([e, ⟨⟨69632, 8192⟩, 45056⟩], s))
        268435457 (World.init () 1 0) SegState.init 16384 = some r ∧
      ∀ s1 g1, r = Res.ok () (s1, g1) →
        cfgAligned.GASNET_PAGESIZE ∣ g1.gasneti_MaxLocalSegmentSize ∧
        cfgAligned.GASNET_PAGESIZE ∣ g1.gasneti_MaxGlobalSegmentSize ∧
        g1.gasneti_MaxGlobalSegmentSize ≤ g1.gasneti_MaxLocalSegmentSize ∧
        g1.gasneti_MaxLocalSegmentSize ≤ gasneti_mmap_aligndown cfgAligned 16384 ∧
        g1.gasneti_MaxLocalSegmentSize ≤
          (if 16384 ≠ UINTPTR_MAX cfgAligned then gasneti_mmap_aligndown cfgAligned 16384
           else 16384) :=
  C28_segmentInit_asserts cfgAligned topoTwoHosts
    (gasneti_ops cfgAligned (oracleOS cfgAligned 15000000 65536))
    (soloPshm cfgAligned (oracleOS cfgAligned 15000000 65536))
    (fun s => (40000, s)) (fun s e => ([e, ⟨⟨69632, 8192⟩, 45056⟩], s))
    268435457 (World.init () 1 0) SegState.init 16384
    (isOracle_alignedMaps cfgAligned _ 15000000 65536
      (gasneti_ops_isOracle cfgAligned 15000000 65536 rfl (by decide) (by decide) (by decide))
      (by decide) (by decide) (by decide) (by decide) (by decide))
    (by decide) (fun _ _ => rfl)
    (by
      intro s2 e ha hs x hx
      have hx2 : x = e ∨ x = ⟨⟨69632, 8192⟩, 45056⟩ := by
        simpa [topoTwoHosts] using hx
      rcases hx2 with h | h
      · rw [h]
        exact ⟨ha, hs⟩
      · rw [h]
        exact ⟨by decide, by decide⟩)
    (by decide) (by decide) (by decide)

/-! ## The final segment lies in the probe window -/

/-- The loop that finds `minsegstart`: the result is at most the initial value and at
most the start computed for every entry, and it is the initial value or the start
computed for one of the entries. -/
theorem segmentAttach_minsegstart_fold (cfg : Config) :
    ∀ (W : List gasneti_segexch_t) (m0 : Nat),
      W.foldl (fun minsegstart e =>
          let segstart := usub cfg (uadd cfg e.seginfo.addr e.seginfo.size) e.u
          if segstart < minsegstart then segstart else minsegstart) m0 ≤ m0 ∧
      (∀ x ∈ W, W.foldl (fun minsegstart e =>
          let segstart := usub cfg (uadd cfg e.seginfo.addr e.seginfo.size) e.u
          if segstart < minsegstart then segstart else minsegstart) m0
        ≤ usub cfg (uadd cfg x.seginfo.addr x.seginfo.size) x.u) ∧
      (W.foldl (fun minsegstart e =>
          let segstart := usub cfg (uadd cfg e.seginfo.addr e.seginfo.size) e.u
          if segstart < minsegstart then segstart else minsegstart) m0 = m0 ∨
        ∃ x ∈ W, W.foldl (fun minsegstart e =>
          let segstart := usub cfg (uadd cfg e.seginfo.addr e.seginfo.size) e.u
          if segstart < minsegstart then segstart else minsegstart) m0
          = usub cfg (uadd cfg x.seginfo.addr x.seginfo.size) x.u) := by
  intro W
  induction W with
  | nil => intro m0; simp
  | cons e W ih =>
    intro m0
    simp only [List.foldl_cons]
    have h := ih (if usub cfg (uadd cfg e.seginfo.addr e.seginfo.size) e.u < m0 then
      usub cfg (uadd cfg e.seginfo.addr e.seginfo.size) e.u else m0)
    generalize List.foldl (fun minsegstart e =>
          let segstart := usub cfg (uadd cfg e.seginfo.addr e.seginfo.size) e.u
          if segstart < minsegstart then segstart else minsegstart)
      (if usub cfg (uadd cfg e.seginfo.addr e.seginfo.size) e.u < m0 then
        usub cfg (uadd cfg e.seginfo.addr e.seginfo.size) e.u else m0) W = r at h ⊢
    obtain ⟨h1, h2, h3⟩ := h
    refine ⟨?_, ?_, ?_⟩
    · split_ifs at h1 <;> omega
    · intro x hx
      rcases List.mem_cons.1 hx with hxe | hx
      · subst hxe
        split_ifs at h1 <;> omega
      · exact h2 x hx
    · rcases h3 with h3 | ⟨x, hx, hxe⟩
      · split_ifs at h3 with hc
        · exact Or.inr ⟨e, List.mem_cons_self _ _, h3⟩
        · exact Or.inl h3
      · exact Or.inr ⟨x, List.mem_cons_of_mem _ hx, hxe⟩

/-- The heap-collision block keeps a range that lies in the window inside the window:
the range it returns starts no lower than the window and ends no higher. -/
theorem segmentAttach_heapcheck_within (cfg : Config) (seg : gasnet_seginfo_t)
    (topofheap minheapoffset segbase segsize b z : Nat)
    (hnw : seg.addr + seg.size < wordMod cfg)
    (h1 : seg.addr ≤ segbase) (h2 : segbase + segsize ≤ seg.addr + seg.size)
    (h : gasneti_segmentAttach_heapcheck cfg seg topofheap minheapoffset segbase segsize
      = .ok (b, z)) :
    seg.addr ≤ b ∧ b + z ≤ seg.addr + seg.size ∧
    uadd cfg b z ≤ uadd cfg seg.addr seg.size ∧ z ≤ segsize := by
  have hE : uadd cfg seg.addr seg.size = seg.addr + seg.size := uadd_eq cfg hnw
  unfold gasneti_segmentAttach_heapcheck at h
  rw [hE] at h ⊢
  by_cases hc : uadd cfg segbase segsize > topofheap ∧
      uadd cfg topofheap minheapoffset > segbase
  · rw [if_pos hc] at h
    dsimp only at h
    by_cases hf : uadd cfg topofheap minheapoffset ≥ seg.addr + seg.size
    · rw [if_pos hf] at h
      cases h
    · rw [if_neg hf] at h
      generalize uadd cfg topofheap minheapoffset = nb at h hc hf
      rw [usub_eq cfg (by omega) hnw] at h
      simp only [Except.ok.injEq, Prod.mk.injEq] at h
      obtain ⟨hb, hz⟩ := h
      subst hb
      have hz2 : z ≤ seg.addr + seg.size - nb ∧ z ≤ segsize := by
        rw [← hz]
        split_ifs <;> omega
      refine ⟨by omega, by omega, ?_, hz2.2⟩
      rw [uadd_eq cfg (by omega)]
      omega
  · rw [if_neg hc] at h
    simp only [Except.ok.injEq, Prod.mk.injEq] at h
    obtain ⟨hb, hz⟩ := h
    subst hb; subst hz
    refine ⟨h1, h2, ?_, Nat.le_refl _⟩
    rw [uadd_eq cfg (by omega)]
    exact h2

/-- C29. After `gasneti_segmentInit` has set the statics, for a request
`0 < segsize ≤ gasneti_MaxLocalSegmentSize` and a probe window that does not wrap around
the address space, in each placement configuration (aligned or not, high or low segment):
the `segbase` chosen by `gasneti_segmentAttach` satisfies
`gasneti_segment.addr ≤ segbase` and `segbase + segsize ≤ gasneti_segment.addr +
gasneti_segment.size`, and so does the range that the heap-collision block returns, also in
the machine arithmetic of the assertion guarding the trim; with aligned high segments every
`segstart` of the loop is at least `gasneti_maxbase`.  The exchanges are relied on to put
the caller's entry at index `gasneti_mynode`; the second exchange is relied on to deliver
the windows of the first, each with a request that is at most the
`gasneti_MaxLocalSegmentSize` of its node. -/
theorem C29_attach_within_window {σ : Type} (cfg : Config) (topo : Topo) (ops : MapOps σ)
    (pshm : PshmOps σ) (sbrk : σ → Nat × σ)
    (exchangefn : σ → gasneti_segexch_t → List gasneti_segexch_t × σ)
    (fuel : Nat) (s0 s : σ) (g0 g : SegState) (localSegmentLimit segsize : Nat)
    (T1 : List gasneti_segexch_t)
    (exchange_segexch : σ → gasneti_segexch_t → List gasneti_segexch_t × σ)
    (hinit : gasneti_segmentInit cfg topo ops pshm sbrk exchangefn fuel s0 g0 localSegmentLimit
      = some (Res.ok () (s, g)))
    (hnode : topo.gasneti_mynode < topo.gasneti_nodes)
    (hT1 : g.gasneti_segexch = some T1)
    (hown1 : ∃ u, T1[topo.gasneti_mynode]? = some ⟨g.gasneti_segment, u⟩)
    (hnw : g.gasneti_segment.addr + g.gasneti_segment.size < wordMod cfg)
    (hpos : 0 < segsize) (hle : segsize ≤ g.gasneti_MaxLocalSegmentSize)
    (hown2 : (exchange_segexch s ⟨g.gasneti_segment, segsize⟩).1[topo.gasneti_mynode]?
      = some ⟨g.gasneti_segment, segsize⟩)
    (hreq : ∀ x ∈ (exchange_segexch s ⟨g.gasneti_segment, segsize⟩).1.take topo.gasneti_nodes,
      (∃ y ∈ T1.take topo.gasneti_nodes, y.seginfo = x.seginfo) ∧
      x.u ≤ (gasneti_segmentInit_sizes cfg x.seginfo
        (gasneti_segmentInit_stats cfg topo.gasneti_nodes T1)).1) :
    (cfg.GASNET_ALIGNED_SEGMENTS = true →
      ∀ x ∈ (exchange_segexch s ⟨g.gasneti_segment, segsize⟩).1.take topo.gasneti_nodes,
        g.gasneti_maxbase ≤ usub cfg (uadd cfg x.seginfo.addr x.seginfo.size) x.u) ∧
    g.gasneti_segment.addr ≤ (gasneti_segmentAttach_place cfg topo exchange_segexch s g segsize).1.1 ∧
    (gasneti_segmentAttach_place cfg topo exchange_segexch s g segsize).1.1 + segsize
      ≤ g.gasneti_segment.addr + g.gasneti_segment.size ∧
    ∀ minheapoffset b z,
      gasneti_segmentAttach_heapcheck cfg
        (gasneti_segmentAttach_place cfg topo exchange_segexch s g segsize).2.2.gasneti_segment
        (gasneti_segmentAttach_place cfg topo exchange_segexch s g segsize).1.2 minheapoffset
        (gasneti_segmentAttach_place cfg topo exchange_segexch s g segsize).1.1 segsize = .ok (b, z) →
      g.gasneti_segment.addr ≤ b ∧ b + z ≤ g.gasneti_segment.addr + g.gasneti_segment.size ∧
      uadd cfg b z ≤ uadd cfg g.gasneti_segment.addr g.gasneti_segment.size := by
  have hM : 0 < wordMod cfg := Nat.pow_pos (by decide)
  have hUM : UINTPTR_MAX cfg = wordMod cfg - 1 := rfl
  obtain ⟨T, hT, hmb, -, hsz⟩ :=
    segmentInit_statics cfg topo ops pshm sbrk exchangefn fuel s0 s g0 g localSegmentLimit hinit
  rw [hT1] at hT
  have hTT : T = T1 := (Option.some.inj hT).symm
  subst hTT
  obtain ⟨-, -, h3, -, -⟩ := segmentInit_stats_fold cfg (T.take topo.gasneti_nodes)
    ⟨0, 0, UINTPTR_MAX cfg, UINTPTR_MAX cfg, 0⟩
  have hst : gasneti_segmentInit_stats cfg topo.gasneti_nodes T
      = (T.take topo.gasneti_nodes).foldl (gasneti_segmentInit_stats_step cfg)
          ⟨0, 0, UINTPTR_MAX cfg, UINTPTR_MAX cfg, 0⟩ := rfl
  rw [← hst] at h3
  generalize gasneti_segmentInit_stats cfg topo.gasneti_nodes T = st at hmb hsz h3 hreq
  -- the own entry of the first table
  obtain ⟨u, hu⟩ := hown1
  have hmem1 : (⟨g.gasneti_segment, u⟩ : gasneti_segexch_t) ∈ T.take topo.gasneti_nodes := by
    have h2 : (T.take topo.gasneti_nodes)[topo.gasneti_mynode]? = some ⟨g.gasneti_segment, u⟩ := by
      rw [List.getElem?_take_of_lt hnode]
      exact hu
    exact List.getElem?_mem h2
  have hmem2 : (⟨g.gasneti_segment, segsize⟩ : gasneti_segexch_t) ∈
      (exchange_segexch s ⟨g.gasneti_segment, segsize⟩).1.take topo.gasneti_nodes := by
    have h2 : ((exchange_segexch s ⟨g.gasneti_segment, segsize⟩).1.take
        topo.gasneti_nodes)[topo.gasneti_mynode]? = some ⟨g.gasneti_segment, segsize⟩ := by
      rw [List.getElem?_take_of_lt hnode]
      exact hown2
    exact List.getElem?_mem h2
  have hE : uadd cfg g.gasneti_segment.addr g.gasneti_segment.size
      = g.gasneti_segment.addr + g.gasneti_segment.size := uadd_eq cfg hnw
  have ho := h3 _ hmem1
  simp only at ho
  rw [hE] at ho
  obtain ⟨ho1, ho2⟩ := ho
  unfold gasneti_segmentInit_sizes at hsz
  -- the loop assertion
  have hloop : cfg.GASNET_ALIGNED_SEGMENTS = true →
      ∀ x ∈ (exchange_segexch s ⟨g.gasneti_segment, segsize⟩).1.take topo.gasneti_nodes,
        g.gasneti_maxbase ≤ usub cfg (uadd cfg x.seginfo.addr x.seginfo.size) x.u := by
    intro hal x hx
    obtain ⟨⟨y, hy, hyx⟩, hxu⟩ := hreq x hx
    rw [if_pos hal] at hsz
    unfold gasneti_segmentInit_sizes at hxu
    rw [if_pos hal] at hxu
    by_cases hc : st.maxbase ≥ st.minend
    · rw [if_pos hc] at hsz
      simp only [Prod.mk.injEq] at hsz
      omega
    · rw [if_neg hc] at hxu
      have hy3 := (h3 y hy).2
      rw [hyx] at hy3
      have hxW : uadd cfg x.seginfo.addr x.seginfo.size < wordMod cfg := Nat.mod_lt _ hM
      generalize uadd cfg x.seginfo.addr x.seginfo.size = Ex at hy3 hxW hxu ⊢
      dsimp only at hxu
      rw [usub_eq cfg (by omega) hxW] at hxu
      rw [usub_eq cfg (by omega) hxW, hmb]
      omega
  have hplace : g.gasneti_segment.addr
        ≤ (gasneti_segmentAttach_place cfg topo exchange_segexch s g segsize).1.1 ∧
      (gasneti_segmentAttach_place cfg topo exchange_segexch s g segsize).1.1 + segsize
        ≤ g.gasneti_segment.addr + g.gasneti_segment.size ∧
      (gasneti_segmentAttach_place cfg topo exchange_segexch s g segsize).2.2.gasneti_segment
        = g.gasneti_segment := by
    unfold gasneti_segmentAttach_place
    by_cases hal : cfg.GASNET_ALIGNED_SEGMENTS = true
    · rw [if_pos hal] at hsz ⊢
      have hlt : ¬ st.maxbase ≥ st.minend := by
        intro hc
        rw [if_pos hc] at hsz
        simp only [Prod.mk.injEq] at hsz
        omega
      rw [if_neg hlt, hE] at hsz
      simp only [Prod.mk.injEq] at hsz
      have hML : g.gasneti_MaxLocalSegmentSize
          = g.gasneti_segment.addr + g.gasneti_segment.size - st.maxbase := by
        rw [hsz.1]
        exact usub_eq cfg (by omega) hnw
      by_cases hhi : cfg.GASNETI_USE_HIGHSEGMENT = true
      · rw [if_pos hhi]
        dsimp only
        unfold gasneti_segmentAttach_minsegstart
        obtain ⟨-, f2, f3⟩ := segmentAttach_minsegstart_fold cfg
          ((exchange_segexch s ⟨g.gasneti_segment, segsize⟩).1.take topo.gasneti_nodes)
          (UINTPTR_MAX cfg)
        have f4 := f2 _ hmem2
        dsimp only at f4
        rw [hE, usub_eq cfg (by omega) hnw] at f4
        have f5 := hloop hal
        generalize List.foldl (fun minsegstart e =>
          let segstart := usub cfg (uadd cfg e.seginfo.addr e.seginfo.size) e.u
          if segstart < minsegstart then segstart else minsegstart) (UINTPTR_MAX cfg)
          ((exchange_segexch s ⟨g.gasneti_segment, segsize⟩).1.take topo.gasneti_nodes) = m
          at f3 f4 ⊢
        refine ⟨?_, by omega, rfl⟩
        rcases f3 with f3 | ⟨x, hx, hxe⟩
        · omega
        · have := f5 x hx
          omega
      · rw [if_neg hhi]
        dsimp only
        rw [hmb]
        exact ⟨ho1, by omega, rfl⟩
    · rw [if_neg hal] at hsz ⊢
      simp only [Prod.mk.injEq] at hsz
      by_cases hhi : cfg.GASNETI_USE_HIGHSEGMENT = true
      · rw [if_pos hhi]
        dsimp only
        rw [hE, usub_eq cfg (by omega) hnw]
        exact ⟨by omega, by omega, rfl⟩
      · rw [if_neg hhi]
        dsimp only
        exact ⟨Nat.le_refl _, by omega, rfl⟩
  obtain ⟨p1, p2, p3⟩ := hplace
  refine ⟨hloop, p1, p2, ?_⟩
  intro minheapoffset b z h
  rw [p3] at h
  obtain ⟨q1, q2, q3, -⟩ := segmentAttach_heapcheck_within cfg g.gasneti_segment _
    minheapoffset _ segsize b z hnw p1 p2 h
  exact ⟨q1, q2, q3⟩

/-- C29 (witness). Node 0 of a two-node job with aligned high segments: after
`gasneti_segmentInit` the window is [65536, 81920), `gasneti_maxbase` is 69632 and
`gasneti_MaxLocalSegmentSize` is 12288; the node requests 8192 bytes and its peer, whose
window is [69632, 77824), requests 4096, so that `segbase` is 73728. -/
theorem C29_attach_within_window_witness :
    (cfgAligned.GASNET_ALIGNED_SEGMENTS = true →
      ∀ x ∈ ([⟨⟨65536, 16384⟩, 8192⟩, ⟨⟨69632, 8192⟩, 4096⟩] : List gasneti_segexch_t).take 2,
        69632 ≤ usub cfgAligned (uadd cfgAligned x.seginfo.addr x.seginfo.size) x.u) ∧
    65536 ≤ (gasneti_segmentAttach_place cfgAligned topoTwoHosts
      (fun (s : World Unit) e => ([e, ⟨⟨69632, 8192⟩, 4096⟩], s)) (World.init () 1 0)
      { SegState.init with
        gasneti_segment := ⟨65536, 16384⟩
        gasneti_myheapend := 40960
        gasneti_maxheapend := 45056
        gasneti_maxbase := 69632
        gasneti_segexch := some [⟨⟨65536, 16384⟩, 40960⟩, ⟨⟨69632, 8192⟩, 45056⟩]
        gasneti_MaxLocalSegmentSize := 12288
        gasneti_MaxGlobalSegmentSize := 8192 } 8192).1.1 ∧
    (gasneti_segmentAttach_place cfgAligned topoTwoHosts
      (fun (s : World Unit) e => ([e, ⟨⟨69632, 8192⟩, 4096⟩], s)) (World.init () 1 0)
      { SegState.init with
        gasneti_segment := ⟨65536, 16384⟩
        gasneti_myheapend := 40960
        gasneti_maxheapend := 45056
        gasneti_maxbase := 69632
        gasneti_segexch := some [⟨⟨65536, 16384⟩, 40960⟩, ⟨⟨69632, 8192⟩, 45056⟩]
        gasneti_MaxLocalSegmentSize := 12288
        gasneti_MaxGlobalSegmentSize := 8192 } 8192).1.1 + 8192 ≤ 65536 + 16384 ∧
    ∀ minheapoffset b z,
      gasneti_segmentAttach_heapcheck cfgAligned ⟨65536, 16384⟩ 45056 minheapoffset
        73728 8192 = .ok (b, z) →
      65536 ≤ b ∧ b + z ≤ 65536 + 16384 ∧ uadd cfgAligned b z ≤ uadd cfgAligned 65536 16384 :=
  C29_attach_within_window cfgAligned topoTwoHosts
    (gasneti_ops cfgAligned (oracleOS cfgAligned 15000000 65536))
    (soloPshm cfgAligned (oracleOS cfgAligned 15000000 65536))
    (fun s => (40000, s)) (fun s e => ([e, ⟨⟨69632, 8192⟩, 45056⟩], s))
    4097 (World.init () 1 0) (World.init () 1 0) SegState.init
    { SegState.init with
      gasneti_segment := ⟨65536, 16384⟩
      gasneti_myheapend := 40960
      gasneti_maxheapend := 45056
      gasneti_maxbase := 69632
      gasneti_segexch := some [⟨⟨65536, 16384⟩, 40960⟩, ⟨⟨69632, 8192⟩, 45056⟩]
      gasneti_MaxLocalSegmentSize := 12288
      gasneti_MaxGlobalSegmentSize := 8192 }
    16384 8192 [⟨⟨65536, 16384⟩, 40960⟩, ⟨⟨69632, 8192⟩, 45056⟩]
    (fun s e => ([e, ⟨⟨69632, 8192⟩, 4096⟩], s))
    rfl (by decide) rfl ⟨40960, rfl⟩ (by decide) (by decide) (by decide) rfl
    (by decide)

/-! ## Bounded retry of a fixed mapping -/

/-- Doubling the pause and capping it at 20 ms gives the pause of the next retry. -/
theorem retry_delay_succ (k : Nat) :
    min 20000000 (retry_delay (k + 1) * 2) = retry_delay (k + 2) := by
  unfold retry_delay
  have h1 : k + 1 - 1 = k := rfl
  have h2 : k + 2 - 1 = k + 1 := rfl
  rw [h1, h2, pow_succ]
  generalize 2 ^ k = x
  by_cases h : 1000 * x ≤ 20000000
  · rw [Nat.min_eq_right h]
    congr 1
    ring
  · have e1 : min 20000000 (1000 * x) = 20000000 := Nat.min_eq_left (by omega)
    have e2 : min 20000000 (1000 * (x * 2)) = 20000000 := Nat.min_eq_left (by omega)
    rw [e1, e2]
    rfl

/-- The `while` loop followed by the final test is the schedule of attempts. -/
theorem retry_loop_spec {σ : Type} (cfg : Config) (os : OS σ) (segbase segsize : Nat) :
    ∀ (left k : Nat) (w : World σ) (ptr : Nat),
      (match gasneti_mmap_fixed_retry_loop cfg os segbase segsize left w ptr
          (retry_delay (k + 1)) with
        | .fatal e w2 => .fatal e w2
        | .fault w2 => .fault w2
        | .ok ptr1 w2 =>
          if ptr1 = MAP_FAILED cfg then
            if cfg.GASNET_PSHM = true then cleanup_then_fatal cfg w2 Fatal.mmap_fixed_failed
            else .fatal Fatal.mmap_fixed_failed w2
          else .ok ptr1 w2)
      = gasneti_mmap_fixed_with_retry_spec cfg os segbase segsize left k w ptr := by
  intro left
  induction left with
  | zero =>
    intro k w ptr
    rw [gasneti_mmap_fixed_retry_loop, gasneti_mmap_fixed_with_retry_spec]
    unfold gasneti_mmap_fixed_giveup
    by_cases h : ptr = MAP_FAILED cfg
    · simp [h]
    · simp [h]
  | succ n ih =>
    intro k w ptr
    rw [gasneti_mmap_fixed_retry_loop, gasneti_mmap_fixed_with_retry_spec]
    by_cases h : ptr = MAP_FAILED cfg
    · by_cases he : w.errno = ENOMEM
      · rw [if_pos ⟨h, he⟩, if_neg (not_not.2 h), if_neg (not_not.2 he)]
        dsimp only
        cases hm : gasneti_do_mmap_fixed_once cfg os
            { w with os := os.nsleep w.os (retry_delay (k + 1)) } segbase segsize with
        | fatal e w2 => rfl
        | fault w2 => rfl
        | ok ptr1 w2 =>
          dsimp only
          rw [retry_delay_succ]
          exact ih (k + 1) w2 ptr1
      · rw [if_neg (fun hc => he hc.2), if_neg (not_not.2 h), if_pos he]
        unfold gasneti_mmap_fixed_giveup
        simp [h]
    · rw [if_neg (fun hc => h hc.1), if_pos h]
      simp [h]

set_option maxRecDepth 100000 in
/-- On a host that refuses every mapping with `ENOMEM` the call is fatal, and the log of
the host shows 101 attempts with the 100 pauses between them. -/
theorem retry_refusing_run :
    (gasneti_mmap_fixed_with_retry cfgRetry (refusingOS cfgRetry) (World.init [] 1 0)
        65536 4096).isFatal = true ∧
    (gasneti_mmap_fixed_with_retry cfgRetry (refusingOS cfgRetry) (World.init [] 1 0)
        65536 4096).state.os.reverse
      = 0 :: ((List.range 100).map (fun k => [retry_delay (k + 1), 0])).flatten := by
  decide

/-- C24. The function `gasneti_mmap_fixed_with_retry` is the schedule of attempts of the
claim: after the first attempt it makes at most 100 retries, each only after a failure with
`ENOMEM` and after a pause of `min(20 ms, 1 us * 2^(k-1))` before retry `k`; a mapped
address is returned at once; a failure with another `errno` or after the last retry is
fatal; so a normal return never gives `MAP_FAILED`.  On a host that refuses every mapping
with `ENOMEM` the call is fatal after 101 attempts and 100 pauses of the stated lengths. -/
theorem C24_bounded_retry {σ : Type} (cfg : Config) (os : OS σ) (w : World σ)
    (segbase segsize : Nat) :
    gasneti_mmap_fixed_with_retry cfg os w segbase segsize
      = (match gasneti_do_mmap_fixed_once cfg os w segbase segsize with
        | .fatal e w1 => .fatal e w1
        | .fault w1 => .fault w1
        | .ok ptr0 w1 => gasneti_mmap_fixed_with_retry_spec cfg os segbase segsize 100 0 w1 ptr0) ∧
    (∀ ptr w1, gasneti_mmap_fixed_with_retry cfg os w segbase segsize = Res.ok ptr w1 →
      ptr ≠ MAP_FAILED cfg) ∧
    (∀ ptr0 w1, gasneti_do_mmap_fixed_once cfg os w segbase segsize = Res.ok ptr0 w1 →
      ptr0 ≠ MAP_FAILED cfg →
      gasneti_mmap_fixed_with_retry cfg os w segbase segsize = Res.ok ptr0 w1) ∧
    (gasneti_mmap_fixed_with_retry cfgRetry (refusingOS cfgRetry) (World.init [] 1 0)
        65536 4096).isFatal = true ∧
    (gasneti_mmap_fixed_with_retry cfgRetry (refusingOS cfgRetry) (World.init [] 1 0)
        65536 4096).state.os.reverse
      = 0 :: ((List.range 100).map (fun k => [retry_delay (k + 1), 0])).flatten := by
  refine ⟨?_, ?_, ?_, ?_, ?_⟩
  · unfold gasneti_mmap_fixed_with_retry
    cases h : gasneti_do_mmap_fixed_once cfg os w segbase segsize with
    | fatal e w1 => rfl
    | fault w1 => rfl
    | ok ptr0 w1 =>
      dsimp only
      exact retry_loop_spec cfg os segbase segsize 100 0 w1 ptr0
  · intro ptr w1 h
    unfold gasneti_mmap_fixed_with_retry at h
    split at h
    · cases h
    · cases h
    · split at h
      · cases h
      · cases h
      · split_ifs at h with h1 h2
        · unfold cleanup_then_fatal at h
          split at h <;> cases h
        · injection h with h3 h4
          rw [← h3]
          exact h1
  · intro ptr0 w1 h hne
    unfold gasneti_mmap_fixed_with_retry
    rw [h]
    dsimp only
    rw [gasneti_mmap_fixed_retry_loop, if_neg (fun hc => hne hc.1)]
    dsimp only
    rw [if_neg hne]
  · exact retry_refusing_run.1
  · exact retry_refusing_run.2

/-! ## The shrink loop is bounded -/

/-- The first `for` loop of a pass, for any probe that ends and respects `size ≤ maxsz`:
it ends, the sum is at most the number of entries times `maxsz`, and strictly less when
`done` was cleared. -/
theorem mmapLimit_shrink_probe_bounded {σ : Type} (cfg : Config) (topo : Topo) (ops : MapOps σ)
    (pshm : PshmOps σ) (fuel maxsz : Nat)
    (hprobe : ∀ s, ∃ r, _gasneti_mmap_segment_search_inner cfg ops fuel s maxsz = some r ∧
      ∀ se s1, r = Res.ok se s1 → se.size ≤ maxsz) :
    ∀ (rest acc : List gasnet_seginfo_t) (s : σ) (sum : Nat) (done : Bool),
      ∃ r, gasneti_mmapLimit_shrink_probe cfg topo ops pshm fuel maxsz acc rest s sum done
          = some r ∧
        ∀ tmp sum1 done1 s1, r = Res.ok (tmp, sum1, done1) s1 →
          tmp.length = acc.length + rest.length ∧
          sum1 ≤ sum + rest.length * maxsz ∧
          (done1 = false → done = true → sum1 < sum + rest.length * maxsz) := by
  intro rest
  induction rest with
  | nil =>
    intro acc s sum done
    refine ⟨_, rfl, ?_⟩
    intro tmp sum1 done1 s1 h
    simp only [Res.ok.injEq, Prod.mk.injEq] at h
    obtain ⟨⟨h1, h2, h3⟩, -⟩ := h
    subst h1; subst h2; subst h3
    refine ⟨by simp, by simp, ?_⟩
    intro hf ht
    rw [hf] at ht
    cases ht
  | cons old rest ih =>
    intro acc s sum done
    rw [gasneti_mmapLimit_shrink_probe]
    obtain ⟨r, hr, hprop⟩ := hprobe s
    rw [hr]
    have hmul : (rest.length + 1) * maxsz = rest.length * maxsz + maxsz := Nat.succ_mul _ _
    cases r with
    | fatal e s2 => exact ⟨_, rfl, by intro _ _ _ _ h; cases h⟩
    | fault s2 => exact ⟨_, rfl, by intro _ _ _ _ h; cases h⟩
    | ok se s1 =>
      have hle := hprop se s1 rfl
      have hmod : (sum + se.size) % 2 ^ 64 ≤ sum + se.size := Nat.mod_le _ _
      dsimp only
      cases hu : pshm.gasneti_pshm_unlink s1 topo.gasneti_pshm_mynode with
      | fatal e s2 => exact ⟨_, rfl, by intro _ _ _ _ h; cases h⟩
      | fault s2 => exact ⟨_, rfl, by intro _ _ _ _ h; cases h⟩
      | ok u s2 =>
        dsimp only
        by_cases hne : se.size ≠ maxsz
        · rw [if_pos hne]
          by_cases hg : se.size < cfg.GASNETI_MMAP_GRANULARITY
          · rw [if_pos hg]
            refine ⟨_, rfl, ?_⟩
            intro tmp sum1 done1 s3 h
            simp only [Res.ok.injEq, Prod.mk.injEq] at h
            obtain ⟨⟨h1, h2, h3⟩, -⟩ := h
            subst h1; subst h2; subst h3
            rw [List.length_cons, hmul]
            refine ⟨by simp, by omega, fun _ _ => by omega⟩
          · rw [if_neg hg]
            obtain ⟨r1, hr1, hp1⟩ := ih (acc ++ [se]) s2 ((sum + se.size) % 2 ^ 64) false
            refine ⟨r1, hr1, ?_⟩
            intro tmp sum1 done1 s3 h
            obtain ⟨h1, h2, -⟩ := hp1 tmp sum1 done1 s3 h
            rw [List.length_cons, hmul]
            rw [List.length_append, List.length_singleton] at h1
            refine ⟨by omega, by omega, fun _ _ => by omega⟩
        · rw [if_neg hne]
          have heq : se.size = maxsz := not_not.mp hne
          obtain ⟨r1, hr1, hp1⟩ := ih (acc ++ [se]) s2 ((sum + se.size) % 2 ^ 64) done
          refine ⟨r1, hr1, ?_⟩
          intro tmp sum1 done1 s3 h
          obtain ⟨h1, h2, h3⟩ := hp1 tmp sum1 done1 s3 h
          rw [List.length_cons, hmul]
          rw [List.length_append, List.length_singleton] at h1
          refine ⟨by omega, by omega, fun hf ht => ?_⟩
          have := h3 hf ht
          omega

/-- The `do`/`while (!done)` loop, for any probe that ends and respects `size ≤ maxsz` on
the aligned candidates up to `maxsz0`: it ends within one pass per page of the candidate
plus one, and a value it returns is a page multiple that is at most the candidate. -/
theorem mmapLimit_shrink_bounded {σ : Type} (cfg : Config) (topo : Topo) (ops : MapOps σ)
    (pshm : PshmOps σ) (fuel maxsz0 : Nat)
    (hprobe : ∀ s m, cfg.GASNET_PAGESIZE ∣ m → m ≤ maxsz0 →
      ∃ r, _gasneti_mmap_segment_search_inner cfg ops fuel s m = some r ∧
        ∀ se s1, r = Res.ok se s1 → se.size ≤ m) :
    ∀ (passes : Nat) (s : σ) (tmp_se : List gasnet_seginfo_t) (maxsz : Nat),
      cfg.GASNET_PAGESIZE ∣ maxsz → maxsz ≤ maxsz0 →
      maxsz < passes * cfg.GASNET_PAGESIZE →
      tmp_se.length = topo.gasneti_pshm_nodes →
      ∃ r, gasneti_mmapLimit_shrink cfg topo ops pshm fuel passes s tmp_se maxsz = some r ∧
        ∀ v s1, r = Res.ok v s1 → v ≤ maxsz ∧ cfg.GASNET_PAGESIZE ∣ v := by
  intro passes
  induction passes with
  | zero =>
    intro s tmp_se maxsz _ _ h
    simp at h
  | succ n ih =>
    intro s tmp_se maxsz hmax hW hpass hlen
    rw [gasneti_mmapLimit_shrink]
    obtain ⟨r, hr, hprop⟩ := mmapLimit_shrink_probe_bounded cfg topo ops pshm fuel maxsz
      (fun s2 => hprobe s2 maxsz hmax hW) tmp_se [] s 0 true
    rw [hr]
    cases r with
    | fatal e s2 => exact ⟨_, rfl, by intro _ _ h; cases h⟩
    | fault s2 => exact ⟨_, rfl, by intro _ _ h; cases h⟩
    | ok res s1 =>
      obtain ⟨tmp1, sum, done⟩ := res
      obtain ⟨h1, h2, h3⟩ := hprop tmp1 sum done s1 rfl
      dsimp only
      cases hu : gasneti_mmapLimit_shrink_unmap ops [] tmp1 s1 with
      | fatal e s2 => exact ⟨_, rfl, by intro _ _ h; cases h⟩
      | fault s2 => exact ⟨_, rfl, by intro _ _ h; cases h⟩
      | ok tmp2 s2 =>
        dsimp only
        have hl2 := mmapLimit_shrink_unmap_length ops tmp1 [] s1 s2 tmp2 hu
        by_cases hn0 : topo.gasneti_pshm_nodes = 0
        · rw [if_pos hn0]
          exact ⟨_, rfl, by intro _ _ h; cases h⟩
        · rw [if_neg hn0]
          rw [hlen, Nat.zero_add] at h2 h3
          have hdiv : sum / topo.gasneti_pshm_nodes ≤ maxsz := Nat.div_le_of_le_mul h2
          have hmodle : (sum / topo.gasneti_pshm_nodes) % wordMod cfg
              ≤ sum / topo.gasneti_pshm_nodes := Nat.mod_le _ _
          have hal := aligndown_le cfg ((sum / topo.gasneti_pshm_nodes) % wordMod cfg)
          have hdv := aligndown_dvd cfg ((sum / topo.gasneti_pshm_nodes) % wordMod cfg)
          by_cases hd : done = true
          · rw [if_pos hd]
            refine ⟨_, rfl, ?_⟩
            intro v s3 h
            injection h with h4 h5
            subst h4
            unfold gasneti_mmap_aligndown
            exact ⟨by omega, hdv⟩
          · rw [if_neg hd]
            have hdf : done = false := by simpa using hd
            have hlt : sum / topo.gasneti_pshm_nodes < maxsz :=
              Nat.div_lt_of_lt_mul (h3 hdf rfl)
            have hstep := aligned_add_le hdv hmax
              (show GASNETI_PAGE_ALIGNDOWN cfg ((sum / topo.gasneti_pshm_nodes) % wordMod cfg)
                < maxsz by omega)
            have hmul : (n + 1) * cfg.GASNET_PAGESIZE = n * cfg.GASNET_PAGESIZE
                + cfg.GASNET_PAGESIZE := Nat.succ_mul _ _
            obtain ⟨r2, hr2, hp2⟩ := ih s2
              tmp2 (gasneti_mmap_aligndown cfg
                ((sum / topo.gasneti_pshm_nodes) % wordMod cfg))
              hdv (by unfold gasneti_mmap_aligndown; omega)
              (by unfold gasneti_mmap_aligndown; omega)
              (by rw [hl2, h1, hlen]; simp)
            refine ⟨r2, hr2, ?_⟩
            intro v s3 h
            obtain ⟨h6, h7⟩ := hp2 v s3 h
            unfold gasneti_mmap_aligndown at h6
            exact ⟨by omega, h7⟩

/-- C25. For every probe that ends and respects `size ≤ maxsz` on the page-aligned
candidates up to the candidate `maxsz0` on entry, the `do`/`while (!done)` loop of
`gasneti_mmapLimit` ends within `maxsz0 / pagesize + 1` passes, returning a page multiple
that is at most `maxsz0`; a pass that leaves `done` cleared, that is a pass which is not
the last, lowers the page-aligned candidate by at least one page; and with a candidate of
0 the loop ends in its first pass. -/
theorem C25_shrink_bounded {σ : Type} (cfg : Config) (topo : Topo) (ops : MapOps σ)
    (pshm : PshmOps σ) (fuel maxsz0 : Nat) (s : σ) (tmp_se : List gasnet_seginfo_t)
    (hP : 0 < cfg.GASNET_PAGESIZE) (hmax : cfg.GASNET_PAGESIZE ∣ maxsz0)
    (hprobe : ∀ s m, cfg.GASNET_PAGESIZE ∣ m → m ≤ maxsz0 →
      ∃ r, _gasneti_mmap_segment_search_inner cfg ops fuel s m = some r ∧
        ∀ se s1, r = Res.ok se s1 → se.size ≤ m)
    (hlen : tmp_se.length = topo.gasneti_pshm_nodes) :
    (∃ r, gasneti_mmapLimit_shrink cfg topo ops pshm fuel (maxsz0 / cfg.GASNET_PAGESIZE + 1)
        s tmp_se maxsz0 = some r ∧
      ∀ v s1, r = Res.ok v s1 → v ≤ maxsz0 ∧ cfg.GASNET_PAGESIZE ∣ v) ∧
    (∀ s2 tmp m tmp1 sum s1, cfg.GASNET_PAGESIZE ∣ m → m ≤ maxsz0 →
      tmp.length = topo.gasneti_pshm_nodes → topo.gasneti_pshm_nodes ≠ 0 →
      gasneti_mmapLimit_shrink_probe cfg topo ops pshm fuel m [] tmp s2 0 true
        = some (Res.ok (tmp1, sum, false) s1) →
      gasneti_mmap_aligndown cfg ((sum / topo.gasneti_pshm_nodes) % wordMod cfg)
        + cfg.GASNET_PAGESIZE ≤ m) ∧
    (∃ r, gasneti_mmapLimit_shrink cfg topo ops pshm fuel 1 s tmp_se 0 = some r) := by
  refine ⟨?_, ?_, ?_⟩
  · have hpass : maxsz0 < (maxsz0 / cfg.GASNET_PAGESIZE + 1) * cfg.GASNET_PAGESIZE := by
      have h1 := Nat.div_add_mod maxsz0 cfg.GASNET_PAGESIZE
      have h2 := Nat.mod_lt maxsz0 hP
      have h3 : (maxsz0 / cfg.GASNET_PAGESIZE + 1) * cfg.GASNET_PAGESIZE
          = cfg.GASNET_PAGESIZE * (maxsz0 / cfg.GASNET_PAGESIZE) + cfg.GASNET_PAGESIZE := by
        ring
      omega
    exact mmapLimit_shrink_bounded cfg topo ops pshm fuel maxsz0 hprobe _ s tmp_se maxsz0 hmax
      (Nat.le_refl _) hpass hlen
  · intro s2 tmp m tmp1 sum s1 hm hle hl hn0 h
    obtain ⟨r, hr, hp⟩ := mmapLimit_shrink_probe_bounded cfg topo ops pshm fuel m
      (fun s3 => hprobe s3 m hm hle) tmp [] s2 0 true
    rw [h] at hr
    have hr2 := (Option.some.inj hr).symm
    obtain ⟨-, -, h3⟩ := hp tmp1 sum false s1 hr2
    have h4 := h3 rfl rfl
    rw [hl, Nat.zero_add] at h4
    have hlt : sum / topo.gasneti_pshm_nodes < m := Nat.div_lt_of_lt_mul h4
    have hmodle : (sum / topo.gasneti_pshm_nodes) % wordMod cfg
        ≤ sum / topo.gasneti_pshm_nodes := Nat.mod_le _ _
    have hal := aligndown_le cfg ((sum / topo.gasneti_pshm_nodes) % wordMod cfg)
    have hdv := aligndown_dvd cfg ((sum / topo.gasneti_pshm_nodes) % wordMod cfg)
    unfold gasneti_mmap_aligndown
    exact aligned_add_le hdv hm (by omega)
  · obtain ⟨r, hr, -⟩ := mmapLimit_shrink_bounded cfg topo ops pshm fuel maxsz0 hprobe 1 s
      tmp_se 0 (dvd_zero _) (Nat.zero_le _) (by omega) hlen
    exact ⟨r, hr⟩

/-- C25 (witness). Local rank 0 of two processes on one supernode, over the simulated
process that grants mappings of at most 15000000 bytes, entering the loop with a candidate
of 100 pages: 101 passes are enough. -/
theorem C25_shrink_bounded_witness :
    (∃ r, gasneti_mmapLimit_shrink cfgPshm topoOneHost (liveOps cfgPshm 15000000 65536)
        (livePshm 65536) 101 (409600 / cfgPshm.GASNET_PAGESIZE + 1) 0 [⟨0, 0⟩, ⟨0, 0⟩] 409600
        = some r ∧
      ∀ v s1, r = Res.ok v s1 → v ≤ 409600 ∧ cfgPshm.GASNET_PAGESIZE ∣ v) ∧
    (∀ s2 tmp m tmp1 sum s1, cfgPshm.GASNET_PAGESIZE ∣ m → m ≤ 409600 →
      tmp.length = topoOneHost.gasneti_pshm_nodes → topoOneHost.gasneti_pshm_nodes ≠ 0 →
      gasneti_mmapLimit_shrink_probe cfgPshm topoOneHost (liveOps cfgPshm 15000000 65536)
          (livePshm 65536) 101 m [] tmp s2 0 true
        = some (Res.ok (tmp1, sum, false) s1) →
      gasneti_mmap_aligndown cfgPshm ((sum / topoOneHost.gasneti_pshm_nodes) % wordMod cfgPshm)
        + cfgPshm.GASNET_PAGESIZE ≤ m) ∧
    (∃ r, gasneti_mmapLimit_shrink cfgPshm topoOneHost (liveOps cfgPshm 15000000 65536)
        (livePshm 65536) 101 1 0 [⟨0, 0⟩, ⟨0, 0⟩] 0 = some r) :=
  C25_shrink_bounded cfgPshm topoOneHost (liveOps cfgPshm 15000000 65536) (livePshm 65536)
    101 409600 0 [⟨0, 0⟩, ⟨0, 0⟩] (by decide) (by decide)
    (by
      intro s m hm hle
      have hW : (409600 : Nat) < wordMod cfgPshm := by decide
      have hF : (409600 : Nat) < 101 * cfgPshm.GASNET_PAGESIZE := by decide
      obtain ⟨r, hr, hp⟩ := search_inner_any cfgPshm (liveOps cfgPshm 15000000 65536)
        (liveModel_aligned cfgPshm _ (fun s => s) (by decide) (by decide) (by decide)
          (liveOps_model cfgPshm 15000000 65536 (by decide) (by decide) (by decide)
            (by decide)))
        101 s m hm (by omega) (by omega)
      exact ⟨r, hr, fun se s1 h => (hp se s1 h).1⟩)
    rfl

/-! ## The size of the auxseg -/

/-- Rounding up to the page size gives a multiple of the page size. -/
theorem page_alignup_dvd (cfg : Config) (x : Nat) :
    cfg.GASNET_PAGESIZE ∣ GASNETI_PAGE_ALIGNUP cfg x := by
  unfold GASNETI_PAGE_ALIGNUP
  exact aligndown_dvd cfg _

/-- Writing an entry does not change the entries before it. -/
theorem take_set_self {α : Type} (l : List α) (i : Nat) (a : α) :
    (l.set i a).take i = l.take i := by
  rw [List.set_take]
  exact List.set_eq_of_length_le (by simp)

/-- The loop "collect requests": the totals grow by the answers rounded up to the cache
line, the answers are stored from index `i` on, the requesters are asked once each in
order, and `gasneti_auxseg_sz` is left alone. -/
theorem auxseg_preinit_loop_spec {ρ : Type} (cfg : Config) :
    ∀ (fns : List (gasneti_auxsegregfn_t ρ)) (i : Nat) (r : ρ) (g : AuxState),
      (gasneti_auxseg_preinit_loop cfg fns i r g).1 = auxseg_asked fns r ∧
      (gasneti_auxseg_preinit_loop cfg fns i r g).2.gasneti_auxseg_total_alignedsz.optimalsz
        = (auxseg_answers fns r).foldl (fun t q =>
            uadd cfg t (GASNETI_ALIGNUP cfg q.optimalsz cfg.GASNETI_CACHE_LINE_BYTES))
          g.gasneti_auxseg_total_alignedsz.optimalsz ∧
      (gasneti_auxseg_preinit_loop cfg fns i r g).2.gasneti_auxseg_total_alignedsz.minsz
        = (auxseg_answers fns r).foldl (fun t q =>
            uadd cfg t (GASNETI_ALIGNUP cfg q.minsz cfg.GASNETI_CACHE_LINE_BYTES))
          g.gasneti_auxseg_total_alignedsz.minsz ∧
      (gasneti_auxseg_preinit_loop cfg fns i r g).2.queried
        = g.queried ++ List.range' i fns.length ∧
      (gasneti_auxseg_preinit_loop cfg fns i r g).2.gasneti_auxseg_sz = g.gasneti_auxseg_sz ∧
      (∀ arr, g.gasneti_auxseg_alignedsz = some arr → arr.length = i + fns.length →
        (gasneti_auxseg_preinit_loop cfg fns i r g).2.gasneti_auxseg_alignedsz
          = some (arr.take i ++ auxseg_answers fns r)) ∧
      (g.gasneti_auxseg_alignedsz = none →
        (gasneti_auxseg_preinit_loop cfg fns i r g).2.gasneti_auxseg_alignedsz = none) ∧
      (gasneti_auxseg_preinit_loop cfg fns i r g).2.gasneti_auxseg_client_request_sz
        = g.gasneti_auxseg_client_request_sz ∧
      (gasneti_auxseg_preinit_loop cfg fns i r g).2.gasneti_seginfo_client
        = g.gasneti_seginfo_client ∧
      (gasneti_auxseg_preinit_loop cfg fns i r g).2.gasneti_seginfo_ub = g.gasneti_seginfo_ub ∧
      (gasneti_auxseg_preinit_loop cfg fns i r g).2.gasneti_seginfo_client_ub
        = g.gasneti_seginfo_client_ub ∧
      (gasneti_auxseg_preinit_loop cfg fns i r g).2.granted = g.granted := by
  intro fns
  induction fns with
  | nil =>
    intro i r g
    simp only [gasneti_auxseg_preinit_loop, auxseg_asked, auxseg_answers, List.foldl_nil,
      List.length_nil, List.range'_zero, List.append_nil, Nat.add_zero, true_and, implies_true,
      and_true]
    refine ⟨?_, fun h => h⟩
    intro arr harr hlen
    rw [harr, List.take_of_length_le (by omega)]
  | cons f rest ih =>
    intro i r g
    rw [gasneti_auxseg_preinit_loop]
    obtain ⟨h1, h2, h3, h4, h5, h6, h7, h8, h9, h10, h11, h12⟩ := ih (i + 1) (f none r).2
      { g with
        gasneti_auxseg_alignedsz := g.gasneti_auxseg_alignedsz.map (fun a => a.set i (f none r).1)
        gasneti_auxseg_total_alignedsz :=
          ⟨uadd cfg g.gasneti_auxseg_total_alignedsz.minsz
              (GASNETI_ALIGNUP cfg (f none r).1.minsz cfg.GASNETI_CACHE_LINE_BYTES),
            uadd cfg g.gasneti_auxseg_total_alignedsz.optimalsz
              (GASNETI_ALIGNUP cfg (f none r).1.optimalsz cfg.GASNETI_CACHE_LINE_BYTES)⟩
        queried := g.queried ++ [i] }
    refine ⟨h1, ?_, ?_, ?_, h5, ?_, ?_, h8, h9, h10, h11, h12⟩
    · rw [h2]
      rfl
    · rw [h3]
      rfl
    · rw [h4]
      simp [List.range'_succ]
    · intro arr harr hlen
      have hlen2 : (arr.set i (f none r).1).length = i + 1 + rest.length := by
        rw [List.length_set, hlen, List.length_cons]
        omega
      rw [h6 (arr.set i (f none r).1) (by simp [harr]) hlen2]
      have hi : i < arr.length := by
        rw [hlen, List.length_cons]
        omega
      have htake : (arr.set i (f none r).1).take (i + 1) = arr.take i ++ [(f none r).1] := by
        simp [List.take_succ, hi, take_set_self]
      rw [htake]
      simp [auxseg_answers]
    · intro hnone
      exact h7 (by simp [hnone])

/-- Machine additions that do not overflow give the sum. -/
theorem foldl_uadd_sum {α : Type} (cfg : Config) (F : α → Nat) :
    ∀ (l : List α) (t0 : Nat), t0 + (l.map F).sum < wordMod cfg →
      l.foldl (fun t q => uadd cfg t (F q)) t0 = t0 + (l.map F).sum := by
  intro l
  induction l with
  | nil => intro t0 _; simp
  | cons a l ih =>
    intro t0 h
    simp only [List.map_cons, List.sum_cons] at h
    simp only [List.foldl_cons, List.map_cons, List.sum_cons]
    rw [uadd_eq cfg (by omega), ih (t0 + F a) (by omega)]
    omega

/-- A call of `gasneti_auxseg_preinit` that finds `gasneti_auxseg_sz` zero asks every
requester once, in order, stores the answers, and sets `gasneti_auxseg_sz` to the value
it returns: the total of the optimal sizes, each rounded up to the cache line, rounded up
to the page size. -/
theorem auxseg_preinit_fresh {ρ : Type} (cfg : Config) (fns : List (gasneti_auxsegregfn_t ρ))
    (r : ρ) (g : AuxState) (hfresh : g.gasneti_auxseg_sz = 0) :
    (gasneti_auxseg_preinit cfg fns r g).1
      = GASNETI_PAGE_ALIGNUP cfg ((auxseg_answers fns r).foldl (fun t q =>
          uadd cfg t (GASNETI_ALIGNUP cfg q.optimalsz cfg.GASNETI_CACHE_LINE_BYTES))
        g.gasneti_auxseg_total_alignedsz.optimalsz) ∧
    (gasneti_auxseg_preinit cfg fns r g).2.1 = auxseg_asked fns r ∧
    (gasneti_auxseg_preinit cfg fns r g).2.2.gasneti_auxseg_sz
      = (gasneti_auxseg_preinit cfg fns r g).1 ∧
    (gasneti_auxseg_preinit cfg fns r g).2.2.gasneti_auxseg_total_alignedsz.optimalsz
      = (gasneti_auxseg_preinit cfg fns r g).1 ∧
    (gasneti_auxseg_preinit cfg fns r g).2.2.gasneti_auxseg_total_alignedsz.minsz
      = GASNETI_PAGE_ALIGNUP cfg ((auxseg_answers fns r).foldl (fun t q =>
          uadd cfg t (GASNETI_ALIGNUP cfg q.minsz cfg.GASNETI_CACHE_LINE_BYTES))
        g.gasneti_auxseg_total_alignedsz.minsz) ∧
    (gasneti_auxseg_preinit cfg fns r g).2.2.queried = g.queried ++ List.range fns.length ∧
    (fns ≠ [] → (gasneti_auxseg_preinit cfg fns r g).2.2.gasneti_auxseg_alignedsz
      = some (auxseg_answers fns r)) := by
  unfold gasneti_auxseg_preinit
  rw [if_neg (not_not.2 hfresh)]
  dsimp only
  obtain ⟨h1, h2, h3, h4, -, h6, -⟩ := auxseg_preinit_loop_spec cfg fns 0 r
    (if fns.length > 0 then
      { g with gasneti_auxseg_alignedsz := some (List.replicate fns.length ⟨0, 0⟩) }
    else g)
  have hg : ∀ (P : AuxState → Nat), (∀ a, P { g with gasneti_auxseg_alignedsz := a } = P g) →
      P (if fns.length > 0 then
        { g with gasneti_auxseg_alignedsz := some (List.replicate fns.length ⟨0, 0⟩) }
      else g) = P g := by
    intro P hP
    split_ifs
    · exact hP _
    · rfl
  refine ⟨?_, h1, rfl, rfl, ?_, ?_, ?_⟩
  · rw [h2, hg (fun x => x.gasneti_auxseg_total_alignedsz.optimalsz) (fun _ => rfl)]
  · rw [h3, hg (fun x => x.gasneti_auxseg_total_alignedsz.minsz) (fun _ => rfl)]
  · show (gasneti_auxseg_preinit_loop cfg fns 0 r _).2.queried = _
    rw [h4, List.range_eq_range']
    congr 1
    split_ifs <;> rfl
  · intro hne
    have hpos : fns.length > 0 := List.length_pos.2 hne
    show (gasneti_auxseg_preinit_loop cfg fns 0 r _).2.gasneti_auxseg_alignedsz = _
    rw [h6 (List.replicate fns.length ⟨0, 0⟩) (by rw [if_pos hpos]) (by simp)]
    simp

/-- C21. A call of `gasneti_auxseg_preinit` on fresh statics returns the total of the
optimal sizes that the requesters answer, each rounded up to the cache line, rounded up to
the page size, in machine arithmetic; the value is a multiple of the page size; when the
sum does not overflow it is `pagealignup` of the sum; and for the requesters `{10,20}` and
`{5,5}`, with cache lines of 64 bytes and pages of 4096 bytes, it is
`pagealignup(cachelinealignup(20) + cachelinealignup(5))`, which is 4096. -/
theorem C21_preinit_total {ρ : Type} (cfg : Config) (fns : List (gasneti_auxsegregfn_t ρ))
    (r : ρ) (g : AuxState) (hfresh : g.gasneti_auxseg_sz = 0)
    (htot : g.gasneti_auxseg_total_alignedsz.optimalsz = 0) :
    (gasneti_auxseg_preinit cfg fns r g).1
      = GASNETI_PAGE_ALIGNUP cfg ((auxseg_answers fns r).foldl (fun t q =>
          uadd cfg t (GASNETI_ALIGNUP cfg q.optimalsz cfg.GASNETI_CACHE_LINE_BYTES)) 0) ∧
    cfg.GASNET_PAGESIZE ∣ (gasneti_auxseg_preinit cfg fns r g).1 ∧
    (((auxseg_answers fns r).map (fun q =>
        GASNETI_ALIGNUP cfg q.optimalsz cfg.GASNETI_CACHE_LINE_BYTES)).sum < wordMod cfg →
      (gasneti_auxseg_preinit cfg fns r g).1
        = GASNETI_PAGE_ALIGNUP cfg ((auxseg_answers fns r).map (fun q =>
            GASNETI_ALIGNUP cfg q.optimalsz cfg.GASNETI_CACHE_LINE_BYTES)).sum) ∧
    (gasneti_auxseg_preinit cfgMmap [countingRequester ⟨10, 20⟩, countingRequester ⟨5, 5⟩] 0
        AuxState.init).1
      = GASNETI_PAGE_ALIGNUP cfgMmap
          (GASNETI_ALIGNUP cfgMmap 20 cfgMmap.GASNETI_CACHE_LINE_BYTES
            + GASNETI_ALIGNUP cfgMmap 5 cfgMmap.GASNETI_CACHE_LINE_BYTES) ∧
    GASNETI_PAGE_ALIGNUP cfgMmap
        (GASNETI_ALIGNUP cfgMmap 20 cfgMmap.GASNETI_CACHE_LINE_BYTES
          + GASNETI_ALIGNUP cfgMmap 5 cfgMmap.GASNETI_CACHE_LINE_BYTES) = 4096 := by
  obtain ⟨h1, -⟩ := auxseg_preinit_fresh cfg fns r g hfresh
  rw [htot] at h1
  refine ⟨h1, ?_, ?_, by decide, by decide⟩
  · rw [h1]
    exact page_alignup_dvd cfg _
  · intro hsum
    rw [h1, foldl_uadd_sum cfg _ _ 0 (by omega), Nat.zero_add]

/-- C21 (witness). The first call for the requesters `{10,20}` and `{5,5}`. -/
theorem C21_preinit_total_witness :
    (gasneti_auxseg_preinit cfgMmap [countingRequester ⟨10, 20⟩, countingRequester ⟨5, 5⟩] 0
        AuxState.init).1
      = GASNETI_PAGE_ALIGNUP cfgMmap
          ((auxseg_answers [countingRequester ⟨10, 20⟩, countingRequester ⟨5, 5⟩] 0).foldl
            (fun t q =>
              uadd cfgMmap t (GASNETI_ALIGNUP cfgMmap q.optimalsz cfgMmap.GASNETI_CACHE_LINE_BYTES))
            0) ∧
    cfgMmap.GASNET_PAGESIZE ∣ (gasneti_auxseg_preinit cfgMmap
      [countingRequester ⟨10, 20⟩, countingRequester ⟨5, 5⟩] 0 AuxState.init).1 ∧
    (((auxseg_answers [countingRequester ⟨10, 20⟩, countingRequester ⟨5, 5⟩] 0).map (fun q =>
        GASNETI_ALIGNUP cfgMmap q.optimalsz cfgMmap.GASNETI_CACHE_LINE_BYTES)).sum
        < wordMod cfgMmap →
      (gasneti_auxseg_preinit cfgMmap [countingRequester ⟨10, 20⟩, countingRequester ⟨5, 5⟩] 0
          AuxState.init).1
        = GASNETI_PAGE_ALIGNUP cfgMmap
            ((auxseg_answers [countingRequester ⟨10, 20⟩, countingRequester ⟨5, 5⟩] 0).map
              (fun q =>
                GASNETI_ALIGNUP cfgMmap q.optimalsz cfgMmap.GASNETI_CACHE_LINE_BYTES)).sum) ∧
    (gasneti_auxseg_preinit cfgMmap [countingRequester ⟨10, 20⟩, countingRequester ⟨5, 5⟩] 0
        AuxState.init).1
      = GASNETI_PAGE_ALIGNUP cfgMmap
          (GASNETI_ALIGNUP cfgMmap 20 cfgMmap.GASNETI_CACHE_LINE_BYTES
            + GASNETI_ALIGNUP cfgMmap 5 cfgMmap.GASNETI_CACHE_LINE_BYTES) ∧
    GASNETI_PAGE_ALIGNUP cfgMmap
        (GASNETI_ALIGNUP cfgMmap 20 cfgMmap.GASNETI_CACHE_LINE_BYTES
          + GASNETI_ALIGNUP cfgMmap 5 cfgMmap.GASNETI_CACHE_LINE_BYTES) = 4096 :=
  C21_preinit_total cfgMmap [countingRequester ⟨10, 20⟩, countingRequester ⟨5, 5⟩] 0
    AuxState.init rfl rfl

/-! ## Repeated calls of `gasneti_auxseg_preinit` -/

/-- After any call of `gasneti_auxseg_preinit`, `gasneti_auxseg_sz` is the value returned. -/
theorem auxseg_preinit_sz {ρ : Type} (cfg : Config) (fns : List (gasneti_auxsegregfn_t ρ))
    (r : ρ) (g : AuxState) :
    (gasneti_auxseg_preinit cfg fns r g).2.2.gasneti_auxseg_sz
      = (gasneti_auxseg_preinit cfg fns r g).1 := by
  by_cases h : g.gasneti_auxseg_sz = 0
  · exact (auxseg_preinit_fresh cfg fns r g h).2.2.1
  · unfold gasneti_auxseg_preinit
    rw [if_pos h]

/-- C27 (the code at the failing input). A call of `gasneti_auxseg_preinit` that follows a
call which returned a non-zero size returns the same value and changes neither the statics
nor the state of the requesters.  After a first call that returned 0, here for the single
requester `{0,0}`, the second call asks the requester again: the requester has then been
called twice and the log of the queries holds two entries, where the claim has one. -/
theorem C27_preinit_second_call {ρ : Type} :
    (∀ (cfg : Config) (fns : List (gasneti_auxsegregfn_t ρ)) (r : ρ) (g : AuxState),
      (gasneti_auxseg_preinit cfg fns r g).1 ≠ 0 →
      gasneti_auxseg_preinit cfg fns (gasneti_auxseg_preinit cfg fns r g).2.1
          (gasneti_auxseg_preinit cfg fns r g).2.2
        = ((gasneti_auxseg_preinit cfg fns r g).1, (gasneti_auxseg_preinit cfg fns r g).2.1,
            (gasneti_auxseg_preinit cfg fns r g).2.2)) ∧
    (gasneti_auxseg_preinit cfgMmap [countingRequester ⟨0, 0⟩] 0 AuxState.init).1 = 0 ∧
    (gasneti_auxseg_preinit cfgMmap [countingRequester ⟨0, 0⟩] 0 AuxState.init).2.1 = 1 ∧
    (gasneti_auxseg_preinit cfgMmap [countingRequester ⟨0, 0⟩] 0 AuxState.init).2.2.queried
      = [0] ∧
    (gasneti_auxseg_preinit cfgMmap [countingRequester ⟨0, 0⟩]
      (gasneti_auxseg_preinit cfgMmap [countingRequester ⟨0, 0⟩] 0 AuxState.init).2.1
      (gasneti_auxseg_preinit cfgMmap [countingRequester ⟨0, 0⟩] 0 AuxState.init).2.2).2.1
      = 2 ∧
    (gasneti_auxseg_preinit cfgMmap [countingRequester ⟨0, 0⟩]
      (gasneti_auxseg_preinit cfgMmap [countingRequester ⟨0, 0⟩] 0 AuxState.init).2.1
      (gasneti_auxseg_preinit cfgMmap [countingRequester ⟨0, 0⟩] 0
        AuxState.init).2.2).2.2.queried
      = [0, 0] := by
  refine ⟨?_, by decide, by decide, by decide, by decide, by decide⟩
  intro cfg fns r g hne
  have hsz := auxseg_preinit_sz cfg fns r g
  generalize gasneti_auxseg_preinit cfg fns r g = res at hne hsz
  unfold gasneti_auxseg_preinit
  rw [if_pos (by rw [hsz]; exact hne), hsz]

/-! ## The split of the full segment -/

/-- The loop over the requesters touches only the log of the tables handed out. -/
theorem auxseg_attach_fns_frame {ρ : Type} (cfg : Config) (numfns : Nat)
    (alignedsz : List gasneti_auxseg_request_t) :
    ∀ (fns : List (gasneti_auxsegregfn_t ρ)) (i : Nat) (si : List gasnet_seginfo_t) (r : ρ)
      (g : AuxState),
      (gasneti_auxseg_attach_fns cfg numfns alignedsz fns i si r g).2
        = { g with
            granted := (gasneti_auxseg_attach_fns cfg numfns alignedsz fns i si r g).2.granted } := by
  intro fns
  induction fns with
  | nil => intro i si r g; rfl
  | cons f rest ih =>
    intro i si r g
    rw [gasneti_auxseg_attach_fns]
    split_ifs
    · rw [ih]
    · rw [ih]

/-- The table `gasneti_seginfo_client` after `gasneti_auxseg_attach`, whatever the
outcome: the entry of every node is the client part of the split of its full segment,
with the base 0 when its size is 0. -/
theorem auxseg_attach_client {ρ : Type} (cfg : Config) (gasneti_nodes : Nat)
    (fns : List (gasneti_auxsegregfn_t ρ)) (gasneti_seginfo : List gasnet_seginfo_t)
    (r : ρ) (g : AuxState) :
    (gasneti_auxseg_attach cfg gasneti_nodes fns gasneti_seginfo r g).state.2.gasneti_seginfo_client
      = some ((gasneti_seginfo.take gasneti_nodes).map (fun full =>
          (gasneti_auxseg_attach_ub cfg
            (gasneti_auxseg_attach_split cfg g.gasneti_auxseg_sz full).1 full).1)) := by
  have hz : ∀ (l : List gasnet_seginfo_t),
      (List.zipWith (gasneti_auxseg_attach_ub cfg)
        ((l.map (gasneti_auxseg_attach_split cfg g.gasneti_auxseg_sz)).map Prod.fst) l).map
          (fun x => x.1)
        = l.map (fun full => (gasneti_auxseg_attach_ub cfg
            (gasneti_auxseg_attach_split cfg g.gasneti_auxseg_sz full).1 full).1) := by
    intro l
    induction l with
    | nil => rfl
    | cons a l ih =>
      simp only [List.map_cons, List.zipWith_cons_cons]
      rw [ih]
  unfold gasneti_auxseg_attach
  dsimp only
  split_ifs with h
  · split
    · simp only [Res.state]
      rw [hz]
    · simp only [Res.state]
      rw [auxseg_attach_fns_frame]
      simp only
      rw [hz]
  · simp only [Res.state]
    rw [hz]

/-- The split of one full segment that holds the auxseg and does not wrap: the auxseg
entry and the client entry after the loop over the upper bounds. -/
theorem auxseg_split_spec (cfg : Config) (A : Nat) (full : gasnet_seginfo_t)
    (hA : A ≤ full.size) (hnw : full.addr + full.size < wordMod cfg) :
    (gasneti_auxseg_attach_split cfg A full).2
      = ⟨if cfg.GASNETI_FORCE_CLIENTSEG_TO_BASE = true then full.addr + (full.size - A)
          else full.addr, A⟩ ∧
    (gasneti_auxseg_attach_ub cfg (gasneti_auxseg_attach_split cfg A full).1 full).1
      = if full.size - A = 0 then ⟨0, 0⟩
        else ⟨if cfg.GASNETI_FORCE_CLIENTSEG_TO_BASE = true then full.addr
          else full.addr + A, full.size - A⟩ := by
  have hsub : usub cfg full.size A = full.size - A := usub_eq cfg hA (by omega)
  have hadd1 : uadd cfg full.addr A = full.addr + A := uadd_eq cfg (by omega)
  have hadd2 : uadd cfg full.addr (full.size - A) = full.addr + (full.size - A) :=
    uadd_eq cfg (by omega)
  unfold gasneti_auxseg_attach_ub gasneti_auxseg_attach_split
  by_cases hf : cfg.GASNETI_FORCE_CLIENTSEG_TO_BASE = true
  · rw [if_pos hf, if_pos hf, if_pos hf]
    simp only [hsub, hadd2, true_and]
    by_cases hz : full.size - A = 0
    · rw [if_pos hz, if_pos hz, hz]
    · rw [if_neg hz, if_neg hz]
  · rw [if_neg hf, if_neg hf, if_neg hf]
    simp only [hsub, hadd1, true_and]
    by_cases hz : full.size - A = 0
    · rw [if_pos hz, if_pos hz, hz]
    · rw [if_neg hz, if_neg hz]

/-- C23 (amended). For a node whose full segment holds at least `gasneti_auxseg_sz` bytes
and does not wrap around the address space, `gasneti_auxseg_attach` splits the full segment
into an auxseg of `gasneti_auxseg_sz` bytes, contained in the full segment, at its low end
by default and at its high end under `GASNETI_FORCE_CLIENTSEG_TO_BASE`, and a client
segment of the remaining size, so that the two sizes sum to the full size.  A client
segment of non-zero size starts at the full base plus `gasneti_auxseg_sz` by default and
at the full base under `GASNETI_FORCE_CLIENTSEG_TO_BASE`, is contained in the full segment
and is disjoint from the auxseg; a client segment of size 0 is recorded as `{0, 0}`.
These entries are what `gasneti_seginfo_client` holds after the call. -/
theorem C23_split_of_full_segment {ρ : Type} (cfg : Config) (gasneti_nodes : Nat)
    (fns : List (gasneti_auxsegregfn_t ρ)) (gasneti_seginfo : List gasnet_seginfo_t)
    (r : ρ) (g : AuxState) (full : gasnet_seginfo_t)
    (hfull : full ∈ gasneti_seginfo.take gasneti_nodes)
    (hA : g.gasneti_auxseg_sz ≤ full.size)
    (hnw : full.addr + full.size < wordMod cfg) :
    (∃ tbl, (gasneti_auxseg_attach cfg gasneti_nodes fns gasneti_seginfo r
          g).state.2.gasneti_seginfo_client = some tbl ∧
      tbl = (gasneti_seginfo.take gasneti_nodes).map (fun e =>
          (gasneti_auxseg_attach_ub cfg
            (gasneti_auxseg_attach_split cfg g.gasneti_auxseg_sz e).1 e).1) ∧
      (gasneti_auxseg_attach_ub cfg
        (gasneti_auxseg_attach_split cfg g.gasneti_auxseg_sz full).1 full).1 ∈ tbl) ∧
    (gasneti_auxseg_attach_split cfg g.gasneti_auxseg_sz full).2.size = g.gasneti_auxseg_sz ∧
    (gasneti_auxseg_attach_split cfg g.gasneti_auxseg_sz full).2.size
      + (gasneti_auxseg_attach_ub cfg
          (gasneti_auxseg_attach_split cfg g.gasneti_auxseg_sz full).1 full).1.size
      = full.size ∧
    full.addr ≤ (gasneti_auxseg_attach_split cfg g.gasneti_auxseg_sz full).2.addr ∧
    (gasneti_auxseg_attach_split cfg g.gasneti_auxseg_sz full).2.addr + g.gasneti_auxseg_sz
      ≤ full.addr + full.size ∧
    (cfg.GASNETI_FORCE_CLIENTSEG_TO_BASE = false →
      (gasneti_auxseg_attach_split cfg g.gasneti_auxseg_sz full).2.addr = full.addr) ∧
    (cfg.GASNETI_FORCE_CLIENTSEG_TO_BASE = true →
      (gasneti_auxseg_attach_split cfg g.gasneti_auxseg_sz full).2.addr + g.gasneti_auxseg_sz
        = full.addr + full.size) ∧
    ((gasneti_auxseg_attach_ub cfg
        (gasneti_auxseg_attach_split cfg g.gasneti_auxseg_sz full).1 full).1.size ≠ 0 →
      (cfg.GASNETI_FORCE_CLIENTSEG_TO_BASE = false →
        (gasneti_auxseg_attach_ub cfg
          (gasneti_auxseg_attach_split cfg g.gasneti_auxseg_sz full).1 full).1.addr
          = full.addr + g.gasneti_auxseg_sz) ∧
      (cfg.GASNETI_FORCE_CLIENTSEG_TO_BASE = true →
        (gasneti_auxseg_attach_ub cfg
          (gasneti_auxseg_attach_split cfg g.gasneti_auxseg_sz full).1 full).1.addr
          = full.addr) ∧
      full.addr ≤ (gasneti_auxseg_attach_ub cfg
        (gasneti_auxseg_attach_split cfg g.gasneti_auxseg_sz full).1 full).1.addr ∧
      (gasneti_auxseg_attach_ub cfg
          (gasneti_auxseg_attach_split cfg g.gasneti_auxseg_sz full).1 full).1.addr
        + (gasneti_auxseg_attach_ub cfg
          (gasneti_auxseg_attach_split cfg g.gasneti_auxseg_sz full).1 full).1.size
        ≤ full.addr + full.size ∧
      ((gasneti_auxseg_attach_split cfg g.gasneti_auxseg_sz full).2.addr + g.gasneti_auxseg_sz
          ≤ (gasneti_auxseg_attach_ub cfg
            (gasneti_auxseg_attach_split cfg g.gasneti_auxseg_sz full).1 full).1.addr ∨
        (gasneti_auxseg_attach_ub cfg
            (gasneti_auxseg_attach_split cfg g.gasneti_auxseg_sz full).1 full).1.addr
          + (gasneti_auxseg_attach_ub cfg
            (gasneti_auxseg_attach_split cfg g.gasneti_auxseg_sz full).1 full).1.size
          ≤ (gasneti_auxseg_attach_split cfg g.gasneti_auxseg_sz full).2.addr)) ∧
    ((gasneti_auxseg_attach_ub cfg
        (gasneti_auxseg_attach_split cfg g.gasneti_auxseg_sz full).1 full).1.size = 0 →
      (gasneti_auxseg_attach_ub cfg
        (gasneti_auxseg_attach_split cfg g.gasneti_auxseg_sz full).1 full).1 = ⟨0, 0⟩) := by
  refine ⟨⟨_, auxseg_attach_client cfg gasneti_nodes fns gasneti_seginfo r g, rfl,
    List.mem_map_of_mem _ hfull⟩, ?_⟩
  generalize g.gasneti_auxseg_sz = A at hA
  obtain ⟨e1, e2⟩ := auxseg_split_spec cfg A full hA hnw
  rw [e1, e2]
  by_cases hf : cfg.GASNETI_FORCE_CLIENTSEG_TO_BASE = true
  · by_cases hz : full.size - A = 0
    · simp only [hf, hz, if_true]
      simp
      omega
    · simp only [hf, hz, if_true, if_false]
      simp
      omega
  · have hff : cfg.GASNETI_FORCE_CLIENTSEG_TO_BASE = false := by simpa using hf
    by_cases hz : full.size - A = 0
    · simp only [hff, hz, if_true]
      simp
      omega
    · simp only [hff, hz, if_false]
      simp
      omega

/-- C23 (counterexample). One node, one requester `{10,20}`, so that `gasneti_auxseg_sz`
is 4096, and a full segment of 4096 bytes at 65536: the client segment recorded by
`gasneti_auxseg_attach` has the base 0, not the full base plus `gasneti_auxseg_sz`,
which is 69632. -/
theorem C23_counterexample :
    (gasneti_auxseg_preinit cfgMmap [countingRequester ⟨10, 20⟩] 0 AuxState.init).1 = 4096 ∧
    (gasneti_auxseg_attach cfgMmap 1 [countingRequester ⟨10, 20⟩] [⟨65536, 4096⟩]
      (gasneti_auxseg_preinit cfgMmap [countingRequester ⟨10, 20⟩] 0 AuxState.init).2.1
      (gasneti_auxseg_preinit cfgMmap [countingRequester ⟨10, 20⟩] 0
        AuxState.init).2.2).state.2.gasneti_seginfo_client = some [⟨0, 0⟩] ∧
    uadd cfgMmap 65536 4096 = 69632 ∧ cfgMmap.GASNETI_FORCE_CLIENTSEG_TO_BASE = false := by
  decide

/-- C23 (witness). One node, one requester `{10,20}` and a full segment of 16384 bytes at
65536: the auxseg is [65536, 69632) and the client segment [69632, 81920). -/
theorem C23_split_of_full_segment_witness :
    (∃ tbl, (gasneti_auxseg_attach cfgMmap 1 [countingRequester ⟨10, 20⟩] [⟨65536, 16384⟩] 1
        { AuxState.init with
          gasneti_auxseg_total_alignedsz := ⟨4096, 4096⟩
          gasneti_auxseg_alignedsz := some [⟨10, 20⟩]
          gasneti_auxseg_sz := 4096
          queried := [0] }).state.2.gasneti_seginfo_client = some tbl ∧
      tbl = ([⟨65536, 16384⟩] : List gasnet_seginfo_t).map (fun e =>
          (gasneti_auxseg_attach_ub cfgMmap (gasneti_auxseg_attach_split cfgMmap 4096 e).1 e).1) ∧
      (gasneti_auxseg_attach_ub cfgMmap
        (gasneti_auxseg_attach_split cfgMmap 4096 ⟨65536, 16384⟩).1 ⟨65536, 16384⟩).1 ∈ tbl) ∧
    (gasneti_auxseg_attach_split cfgMmap 4096 ⟨65536, 16384⟩).2.size = 4096 ∧
    (gasneti_auxseg_attach_split cfgMmap 4096 ⟨65536, 16384⟩).2.size
      + (gasneti_auxseg_attach_ub cfgMmap
          (gasneti_auxseg_attach_split cfgMmap 4096 ⟨65536, 16384⟩).1 ⟨65536, 16384⟩).1.size
      = 16384 ∧
    65536 ≤ (gasneti_auxseg_attach_split cfgMmap 4096 ⟨65536, 16384⟩).2.addr ∧
    (gasneti_auxseg_attach_split cfgMmap 4096 ⟨65536, 16384⟩).2.addr + 4096 ≤ 65536 + 16384 ∧
    (cfgMmap.GASNETI_FORCE_CLIENTSEG_TO_BASE = false →
      (gasneti_auxseg_attach_split cfgMmap 4096 ⟨65536, 16384⟩).2.addr = 65536) ∧
    (cfgMmap.GASNETI_FORCE_CLIENTSEG_TO_BASE = true →
      (gasneti_auxseg_attach_split cfgMmap 4096 ⟨65536, 16384⟩).2.addr + 4096
        = 65536 + 16384) ∧
    ((gasneti_auxseg_attach_ub cfgMmap
        (gasneti_auxseg_attach_split cfgMmap 4096 ⟨65536, 16384⟩).1 ⟨65536, 16384⟩).1.size ≠ 0 →
      (cfgMmap.GASNETI_FORCE_CLIENTSEG_TO_BASE = false →
        (gasneti_auxseg_attach_ub cfgMmap
          (gasneti_auxseg_attach_split cfgMmap 4096 ⟨65536, 16384⟩).1 ⟨65536, 16384⟩).1.addr
          = 65536 + 4096) ∧
      (cfgMmap.GASNETI_FORCE_CLIENTSEG_TO_BASE = true →
        (gasneti_auxseg_attach_ub cfgMmap
          (gasneti_auxseg_attach_split cfgMmap 4096 ⟨65536, 16384⟩).1 ⟨65536, 16384⟩).1.addr
          = 65536) ∧
      65536 ≤ (gasneti_auxseg_attach_ub cfgMmap
        (gasneti_auxseg_attach_split cfgMmap 4096 ⟨65536, 16384⟩).1 ⟨65536, 16384⟩).1.addr ∧
      (gasneti_auxseg_attach_ub cfgMmap
          (gasneti_auxseg_attach_split cfgMmap 4096 ⟨65536, 16384⟩).1 ⟨65536, 16384⟩).1.addr
        + (gasneti_auxseg_attach_ub cfgMmap
          (gasneti_auxseg_attach_split cfgMmap 4096 ⟨65536, 16384⟩).1 ⟨65536, 16384⟩).1.size
        ≤ 65536 + 16384 ∧
      ((gasneti_auxseg_attach_split cfgMmap 4096 ⟨65536, 16384⟩).2.addr + 4096
          ≤ (gasneti_auxseg_attach_ub cfgMmap
            (gasneti_auxseg_attach_split cfgMmap 4096 ⟨65536, 16384⟩).1 ⟨65536, 16384⟩).1.addr ∨
        (gasneti_auxseg_attach_ub cfgMmap
            (gasneti_auxseg_attach_split cfgMmap 4096 ⟨65536, 16384⟩).1 ⟨65536, 16384⟩).1.addr
          + (gasneti_auxseg_attach_ub cfgMmap
            (gasneti_auxseg_attach_split cfgMmap 4096 ⟨65536, 16384⟩).1 ⟨65536, 16384⟩).1.size
          ≤ (gasneti_auxseg_attach_split cfgMmap 4096 ⟨65536, 16384⟩).2.addr)) ∧
    ((gasneti_auxseg_attach_ub cfgMmap
        (gasneti_auxseg_attach_split cfgMmap 4096 ⟨65536, 16384⟩).1 ⟨65536, 16384⟩).1.size = 0 →
      (gasneti_auxseg_attach_ub cfgMmap
        (gasneti_auxseg_attach_split cfgMmap 4096 ⟨65536, 16384⟩).1 ⟨65536, 16384⟩).1 = ⟨0, 0⟩) :=
  C23_split_of_full_segment cfgMmap 1 [countingRequester ⟨10, 20⟩] [⟨65536, 16384⟩] 1
    { AuxState.init with
      gasneti_auxseg_total_alignedsz := ⟨4096, 4096⟩
      gasneti_auxseg_alignedsz := some [⟨10, 20⟩]
      gasneti_auxseg_sz := 4096
      queried := [0] }
    ⟨65536, 16384⟩ (by decide) (by decide) (by decide)

/-! ## The windows handed to the requesters -/

/-- The macro `GASNETI_ALIGNUP` gives a multiple of the alignment. -/
theorem alignup_dvd_self (cfg : Config) (x a : Nat) : a ∣ GASNETI_ALIGNUP cfg x a := by
  unfold GASNETI_ALIGNUP
  exact Dvd.intro_left _ rfl

/-- Without overflow, `GASNETI_ALIGNUP` does not round down. -/
theorem le_alignup (cfg : Config) (x a : Nat) (ha : 0 < a) (hW : x + (a - 1) < wordMod cfg) :
    x ≤ GASNETI_ALIGNUP cfg x a := by
  unfold GASNETI_ALIGNUP
  rw [uadd_eq cfg hW]
  have h1 := Nat.div_add_mod (x + (a - 1)) a
  have h2 := Nat.mod_lt (x + (a - 1)) ha
  have h3 : (x + (a - 1)) / a * a = a * ((x + (a - 1)) / a) := Nat.mul_comm _ _
  omega

/-- Rounding up the sum of an aligned address and a size is adding the rounded size. -/
theorem alignup_add (cfg : Config) (p x a : Nat) (hp : a ∣ p)
    (hW : p + x + (a - 1) < wordMod cfg) :
    GASNETI_ALIGNUP cfg (uadd cfg p x) a = p + GASNETI_ALIGNUP cfg x a := by
  unfold GASNETI_ALIGNUP
  rw [uadd_eq cfg (by omega : p + x < wordMod cfg), uadd_eq cfg hW,
    uadd_eq cfg (by omega : x + (a - 1) < wordMod cfg)]
  have h1 : p + x + (a - 1) = p + (x + (a - 1)) := by omega
  rw [h1, Nat.add_div_of_dvd_right hp, Nat.add_mul, Nat.div_mul_cancel hp]

/-- An aligned address followed by a rounded size below the top of the address space
leaves room for the rounding itself. -/
theorem alignup_room (cfg : Config) (p x a : Nat) (ha : 0 < a) (hp : a ∣ p)
    (haW : a ∣ wordMod cfg) (hx : x + (a - 1) < wordMod cfg)
    (hW : p + GASNETI_ALIGNUP cfg x a < wordMod cfg) :
    p + x + (a - 1) < wordMod cfg := by
  have h1 := le_alignup cfg x a ha hx
  have h2 : a ∣ p + GASNETI_ALIGNUP cfg x a := Dvd.dvd.add hp (alignup_dvd_self cfg x a)
  have h3 := aligned_add_le h2 haW hW
  have h4 : GASNETI_ALIGNUP cfg x a < x + a := by
    unfold GASNETI_ALIGNUP
    rw [uadd_eq cfg hx]
    have := Nat.div_mul_le_self (x + (a - 1)) a
    omega
  omega

/-- The offsets of the windows: the first is 0 and each next one adds the rounded size. -/
theorem auxseg_offset_succ (cfg : Config) (reqs : List gasneti_auxseg_request_t) (i : Nat)
    (hi : i < reqs.length) :
    auxseg_offset cfg reqs (i + 1)
      = auxseg_offset cfg reqs i
        + GASNETI_ALIGNUP cfg (reqs.getD i ⟨0, 0⟩).optimalsz cfg.GASNETI_CACHE_LINE_BYTES := by
  unfold auxseg_offset
  rw [List.take_succ, List.getD_eq_getElem?_getD, List.getElem?_eq_getElem hi,
    List.map_append, List.sum_append]
  rfl

/-- The offsets grow with the index and stay below the sum over all requesters. -/
theorem auxseg_offset_mono (cfg : Config) (reqs : List gasneti_auxseg_request_t) :
    ∀ (i k : Nat), k ≤ i → auxseg_offset cfg reqs k ≤ auxseg_offset cfg reqs i := by
  intro i
  induction i with
  | zero =>
    intro k hk
    have : k = 0 := by omega
    rw [this]
  | succ n ih =>
    intro k hk
    by_cases hkn : k ≤ n
    · refine Nat.le_trans (ih k hkn) ?_
      by_cases hn : n < reqs.length
      · rw [auxseg_offset_succ cfg reqs n hn]
        omega
      · unfold auxseg_offset
        rw [List.take_of_length_le (by omega), List.take_of_length_le (by omega)]
    · have : k = n + 1 := by omega
      rw [this]

/-- Every offset is a multiple of the cache line. -/
theorem auxseg_offset_dvd (cfg : Config) (reqs : List gasneti_auxseg_request_t) (i : Nat) :
    cfg.GASNETI_CACHE_LINE_BYTES ∣ auxseg_offset cfg reqs i := by
  unfold auxseg_offset
  apply List.dvd_sum
  intro x hx
  obtain ⟨q, -, hq⟩ := List.mem_map.1 hx
  rw [← hq]
  exact alignup_dvd_self cfg _ _

/-- The offset past the last requester is the sum over all requesters. -/
theorem auxseg_offset_length (cfg : Config) (reqs : List gasneti_auxseg_request_t) :
    auxseg_offset cfg reqs reqs.length
      = (reqs.map (fun q =>
          GASNETI_ALIGNUP cfg q.optimalsz cfg.GASNETI_CACHE_LINE_BYTES)).sum := by
  unfold auxseg_offset
  rw [List.take_length]
/-- The loop over the requesters, entered at index `i` with the table of the windows `i`:
requester `k` is handed the table whose entry for a node is the base of the node's auxseg
plus the offset of window `k`, with the optimal size of requester `k`. -/
theorem auxseg_attach_fns_spec {ρ : Type} (cfg : Config) (reqs : List gasneti_auxseg_request_t)
    (bases : List Nat) (hCL : 0 < cfg.GASNETI_CACHE_LINE_BYTES)
    (hCLW : cfg.GASNETI_CACHE_LINE_BYTES ∣ wordMod cfg)
    (hopt : ∀ q ∈ reqs, q.optimalsz + (cfg.GASNETI_CACHE_LINE_BYTES - 1) < wordMod cfg)
    (hb : ∀ b ∈ bases, cfg.GASNETI_CACHE_LINE_BYTES ∣ b ∧
      b + auxseg_offset cfg reqs reqs.length < wordMod cfg) :
    ∀ (fns : List (gasneti_auxsegregfn_t ρ)) (i : Nat) (r : ρ) (g : AuxState),
      i + fns.length = reqs.length →
      (gasneti_auxseg_attach_fns cfg reqs.length reqs fns i
        (bases.map (fun b =>
          (⟨b + auxseg_offset cfg reqs i, (reqs.getD i ⟨0, 0⟩).optimalsz⟩ : gasnet_seginfo_t)))
        r g).2.granted
      = g.granted ++ (List.range' i fns.length).map (fun k => bases.map (fun b =>
          (⟨b + auxseg_offset cfg reqs k, (reqs.getD k ⟨0, 0⟩).optimalsz⟩ : gasnet_seginfo_t))) := by
  intro fns
  induction fns with
  | nil =>
    intro i r g _
    simp [gasneti_auxseg_attach_fns]
  | cons f rest ih =>
    intro i r g hlen
    rw [List.length_cons] at hlen
    rw [gasneti_auxseg_attach_fns]
    by_cases hnext : i + 1 < reqs.length
    · rw [if_pos hnext]
      have hi : i < reqs.length := by omega
      have hmap : (bases.map (fun b =>
            (⟨b + auxseg_offset cfg reqs i, (reqs.getD i ⟨0, 0⟩).optimalsz⟩ :
              gasnet_seginfo_t))).map (fun e =>
            (⟨GASNETI_ALIGNUP cfg (uadd cfg e.addr (reqs.getD i ⟨0, 0⟩).optimalsz)
                cfg.GASNETI_CACHE_LINE_BYTES,
              (reqs.getD (i + 1) ⟨0, 0⟩).optimalsz⟩ : gasnet_seginfo_t))
          = bases.map (fun b =>
            (⟨b + auxseg_offset cfg reqs (i + 1), (reqs.getD (i + 1) ⟨0, 0⟩).optimalsz⟩ :
              gasnet_seginfo_t)) := by
        rw [List.map_map]
        apply List.map_congr_left
        intro b hbm
        obtain ⟨hb1, hb2⟩ := hb b hbm
        have hq : reqs.getD i ⟨0, 0⟩ ∈ reqs := by
          rw [List.getD_eq_getElem?_getD, List.getElem?_eq_getElem hi]
          exact List.getElem_mem hi
        have hx := hopt _ hq
        have hoff := auxseg_offset_succ cfg reqs i hi
        have hmono := auxseg_offset_mono cfg reqs reqs.length (i + 1) (by omega)
        have hp : cfg.GASNETI_CACHE_LINE_BYTES ∣ b + auxseg_offset cfg reqs i :=
          Dvd.dvd.add hb1 (auxseg_offset_dvd cfg reqs i)
        have hroom := alignup_room cfg (b + auxseg_offset cfg reqs i)
          (reqs.getD i ⟨0, 0⟩).optimalsz cfg.GASNETI_CACHE_LINE_BYTES hCL hp hCLW hx (by omega)
        simp only [Function.comp]
        rw [alignup_add cfg _ _ _ hp hroom, hoff, Nat.add_assoc]
      rw [hmap, ih (i + 1) _ _ (by omega)]
      simp [List.range'_succ]
    · rw [if_neg hnext]
      have hrest : rest = [] := List.length_eq_zero.1 (by omega)
      subst hrest
      simp [gasneti_auxseg_attach_fns]

/-- A call of `gasneti_auxseg_preinit` leaves the log of the tables handed out alone. -/
theorem auxseg_preinit_granted {ρ : Type} (cfg : Config) (fns : List (gasneti_auxsegregfn_t ρ))
    (r : ρ) (g : AuxState) :
    (gasneti_auxseg_preinit cfg fns r g).2.2.granted = g.granted := by
  unfold gasneti_auxseg_preinit
  split_ifs with h
  · rfl
  · dsimp only
    have h12 := (auxseg_preinit_loop_spec cfg fns 0 r
      (if fns.length > 0 then
        { g with gasneti_auxseg_alignedsz := some (List.replicate fns.length ⟨0, 0⟩) }
      else g)).2.2.2.2.2.2.2.2.2.2.2
    show (gasneti_auxseg_preinit_loop cfg fns 0 r _).2.granted = _
    rw [h12]
    split_ifs <;> rfl

/-- The number of answers is the number of requesters. -/
theorem auxseg_answers_length {ρ : Type} :
    ∀ (fns : List (gasneti_auxsegregfn_t ρ)) (r : ρ), (auxseg_answers fns r).length = fns.length := by
  intro fns
  induction fns with
  | nil => intro r; rfl
  | cons f rest ih =>
    intro r
    simp [auxseg_answers, ih]
/-- Without overflow, rounding up to the page size does not round down. -/
theorem le_page_alignup (cfg : Config) (hP : 0 < cfg.GASNET_PAGESIZE) (x : Nat)
    (hW : x + (cfg.GASNET_PAGESIZE - 1) < wordMod cfg) : x ≤ GASNETI_PAGE_ALIGNUP cfg x := by
  unfold GASNETI_PAGE_ALIGNUP
  rw [uadd_eq cfg hW]
  have := lt_aligndown_add cfg hP (x + (cfg.GASNET_PAGESIZE - 1))
  omega

/-- C22. After `gasneti_auxseg_preinit` on fresh statics, `gasneti_auxseg_attach` returns,
and the tables it has handed to the requesters, in registration order, are these: requester
`i` gets for every node the window that starts at the base of the node's auxseg plus the
sum over `k < i` of the optimal size of requester `k` rounded up to the cache line, with the
optimal size of requester `i`.  Every window starts at a multiple of the cache line, lies
inside the auxseg of `gasneti_auxseg_sz` bytes, and ends no later than every later window
starts.  The base of every auxseg is a multiple of the cache line, as the function asserts,
and no sum overflows. -/
theorem C22_windows {ρ : Type} (cfg : Config) (gasneti_nodes : Nat)
    (fns : List (gasneti_auxsegregfn_t ρ)) (gasneti_seginfo : List gasnet_seginfo_t)
    (r : ρ) (g0 : AuxState)
    (hfresh : g0.gasneti_auxseg_sz = 0)
    (htot : g0.gasneti_auxseg_total_alignedsz.optimalsz = 0)
    (hne : fns ≠ [])
    (hP : 0 < cfg.GASNET_PAGESIZE) (hCL : 0 < cfg.GASNETI_CACHE_LINE_BYTES)
    (hCLW : cfg.GASNETI_CACHE_LINE_BYTES ∣ wordMod cfg)
    (hopt : ∀ q ∈ auxseg_answers fns r,
      q.optimalsz + (cfg.GASNETI_CACHE_LINE_BYTES - 1) < wordMod cfg)
    (hsum : auxseg_offset cfg (auxseg_answers fns r) fns.length + cfg.GASNET_PAGESIZE
      ≤ wordMod cfg)
    (hbase : ∀ e ∈ gasneti_seginfo.take gasneti_nodes,
      cfg.GASNETI_CACHE_LINE_BYTES ∣
        (gasneti_auxseg_attach_split cfg (gasneti_auxseg_preinit cfg fns r g0).1 e).2.addr ∧
      (gasneti_auxseg_attach_split cfg (gasneti_auxseg_preinit cfg fns r g0).1 e).2.addr
        + (gasneti_auxseg_preinit cfg fns r g0).1 < wordMod cfg) :
    ∃ r2 g2,
      gasneti_auxseg_attach cfg gasneti_nodes fns gasneti_seginfo
          (gasneti_auxseg_preinit cfg fns r g0).2.1 (gasneti_auxseg_preinit cfg fns r g0).2.2
        = Res.ok () (r2, g2) ∧
      g2.granted = g0.granted ++ (List.range fns.length).map (fun i =>
        (gasneti_seginfo.take gasneti_nodes).map (fun e =>
          (⟨(gasneti_auxseg_attach_split cfg (gasneti_auxseg_preinit cfg fns r g0).1 e).2.addr
              + auxseg_offset cfg (auxseg_answers fns r) i,
            ((auxseg_answers fns r).getD i ⟨0, 0⟩).optimalsz⟩ : gasnet_seginfo_t))) ∧
      ∀ i, i < fns.length → ∀ e ∈ gasneti_seginfo.take gasneti_nodes,
        cfg.GASNETI_CACHE_LINE_BYTES ∣
          (gasneti_auxseg_attach_split cfg (gasneti_auxseg_preinit cfg fns r g0).1 e).2.addr
            + auxseg_offset cfg (auxseg_answers fns r) i ∧
        (gasneti_auxseg_attach_split cfg (gasneti_auxseg_preinit cfg fns r g0).1 e).2.addr
            + auxseg_offset cfg (auxseg_answers fns r) i
            + ((auxseg_answers fns r).getD i ⟨0, 0⟩).optimalsz
          ≤ (gasneti_auxseg_attach_split cfg (gasneti_auxseg_preinit cfg fns r g0).1 e).2.addr
            + (gasneti_auxseg_preinit cfg fns r g0).1 ∧
        ∀ k, k < i →
          (gasneti_auxseg_attach_split cfg (gasneti_auxseg_preinit cfg fns r g0).1 e).2.addr
              + auxseg_offset cfg (auxseg_answers fns r) k
              + ((auxseg_answers fns r).getD k ⟨0, 0⟩).optimalsz
            ≤ (gasneti_auxseg_attach_split cfg (gasneti_auxseg_preinit cfg fns r g0).1 e).2.addr
              + auxseg_offset cfg (auxseg_answers fns r) i := by
  obtain ⟨h1, -, h3, -, -, -, h7⟩ := auxseg_preinit_fresh cfg fns r g0 hfresh
  have hgr := auxseg_preinit_granted cfg fns r g0
  have hal := h7 hne
  have hlen := auxseg_answers_length fns r
  have hpos : fns.length > 0 := List.length_pos.2 hne
  rw [← hlen] at hsum
  have hoffl := auxseg_offset_length cfg (auxseg_answers fns r)
  -- the size of the auxseg is at least the sum of the rounded sizes
  have hv : auxseg_offset cfg (auxseg_answers fns r) (auxseg_answers fns r).length
      ≤ (gasneti_auxseg_preinit cfg fns r g0).1 := by
    rw [h1, htot, foldl_uadd_sum cfg _ _ 0 (by rw [← hoffl]; omega), Nat.zero_add, ← hoffl]
    exact le_page_alignup cfg hP _ (by omega)
  generalize gasneti_auxseg_preinit cfg fns r g0 = pre at h3 hgr hal hv hbase ⊢
  obtain ⟨v, r1, g1⟩ := pre
  simp only at h3 hgr hal hv hbase ⊢
  -- the windows
  have hwin : ∀ i, i < fns.length → ∀ k, k ≤ i →
      auxseg_offset cfg (auxseg_answers fns r) k
        ≤ auxseg_offset cfg (auxseg_answers fns r) i ∧
      auxseg_offset cfg (auxseg_answers fns r) i
          + ((auxseg_answers fns r).getD i ⟨0, 0⟩).optimalsz
        ≤ auxseg_offset cfg (auxseg_answers fns r) (i + 1) ∧
      auxseg_offset cfg (auxseg_answers fns r) (i + 1) ≤ v := by
    intro i hi k hk
    have hi2 : i < (auxseg_answers fns r).length := by omega
    have hq : (auxseg_answers fns r).getD i ⟨0, 0⟩ ∈ auxseg_answers fns r := by
      rw [List.getD_eq_getElem?_getD, List.getElem?_eq_getElem hi2]
      exact List.getElem_mem hi2
    have h4 := le_alignup cfg _ _ hCL (hopt _ hq)
    have h5 := auxseg_offset_succ cfg (auxseg_answers fns r) i hi2
    have h6 := auxseg_offset_mono cfg (auxseg_answers fns r) (auxseg_answers fns r).length
      (i + 1) (by omega)
    exact ⟨auxseg_offset_mono cfg _ i k hk, by omega, by omega⟩
  unfold gasneti_auxseg_attach
  rw [h3, if_pos hpos, hal]
  dsimp only
  generalize gasneti_seginfo.take gasneti_nodes = L at hbase ⊢
  have hspec := auxseg_attach_fns_spec (ρ := ρ) cfg (auxseg_answers fns r)
    (L.map (fun e => (gasneti_auxseg_attach_split cfg v e).2.addr)) hCL hCLW hopt
    (by
      intro b hbm
      obtain ⟨e, he, heb⟩ := List.mem_map.1 hbm
      rw [← heb]
      exact ⟨(hbase e he).1, by have := (hbase e he).2; omega⟩)
  refine ⟨_, _, rfl, ?_, ?_⟩
  · have h0 : auxseg_offset cfg (auxseg_answers fns r) 0 = 0 := by simp [auxseg_offset]
    have hsi : ((L.map (gasneti_auxseg_attach_split cfg v)).map Prod.snd).map (fun e =>
          (⟨e.addr, ((auxseg_answers fns r).getD 0 ⟨0, 0⟩).optimalsz⟩ : gasnet_seginfo_t))
        = (L.map (fun e => (gasneti_auxseg_attach_split cfg v e).2.addr)).map (fun b =>
          (⟨b + auxseg_offset cfg (auxseg_answers fns r) 0,
            ((auxseg_answers fns r).getD 0 ⟨0, 0⟩).optimalsz⟩ : gasnet_seginfo_t)) := by
      rw [h0]
      simp only [List.map_map]
      rfl
    rw [hsi, ← hlen, hspec fns 0 _ _ (by omega)]
    simp only [hgr, List.range_eq_range', List.map_map, hlen]
    rfl
  · intro i hi e he
    obtain ⟨hb1, hb2⟩ := hbase e he
    obtain ⟨-, w2, w3⟩ := hwin i hi i (Nat.le_refl _)
    refine ⟨Dvd.dvd.add hb1 (auxseg_offset_dvd cfg _ i), by omega, ?_⟩
    intro k hk
    obtain ⟨-, x2, -⟩ := hwin k (by omega) k (Nat.le_refl _)
    have x3 := auxseg_offset_mono cfg (auxseg_answers fns r) i (k + 1) (by omega)
    omega
/-- The run behind the witness of C22: for the requesters `{10,20}` and `{5,5}` and two
nodes whose full segments start at 65536 and 131072, the auxseg has 4096 bytes, the first
requester is handed the windows of 20 bytes at the bases and the second the windows of
5 bytes 64 bytes further up. -/
theorem auxseg_windows_run :
    (gasneti_auxseg_attach cfgMmap 2 [countingRequester ⟨10, 20⟩, countingRequester ⟨5, 5⟩]
      [⟨65536, 16384⟩, ⟨131072, 16384⟩]
      (gasneti_auxseg_preinit cfgMmap [countingRequester ⟨10, 20⟩, countingRequester ⟨5, 5⟩] 0
        AuxState.init).2.1
      (gasneti_auxseg_preinit cfgMmap [countingRequester ⟨10, 20⟩, countingRequester ⟨5, 5⟩] 0
        AuxState.init).2.2).state.2.granted
      = [[⟨65536, 20⟩, ⟨131072, 20⟩], [⟨65600, 5⟩, ⟨131136, 5⟩]] := by
  decide

/-- C22 (witness). The requesters `{10,20}` and `{5,5}` on two nodes whose full segments
of 16384 bytes start at 65536 and at 131072. -/
theorem C22_windows_witness :
    ∃ r2 g2,
      gasneti_auxseg_attach cfgMmap 2 [countingRequester ⟨10, 20⟩, countingRequester ⟨5, 5⟩]
          [⟨65536, 16384⟩, ⟨131072, 16384⟩]
          (gasneti_auxseg_preinit cfgMmap [countingRequester ⟨10, 20⟩, countingRequester ⟨5, 5⟩]
            0 AuxState.init).2.1
          (gasneti_auxseg_preinit cfgMmap [countingRequester ⟨10, 20⟩, countingRequester ⟨5, 5⟩]
            0 AuxState.init).2.2
        = Res.ok () (r2, g2) ∧
      g2.granted = AuxState.init.granted ++ (List.range 2).map (fun i =>
        (([⟨65536, 16384⟩, ⟨131072, 16384⟩] : List gasnet_seginfo_t).take 2).map (fun e =>
          (⟨(gasneti_auxseg_attach_split cfgMmap 4096 e).2.addr
              + auxseg_offset cfgMmap [⟨10, 20⟩, ⟨5, 5⟩] i,
            (([⟨10, 20⟩, ⟨5, 5⟩] : List gasneti_auxseg_request_t).getD i ⟨0, 0⟩).optimalsz⟩ :
            gasnet_seginfo_t))) ∧
      ∀ i, i < 2 → ∀ e ∈ ([⟨65536, 16384⟩, ⟨131072, 16384⟩] : List gasnet_seginfo_t).take 2,
        cfgMmap.GASNETI_CACHE_LINE_BYTES ∣
          (gasneti_auxseg_attach_split cfgMmap 4096 e).2.addr
            + auxseg_offset cfgMmap [⟨10, 20⟩, ⟨5, 5⟩] i ∧
        (gasneti_auxseg_attach_split cfgMmap 4096 e).2.addr
            + auxseg_offset cfgMmap [⟨10, 20⟩, ⟨5, 5⟩] i
            + (([⟨10, 20⟩, ⟨5, 5⟩] : List gasneti_auxseg_request_t).getD i ⟨0, 0⟩).optimalsz
          ≤ (gasneti_auxseg_attach_split cfgMmap 4096 e).2.addr + 4096 ∧
        ∀ k, k < i →
          (gasneti_auxseg_attach_split cfgMmap 4096 e).2.addr
              + auxseg_offset cfgMmap [⟨10, 20⟩, ⟨5, 5⟩] k
              + (([⟨10, 20⟩, ⟨5, 5⟩] : List gasneti_auxseg_request_t).getD k ⟨0, 0⟩).optimalsz
            ≤ (gasneti_auxseg_attach_split cfgMmap 4096 e).2.addr
              + auxseg_offset cfgMmap [⟨10, 20⟩, ⟨5, 5⟩] i :=
  C22_windows cfgMmap 2 [countingRequester ⟨10, 20⟩, countingRequester ⟨5, 5⟩]
    [⟨65536, 16384⟩, ⟨131072, 16384⟩] 0 AuxState.init rfl rfl (by simp) (by decide) (by decide)
    (by decide) (by decide) (by decide) (by decide)

/-! ## The exchange of the auxseg table in lock-step -/

/-- Reading a memory after a `memcpy` of bytes taken from `src`. -/
theorem memcpy_bytesAt {α : Type} (dest src : Nat → α) (off o n i : Nat) :
    memcpy dest off (bytesAt src o n) i
      = if off ≤ i ∧ i < off + n then src (o + (i - off)) else dest i := by
  unfold memcpy bytesAt
  by_cases h : off ≤ i
  · rw [if_pos h]
    by_cases h2 : i - off < n
    · rw [if_pos ⟨h, by omega⟩, List.getElem?_map, List.getElem?_range h2]
      rfl
    · rw [if_neg (fun hc => h2 (by omega)), List.getElem?_eq_none (by simp; omega)]
      rfl
  · rw [if_neg h, if_neg (fun hc => h hc.1)]

/-- Reading a memory after a `memcpy` of a list. -/
theorem memcpy_list {α : Type} (dest : Nat → α) (off : Nat) (buf : List α) (i : Nat) :
    memcpy dest off buf i
      = if h : off ≤ i ∧ i - off < buf.length then buf.get ⟨i - off, h.2⟩ else dest i := by
  unfold memcpy
  by_cases h : off ≤ i
  · rw [if_pos h]
    by_cases h2 : i - off < buf.length
    · rw [dif_pos ⟨h, h2⟩, List.getElem?_eq_getElem h2]
      rfl
    · rw [dif_neg (fun hc => h2 hc.2), List.getElem?_eq_none (by omega)]
      rfl
  · rw [if_neg h, dif_neg (fun hc => h hc.1)]

/-- The handler recovers `step` and `seq` from the argument `step | (seq << 5)`. -/
theorem arg0_decode (step seq : Nat) (hs : step < 32) (hq : seq < 2 ^ 26) :
    ((step ||| (seq <<< 5)) % 2 ^ 32) &&& 0x1f = step ∧
    ((step ||| (seq <<< 5)) % 2 ^ 32) >>> 5 = seq ∧
    (step ||| (seq <<< 5)) % 2 ^ 32 < 2 ^ 31 := by
  have h1 : step ||| (seq <<< 5) = seq * 32 + step := by
    have h0 : step < 2 ^ 5 := by
      have : (2:Nat) ^ 5 = 32 := by norm_num
      omega
    rw [Nat.or_comm, Nat.shiftLeft_eq, Nat.mul_comm, ← Nat.mul_add_lt_is_or h0 seq]
  have h2 : seq * 32 + step < 2 ^ 31 := by
    have : (2:Nat) ^ 26 = 67108864 := by norm_num
    have : (2:Nat) ^ 31 = 2147483648 := by norm_num
    omega
  have h3 : (seq * 32 + step) % 2 ^ 32 = seq * 32 + step := Nat.mod_eq_of_lt (by
    have : (2:Nat) ^ 31 = 2147483648 := by norm_num
    have : (2:Nat) ^ 32 = 4294967296 := by norm_num
    omega)
  rw [h1, h3]
  refine ⟨?_, ?_, h2⟩
  · have : (0x1f : Nat) = 2 ^ 5 - 1 := by norm_num
    rw [this, Nat.and_pow_two_sub_one_eq_mod]
    omega
  · rw [Nat.shiftRight_eq_div_pow]
    have : (2:Nat) ^ 5 = 32 := by norm_num
    rw [this]
    omega
/-- The handler on one request that carries bytes of `src`. -/
theorem reqh_frag {α : Type} (M len : Nat) (src : Nat → α) (nd : AuxExch α)
    (step seq o n : Nat) (hs : step < 32) (hq : seq < 2 ^ 26) :
    (gasnetc_auxseg_reqh M len nd (bytesAt src o n)
        ((step ||| (seq <<< 5)) % 2 ^ 32)).gasneti_auxseg_everything
      = (fun i => if 2 ^ step * len + seq * M ≤ i ∧ i < 2 ^ step * len + seq * M + n then
          src (o + (i - (2 ^ step * len + seq * M))) else nd.gasneti_auxseg_everything i) ∧
    (gasnetc_auxseg_reqh M len nd (bytesAt src o n)
        ((step ||| (seq <<< 5)) % 2 ^ 32)).gasneti_auxseg_rcvd
      = Function.update nd.gasneti_auxseg_rcvd step (nd.gasneti_auxseg_rcvd step + 1) ∧
    (gasnetc_auxseg_reqh M len nd (bytesAt src o n)
        ((step ||| (seq <<< 5)) % 2 ^ 32)).gasneti_my_auxseg = nd.gasneti_my_auxseg := by
  obtain ⟨h1, h2, -⟩ := arg0_decode step seq hs hq
  unfold gasnetc_auxseg_reqh
  simp only [h1, h2]
  simp only [Nat.shiftLeft_eq, Nat.one_mul, and_true]
  funext i
  exact memcpy_bytesAt _ _ _ _ _ _

/-- The requests of one `do`/`while` loop, received in order by a node: the loop ends, all
requests go to `peer`, there are `⌈nbytes / M⌉` of them, the payload lands as one block
behind record `2 ^ step` of the receiver's table, and the receiver counts as many requests
as the sender's `seq` grew. -/
theorem send_recv {α : Type} (M len : Nat) (src : Nat → α) (peer step : Nat) (hs : step < 32) :
    ∀ (fuel nbytes seq : Nat), 0 < nbytes → nbytes ≤ fuel →
      seq * M + nbytes ≤ M * 2 ^ 26 →
      ∃ ms seq1,
        gasneti_auxseg_exchange_send M src peer step fuel nbytes (seq * M) seq = some (ms, seq1) ∧
        seq1 = seq + ms.length ∧ (∀ m ∈ ms, m.peer = peer) ∧
        (nbytes ≤ ms.length * M ∧ ms.length * M < nbytes + M) ∧
        ∀ nd : AuxExch α,
        (ms.foldl (fun nd1 m => gasnetc_auxseg_reqh M len nd1 m.buf m.arg0)
            nd).gasneti_auxseg_everything
          = (fun i => if 2 ^ step * len + seq * M ≤ i ∧ i < 2 ^ step * len + seq * M + nbytes then
              src (i - 2 ^ step * len) else nd.gasneti_auxseg_everything i) ∧
        (ms.foldl (fun nd1 m => gasnetc_auxseg_reqh M len nd1 m.buf m.arg0)
            nd).gasneti_auxseg_rcvd step = nd.gasneti_auxseg_rcvd step + ms.length ∧
        (ms.foldl (fun nd1 m => gasnetc_auxseg_reqh M len nd1 m.buf m.arg0)
            nd).gasneti_my_auxseg = nd.gasneti_my_auxseg := by
  intro fuel
  induction fuel with
  | zero => intro nbytes seq h1 h2; omega
  | succ k ih =>
    intro nbytes seq hpos hfuel hbound
    have hq : seq < 2 ^ 26 := by
      have h1 : seq * M < M * 2 ^ 26 := by omega
      rw [Nat.mul_comm seq M] at h1
      exact Nat.lt_of_mul_lt_mul_left h1
    rw [gasneti_auxseg_exchange_send]
    by_cases hmore : nbytes - min nbytes M ≠ 0
    · rw [if_pos hmore]
      have hmin : min nbytes M = M := Nat.min_eq_right (by
        by_contra hc
        have : min nbytes M = nbytes := Nat.min_eq_left (by omega)
        omega)
      rw [hmin] at hmore ⊢
      have hoff : seq * M + M = (seq + 1) * M := (Nat.succ_mul seq M).symm
      rw [hoff]
      obtain ⟨ms, seq1, e1, e2, e3, e4, e5⟩ := ih (nbytes - M) (seq + 1)
        (by omega) (by omega) (by rw [← hoff]; omega)
      rw [e1]
      refine ⟨_, seq1, rfl, ?_, ?_, ?_, ?_⟩
      · rw [e2, List.length_cons]
        omega
      · intro m hm
        rcases List.mem_cons.1 hm with h | h
        · rw [h]
        · exact e3 m h
      · rw [List.length_cons, Nat.succ_mul]
        omega
      · intro nd
        obtain ⟨f1, f2, f3⟩ := reqh_frag M len src nd step seq (seq * M) M hs hq
        obtain ⟨g1, g2, g3⟩ := e5 (gasnetc_auxseg_reqh M len nd (bytesAt src (seq * M) M)
          ((step ||| (seq <<< 5)) % 2 ^ 32))
        refine ⟨?_, ?_, ?_⟩
        · rw [List.foldl_cons, g1, f1]
          funext i
          rw [← hoff]
          dsimp only
          generalize 2 ^ step * len = D
          generalize seq * M = o
          by_cases c1 : D + (o + M) ≤ i ∧ i < D + (o + M) + (nbytes - M)
          · rw [if_pos c1, if_pos ⟨by omega, by omega⟩]
          · rw [if_neg c1]
            by_cases c2 : D + o ≤ i ∧ i < D + o + M
            · rw [if_pos c2, if_pos ⟨by omega, by omega⟩]
              congr 1
              omega
            · rw [if_neg c2, if_neg (by omega)]
        · rw [List.foldl_cons, g2, f2, Function.update_same, List.length_cons]
          omega
        · rw [List.foldl_cons, g3, f3]
    · rw [if_neg hmore]
      have hmin : min nbytes M = nbytes := Nat.min_eq_left (by
        by_contra hc
        have : min nbytes M = M := Nat.min_eq_right (by omega)
        omega)
      have hle : nbytes ≤ M := by rw [← hmin]; exact Nat.min_le_right _ _
      rw [hmin]
      refine ⟨_, _, rfl, rfl, ?_, ?_, ?_⟩
      · intro m hm
        rw [List.mem_singleton.1 hm]
      · rw [List.length_singleton, Nat.one_mul]
        omega
      · intro nd
        obtain ⟨f1, f2, f3⟩ := reqh_frag M len src nd step seq (seq * M) nbytes hs hq
        refine ⟨?_, ?_, ?_⟩
        · rw [List.foldl_cons, List.foldl_nil, f1]
          funext i
          by_cases c : 2 ^ step * len + seq * M ≤ i ∧ i < 2 ^ step * len + seq * M + nbytes
          · rw [if_pos c, if_pos c]
            congr 1
            omega
          · rw [if_neg c, if_neg c]
        · rw [List.foldl_cons, List.foldl_nil, f2, Function.update_same]
          rfl
        · rw [List.foldl_cons, List.foldl_nil, f3]
/-- The remainder of a sum below twice the modulus. -/
theorem mod_of_lt_two_mul (a N : Nat) (h : a < 2 * N) :
    a % N = if a < N then a else a - N := by
  by_cases c : a < N
  · rw [if_pos c, Nat.mod_eq_of_lt c]
  · rw [if_neg c, Nat.mod_eq_sub_mod (by omega), Nat.mod_eq_of_lt (by omega)]

/-- The peer of a round is the node `distance` places down the ring. -/
theorem exchange_peer_mod (N r d : Nat) (hr : r < N) (hd : d < N) :
    gasneti_auxseg_exchange_peer N r d = (r + N - d) % N ∧
    gasneti_auxseg_exchange_peer N r d < N := by
  unfold gasneti_auxseg_exchange_peer
  rw [mod_of_lt_two_mul (r + N - d) N (by omega)]
  by_cases c : d ≤ r
  · rw [if_pos c, if_neg (by omega)]
    omega
  · rw [if_neg c, if_pos (by omega)]
    omega

/-- Node `p` is the peer of exactly one node, the one `distance` places up the ring. -/
theorem exchange_peer_eq_iff (N r p d : Nat) (hr : r < N) (hp : p < N) (hd : d < N) :
    gasneti_auxseg_exchange_peer N r d = p ↔ r = (p + d) % N := by
  unfold gasneti_auxseg_exchange_peer
  rw [mod_of_lt_two_mul (p + d) N (by omega)]
  by_cases c : d ≤ r
  · rw [if_pos c]
    by_cases c1 : p + d < N
    · rw [if_pos c1]
      omega
    · rw [if_neg c1]
      omega
  · rw [if_neg c]
    by_cases c1 : p + d < N
    · rw [if_pos c1]
      omega
    · rw [if_neg c1]
      omega

/-- A list of lists of which all but one are empty. -/
theorem flatMap_single {β : Type} (g : Nat → List β) (q : Nat) :
    ∀ L : List Nat, L.Nodup → q ∈ L → (∀ r ∈ L, r ≠ q → g r = []) → L.flatMap g = g q := by
  intro L
  induction L with
  | nil => intro _ h; cases h
  | cons a L ih =>
    intro hnd hq hg
    rw [List.flatMap_cons]
    obtain ⟨ha, hL⟩ := List.nodup_cons.1 hnd
    by_cases c : a = q
    · subst c
      have : L.flatMap g = [] := by
        rw [List.flatMap_eq_nil_iff]
        intro r hr
        exact hg r (List.mem_cons_of_mem _ hr) (fun e => ha (e ▸ hr))
      rw [this, List.append_nil]
    · rw [hg a (List.mem_cons_self _ _) c, List.nil_append]
      rcases List.mem_cons.1 hq with h | h
      · exact absurd h.symm c
      · exact ih hL h (fun r hr => hg r (List.mem_cons_of_mem _ hr))

/-- What a node has after the requests of a round were delivered: its own state with the
handler run on the requests addressed to it, in order. -/
theorem lockstep_deliver_at {α : Type} (M len : Nat) (ms : List (AuxMsg α)) :
    ∀ (st : Nat → AuxExch α) (p : Nat),
      lockstep_deliver M len st ms p
        = (ms.filter (fun m => decide (m.peer = p))).foldl
            (fun nd m => gasnetc_auxseg_reqh M len nd m.buf m.arg0) (st p) := by
  induction ms with
  | nil => intro st p; rfl
  | cons m ms ih =>
    intro st p
    unfold lockstep_deliver at ih ⊢
    rw [List.foldl_cons, ih]
    by_cases c : m.peer = p
    · rw [List.filter_cons_of_pos (by simpa using c), List.foldl_cons, c, Function.update_same]
    · rw [List.filter_cons_of_neg (by simpa using c), Function.update_noteq (Ne.symm c)]

/-- The requests of all nodes in one round, when every node's loop ends. -/
theorem lockstep_sends_spec {α : Type} (N M len fuel step distance : Nat) (st : Nat → AuxExch α)
    (f : Nat → List (AuxMsg α)) (g : Nat → Nat) :
    ∀ L : List Nat,
      (∀ r ∈ L, gasneti_auxseg_exchange_send M (st r).gasneti_auxseg_everything
          (gasneti_auxseg_exchange_peer N r distance) step fuel
          (len * min distance (N - distance)) 0 0 = some (f r, g r)) →
      lockstep_sends N M len fuel step distance st L
        = some (L.flatMap f, L.map (fun r => (r, g r))) := by
  intro L
  induction L with
  | nil => intro _; rfl
  | cons a L ih =>
    intro h
    rw [lockstep_sends, h a (List.mem_cons_self _ _),
      ih (fun r hr => h r (List.mem_cons_of_mem _ hr))]
    rfl
/-- One round in lock-step: every loop ends, every node has received as many requests as it
sent, and node `p` has the first `min d (N - d)` records of node `(p + d) % N` behind its
record `d`, the rest of its table being as before (`d = 2 ^ step`). -/
theorem lockstep_round_spec {α : Type} (N M len fuel step : Nat) (st : Nat → AuxExch α)
    (hs : step < 32) (hd : 2 ^ step < N) (hlen : 0 < len) (hM : len * N ≤ M * 2 ^ 27)
    (hfuel : len * N ≤ fuel) :
    ∃ st1, lockstep_round N M len fuel step (2 ^ step) st = some st1 ∧
      ∀ p, p < N →
        (st1 p).gasneti_auxseg_everything
          = (fun i => if 2 ^ step * len ≤ i ∧
                i < 2 ^ step * len + len * min (2 ^ step) (N - 2 ^ step) then
              (st ((p + 2 ^ step) % N)).gasneti_auxseg_everything (i - 2 ^ step * len)
            else (st p).gasneti_auxseg_everything i) ∧
        (st1 p).gasneti_my_auxseg = (st p).gasneti_my_auxseg := by
  have hd0 : 0 < 2 ^ step := Nat.two_pow_pos step
  generalize hdd : 2 ^ step = d at hd hd0 ⊢
  have hmin : 0 < min d (N - d) := by
    rcases Nat.le_total d (N - d) with h | h
    · rw [Nat.min_eq_left h]; exact hd0
    · rw [Nat.min_eq_right h]; omega
  have hmin2 : 2 * min d (N - d) ≤ N := by
    rcases Nat.le_total d (N - d) with h | h
    · rw [Nat.min_eq_left h]; omega
    · rw [Nat.min_eq_right h]; omega
  have hpos : 0 < len * min d (N - d) := Nat.mul_pos hlen hmin
  have hle : len * min d (N - d) * 2 ≤ len * N := by
    rw [Nat.mul_assoc, Nat.mul_comm (min d (N - d)) 2]
    exact Nat.mul_le_mul_left len hmin2
  have hsend : ∀ r : Nat, ∃ ms seq1,
      gasneti_auxseg_exchange_send M (st r).gasneti_auxseg_everything
        (gasneti_auxseg_exchange_peer N r d) step fuel (len * min d (N - d)) 0 0
          = some (ms, seq1) ∧
      seq1 = ms.length ∧ (∀ m ∈ ms, m.peer = gasneti_auxseg_exchange_peer N r d) ∧
      (len * min d (N - d) ≤ ms.length * M ∧ ms.length * M < len * min d (N - d) + M) ∧
      ∀ nd : AuxExch α,
        (ms.foldl (fun nd1 m => gasnetc_auxseg_reqh M len nd1 m.buf m.arg0)
            nd).gasneti_auxseg_everything
          = (fun i => if d * len ≤ i ∧ i < d * len + len * min d (N - d) then
              (st r).gasneti_auxseg_everything (i - d * len)
            else nd.gasneti_auxseg_everything i) ∧
        (ms.foldl (fun nd1 m => gasnetc_auxseg_reqh M len nd1 m.buf m.arg0)
            nd).gasneti_auxseg_rcvd step = nd.gasneti_auxseg_rcvd step + ms.length ∧
        (ms.foldl (fun nd1 m => gasnetc_auxseg_reqh M len nd1 m.buf m.arg0)
            nd).gasneti_my_auxseg = nd.gasneti_my_auxseg := by
    intro r
    have h := send_recv M len (st r).gasneti_auxseg_everything
      (gasneti_auxseg_exchange_peer N r d) step hs fuel (len * min d (N - d)) 0 hpos
      (by omega) (by omega)
    simp only [Nat.zero_mul, Nat.zero_add, Nat.add_zero, hdd] at h
    exact h
  choose f g h1 h2 h3 h4 h5 using hsend
  have hlenf : ∀ r q : Nat, (f r).length = (f q).length := by
    intro r q
    have a1 := h4 r
    have a2 := h4 q
    have e1 : (f r).length * M < (f q).length * M + M := by omega
    have e2 : (f q).length * M < (f r).length * M + M := by omega
    rw [← Nat.succ_mul] at e1 e2
    have e3 := Nat.lt_of_mul_lt_mul_right e1
    have e4 := Nat.lt_of_mul_lt_mul_right e2
    omega
  have hat : ∀ p, p < N →
      lockstep_deliver M len st ((List.range N).flatMap f) p
        = (f ((p + d) % N)).foldl (fun nd m => gasnetc_auxseg_reqh M len nd m.buf m.arg0)
            (st p) := by
    intro p hp
    rw [lockstep_deliver_at, List.filter_flatMap]
    have hq : (p + d) % N < N := Nat.mod_lt _ (by omega)
    rw [flatMap_single _ ((p + d) % N) (List.range N) (List.nodup_range N)
      (List.mem_range.2 hq)]
    · rw [List.filter_eq_self.2]
      intro m hm
      rw [decide_eq_true_eq, h3 _ m hm]
      exact (exchange_peer_eq_iff N _ p d hq hp hd).2 rfl
    · intro r hr hne
      refine List.filter_eq_nil_iff.2 ?_
      intro m hm
      rw [decide_eq_true_eq, h3 _ m hm]
      intro e
      exact hne ((exchange_peer_eq_iff N r p d (List.mem_range.1 hr) hp hd).1 e)
  refine ⟨lockstep_deliver M len st ((List.range N).flatMap f), ?_, ?_⟩
  · unfold lockstep_round
    rw [lockstep_sends_spec N M len fuel step d st f g (List.range N) (fun r _ => h1 r)]
    dsimp only
    rw [if_pos]
    rw [List.all_eq_true]
    intro x hx
    obtain ⟨r, hr, rfl⟩ := List.mem_map.1 hx
    rw [decide_eq_true_eq]
    dsimp only
    rw [hat r (List.mem_range.1 hr), (h5 _ (st r)).2.1, h2 r, hlenf r ((r + d) % N)]
    omega
  · intro p hp
    rw [hat p hp]
    exact ⟨(h5 _ (st p)).1, (h5 _ (st p)).2.2⟩
/-- Byte `j` of record `k` lies before record `m` when `k < m`. -/
theorem record_byte_lt (k m len j : Nat) (hk : k < m) (hj : j < len) :
    k * len + j < m * len := by
  have h : (k + 1) * len ≤ m * len := Nat.mul_le_mul_right len hk
  rw [Nat.succ_mul] at h
  omega

/-- Byte `j` of record `k` counted from record `d`. -/
theorem record_byte_sub (k d len j : Nat) (hdk : d ≤ k) :
    d * len ≤ k * len + j ∧ k * len + j - d * len = (k - d) * len + j := by
  obtain ⟨e, rfl⟩ := Nat.exists_eq_add_of_le hdk
  rw [Nat.add_mul, Nat.add_sub_cancel_left]
  omega

/-- The copy of the own record puts it in place 0 of the table. -/
theorem copyin_holds {α : Type} (N len : Nat) (st : Nat → AuxExch α)
    (hrec : ∀ r, r < N → (st r).gasneti_my_auxseg.length = len) :
    HoldsRecords N len st (fun r => gasneti_auxseg_exchange_copyin (st r)) 0 := by
  intro p hp k hk j hj
  have hk0 : k = 0 := by
    have := Nat.lt_of_lt_of_le hk (Nat.min_le_left _ _)
    omega
  subst hk0
  rw [Nat.add_zero, Nat.mod_eq_of_lt hp, Nat.zero_mul, Nat.zero_add]
  unfold gasneti_auxseg_exchange_copyin memcpy
  dsimp only
  rw [if_pos (Nat.zero_le j), Nat.sub_zero,
    List.getElem?_eq_getElem (by rw [hrec p hp]; exact hj)]
  rfl

/-- A round doubles the number of records every node holds in ring order. -/
theorem round_holds {α : Type} (N len s : Nat) (st0 st st1 : Nat → AuxExch α)
    (hd : 2 ^ s < N) (hinv : HoldsRecords N len st0 st s)
    (h1 : ∀ p, p < N →
        (st1 p).gasneti_auxseg_everything
          = (fun i => if 2 ^ s * len ≤ i ∧
                i < 2 ^ s * len + len * min (2 ^ s) (N - 2 ^ s) then
              (st ((p + 2 ^ s) % N)).gasneti_auxseg_everything (i - 2 ^ s * len)
            else (st p).gasneti_auxseg_everything i)) :
    HoldsRecords N len st0 st1 (s + 1) := by
  unfold HoldsRecords at hinv ⊢
  intro p hp k hk j hj
  rw [h1 p hp]
  dsimp only
  rw [Nat.pow_succ] at hk
  generalize 2 ^ s = d at hd hinv hk ⊢
  have hkN : k < N := Nat.lt_of_lt_of_le hk (Nat.min_le_right _ _)
  have hk2 : k < d * 2 := Nat.lt_of_lt_of_le hk (Nat.min_le_left _ _)
  have hmd : min d N = d := Nat.min_eq_left (Nat.le_of_lt hd)
  by_cases c : k < d
  · have := record_byte_lt k d len j c hj
    rw [if_neg (by omega)]
    exact hinv p hp k (by rw [hmd]; exact c) j hj
  · have hdk : d ≤ k := Nat.le_of_not_lt c
    obtain ⟨e1, e2⟩ := record_byte_sub k d len j hdk
    have hkm : k - d < min d (N - d) := by
      rcases Nat.le_total d (N - d) with h | h
      · rw [Nat.min_eq_left h]; omega
      · rw [Nat.min_eq_right h]; omega
    have e3 := record_byte_lt (k - d) (min d (N - d)) len j hkm hj
    rw [Nat.mul_comm (min d (N - d)) len] at e3
    rw [if_pos ⟨e1, by omega⟩, e2]
    have := hinv ((p + d) % N) (Nat.mod_lt _ (by omega)) (k - d) (by rw [hmd]; omega) j hj
    rw [Nat.mod_add_mod, show p + d + (k - d) = p + k by omega] at this
    exact this

/-- The loop over the rounds in lock-step: it ends after `Nat.clog 2 N` rounds with every
node holding all `N` records in ring order. -/
theorem lockstep_rounds_spec {α : Type} (N M len fuel : Nat) (st0 : Nat → AuxExch α)
    (hN : 1 ≤ N) (hN31 : N ≤ 2 ^ 31) (hlen : 0 < len) (hM : len * N ≤ M * 2 ^ 27)
    (hfuel : len * N ≤ fuel) :
    ∀ (n s rounds : Nat) (st : Nat → AuxExch α), Nat.clog 2 N - s = n → s ≤ Nat.clog 2 N →
      n < rounds → HoldsRecords N len st0 st s →
      (∀ p, p < N → (st p).gasneti_my_auxseg = (st0 p).gasneti_my_auxseg) →
      ∃ st1, lockstep_rounds N M len fuel rounds s (2 ^ s) st = some (Nat.clog 2 N, st1) ∧
        HoldsRecords N len st0 st1 (Nat.clog 2 N) ∧
        ∀ p, p < N → (st1 p).gasneti_my_auxseg = (st0 p).gasneti_my_auxseg := by
  intro n
  induction n with
  | zero =>
    intro s rounds st hn hs hr hinv hmy
    have hsT : s = Nat.clog 2 N := by omega
    obtain ⟨k, rfl⟩ := Nat.exists_eq_succ_of_ne_zero (Nat.pos_iff_ne_zero.1 hr)
    have hle : N ≤ 2 ^ s := by
      rw [hsT]
      exact (Nat.le_pow_iff_clog_le (by decide)).2 (Nat.le_refl _)
    rw [lockstep_rounds, if_neg (by omega)]
    exact ⟨st, by rw [hsT], hsT ▸ hinv, hmy⟩
  | succ n ih =>
    intro s rounds st hn hs hr hinv hmy
    obtain ⟨k, rfl⟩ := Nat.exists_eq_succ_of_ne_zero (Nat.pos_iff_ne_zero.1 (by omega : 0 < rounds))
    have hlt : 2 ^ s < N := by
      by_contra hc
      have := (Nat.le_pow_iff_clog_le (by decide : 1 < 2)).1 (Nat.le_of_not_lt hc)
      omega
    have hs31 : s < 31 := by
      by_contra hc
      have : 2 ^ 31 ≤ 2 ^ s := Nat.pow_le_pow_right (by decide) (Nat.le_of_not_lt hc)
      omega
    obtain ⟨st1, e1, e2⟩ := lockstep_round_spec N M len fuel s st (by omega) hlt hlen hM hfuel
    have hpow : 2 ^ s * 2 % 2 ^ 32 = 2 ^ (s + 1) := by
      rw [← Nat.pow_succ]
      exact Nat.mod_eq_of_lt (Nat.pow_lt_pow_right (by decide) (by omega))
    rw [lockstep_rounds, if_pos hlt, e1]
    dsimp only
    rw [hpow]
    exact ih (s + 1) k st1 (by omega) (by omega) (by omega)
      (round_holds N len s st0 st st1 hlt hinv (fun p hp => (e2 p hp).1))
      (fun p hp => ((e2 p hp).2).trans (hmy p hp))

/-- The final copy turns ring order into rank order. -/
theorem rotate_holds {α : Type} (N len r s : Nat) (temp : Nat → α) (st0 st : Nat → AuxExch α)
    (hr : r < N) (hs : N ≤ 2 ^ s) (hinv : HoldsRecords N len st0 st s) :
    ∀ i, i < N → ∀ j, j < len →
      (st0 i).gasneti_my_auxseg[j]? =
        some ((gasneti_auxseg_exchange_rotate N len r temp (st r)).gasneti_auxseg_everything
          (i * len + j)) := by
  intro i hi j hj
  unfold gasneti_auxseg_exchange_rotate
  dsimp only
  rw [memcpy_bytesAt]
  have hmin : min (2 ^ s) N = N := Nat.min_eq_right hs
  by_cases c : r ≤ i
  · obtain ⟨e1, e2⟩ := record_byte_sub i r len j c
    have e3 := record_byte_lt i N len j hi hj
    have e4 : len * r + len * (N - r) = N * len := by
      rw [← Nat.mul_add, Nat.mul_comm]
      congr 1
      omega
    rw [Nat.mul_comm len r, if_pos ⟨e1, by rw [Nat.mul_comm r len, e4]; exact e3⟩, Nat.zero_add, e2]
    have := hinv r hr (i - r) (by rw [hmin]; omega) j hj
    rw [← this]
    congr 3
    rw [show r + (i - r) = i by omega]
    exact (Nat.mod_eq_of_lt hi).symm
  · have hir : i < r := Nat.lt_of_not_le c
    have e1 := record_byte_lt i r len j hir hj
    rw [Nat.mul_comm len r, if_neg (by omega), memcpy_bytesAt,
      if_pos ⟨Nat.zero_le _, by omega⟩, Nat.sub_zero]
    have e2 : len * (N - r) + (i * len + j) = (N - r + i) * len + j := by
      rw [Nat.add_mul, Nat.mul_comm len (N - r)]
      omega
    rw [e2]
    have := hinv r hr (N - r + i) (by rw [hmin]; omega) j hj
    rw [← this]
    congr 3
    rw [show r + (N - r + i) = i + N by omega, Nat.add_mod_right]
    exact (Nat.mod_eq_of_lt hi).symm
set_option maxRecDepth 100000 in
/-- The run on five nodes, evaluated: three rounds, and every node ends with the same table,
the five records in rank order. -/
theorem exchange_five_run :
    (gasneti_auxseg_exchange 5 4 3 15 4 (fun _ => 0) fiveNodes).map
        (fun x => (x.1, (List.range 5).map (fun r => tableBytes (x.2 r) 15)))
      = some (3, List.replicate 5 [0, 1, 2, 10, 11, 12, 20, 21, 22, 30, 31, 32, 40, 41, 42]) := by
  decide
/-- C26: on `N ≥ 1` nodes (at most `2 ^ 31`, with records of `len > 0` bytes and a table of at
most `2 ^ 27` requests of `M` bytes, the ranges the packing of `step` and `seq` into the
handler argument is made for), one record per node, `gasneti_auxseg_exchange` run in
lock-step on all nodes returns after `⌈log2 N⌉` rounds, and then the table of every node `r`
holds the record of node `i` at index `i`, for all `i < N`.  In the round with distance
`d = 2 ^ step < N` every loop ends and every wait is satisfied, the peer of node `r` is node
`(r - d) mod N`, and what changes in the peer's table is that the first `min d (N - d)`
records of node `r` are stored from index `d` on. -/
theorem C26_exchange_rank_order {α : Type} (N M len fuel rounds : Nat) (temp : Nat → α)
    (st : Nat → AuxExch α) (hN : 1 ≤ N) (hN31 : N ≤ 2 ^ 31) (hlen : 0 < len)
    (hM : len * N ≤ M * 2 ^ 27)
    (hrec : ∀ r, r < N → (st r).gasneti_my_auxseg.length = len)
    (hfuel : len * N ≤ fuel) (hrounds : Nat.clog 2 N < rounds) :
    (∃ st1, gasneti_auxseg_exchange N M len fuel rounds temp st = some (Nat.clog 2 N, st1) ∧
      ∀ r, r < N → ∀ i, i < N → ∀ j, j < len →
        (st i).gasneti_my_auxseg[j]? =
          some ((st1 r).gasneti_auxseg_everything (i * len + j))) ∧
    (∀ (step : Nat) (sa : Nat → AuxExch α), 2 ^ step < N →
      ∃ sb, lockstep_round N M len fuel step (2 ^ step) sa = some sb ∧
        ∀ r, r < N →
          gasneti_auxseg_exchange_peer N r (2 ^ step) = (r + N - 2 ^ step) % N ∧
          ∀ i, (sb (gasneti_auxseg_exchange_peer N r (2 ^ step))).gasneti_auxseg_everything i
            = if 2 ^ step * len ≤ i ∧
                  i < 2 ^ step * len + len * min (2 ^ step) (N - 2 ^ step) then
                (sa r).gasneti_auxseg_everything (i - 2 ^ step * len)
              else (sa (gasneti_auxseg_exchange_peer N r (2 ^ step))).gasneti_auxseg_everything
                i) := by
  refine ⟨?_, ?_⟩
  · obtain ⟨st1, e1, e2, -⟩ := lockstep_rounds_spec N M len fuel st hN hN31 hlen hM hfuel
      (Nat.clog 2 N) 0 rounds (fun r => gasneti_auxseg_exchange_copyin (st r)) rfl
      (Nat.zero_le _) hrounds (copyin_holds N len st hrec) (fun p _ => rfl)
    refine ⟨fun r => gasneti_auxseg_exchange_rotate N len r temp (st1 r), ?_, ?_⟩
    · unfold gasneti_auxseg_exchange
      rw [Nat.pow_zero] at e1
      rw [e1]
      rfl
    · intro r hr
      exact rotate_holds N len r (Nat.clog 2 N) temp st st1 hr
        ((Nat.le_pow_iff_clog_le (by decide)).2 (Nat.le_refl _)) e2
  · intro step sa hd
    have hs : step < 32 := by
      by_contra hc
      have : 2 ^ 31 ≤ 2 ^ step := Nat.pow_le_pow_right (by decide) (by omega)
      omega
    obtain ⟨sb, e1, e2⟩ := lockstep_round_spec N M len fuel step sa hs hd hlen hM hfuel
    refine ⟨sb, e1, ?_⟩
    intro r hr
    obtain ⟨p1, p2⟩ := exchange_peer_mod N r (2 ^ step) hr hd
    refine ⟨p1, ?_⟩
    intro i
    rw [(e2 _ p2).1,
      ← (exchange_peer_eq_iff N r _ (2 ^ step) hr p2 hd).1 rfl]

/-- C26 (witness). Five nodes with records of three bytes (`10 r`, `10 r + 1`, `10 r + 2` on
node `r`) and requests of at most four bytes: three rounds. -/
theorem C26_exchange_rank_order_witness :
    ∃ st1, gasneti_auxseg_exchange 5 4 3 15 4 (fun _ => 0) fiveNodes = some (3, st1) ∧
      ∀ r, r < 5 → ∀ i, i < 5 → ∀ j, j < 3 →
        (fiveNodes i).gasneti_my_auxseg[j]? =
          some ((st1 r).gasneti_auxseg_everything (i * 3 + j)) := by
  have hc : Nat.clog 2 5 = 3 :=
    Nat.le_antisymm ((@Nat.le_pow_iff_clog_le 2 (by decide) 5 3).1 (by decide))
      (Nat.le_of_not_lt (fun h =>
        absurd ((@Nat.le_pow_iff_clog_le 2 (by decide) 5 2).2 (Nat.le_of_lt_succ h))
          (by decide)))
  have h := (C26_exchange_rank_order 5 4 3 15 4 (fun _ => 0) fiveNodes (by decide) (by norm_num)
    (by decide) (by norm_num) (fun _ _ => rfl) (by decide) (by rw [hc]; decide)).1
  rw [hc] at h
  exact h

end Gasnet
